import Mathlib

/-!
# ALFS scheduler: a shallow embedding of the scheduler core

This file embeds the core of the ALFS CFS-style scheduler
(`src/alfs-scheduler/src/{scheduler,task,cgroup}.c`, the min-heap from the
unnamed heap implementation file, and the per-frame driver loop from the
unnamed main file) into Lean, and proves or refutes the stated properties
of the design document against it.

Modelling conventions:
* C `double` arithmetic is embedded as exact rational arithmetic (`ℚ`).
* C machine integers are embedded as `Int`; the quantities involved in the
  claims stay far below the width of the C types they inhabit, so wrapping
  is not modelled.
* Pointer identity of `Task` / `Cgroup` objects is modelled by a numeric
  handle (`tid` / `gid`) drawn from a monotone counter; the C code compares
  tasks and cgroups by pointer in exactly the places the model compares
  handles, and by `strcmp` where the model compares strings.
* Heap-allocation failure (`malloc`/`calloc`/`realloc` returning NULL) is
  not modelled: allocation always succeeds.  The fixed registry capacities
  (`MAX_TASKS`, `MAX_CGROUPS`) and their silent-failure paths are modelled.
* The unused `CPURunQueue.min_vruntime` field (written once at init and
  never read) is omitted.
-/

namespace Alfs

/-- Task life-cycle states, from `TaskState` in `alfs.h`. -/
inductive TaskState where
  | runnable
  | running
  | blocked
  | exited
deriving DecidableEq, Repr

/-- Event kinds, from `EventAction` in `alfs.h`.  `invalid` stands for
`EVENT_INVALID` and for any action value outside the enumeration, all of
which reach the `default` branch of the dispatcher. -/
inductive EventAction where
  | invalid
  | task_create
  | task_exit
  | task_block
  | task_unblock
  | task_yield
  | task_setnice
  | task_set_affinity
  | cgroup_create
  | cgroup_modify
  | cgroup_delete
  | task_move_cgroup
  | cpu_burst
deriving DecidableEq, Repr

/-- `MAX_TASKS` from `alfs.h`. -/
def MAX_TASKS : Nat := 1024

/-- `MAX_CGROUPS` from `alfs.h`. -/
def MAX_CGROUPS : Nat := 64

/-- `NICE_0_WEIGHT` from `alfs.h`. -/
def NICE_0_WEIGHT : Int := 1024

/-- `DEFAULT_CPU_SHARES` from `alfs.h`. -/
def DEFAULT_CPU_SHARES : Int := 1024

/-- `DEFAULT_CPU_PERIOD_US` from `alfs.h`. -/
def DEFAULT_CPU_PERIOD_US : Int := 100000

/-- `UNLIMITED_QUOTA` from `alfs.h`. -/
def UNLIMITED_QUOTA : Int := -1

/-- `NICE_MIN` from `alfs.h`. -/
def NICE_MIN : Int := -20

/-- `NICE_MAX` from `alfs.h`. -/
def NICE_MAX : Int := 19

/-- The static `sched_prio_to_weight` table from `alfs.h`. -/
def sched_prio_to_weight : List Int :=
  [88761, 71755, 56483, 46273, 36291,
   29154, 23254, 18705, 14949, 11916,
    9548,  7620,  6100,  4904,  3906,
    3121,  2501,  1991,  1586,  1277,
    1024,   820,   655,   526,   423,
     335,   272,   215,   172,   137,
     110,    87,    70,    56,    45,
      36,    29,    23,    18,    15]

/-- `nice_to_weight` from `alfs.h`: clamp the nice value to
[`NICE_MIN`, `NICE_MAX`] and index the static weight table. -/
def nice_to_weight (nice : Int) : Int :=
  let n1 := if nice < NICE_MIN then NICE_MIN else nice
  let n2 := if n1 > NICE_MAX then NICE_MAX else n1
  (sched_prio_to_weight.get? (n2 - NICE_MIN).toNat).getD 0

/-- Exact rational division, written through `Rat.divInt` so that the
kernel can evaluate it on concrete inputs (`Rat.inv` behind `/` is marked
irreducible); `rat_div_eq_div` below proves it equal to `/` on ℚ. -/
def rat_div (a b : ℚ) : ℚ :=
  Rat.divInt (a.num * (b.den : Int)) ((a.den : Int) * b.num)

/-- `calc_vruntime_delta` from `alfs.h`:
`runtime * (NICE_0_WEIGHT / weight)` in double arithmetic, embedded in ℚ. -/
def calc_vruntime_delta (runtime : ℚ) (weight : Int) : ℚ :=
  runtime * rat_div (NICE_0_WEIGHT : ℚ) (weight : ℚ)

/-- The `Task` structure from `alfs.h`.  `tid` is the model of the task
object's address (pointer identity); `cpu_affinity` together with its length
models the `cpu_affinity`/`affinity_count` pair (the empty list is the
NULL/0 state meaning "any CPU"). -/
structure Task where
  tid : Nat
  task_id : String
  nice : Int
  vruntime : ℚ
  weight : Int
  state : TaskState
  cgroup_id : String
  cpu_affinity : List Int
  current_cpu : Int
  burst_remaining : Int
  heap_index : Int
  is_burst : Bool
deriving DecidableEq, Repr

/-- The `Cgroup` structure from `alfs.h`; `gid` is pointer identity, and
`cpu_mask` with its length models the `cpu_mask`/`cpu_mask_count` pair. -/
structure Cgroup where
  gid : Nat
  cgroup_id : String
  cpu_shares : Int
  cpu_quota_us : Int
  cpu_period_us : Int
  cpu_mask : List Int
  quota_used : ℚ
  period_start_vtime : Int
deriving DecidableEq, Repr

/-- The `Event` structure from `alfs.h`. -/
structure Event where
  action : EventAction
  task_id : String
  cgroup_id : String
  new_cgroup_id : String
  nice : Int
  cpu_mask : List Int
  cpu_shares : Int
  cpu_quota_us : Int
  cpu_period_us : Int
  burst_duration : Int
  has_nice : Bool
  has_cpu_shares : Bool
  has_cpu_quota : Bool
  has_cpu_period : Bool
  has_cpu_mask : Bool
deriving DecidableEq, Repr

/-- A zero-filled `Event` (the dispatcher receives `calloc`ed events whose
unset fields are zero / empty / false). -/
def Event.zero : Event :=
  { action := .invalid, task_id := "", cgroup_id := "", new_cgroup_id := ""
  , nice := 0, cpu_mask := [], cpu_shares := 0, cpu_quota_us := 0
  , cpu_period_us := 0, burst_duration := 0, has_nice := false
  , has_cpu_shares := false, has_cpu_quota := false, has_cpu_period := false
  , has_cpu_mask := false }

/-- The `TimeFrame` structure from `alfs.h`. -/
structure TimeFrame where
  vtime : Int
  events : List Event
deriving DecidableEq, Repr

/-- The `Scheduler` structure from `alfs.h`.  `slots` holds, per CPU, the
`current_task` pointer of each `CPURunQueue` (as a task handle); `heap` is
the `runnable_heap`'s task-pointer array, root first.  `next_tid` and
`next_gid` are the model's allocation counters for pointer identities. -/
structure Sched where
  cpu_count : Nat
  quanta : Int
  slots : List (Option Nat)
  tasks : List Task
  cgroups : List Cgroup
  heap : List Nat
  current_vtime : Int
  preemptions : Int
  migrations : Int
  next_tid : Nat
  next_gid : Nat
deriving DecidableEq, Repr

/-- The `SchedulerMeta` structure from `alfs.h` (counts are the lengths of
the lists and are not duplicated). -/
structure SchedulerMeta where
  preemptions : Int
  migrations : Int
  runnable_tasks : List String
  blocked_tasks : List String
deriving DecidableEq, Repr

/-- The `SchedulerTick` decision record from `alfs.h`. -/
structure SchedulerTick where
  vtime : Int
  schedule : List String
  cpu_count : Nat
  meta : SchedulerMeta
deriving DecidableEq, Repr

/-! ## task.c -/

/-- `task_create` from `task.c` (the caller supplies the fresh handle).
Clamps the nice value, derives the weight, defaults the cgroup to "0". -/
def task_create (tid : Nat) (task_id : String) (nice : Int)
    (cgroup_id : Option String) : Task :=
  let n1 := if nice < NICE_MIN then NICE_MIN else nice
  let n2 := if n1 > NICE_MAX then NICE_MAX else n1
  { tid := tid
  , task_id := task_id
  , nice := n2
  , weight := nice_to_weight n2
  , vruntime := 0
  , state := .runnable
  , cgroup_id := match cgroup_id with | some c => c | none => "0"
  , cpu_affinity := []
  , current_cpu := -1
  , burst_remaining := 0
  , is_burst := false
  , heap_index := -1 }

/-- `task_set_affinity` from `task.c`: replace the affinity array (a NULL
mask or a count of 0 clears it to "any CPU"). -/
def task_set_affinity (t : Task) (mask : List Int) : Task :=
  { t with cpu_affinity := mask }

/-- `task_set_nice` from `task.c`: clamp, store nice, rederive weight. -/
def task_set_nice (t : Task) (nice : Int) : Task :=
  let n1 := if nice < NICE_MIN then NICE_MIN else nice
  let n2 := if n1 > NICE_MAX then NICE_MAX else n1
  { t with nice := n2, weight := nice_to_weight n2 }

/-- `task_can_run_on_cpu` from `task.c`: an empty affinity set means any
CPU; otherwise the CPU id must occur in the affinity array. -/
def task_can_run_on_cpu (t : Task) (cpu_id : Int) : Bool :=
  t.cpu_affinity.length == 0 || t.cpu_affinity.contains cpu_id

/-! ## cgroup.c -/

/-- `cgroup_create` from `cgroup.c` (fresh handle supplied by caller):
shares `≤ 0` fall back to `DEFAULT_CPU_SHARES`, the quota is stored
verbatim (−1 = unlimited), a period `≤ 0` falls back to
`DEFAULT_CPU_PERIOD_US`. -/
def cgroup_create (gid : Nat) (cgroup_id : String) (cpu_shares : Int)
    (cpu_quota_us : Int) (cpu_period_us : Int) (cpu_mask : List Int) :
    Cgroup :=
  { gid := gid
  , cgroup_id := cgroup_id
  , cpu_shares := if cpu_shares > 0 then cpu_shares else DEFAULT_CPU_SHARES
  , cpu_quota_us := cpu_quota_us
  , cpu_period_us :=
      if cpu_period_us > 0 then cpu_period_us else DEFAULT_CPU_PERIOD_US
  , quota_used := 0
  , period_start_vtime := 0
  , cpu_mask := cpu_mask }

/-- `cgroup_modify` from `cgroup.c`: shares are replaced only when the
supplied value is `> 0`; quota only when `≥ −1` (−2 is the keep-current
sentinel); period only when `> 0`; the mask only when non-empty. -/
def cgroup_modify (cg : Cgroup) (cpu_shares : Int) (cpu_quota_us : Int)
    (cpu_period_us : Int) (cpu_mask : Option (List Int)) : Cgroup :=
  let cg1 := if cpu_shares > 0 then { cg with cpu_shares := cpu_shares } else cg
  let cg2 :=
    if cpu_quota_us ≥ -1 then { cg1 with cpu_quota_us := cpu_quota_us } else cg1
  let cg3 :=
    if cpu_period_us > 0 then { cg2 with cpu_period_us := cpu_period_us }
    else cg2
  match cpu_mask with
  | some m => if m.length > 0 then { cg3 with cpu_mask := m } else cg3
  | none => cg3

/-- `cgroup_allows_cpu` from `cgroup.c`: an empty mask allows every CPU. -/
def cgroup_allows_cpu (cg : Cgroup) (cpu_id : Int) : Bool :=
  cg.cpu_mask.length == 0 || cg.cpu_mask.contains cpu_id

/-- `cgroup_has_quota` from `cgroup.c`: true when the quota is unlimited
(negative) or the used total is still strictly below the quota. -/
def cgroup_has_quota (cg : Cgroup) : Bool :=
  cg.cpu_quota_us < 0 || cg.quota_used < (cg.cpu_quota_us : ℚ)

/-- `cgroup_account_runtime` from `cgroup.c`: the used total grows only
when the quota is strictly positive and the contribution is positive. -/
def cgroup_account_runtime (cg : Cgroup) (runtime : ℚ) : Cgroup :=
  if cg.cpu_quota_us > 0 ∧ runtime > 0 then
    { cg with quota_used := cg.quota_used + runtime }
  else cg

/-- `cgroup_reset_period` from `cgroup.c`. -/
def cgroup_reset_period (cg : Cgroup) (vtime : Int) : Cgroup :=
  { cg with quota_used := 0, period_start_vtime := vtime }

/-! ## The min-heap (heap implementation file)

The C heap stores `Task *` pointers and maintains each task's
`heap_index` back-pointer through every swap.  The model stores task
handles and performs the same `heap_index` updates on the task registry.
The recursive sift loops are written with an explicit fuel argument that
every call site instantiates with at least the heap size, which bounds the
number of iterations of the C loops. -/

/-- Update every registry record carrying the given handle (handles are
unique in every state the scheduler actually constructs, so this is the
C code's single in-place pointer mutation). -/
def upd_task (ts : List Task) (tid : Nat) (f : Task → Task) : List Task :=
  ts.map (fun t => if t.tid = tid then f t else t)

/-- Dereference a task handle (the model of following a `Task *`). -/
def find_by_tid (ts : List Task) (tid : Nat) : Option Task :=
  ts.find? (fun t => t.tid == tid)

/-- Vruntime of the task stored at heap position `i`
(`heap->tasks[i]->vruntime`); `0` when the position or handle is dangling,
which never happens in states the scheduler constructs. -/
def heap_vr (s : Sched) (i : Nat) : ℚ :=
  match s.heap.get? i with
  | some tid =>
    match find_by_tid s.tasks tid with
    | some t => t.vruntime
    | none => 0
  | none => 0

/-- `heap_swap` from the heap implementation: exchange positions `i` and
`j` and refresh both tasks' `heap_index` back-pointers. -/
def heap_swap (s : Sched) (i j : Nat) : Sched :=
  match s.heap.get? i, s.heap.get? j with
  | some a, some b =>
    { s with
      heap := (s.heap.set i b).set j a,
      tasks := upd_task (upd_task s.tasks b (fun t => { t with heap_index := (i : Int) }))
                 a (fun t => { t with heap_index := (j : Int) }) }
  | _, _ => s

/-- `heap_bubble_up`: while the parent's vruntime is larger, swap with the
parent.  The first argument is loop fuel (≥ the start index suffices). -/
def heap_bubble_up : Sched → Nat → Nat → Sched
  | s, 0, _ => s
  | s, fuel + 1, idx =>
    if idx = 0 then s
    else
      let p := (idx - 1) / 2
      if heap_vr s p > heap_vr s idx then
        heap_bubble_up (heap_swap s idx p) fuel p
      else s

/-- `heap_bubble_down`: swap with the smaller child while one is smaller.
The first argument is loop fuel (≥ the heap size suffices). -/
def heap_bubble_down : Sched → Nat → Nat → Sched
  | s, 0, _ => s
  | s, fuel + 1, idx =>
    let sz := s.heap.length
    let l := 2 * idx + 1
    let r := 2 * idx + 2
    let m1 := if l < sz ∧ heap_vr s l < heap_vr s idx then l else idx
    let m2 := if r < sz ∧ heap_vr s r < heap_vr s m1 then r else m1
    if m2 ≠ idx then heap_bubble_down (heap_swap s idx m2) fuel m2 else s

/-- `heap_insert`: append at the tail with `heap_index` set to the slot,
then sift up (capacity growth always succeeds and is not modelled). -/
def heap_insert (s : Sched) (tid : Nat) : Sched :=
  let idx := s.heap.length
  let s1 := { s with
    heap := s.heap ++ [tid],
    tasks := upd_task s.tasks tid (fun t => { t with heap_index := (idx : Int) }) }
  heap_bubble_up s1 (idx + 1) idx

/-- `heap_extract_min`: detach the root (its `heap_index` becomes −1),
move the tail element to the root and sift it down. -/
def heap_extract_min (s : Sched) : Option Nat × Sched :=
  match s.heap with
  | [] => (none, s)
  | m :: rest =>
    let s1 := { s with tasks := upd_task s.tasks m (fun t => { t with heap_index := -1 }) }
    match rest.getLast? with
    | none => (some m, { s1 with heap := [] })
    | some last =>
      let s2 := { s1 with
        heap := last :: rest.dropLast,
        tasks := upd_task s1.tasks last (fun t => { t with heap_index := 0 }) }
      (some m, heap_bubble_down s2 s2.heap.length 0)

/-- `heap_update`: no-op unless the task's `heap_index` is a valid
position; sift up when smaller than the parent, otherwise sift down. -/
def heap_update (s : Sched) (tid : Nat) : Sched :=
  match find_by_tid s.tasks tid with
  | none => s
  | some t =>
    if t.heap_index < 0 ∨ t.heap_index ≥ (s.heap.length : Int) then s
    else
      let idx := t.heap_index.toNat
      if idx > 0 ∧ heap_vr s ((idx - 1) / 2) > t.vruntime then
        heap_bubble_up s s.heap.length idx
      else heap_bubble_down s s.heap.length idx

/-- `heap_remove`: remove the task at its `heap_index` position, move the
tail element into the hole and restore the heap property. -/
def heap_remove (s : Sched) (tid : Nat) : Int × Sched :=
  match find_by_tid s.tasks tid with
  | none => (-1, s)
  | some t =>
    if t.heap_index < 0 ∨ t.heap_index ≥ (s.heap.length : Int) then (-1, s)
    else
      let idx := t.heap_index.toNat
      let s1 := { s with tasks := upd_task s.tasks tid (fun u => { u with heap_index := -1 }) }
      let n := s.heap.length - 1
      if idx < n then
        let last := (s.heap.get? n).getD 0
        let s2 := { s1 with
          heap := (s1.heap.take n).set idx last,
          tasks := upd_task s1.tasks last (fun u => { u with heap_index := (idx : Int) }) }
        if idx > 0 ∧ heap_vr s2 ((idx - 1) / 2) > heap_vr s2 idx then
          (0, heap_bubble_up s2 s2.heap.length idx)
        else (0, heap_bubble_down s2 s2.heap.length idx)
      else (0, { s1 with heap := s1.heap.take n })

/-- `heap_is_empty`. -/
def heap_is_empty (s : Sched) : Bool := s.heap.isEmpty

/-! ## scheduler.c -/

/-- `scheduler_init` from `scheduler.c`: a quantum ≤ 0 is replaced by 1;
per-CPU slots start empty. -/
def scheduler_init (cpu_count : Nat) (quanta : Int) : Sched :=
  { cpu_count := cpu_count
  , quanta := if quanta > 0 then quanta else 1
  , slots := List.replicate cpu_count none
  , tasks := []
  , cgroups := []
  , heap := []
  , current_vtime := 0
  , preemptions := 0
  , migrations := 0
  , next_tid := 0
  , next_gid := 0 }

/-- `scheduler_find_task`: linear scan, first `strcmp` match. -/
def scheduler_find_task (s : Sched) (task_id : String) : Option Task :=
  s.tasks.find? (fun t => t.task_id == task_id)

/-- Position of the first registry record with the given id (the array
index the C scan stops at). -/
def find_task_idx (ts : List Task) (task_id : String) : Option Nat :=
  ts.findIdx? (fun t => t.task_id == task_id)

/-- Apply the C code's in-place mutation of the task object found at
registry position `i`. -/
def set_task_at (ts : List Task) (i : Nat) (f : Task → Task) : List Task :=
  match ts.get? i with
  | some t => ts.set i (f t)
  | none => ts

/-- `scheduler_add_task`: fails (and the task leaks) when the registry is
full; otherwise append, and enqueue if the task is runnable. -/
def scheduler_add_task (s : Sched) (t : Task) : Sched × Int :=
  if s.tasks.length ≥ MAX_TASKS then (s, -1)
  else
    let s1 := { s with tasks := s.tasks ++ [t] }
    (if t.state = .runnable then heap_insert s1 t.tid else s1, 0)

/-- `scheduler_remove_task`: dequeue if enqueued, clear every CPU slot
holding the task, then swap-remove the record from the registry array. -/
def scheduler_remove_task (s : Sched) (task_id : String) : Sched × Int :=
  match find_task_idx s.tasks task_id with
  | none => (s, -1)
  | some i =>
    match s.tasks.get? i with
    | none => (s, -1)
    | some t =>
      let s1 := if t.heap_index ≥ 0 then (heap_remove s t.tid).2 else s
      let s2 := { s1 with
        slots := s1.slots.map (fun o => if o == some t.tid then none else o) }

      let s3 := { s2 with
        tasks :=
          match s2.tasks.getLast? with
          | some l => (s2.tasks.set i l).dropLast
          | none => s2.tasks }
      (s3, 0)

/-- `scheduler_find_cgroup`: linear scan, first `strcmp` match. -/
def scheduler_find_cgroup (s : Sched) (cgroup_id : String) : Option Cgroup :=
  s.cgroups.find? (fun cg => cg.cgroup_id == cgroup_id)

/-- `scheduler_add_cgroup`: fails (and the cgroup leaks) when full. -/
def scheduler_add_cgroup (s : Sched) (cg : Cgroup) : Sched × Int :=
  if s.cgroups.length ≥ MAX_CGROUPS then (s, -1)
  else ({ s with cgroups := s.cgroups ++ [cg] }, 0)

/-- `scheduler_remove_cgroup`: reassign every member task to cgroup "0",
then swap-remove the cgroup record. -/
def scheduler_remove_cgroup (s : Sched) (cgroup_id : String) : Sched × Int :=
  match s.cgroups.findIdx? (fun cg => cg.cgroup_id == cgroup_id) with
  | none => (s, -1)
  | some i =>
    let ts := s.tasks.map (fun t =>
      if t.cgroup_id == cgroup_id then { t with cgroup_id := "0" } else t)
    let cgs :=
      match s.cgroups.getLast? with
      | some l => (s.cgroups.set i l).dropLast
      | none => s.cgroups
    ({ s with tasks := ts, cgroups := cgs }, 0)

/-- `can_task_run_on_cpu` from `scheduler.c`: task affinity, and the
cgroup CPU mask when the task names a registered cgroup (an empty cgroup
id skips the lookup). -/
def can_task_run_on_cpu (s : Sched) (t : Task) (cpu_id : Int) : Bool :=
  if ¬ task_can_run_on_cpu t cpu_id then false
  else if t.cgroup_id ≠ "" then
    match scheduler_find_cgroup s t.cgroup_id with
    | some cg => cgroup_allows_cpu cg cpu_id
    | none => true
  else true

/-- `get_min_vruntime` from `scheduler.c`: minimum vruntime over tasks in
state Runnable or Running, `0` when there are none.  (The C code folds
with a `DBL_MAX` sentinel; the model folds with `Option`.) -/
def get_min_vruntime (s : Sched) : ℚ :=
  (s.tasks.foldl
    (fun acc t =>
      if t.state = .runnable ∨ t.state = .running then
        match acc with
        | none => some t.vruntime
        | some v => if t.vruntime < v then some t.vruntime else some v
      else acc)
    none).getD 0

/-- `get_max_vruntime` from `scheduler.c`: maximum vruntime over tasks in
state Runnable or Running, starting the fold at `0.0`. -/
def get_max_vruntime (s : Sched) : ℚ :=
  s.tasks.foldl
    (fun acc t =>
      if (t.state = .runnable ∨ t.state = .running) ∧ t.vruntime > acc then
        t.vruntime
      else acc)
    0

/-- `get_effective_task_weight` from `scheduler.c`: scale the task weight
by the cgroup's shares (64-bit integer arithmetic, quotient truncated; the
operands are nonnegative for every weight the table produces, where C
truncation and Lean's `Int` division agree), clamp to at least 1. -/
def get_effective_task_weight (s : Sched) (t : Task) : Int :=
  let w :=
    if t.cgroup_id ≠ "" then
      match scheduler_find_cgroup s t.cgroup_id with
      | some cg =>
        if cg.cpu_shares > 0 then (t.weight * cg.cpu_shares) / DEFAULT_CPU_SHARES
        else t.weight
      | none => t.weight
    else t.weight
  if w < 1 then 1 else w

/-- `rebuild_runnable_heap` from `scheduler.c`: empty the heap, reset
every task's `heap_index` to −1, then insert every Runnable task in
registry order. -/
def rebuild_runnable_heap (s : Sched) : Sched :=
  let s0 := { s with
    heap := [],
    tasks := s.tasks.map (fun (t : Task) => { t with heap_index := -1 }) }
  s0.tasks.foldl
    (fun acc t => if t.state = .runnable then heap_insert acc t.tid else acc) s0

/-- `refresh_cgroup_periods` from `scheduler.c`: for every cgroup with a
positive period, reset the accounting window when virtual time moved
backwards or when the elapsed microseconds reach the period. -/
def refresh_cgroup_periods (s : Sched) (vtime : Int) : Sched :=
  let tick_us0 := s.quanta * 1000
  let tick_us := if tick_us0 ≤ 0 then 1000 else tick_us0
  { s with
    cgroups := s.cgroups.map (fun cg =>
      if cg.cpu_period_us ≤ 0 then cg
      else if vtime < cg.period_start_vtime then cgroup_reset_period cg vtime
      else if (vtime - cg.period_start_vtime) * tick_us ≥ cg.cpu_period_us then
        cgroup_reset_period cg vtime
      else cg) }

/-- `get_planned_runtime_for_cgroup` from `scheduler.c`: tally lookup by
cgroup identity (pointer in C, handle here), `0` when absent. -/
def get_planned_runtime_for_cgroup (planned : List (Nat × ℚ)) (g : Nat) : ℚ :=
  match planned.find? (fun p => p.1 == g) with
  | some p => p.2
  | none => 0

/-- `add_planned_runtime_for_cgroup` from `scheduler.c`: add to the
existing entry, else append (silently dropped past `MAX_CGROUPS`
entries, exactly as in the C array). -/
def add_planned_runtime_for_cgroup (planned : List (Nat × ℚ)) (g : Nat) (d : ℚ) :
    List (Nat × ℚ) :=
  if (planned.find? (fun p => p.1 == g)).isSome then
    planned.map (fun p => if p.1 == g then (p.1, p.2 + d) else p)
  else if planned.length < MAX_CGROUPS then planned ++ [(g, d)]
  else planned

/-- The candidate loop of `pick_task_for_cpu`: repeatedly extract the heap
minimum; set aside candidates that fail the affinity/cgroup-mask filter or
the quota filters (exhausted quota, or projected use
`quota_used + planned + tick_runtime_us` above the quota).  Fuel bounds
the iterations; callers pass more than the heap size, which the loop can
never exceed since every iteration shrinks the heap. -/
def pick_loop (cpu : Int) (planned : List (Nat × ℚ)) (tick_runtime_us : ℚ) :
    Sched → List Nat → Nat → Option Nat × Sched × List Nat
  | s, deferred, 0 => (none, s, deferred)
  | s, deferred, fuel + 1 =>
    match heap_extract_min s with
    | (none, s1) => (none, s1, deferred)
    | (some ctid, s1) =>
      match find_by_tid s1.tasks ctid with
      | none => (none, s1, deferred)
      | some cand =>
        if ¬ can_task_run_on_cpu s1 cand cpu then
          pick_loop cpu planned tick_runtime_us s1 (deferred ++ [ctid]) fuel
        else
          let quota_defer : Bool :=
            if cand.cgroup_id ≠ "" then
              match scheduler_find_cgroup s1 cand.cgroup_id with
              | some cg =>
                if ¬ cgroup_has_quota cg then true
                else if cg.cpu_quota_us ≥ 0 then
                  decide (cg.quota_used
                      + get_planned_runtime_for_cgroup planned cg.gid
                      + tick_runtime_us > (cg.cpu_quota_us : ℚ))
                else false
              | none => false
            else false
          if quota_defer then
            pick_loop cpu planned tick_runtime_us s1 (deferred ++ [ctid]) fuel
          else (some ctid, s1, deferred)

/-- `pick_task_for_cpu` from `scheduler.c`: run the candidate loop,
reinsert the set-aside candidates in order, and on a selection from a
finite-quota cgroup add one tick's runtime to that cgroup's planned
tally. -/
def pick_task_for_cpu (s : Sched) (cpu : Int) (planned : List (Nat × ℚ))
    (tick_runtime_us : ℚ) : Option Nat × Sched × List (Nat × ℚ) :=
  match pick_loop cpu planned tick_runtime_us s [] (s.heap.length + 1) with
  | (selected, s1, deferred) =>
    let s2 := deferred.foldl heap_insert s1
    let planned2 :=
      match selected with
      | some tid =>
        match find_by_tid s2.tasks tid with
        | some t =>
          if t.cgroup_id ≠ "" then
            match scheduler_find_cgroup s2 t.cgroup_id with
            | some cg =>
              if cg.cpu_quota_us ≥ 0 then
                add_planned_runtime_for_cgroup planned cg.gid tick_runtime_us
              else planned
            | none => planned
          else planned
        | none => planned
      | none => planned
    (selected, s2, planned2)

/-- `scheduler_process_event` from `scheduler.c`.  Returns the mutated
scheduler and the C return code: 0 on every handled action (also when the
referenced task or cgroup does not exist — those handlers fall through
silently), −1 only from the `default` branch for an unrecognized action.
(The −1 paths for allocation failure are not modelled: allocation always
succeeds in the model.) -/
def scheduler_process_event (s : Sched) (e : Event) : Sched × Int :=
  match e.action with
  | .task_create =>
    let max_vr := get_max_vruntime s
    let nice := if e.has_nice then e.nice else 0
    let t0 := task_create s.next_tid e.task_id nice
        (if e.cgroup_id ≠ "" then some e.cgroup_id else none)
    let t1 := { t0 with vruntime := max_vr }
    let t2 := if e.has_cpu_mask then task_set_affinity t1 e.cpu_mask else t1
    let s1 := { s with next_tid := s.next_tid + 1 }
    ((scheduler_add_task s1 t2).1, 0)
  | .task_exit =>
    match find_task_idx s.tasks e.task_id with
    | none => (s, 0)
    | some i =>
      let s1 := { s with
        tasks := set_task_at s.tasks i (fun t => { t with state := .exited }) }
      ((scheduler_remove_task s1 e.task_id).1, 0)
  | .task_block =>
    match find_task_idx s.tasks e.task_id with
    | none => (s, 0)
    | some i =>
      let s1 := { s with
        tasks := set_task_at s.tasks i (fun t => { t with state := .blocked }) }
      match s1.tasks.get? i with
      | none => (s1, 0)
      | some t =>
        let s2 := if t.heap_index ≥ 0 then (heap_remove s1 t.tid).2 else s1
        let s3 :=
          if t.current_cpu ≥ 0 then
            { s2 with
              slots := s2.slots.set t.current_cpu.toNat none,
              tasks := upd_task s2.tasks t.tid
                (fun u => { u with current_cpu := -1 }) }
          else s2
        (s3, 0)
  | .task_unblock =>
    match find_task_idx s.tasks e.task_id with
    | none => (s, 0)
    | some i =>
      match s.tasks.get? i with
      | none => (s, 0)
      | some t =>
        if t.state = .blocked then
          let s1 := { s with
            tasks := set_task_at s.tasks i (fun u => { u with state := .runnable }) }
          let min_vr := get_min_vruntime s1
          let s2 := { s1 with
            tasks := set_task_at s1.tasks i (fun u =>
              if u.vruntime < min_vr - 1 then { u with vruntime := min_vr - 1 }
              else u) }
          (heap_insert s2 t.tid, 0)
        else (s, 0)
  | .task_yield =>
    match find_task_idx s.tasks e.task_id with
    | none => (s, 0)
    | some i =>
      let mx := get_max_vruntime s
      let s1 := { s with
        tasks := set_task_at s.tasks i (fun u => { u with vruntime := mx }) }
      match s1.tasks.get? i with
      | none => (s1, 0)
      | some t => (if t.heap_index ≥ 0 then heap_update s1 t.tid else s1, 0)
  | .task_setnice =>
    match find_task_idx s.tasks e.task_id with
    | none => (s, 0)
    | some i =>
      ({ s with tasks := set_task_at s.tasks i (fun u => task_set_nice u e.nice) }, 0)
  | .task_set_affinity =>
    match find_task_idx s.tasks e.task_id with
    | none => (s, 0)
    | some i =>
      ({ s with
        tasks := set_task_at s.tasks i (fun u => task_set_affinity u e.cpu_mask) }, 0)
  | .cgroup_create =>
    let shares := if e.has_cpu_shares then e.cpu_shares else DEFAULT_CPU_SHARES
    let quota := if e.has_cpu_quota then e.cpu_quota_us else UNLIMITED_QUOTA
    let period := if e.has_cpu_period then e.cpu_period_us else DEFAULT_CPU_PERIOD_US
    let cg0 := cgroup_create s.next_gid e.cgroup_id shares quota period e.cpu_mask
    let cg1 := { cg0 with period_start_vtime := s.current_vtime }
    let s1 := { s with next_gid := s.next_gid + 1 }
    ((scheduler_add_cgroup s1 cg1).1, 0)
  | .cgroup_modify =>
    match s.cgroups.findIdx? (fun cg => cg.cgroup_id == e.cgroup_id) with
    | none => (s, 0)
    | some i =>
      match s.cgroups.get? i with
      | none => (s, 0)
      | some cg =>
        let shares := if e.has_cpu_shares then e.cpu_shares else -1
        let quota := if e.has_cpu_quota then e.cpu_quota_us else -2
        let period := if e.has_cpu_period then e.cpu_period_us else -2
        let cg2 := cgroup_modify cg shares quota period
            (if e.has_cpu_mask then some e.cpu_mask else none)
        let cg3 :=
          if e.has_cpu_period ∧ e.cpu_period_us > 0 then
            cgroup_reset_period cg2 s.current_vtime
          else cg2
        ({ s with cgroups := s.cgroups.set i cg3 }, 0)
  | .cgroup_delete => ((scheduler_remove_cgroup s e.cgroup_id).1, 0)
  | .task_move_cgroup =>
    match find_task_idx s.tasks e.task_id with
    | none => (s, 0)
    | some i =>
      ({ s with
        tasks := set_task_at s.tasks i
          (fun u => { u with cgroup_id := e.new_cgroup_id }) }, 0)
  | .cpu_burst =>
    match find_task_idx s.tasks e.task_id with
    | none => (s, 0)
    | some i =>
      ({ s with
        tasks := set_task_at s.tasks i
          (fun u => { u with is_burst := true, burst_remaining := e.burst_duration }) }, 0)
  | .invalid => (s, -1)

/-- Step 2 of `scheduler_tick` for one CPU: if the slot holds a Running
task, advance its vruntime (unless bursting), charge one tick's
microseconds to its cgroup, count down the burst, return it to Runnable;
always clear the slot. -/
def account_cpu (s : Sched) (i : Nat) : Sched :=
  match s.slots.get? i with
  | some (some tid) =>
    (match find_by_tid s.tasks tid with
    | some t =>
      if t.state = .running then
        let t1 :=
          if ¬ t.is_burst then
            { t with vruntime := t.vruntime
                + calc_vruntime_delta (s.quanta : ℚ) (get_effective_task_weight s t) }
          else t
        let cgs :=
          if t1.cgroup_id ≠ "" then
            match s.cgroups.findIdx? (fun cg => cg.cgroup_id == t1.cgroup_id) with
            | some j =>
              match s.cgroups.get? j with
              | some cg =>
                s.cgroups.set j (cgroup_account_runtime cg ((s.quanta : ℚ) * 1000))
              | none => s.cgroups
            | none => s.cgroups
          else s.cgroups
        let t2 :=
          if t1.is_burst ∧ t1.burst_remaining > 0 then
            let t3 := { t1 with burst_remaining := t1.burst_remaining - 1 }
            if t3.burst_remaining = 0 then { t3 with is_burst := false } else t3
          else t1
        let t4 := { t2 with state := .runnable }
        { s with
          tasks := upd_task s.tasks tid (fun _ => t4),
          cgroups := cgs,
          slots := s.slots.set i none }
      else { s with slots := s.slots.set i none }
    | none => { s with slots := s.slots.set i none })
  | _ => { s with slots := s.slots.set i none }

/-- Intermediate state of the per-CPU selection pass of `scheduler_tick`:
the scheduler, the planned-runtime tally, the decision strings built so
far, and the handles selected so far (the C `assigned` flags). -/
structure PickState where
  s : Sched
  planned : List (Nat × ℚ)
  schedule : List String
  assigned : List Nat
deriving Repr

/-- The selection body of `scheduler_tick` for one CPU: pick a task;
record preemption when the CPU's previous occupant differs (returning the
previous task to Runnable when it is marked Running); record migration
when the picked task arrives from another CPU; mark it Running and fill
the slot, or emit "idle". -/
def select_cpu (tick_runtime_us : ℚ) (previous : List (Option Nat))
    (ps : PickState) (cpu : Nat) : PickState :=
  match pick_task_for_cpu ps.s (cpu : Int) ps.planned tick_runtime_us with
  | (none, s1, pl1) =>
    { ps with s := s1, planned := pl1, schedule := ps.schedule ++ ["idle"] }
  | (some btid, s1, pl1) =>
    let prev := (previous.get? cpu).getD none
    let s2 :=
      match prev with
      | some ptid =>
        if ptid ≠ btid then
          let s2a := { s1 with preemptions := s1.preemptions + 1 }
          match find_by_tid s2a.tasks ptid with
          | some pt =>
            if pt.state = .running then
              { s2a with
                tasks := upd_task s2a.tasks ptid
                  (fun u => { u with state := .runnable }) }
            else s2a
          | none => s2a
        else s1
      | none => s1
    match find_by_tid s2.tasks btid with
    | some bt =>
      let s3 :=
        if bt.current_cpu ≥ 0 ∧ bt.current_cpu ≠ (cpu : Int) then
          { s2 with migrations := s2.migrations + 1 }
        else s2
      let s4 := { s3 with
        tasks := upd_task s3.tasks btid
          (fun u => { u with current_cpu := (cpu : Int), state := .running }),
        slots := s3.slots.set cpu (some btid) }
      { s := s4, planned := pl1, schedule := ps.schedule ++ [bt.task_id],
        assigned := ps.assigned ++ [btid] }
    | none =>
      { s := s2, planned := pl1, schedule := ps.schedule ++ [""],
        assigned := ps.assigned ++ [btid] }

/-- `scheduler_tick` from `scheduler.c`: store the virtual time, reset the
per-tick counters, refresh cgroup periods, account the running tasks,
rebuild the runnable heap, select per CPU in ascending order, clear the
CPU of left-over Runnable tasks, and emit the decision record. -/
def scheduler_tick (s : Sched) (vtime : Int) : SchedulerTick × Sched :=
  let s1 := { s with current_vtime := vtime, preemptions := 0, migrations := 0 }
  let s2 := refresh_cgroup_periods s1 vtime
  let previous := s2.slots
  let s3 := (List.range s2.cpu_count).foldl account_cpu s2
  let s4 := rebuild_runnable_heap s3
  let tick_runtime_us0 : ℚ := (s4.quanta : ℚ) * 1000
  let tick_runtime_us := if tick_runtime_us0 < 0 then 0 else tick_runtime_us0
  let ps := (List.range s4.cpu_count).foldl (select_cpu tick_runtime_us previous)
      { s := s4, planned := [], schedule := [], assigned := [] }
  let s5 := ps.s
  let s6 := { s5 with
    tasks := s5.tasks.map (fun (t : Task) =>
      if ¬ ps.assigned.contains t.tid ∧ t.state = .runnable then
        { t with current_cpu := -1 }
      else t) }
  ({ vtime := vtime
   , schedule := ps.schedule
   , cpu_count := s6.cpu_count
   , meta :=
     { preemptions := s6.preemptions
     , migrations := s6.migrations
     , runnable_tasks :=
         (s6.tasks.filter
           (fun t => t.state = .runnable ∨ t.state = .running)).map Task.task_id
     , blocked_tasks :=
         (s6.tasks.filter (fun t => t.state = .blocked)).map Task.task_id } },
   s6)

/-- One iteration of the main event loop (main file, `while (running)`
body): apply every event of the frame in order — failures are logged and
skipped — then run the tick for the frame's virtual time. -/
def process_frame (s : Sched) (tf : TimeFrame) : SchedulerTick × Sched :=
  let s1 := tf.events.foldl (fun acc e => (scheduler_process_event acc e).1) s
  scheduler_tick s1 tf.vtime

/-- Run a sequence of time frames through the main loop. -/
def run_frames (s : Sched) (tfs : List TimeFrame) : Sched :=
  tfs.foldl (fun acc tf => (process_frame acc tf).2) s

/-! ## Event builders

Decoded events as the JSON layer would deliver them: a `calloc`ed `Event`
with the action, the named fields, and the corresponding `has_` flags. -/

/-- An event carrying only an action and a task id. -/
def mk_task_event (a : EventAction) (id : String) : Event :=
  { Event.zero with action := a, task_id := id }

/-- `TASK_CREATE` with defaults only. -/
def ev_create (id : String) : Event := mk_task_event .task_create id

/-- `TASK_CREATE` with a nice value. -/
def ev_create_nice (id : String) (n : Int) : Event :=
  { mk_task_event .task_create id with nice := n, has_nice := true }

/-- `TASK_CREATE` with a cpuMask. -/
def ev_create_mask (id : String) (mask : List Int) : Event :=
  { mk_task_event .task_create id with cpu_mask := mask, has_cpu_mask := true }

/-- `TASK_EXIT`. -/
def ev_exit (id : String) : Event := mk_task_event .task_exit id

/-- `TASK_BLOCK`. -/
def ev_block (id : String) : Event := mk_task_event .task_block id

/-- `TASK_UNBLOCK`. -/
def ev_unblock (id : String) : Event := mk_task_event .task_unblock id

/-- `TASK_YIELD`. -/
def ev_yield (id : String) : Event := mk_task_event .task_yield id

/-- `TASK_SETNICE`. -/
def ev_setnice (id : String) (n : Int) : Event :=
  { mk_task_event .task_setnice id with nice := n, has_nice := true }

/-- `TASK_MOVE_CGROUP`. -/
def ev_move (id : String) (new_cg : String) : Event :=
  { mk_task_event .task_move_cgroup id with new_cgroup_id := new_cg }

/-- `CPU_BURST`. -/
def ev_burst (id : String) (duration : Int) : Event :=
  { mk_task_event .cpu_burst id with burst_duration := duration }

/-- `CGROUP_CREATE` with a quota (other fields defaulted). -/
def ev_cgcreate_quota (id : String) (quota : Int) : Event :=
  { Event.zero with
    action := .cgroup_create, cgroup_id := id,
    cpu_quota_us := quota, has_cpu_quota := true }

/-- `CGROUP_CREATE` with shares (other fields defaulted). -/
def ev_cgcreate_shares (id : String) (shares : Int) : Event :=
  { Event.zero with
    action := .cgroup_create, cgroup_id := id,
    cpu_shares := shares, has_cpu_shares := true }

/-- `CGROUP_CREATE` with shares and period. -/
def ev_cgcreate_shares_period (id : String) (shares period : Int) : Event :=
  { Event.zero with
    action := .cgroup_create, cgroup_id := id,
    cpu_shares := shares, has_cpu_shares := true,
    cpu_period_us := period, has_cpu_period := true }

/-- `CGROUP_MODIFY` with shares and period. -/
def ev_cgmodify_shares_period (id : String) (shares period : Int) : Event :=
  { Event.zero with
    action := .cgroup_modify, cgroup_id := id,
    cpu_shares := shares, has_cpu_shares := true,
    cpu_period_us := period, has_cpu_period := true }

/-- `TASK_CREATE` with a cgroupId. -/
def ev_create_cg (id : String) (cgid : String) : Event :=
  { mk_task_event .task_create id with cgroup_id := cgid }

/-! ## Concrete scenario states

Each state below is produced by running decoded event frames through the
embedded dispatcher and tick engine starting from `scheduler_init`, i.e.
each is a state the C program reaches on the corresponding input. -/

/-- One CPU, quantum 1: cgroup "M" (quota 500 μs), task "T" in the default
(unregistered) cgroup "0"; tick 0 selects "T"; at vtime 1 "T" is moved
into "M" while Running.  State just before the vtime-1 tick. -/
def s_quota_move_pre : Sched :=
  (scheduler_process_event
    (process_frame (scheduler_init 1 1)
      { vtime := 0, events := [ev_cgcreate_quota "M" 500, ev_create "T"] }).2
    (ev_move "T" "M")).1

/-- `s_quota_move_pre` after the vtime-1 tick: the tick accounts a full
quantum (1000 μs) to "M" although only 500 μs of quota exist. -/
def s_quota_move : Sched := (scheduler_tick s_quota_move_pre 1).2

/-- Two CPUs, quantum 1: tasks "X" (affinity {0}), "Q", "P" (nice −5,
so the smallest per-tick vruntime growth), then three ticks.  At the
vtime-2 tick "P" (minimum vruntime) is selected for CPU 0; CPU 1, whose
previous occupant was "P", then selects "Q" and the preemption bookkeeping
flips the already-selected "P" back to Runnable while it stays out of the
rebuilt queue. -/
def s_flip : Sched :=
  run_frames (scheduler_init 2 1)
    [ { vtime := 0, events :=
          [ev_create_mask "X" [0], ev_create "Q", ev_create_nice "P" (-5)] }
    , { vtime := 1, events := [] }
    , { vtime := 2, events := [] } ]

/-- One task "A" registered (registry of length 1). -/
def s_one : Sched :=
  (scheduler_process_event (scheduler_init 2 1) (ev_create "A")).1

/-- `s_one` after a second `TASK_CREATE` for the same id "A": the
dispatcher performs no existence check, so a second record appears. -/
def s_dup_pre : Sched :=
  (scheduler_process_event s_one (ev_create "A")).1

/-- One CPU, quantum 1: cgroup "Z" with the finite quota 0 μs, task "T"
running from tick 0, moved into "Z" and put into burst at vtime 1.
State just before the vtime-1 tick. -/
def s_zero_pre : Sched :=
  ((scheduler_process_event
    (scheduler_process_event
      (process_frame (scheduler_init 1 1)
        { vtime := 0, events := [ev_cgcreate_quota "Z" 0, ev_create "T"] }).2
      (ev_move "T" "Z")).1
    (ev_burst "T" 3)).1)

/-- `s_zero_pre` after the vtime-1 tick. -/
def s_zero : Sched := (scheduler_tick s_zero_pre 1).2

/-- One CPU, quantum 1: a cgroup whose id is the empty string with shares
4096, task "T" (weight 1024) running from tick 0 and moved into the
empty-id cgroup at vtime 1.  State just before the vtime-1 tick. -/
def s_emptycg_pre : Sched :=
  (scheduler_process_event
    (process_frame (scheduler_init 1 1)
      { vtime := 0, events := [ev_cgcreate_shares "" 4096, ev_create "T"] }).2
    (ev_move "T" "")).1

/-- `s_emptycg_pre` after the vtime-1 tick. -/
def s_emptycg : Sched := (scheduler_tick s_emptycg_pre 1).2

/-- Cgroup "G" created with shares 2048 and period 50000, then modified
with shares −5 and period −7. -/
def s_modify : Sched :=
  (scheduler_process_event
    (scheduler_process_event (scheduler_init 1 1)
      (ev_cgcreate_shares_period "G" 2048 50000)).1
    (ev_cgmodify_shares_period "G" (-5) (-7))).1

/-- One CPU, quantum 1: task "T1" created at vtime 0 (and selected), then
blocked at vtime 1.  State after the vtime-1 tick, with "T1" Blocked. -/
def s_blocked : Sched :=
  run_frames (scheduler_init 1 1)
    [ { vtime := 0, events := [ev_create "T1"] }
    , { vtime := 1, events := [ev_block "T1"] } ]

/-- `s_blocked` after a `TASK_UNBLOCK` for "T1". -/
def s_unblocked : Sched :=
  (scheduler_process_event s_blocked (ev_unblock "T1")).1

/-- One CPU, quantum 1: cgroup "W" with quota 5000 μs, task "T" created
inside "W" at vtime 0.  State before any tick: "T" sits in the runnable
queue. -/
def s_pickw : Sched :=
  (scheduler_process_event
    (scheduler_process_event (scheduler_init 1 1)
      (ev_cgcreate_quota "W" 5000)).1
    (ev_create_cg "T" "W")).1

/-- The scheduler state the candidate loop returns when picking from
`s_pickw` for CPU 0 with an empty planned tally. -/
def s_pickw_after : Sched :=
  (pick_loop 0 [] 1000 s_pickw [] (s_pickw.heap.length + 1)).2.1

/-- One CPU, quantum 1: cgroup "Q8" with quota 800000 μs, task "T"
created inside it and selected at tick 0, then put into burst.  State
just before the vtime-1 tick. -/
def s_posq_pre : Sched :=
  (scheduler_process_event
    (process_frame (scheduler_init 1 1)
      { vtime := 0, events := [ev_cgcreate_quota "Q8" 800000, ev_create_cg "T" "Q8"] }).2
    (ev_burst "T" 2)).1

/-- One CPU, quantum 1: cgroup "H" with shares 512, task "T" created
inside it and selected at tick 0.  State just before the vtime-1 tick. -/
def s_shares_pre : Sched :=
  (process_frame (scheduler_init 1 1)
    { vtime := 0, events := [ev_cgcreate_shares "H" 512, ev_create_cg "T" "H"] }).2

/-- One CPU, quantum 1: a single task "T" in the default, unregistered
cgroup "0", selected at tick 0.  State just before the vtime-1 tick. -/
def s_plain_pre : Sched :=
  (process_frame (scheduler_init 1 1)
    { vtime := 0, events := [ev_create "T"] }).2

/-! ## Verification-layer predicates -/

/-- Forget a task's queue back-pointer (the `heap_index` field, which the
heap operations rewrite as bookkeeping); all other fields are kept. -/
def erase_qpos (t : Task) : Task := { t with heap_index := 0 }

/-- The heap-independent skeleton of a scheduler state: everything except
the queue order and the queue back-pointers.  All heap operations preserve
this skeleton. -/
def sk (s : Sched) : Sched :=
  { s with heap := [], tasks := s.tasks.map erase_qpos }

/-- The queue-membership invariant exactly as §8-1 of the design document
states it: a registered task is in the runnable queue iff its state is
Runnable. -/
def queue_iff_runnable (s : Sched) : Prop :=
  ∀ t ∈ s.tasks, (t.tid ∈ s.heap ↔ t.state = TaskState.runnable)

/-- The amended queue-membership invariant: a registered task is in the
runnable queue iff its state is Runnable and it is not the current task of
any CPU slot. -/
def queue_iff_runnable_unassigned (s : Sched) : Prop :=
  ∀ t ∈ s.tasks,
    (t.tid ∈ s.heap ↔ (t.state = TaskState.runnable ∧ some t.tid ∉ s.slots))

/-- Structural well-formedness of a scheduler state: task handles are
unique and below the allocation counter; the queue holds no duplicates,
only registered handles, and every task's `heap_index` back-pointer is
accurate; slots and tasks agree about CPU assignment; Running tasks occupy
a CPU.  Every state the program reaches satisfies this (proved below by
induction over `Reachable`). -/
structure WF (s : Sched) : Prop where
  tid_nodup : (s.tasks.map Task.tid).Nodup
  tid_lt : ∀ t ∈ s.tasks, t.tid < s.next_tid
  heap_nodup : s.heap.Nodup
  heap_sub : ∀ tid ∈ s.heap, ∃ t ∈ s.tasks, t.tid = tid
  acc : ∀ t ∈ s.tasks, 0 ≤ t.heap_index →
    s.heap.get? t.heap_index.toNat = some t.tid
  memidx : ∀ t ∈ s.tasks, t.tid ∈ s.heap → 0 ≤ t.heap_index
  slots_len : s.slots.length = s.cpu_count
  slot_task : ∀ c tid, s.slots.get? c = some (some tid) →
    ∃ t ∈ s.tasks, t.tid = tid ∧ t.current_cpu = (c : Int)
      ∧ (t.state = TaskState.running ∨ t.state = TaskState.runnable)
  cpu_slot : ∀ t ∈ s.tasks, 0 ≤ t.current_cpu →
    s.slots.get? t.current_cpu.toNat = some (some t.tid)
  run_cpu : ∀ t ∈ s.tasks, t.state = TaskState.running → 0 ≤ t.current_cpu

/-- The heap-consistency part of `WF`, closed under every heap operation:
unique handles, a duplicate-free queue of registered handles, accurate
`heap_index` back-pointers, and an index on every enqueued task. -/
structure HeapInv (s : Sched) : Prop where
  tid_nodup : (s.tasks.map Task.tid).Nodup
  heap_nodup : s.heap.Nodup
  heap_sub : ∀ tid ∈ s.heap, ∃ t ∈ s.tasks, t.tid = tid
  acc : ∀ t ∈ s.tasks, 0 ≤ t.heap_index →
    s.heap.get? t.heap_index.toNat = some t.tid
  memidx : ∀ t ∈ s.tasks, t.tid ∈ s.heap → 0 ≤ t.heap_index

/-- The scheduler states the program can reach: the freshly initialized
scheduler, and anything obtained from a reachable state by processing one
decoded event or by running one tick (the only two operations the main
loop performs on the scheduler). -/
inductive Reachable : Sched → Prop
  | init : ∀ n q, Reachable (scheduler_init n q)
  | evt : ∀ s e, Reachable s → Reachable (scheduler_process_event s e).1
  | tick : ∀ s v, Reachable s → Reachable (scheduler_tick s v).2

/-! # Theorems -/

set_option maxRecDepth 10000

/-- `rat_div` is exact rational division. -/
theorem rat_div_eq_div (a b : ℚ) : rat_div a b = a / b := by
  rcases eq_or_ne b 0 with hb | hb
  · subst hb; simp [rat_div]
  · have h1 : ((a.den : ℚ)) ≠ 0 := Nat.cast_ne_zero.mpr a.den_nz
    have h3 : ((b.num : ℚ)) ≠ 0 := Int.cast_ne_zero.mpr (Rat.num_ne_zero.mpr hb)
    have ha : a * (a.den : ℚ) = (a.num : ℚ) := by
      nth_rewrite 1 [← Rat.num_div_den a]
      rw [div_mul_cancel₀ _ h1]
    have hbb : b * (b.den : ℚ) = (b.num : ℚ) := by
      nth_rewrite 1 [← Rat.num_div_den b]
      rw [div_mul_cancel₀ _ (Nat.cast_ne_zero.mpr b.den_nz)]
    rw [rat_div, Rat.divInt_eq_div]
    push_cast
    rw [div_eq_div_iff (mul_ne_zero h1 h3) hb, ← ha, ← hbb]
    ring

/-- `s_flip` is a state the program reaches (three decoded events, then
the ticks for vtimes 0, 1 and 2). -/
theorem s_flip_reachable : Reachable s_flip :=
  Reachable.tick _ 2 (Reachable.tick _ 1 (Reachable.tick _ 0
    (Reachable.evt _ _ (Reachable.evt _ _ (Reachable.evt _ _
      (Reachable.init 2 1))))))

/-- C1 counterexample: the per-period quota bound is violated on the code.
In the reachable state `s_quota_move_pre` (one CPU, quantum 1 tick =
1000 μs), task "T" is Running and has just been moved into cgroup "M"
whose finite quota is 500 μs and whose period (100000 μs, started at
vtime 0) is still current.  The vtime-1 tick then accounts a full
1000 μs to "M": `quota_used` ends at 1000 > 500 inside a single period. -/
theorem quota_bound_violated_by_move_event :
    (scheduler_find_task s_quota_move_pre "T").map Task.state
        = some TaskState.running
  ∧ (scheduler_find_task s_quota_move_pre "T").map Task.cgroup_id = some "M"
  ∧ (scheduler_find_cgroup s_quota_move_pre "M").map Cgroup.cpu_quota_us = some 500
  ∧ (scheduler_find_cgroup s_quota_move_pre "M").map Cgroup.quota_used = some 0
  ∧ (scheduler_find_cgroup s_quota_move "M").map Cgroup.cpu_quota_us = some 500
  ∧ (scheduler_find_cgroup s_quota_move "M").map Cgroup.cpu_period_us = some 100000
  ∧ (scheduler_find_cgroup s_quota_move "M").map Cgroup.period_start_vtime = some 0
  ∧ (scheduler_find_cgroup s_quota_move "M").map Cgroup.quota_used = some 1000
  ∧ ¬ ((1000 : ℚ) ≤ ((500 : Int) : ℚ)) := by
  refine ⟨?_, ?_, ?_, ?_, ?_, ?_, ?_, ?_, ?_⟩ <;> first
  | with_unfolding_all rfl
  | with_unfolding_all decide

/-- C2 counterexample: after the vtime-2 tick of the reachable state
`s_flip`, task "P" (handle 2) is in state Runnable but absent from the
runnable queue — the preemption bookkeeping of CPU 1 flipped the
already-selected "P" back to Runnable after it had been extracted for
CPU 0 — refuting the queue-membership iff. -/
theorem queue_membership_violated_after_tick :
    (scheduler_find_task s_flip "P").map Task.tid = some 2
  ∧ (scheduler_find_task s_flip "P").map Task.state = some TaskState.runnable
  ∧ 2 ∉ s_flip.heap
  ∧ s_flip.slots = [some 2, some 1] := by
  refine ⟨?_, ?_, ?_, ?_⟩ <;> first
  | with_unfolding_all rfl
  | with_unfolding_all decide

/-- C3 counterexample: in the reachable state `s_dup_pre` two distinct
task records both carry the id "A" (the dispatcher creates duplicates);
the vtime-0 tick then emits the same non-idle id on both CPUs. -/
theorem exclusive_assignment_violated_by_duplicate_ids :
    (scheduler_tick s_dup_pre 0).1.schedule = ["A", "A"]
  ∧ ("A" : String) ≠ "idle" := by
  refine ⟨?_, ?_⟩ <;> first
  | with_unfolding_all rfl
  | with_unfolding_all decide

/-- C5 counterexample: `s_one` already holds a task with id "A", yet
processing a second `TASK_CREATE` for "A" grows the registry to two
records with the same id — the registry is not left unchanged. -/
theorem task_create_not_ignored_on_existing_id :
    (scheduler_find_task s_one "A").isSome = true
  ∧ s_one.tasks.length = 1
  ∧ s_dup_pre = (scheduler_process_event s_one (ev_create "A")).1
  ∧ s_dup_pre.tasks.length = 2
  ∧ s_dup_pre.tasks.map Task.task_id = ["A", "A"] := by
  refine ⟨?_, ?_, ?_, ?_, ?_⟩ <;> first
  | with_unfolding_all rfl
  | with_unfolding_all decide

/-- C6 counterexample: in the reachable state `s_zero_pre` task "T" is
Running with the burst flag set, on CPU 0, and belongs to cgroup "Z"
whose quota is the finite value 0 μs; the vtime-1 tick leaves
`quota_used` at 0 instead of adding quantum·1000 = 1000 μs, because
`cgroup_account_runtime` only accounts when the quota is strictly
positive. -/
theorem zero_quota_not_charged :
    (scheduler_find_task s_zero_pre "T").map Task.state = some TaskState.running
  ∧ (scheduler_find_task s_zero_pre "T").map Task.is_burst = some true
  ∧ (scheduler_find_task s_zero_pre "T").map Task.cgroup_id = some "Z"
  ∧ s_zero_pre.slots = [some 0]
  ∧ (scheduler_find_task s_zero_pre "T").map Task.tid = some 0
  ∧ (scheduler_find_cgroup s_zero_pre "Z").map Cgroup.cpu_quota_us = some 0
  ∧ (0 : Int) ≠ UNLIMITED_QUOTA
  ∧ (scheduler_find_cgroup s_zero_pre "Z").map Cgroup.quota_used = some 0
  ∧ s_zero_pre.quanta = 1
  ∧ (scheduler_find_cgroup s_zero "Z").map Cgroup.quota_used = some 0
  ∧ (0 : ℚ) ≠ 0 + (1 : ℚ) * 1000 := by
  refine ⟨?_, ?_, ?_, ?_, ?_, ?_, ?_, ?_, ?_, ?_, ?_⟩ <;> first
  | with_unfolding_all rfl
  | with_unfolding_all decide

/-- C7 counterexample: in the reachable state `s_emptycg_pre` task "T"
(weight 1024, vruntime 0, not bursting) is Running on CPU 0 and belongs —
by id equality — to the registered cgroup with the empty id and shares
4096; the vtime-1 tick advances its vruntime by a full
quantum · (1024/1024) = 1 instead of the claimed
quantum · (1024 / max(1, ⌊1024·4096/1024⌋)) = 1/4, because the effective
weight computation skips the cgroup lookup for an empty cgroup id. -/
theorem empty_id_cgroup_shares_ignored :
    (scheduler_find_task s_emptycg_pre "T").map Task.state = some TaskState.running
  ∧ (scheduler_find_task s_emptycg_pre "T").map Task.is_burst = some false
  ∧ (scheduler_find_task s_emptycg_pre "T").map Task.cgroup_id = some ""
  ∧ (scheduler_find_task s_emptycg_pre "T").map Task.weight = some 1024
  ∧ (scheduler_find_task s_emptycg_pre "T").map Task.vruntime = some 0
  ∧ (scheduler_find_cgroup s_emptycg_pre "").map Cgroup.cpu_shares = some 4096
  ∧ s_emptycg_pre.quanta = 1
  ∧ s_emptycg_pre.slots = [some 0]
  ∧ (scheduler_find_task s_emptycg_pre "T").map Task.tid = some 0
  ∧ (scheduler_find_task s_emptycg "T").map Task.vruntime = some 1
  ∧ (1 : ℚ) ≠ 0 + 1 * rat_div (1024 : ℚ)
      (((max 1 ((1024 * 4096) / 1024 : Int)) : Int) : ℚ) := by
  refine ⟨?_, ?_, ?_, ?_, ?_, ?_, ?_, ?_, ?_, ?_, ?_⟩ <;> first
  | with_unfolding_all rfl
  | with_unfolding_all decide

/-- C8 counterexample: a `TASK_EXIT` for a task id that does not exist is
not reported — the dispatcher returns 0, refuting “failure exactly on
unknown action or nonexistent referent”. -/
theorem missing_referent_not_reported :
    (scheduler_process_event (scheduler_init 1 1) (ev_exit "ghost")).2 = 0
  ∧ scheduler_find_task (scheduler_init 1 1) "ghost" = none
  ∧ (ev_exit "ghost").action ≠ EventAction.invalid := by
  refine ⟨?_, ?_, ?_⟩ <;> first
  | with_unfolding_all rfl
  | with_unfolding_all decide

/-- C9 counterexample: cgroup "G" is created with shares 2048 and period
50000; a `CGROUP_MODIFY` supplying shares −5 and period −7 leaves both at
their previous values (2048 and 50000) instead of replacing them with the
defaults 1024 and 100000. -/
theorem modify_retains_nonpositive_values :
    (scheduler_find_cgroup s_modify "G").map Cgroup.cpu_shares = some 2048
  ∧ (scheduler_find_cgroup s_modify "G").map Cgroup.cpu_period_us = some 50000
  ∧ (2048 : Int) ≠ DEFAULT_CPU_SHARES
  ∧ (50000 : Int) ≠ DEFAULT_CPU_PERIOD_US := by
  refine ⟨?_, ?_, ?_, ?_⟩ <;> first
  | with_unfolding_all rfl
  | with_unfolding_all decide

/-- C9 (amended): boundary clamping.  On `CGROUP_CREATE` a supplied
shares value ≤ 0 is replaced by the default 1024 and a supplied period
≤ 0 by the default 100000 (shown for `cgroup_create` and through the
dispatcher for the appended record).  On `CGROUP_MODIFY` supplied shares
≤ 0 and period ≤ 0 are ignored: the cgroup's previous values are
retained.  Nice values are clamped into [−20, 19] by task creation and by
`task_set_nice`. -/
theorem boundary_clamp_amended :
    (∀ gid id sh q p m, sh ≤ 0 →
      (cgroup_create gid id sh q p m).cpu_shares = DEFAULT_CPU_SHARES)
  ∧ (∀ gid id sh q p m, p ≤ 0 →
      (cgroup_create gid id sh q p m).cpu_period_us = DEFAULT_CPU_PERIOD_US)
  ∧ (∀ cg sh q p m, sh ≤ 0 → (cgroup_modify cg sh q p m).cpu_shares = cg.cpu_shares)
  ∧ (∀ cg sh q p m, p ≤ 0 →
      (cgroup_modify cg sh q p m).cpu_period_us = cg.cpu_period_us)
  ∧ (∀ t n, (task_set_nice t n).nice = max NICE_MIN (min NICE_MAX n))
  ∧ (∀ tid id n cgid, (task_create tid id n cgid).nice = max NICE_MIN (min NICE_MAX n))
  ∧ (∀ s e, e.action = EventAction.cgroup_create → e.has_cpu_shares = true →
      e.cpu_shares ≤ 0 → s.cgroups.length < MAX_CGROUPS →
      ((scheduler_process_event s e).1.cgroups.getLast?).map Cgroup.cpu_shares
        = some DEFAULT_CPU_SHARES)
  ∧ (∀ s e, e.action = EventAction.cgroup_create → e.has_cpu_period = true →
      e.cpu_period_us ≤ 0 → s.cgroups.length < MAX_CGROUPS →
      ((scheduler_process_event s e).1.cgroups.getLast?).map Cgroup.cpu_period_us
        = some DEFAULT_CPU_PERIOD_US) := by
  refine ⟨?_, ?_, ?_, ?_, ?_, ?_, ?_, ?_⟩
  · intro gid id sh q p m hsh
    simp [cgroup_create, if_neg (show ¬ sh > 0 by omega)]
  · intro gid id sh q p m hp
    simp [cgroup_create, if_neg (show ¬ p > 0 by omega)]
  · intro cg sh q p m hsh
    rcases m with _ | l <;>
      simp only [cgroup_modify] <;> split_ifs <;> first | rfl | omega
  · intro cg sh q p m hp
    rcases m with _ | l <;>
      simp only [cgroup_modify] <;> split_ifs <;> first | rfl | omega
  · intro t n
    simp only [task_set_nice, NICE_MIN, NICE_MAX]
    split_ifs <;> omega
  · intro tid id n cgid
    simp only [task_create, NICE_MIN, NICE_MAX]
    split_ifs <;> omega
  · intro s e ha hs hsh hlen
    simp only [scheduler_process_event, ha, scheduler_add_cgroup,
      if_neg (show ¬ s.cgroups.length ≥ MAX_CGROUPS by omega)]
    rw [List.getLast?_concat]
    simp only [Option.map_some, cgroup_create, hs, if_pos rfl]
    simp [if_neg (show ¬ e.cpu_shares > 0 by omega)]
  · intro s e ha hp hper hlen
    simp only [scheduler_process_event, ha, scheduler_add_cgroup,
      if_neg (show ¬ s.cgroups.length ≥ MAX_CGROUPS by omega)]
    rw [List.getLast?_concat]
    simp only [Option.map_some, cgroup_create, hp, if_pos rfl]
    simp [if_neg (show ¬ e.cpu_period_us > 0 by omega)]

/-- C9 witness: the amended clamp theorem applied at concrete inputs. -/
theorem boundary_clamp_amended_witness :
    (cgroup_create 0 "g" (-3) (-1) (-7) []).cpu_shares = DEFAULT_CPU_SHARES
  ∧ (cgroup_create 0 "g" (-3) (-1) (-7) []).cpu_period_us = DEFAULT_CPU_PERIOD_US
  ∧ (cgroup_modify (cgroup_create 1 "h" 2048 (-1) 50000 []) (-5) (-2) (-7) none).cpu_shares
      = (cgroup_create 1 "h" 2048 (-1) 50000 []).cpu_shares
  ∧ (cgroup_modify (cgroup_create 1 "h" 2048 (-1) 50000 []) (-5) (-2) (-7) none).cpu_period_us
      = (cgroup_create 1 "h" 2048 (-1) 50000 []).cpu_period_us
  ∧ (task_set_nice (task_create 0 "t" 0 none) 99).nice = max NICE_MIN (min NICE_MAX 99)
  ∧ (task_create 1 "u" (-99) none).nice = max NICE_MIN (min NICE_MAX (-99))
  ∧ ((scheduler_process_event (scheduler_init 1 1)
        (ev_cgcreate_shares "g" (-3))).1.cgroups.getLast?).map Cgroup.cpu_shares
      = some DEFAULT_CPU_SHARES
  ∧ ((scheduler_process_event (scheduler_init 1 1)
        (ev_cgcreate_shares_period "g" 5 (-3))).1.cgroups.getLast?).map Cgroup.cpu_period_us
      = some DEFAULT_CPU_PERIOD_US :=
  ⟨boundary_clamp_amended.1 0 "g" (-3) (-1) (-7) [] (by decide),
   boundary_clamp_amended.2.1 0 "g" (-3) (-1) (-7) [] (by decide),
   boundary_clamp_amended.2.2.1 (cgroup_create 1 "h" 2048 (-1) 50000 []) (-5) (-2) (-7) none (by decide),
   boundary_clamp_amended.2.2.2.1 (cgroup_create 1 "h" 2048 (-1) 50000 []) (-5) (-2) (-7) none (by decide),
   boundary_clamp_amended.2.2.2.2.1 (task_create 0 "t" 0 none) 99,
   boundary_clamp_amended.2.2.2.2.2.1 1 "u" (-99) none,
   boundary_clamp_amended.2.2.2.2.2.2.1 (scheduler_init 1 1) (ev_cgcreate_shares "g" (-3))
     rfl rfl (by decide) (by decide),
   boundary_clamp_amended.2.2.2.2.2.2.2 (scheduler_init 1 1) (ev_cgcreate_shares_period "g" 5 (-3))
     rfl rfl (by decide) (by decide)⟩

theorem find_by_tid_tid {ts : List Task} {tid : Nat} {t : Task}
    (h : find_by_tid ts tid = some t) : t.tid = tid := by
  have h2 := List.find?_some h
  simpa using h2

theorem find_by_tid_mem {ts : List Task} {tid : Nat} {t : Task}
    (h : find_by_tid ts tid = some t) : t ∈ ts :=
  List.mem_of_find?_eq_some h

theorem find_by_tid_upd (ts : List Task) (tid : Nat) (f : Task → Task)
    (hf : ∀ u : Task, u.tid = tid → (f u).tid = u.tid) :
    find_by_tid (upd_task ts tid f) tid = (find_by_tid ts tid).map f := by
  induction ts with
  | nil => rfl
  | cons a l ih =>
    by_cases ha : a.tid = tid
    · have hfa : (f a).tid = tid := by rw [hf a ha, ha]
      simp [upd_task, find_by_tid, List.find?_cons, ha, hfa]
    · simp only [upd_task, List.map_cons, if_neg ha]
      simp only [upd_task, find_by_tid] at ih
      simp [find_by_tid, List.find?_cons, ha, ih]

/-- C6 (amended): for every CPU whose current task is Running with the
burst flag set, the accounting step of `scheduler_tick` leaves the task's
vruntime unchanged, while — when the task names (with a nonempty id) a
registered cgroup whose finite quota is positive and the quantum is
positive as `scheduler_init` guarantees — quantum·1000 μs are still added
to that cgroup's used total.  (A finite quota of exactly 0 is not
charged; see the counterexample.) -/
theorem burst_vruntime_frozen_quota_charged :
    ∀ s i tid t, s.slots.get? i = some (some tid) →
    find_by_tid s.tasks tid = some t →
    t.state = TaskState.running → t.is_burst = true →
    ((find_by_tid (account_cpu s i).tasks tid).map Task.vruntime = some t.vruntime)
  ∧ (∀ j cg, t.cgroup_id ≠ "" →
      s.cgroups.findIdx? (fun c => c.cgroup_id == t.cgroup_id) = some j →
      s.cgroups.get? j = some cg → 0 < cg.cpu_quota_us → 0 < s.quanta →
      ((account_cpu s i).cgroups.get? j).map Cgroup.quota_used
        = some (cg.quota_used + (s.quanta : ℚ) * 1000)) := by
  intro s i tid t hslot hfind hrun hburst
  have htid : t.tid = tid := find_by_tid_tid hfind
  constructor
  · simp only [account_cpu, hslot, hfind]
    rw [if_pos hrun, if_neg (not_not_intro hburst)]
    rw [find_by_tid_upd]
    · rw [hfind]
      split_ifs <;> rfl
    · intro u hu
      split_ifs <;> first | rfl | (simp only []; rw [htid, hu]) | rw [htid, hu] | simp [htid, hu]
  · intro j cg hcg hidx hget hq hquanta
    have hj : j < s.cgroups.length := by
      rcases lt_or_ge j s.cgroups.length with h | h
      · exact h
      · rw [List.get?_eq_none.mpr h] at hget
        cases hget
    have hrt : (0 : ℚ) < (s.quanta : ℚ) * 1000 := by
      have : (0 : ℚ) < (s.quanta : ℚ) := by exact_mod_cast hquanta
      linarith
    simp only [account_cpu, hslot, hfind]
    rw [if_pos hrun, if_neg (not_not_intro hburst), if_pos hcg]
    simp only [hidx, hget]
    rw [List.get?_eq_getElem?, List.getElem?_set_eq_of_lt _ hj]
    rw [cgroup_account_runtime, if_pos ⟨hq, hrt⟩]
    rfl

/-- C6 witness: the amended theorem applied to the reachable state
`s_posq_pre`, whose CPU 0 runs the bursting task handle 0 inside cgroup
"Q8" (quota 800000 μs): vruntime stays 0 and the cgroup is charged one
quantum. -/
theorem burst_vruntime_frozen_quota_charged_witness :
    ((find_by_tid (account_cpu s_posq_pre 0).tasks 0).map Task.vruntime = some (0 : ℚ))
  ∧ (((account_cpu s_posq_pre 0).cgroups.get? 0).map Cgroup.quota_used
      = some ((0 : ℚ) + (s_posq_pre.quanta : ℚ) * 1000)) := by
  have h := burst_vruntime_frozen_quota_charged s_posq_pre 0 0
    { tid := 0, task_id := "T", nice := 0, vruntime := 0, weight := 1024,
      state := .running, cgroup_id := "Q8", cpu_affinity := [], current_cpu := 0,
      burst_remaining := 2, heap_index := -1, is_burst := true }
    (by with_unfolding_all rfl) (by with_unfolding_all rfl) rfl rfl
  exact ⟨h.1, h.2 0
    { gid := 0, cgroup_id := "Q8", cpu_shares := 1024, cpu_quota_us := 800000,
      cpu_period_us := 100000, cpu_mask := [], quota_used := 0, period_start_vtime := 0 }
    (by decide) (by with_unfolding_all rfl) (by with_unfolding_all rfl) (by decide)
    (by with_unfolding_all decide)⟩

theorem get_eff_weight_some {s : Sched} {t : Task} {cg : Cgroup}
    (hne : t.cgroup_id ≠ "") (hfc : scheduler_find_cgroup s t.cgroup_id = some cg)
    (hs : 0 < cg.cpu_shares) :
    get_effective_task_weight s t
      = max 1 ((t.weight * cg.cpu_shares) / DEFAULT_CPU_SHARES) := by
  simp only [get_effective_task_weight, if_pos hne, hfc, if_pos hs]
  split_ifs <;> omega

theorem get_eff_weight_none {s : Sched} {t : Task}
    (hfc : scheduler_find_cgroup s t.cgroup_id = none) (hw : 1 ≤ t.weight) :
    get_effective_task_weight s t = t.weight := by
  by_cases hne : t.cgroup_id = ""
  · simp only [get_effective_task_weight, hne]
    simp only [ne_eq, not_true_eq_false, if_false, ite_false]
    rw [if_neg (by omega)]
  · simp only [get_effective_task_weight, if_pos hne, hfc]
    rw [if_neg (by omega)]

/-- C7 (amended): the per-tick vruntime delta.  For a Running, non-burst
task whose nonempty cgroup id names a registered cgroup with positive
shares s, the accounting step adds exactly
quantum · (1024 / max(1, ⌊w·s/1024⌋)); for a task whose cgroup is not in
the registry the delta is quantum · (1024 / w) (table weights satisfy
w ≥ 1).  A task with an EMPTY cgroup id is never scaled, even when a
cgroup with the empty id is registered — see the counterexample. -/
theorem vruntime_delta_formula :
    ∀ s i tid t, s.slots.get? i = some (some tid) →
    find_by_tid s.tasks tid = some t →
    t.state = TaskState.running → t.is_burst = false →
    (∀ cg, t.cgroup_id ≠ "" → scheduler_find_cgroup s t.cgroup_id = some cg →
      0 < cg.cpu_shares →
      (find_by_tid (account_cpu s i).tasks tid).map Task.vruntime
        = some (t.vruntime + (s.quanta : ℚ) * ((NICE_0_WEIGHT : ℚ) /
            (((max 1 ((t.weight * cg.cpu_shares) / DEFAULT_CPU_SHARES)) : Int) : ℚ))))
  ∧ (scheduler_find_cgroup s t.cgroup_id = none → 1 ≤ t.weight →
      (find_by_tid (account_cpu s i).tasks tid).map Task.vruntime
        = some (t.vruntime + (s.quanta : ℚ) * ((NICE_0_WEIGHT : ℚ) / (t.weight : ℚ)))) := by
  intro s i tid t hslot hfind hrun hnb
  have htid : t.tid = tid := find_by_tid_tid hfind
  have hred : (find_by_tid (account_cpu s i).tasks tid).map Task.vruntime
      = some (t.vruntime + calc_vruntime_delta (s.quanta : ℚ) (get_effective_task_weight s t)) := by
    simp only [account_cpu, hslot, hfind]
    rw [if_pos hrun, if_pos (by simp [hnb] : ¬ t.is_burst = true)]
    rw [find_by_tid_upd]
    · rw [hfind]
      split_ifs <;> rfl
    · intro u hu
      split_ifs <;> first | rfl | (simp only []; rw [htid, hu]) | rw [htid, hu] | simp [htid, hu]
  constructor
  · intro cg hne hfc hs
    rw [hred, get_eff_weight_some hne hfc hs, calc_vruntime_delta, rat_div_eq_div]
  · intro hfc hw
    rw [hred, get_eff_weight_none hfc hw, calc_vruntime_delta, rat_div_eq_div]

/-- C7 witness: the delta formula applied to the reachable states
`s_shares_pre` (task of weight 1024 in cgroup "H" with shares 512: delta
1024/512 per quantum) and `s_plain_pre` (task in the unregistered default
cgroup "0": delta 1024/1024 per quantum). -/
theorem vruntime_delta_formula_witness :
    ((find_by_tid (account_cpu s_shares_pre 0).tasks 0).map Task.vruntime
      = some ((0 : ℚ) + (s_shares_pre.quanta : ℚ) * ((NICE_0_WEIGHT : ℚ) /
          (((max 1 ((1024 * 512) / DEFAULT_CPU_SHARES)) : Int) : ℚ))))
  ∧ ((find_by_tid (account_cpu s_plain_pre 0).tasks 0).map Task.vruntime
      = some ((0 : ℚ) + (s_plain_pre.quanta : ℚ)
          * ((NICE_0_WEIGHT : ℚ) / ((1024 : Int) : ℚ)))) := by
  have h1 := (vruntime_delta_formula s_shares_pre 0 0
    { tid := 0, task_id := "T", nice := 0, vruntime := 0, weight := 1024,
      state := .running, cgroup_id := "H", cpu_affinity := [], current_cpu := 0,
      burst_remaining := 0, heap_index := -1, is_burst := false }
    (by with_unfolding_all rfl) (by with_unfolding_all rfl) rfl rfl).1
    { gid := 0, cgroup_id := "H", cpu_shares := 512, cpu_quota_us := -1,
      cpu_period_us := 100000, cpu_mask := [], quota_used := 0, period_start_vtime := 0 }
    (by decide) (by with_unfolding_all rfl) (by decide)
  have h2 := (vruntime_delta_formula s_plain_pre 0 0
    { tid := 0, task_id := "T", nice := 0, vruntime := 0, weight := 1024,
      state := .running, cgroup_id := "0", cpu_affinity := [], current_cpu := 0,
      burst_remaining := 0, heap_index := -1, is_burst := false }
    (by with_unfolding_all rfl) (by with_unfolding_all rfl) rfl rfl).2
    (by with_unfolding_all rfl) (by decide)
  exact ⟨h1, h2⟩


/-- Replacing position `k` (holding `b`) by `a` and consing `b` is a
permutation of consing `a`. -/
theorem cons_set_perm {α : Type} (a b : α) :
    ∀ (l : List α) (k : Nat), l.get? k = some b →
    List.Perm (a :: l) (b :: l.set k a) := by
  intro l
  induction l with
  | nil => intro k h; cases h
  | cons x xs ih =>
    intro k h
    cases k with
    | zero =>
      cases h
      exact List.Perm.swap _ _ _
    | succ k =>
      have h2 : xs.get? k = some b := h
      have s1 : List.Perm (a :: x :: xs) (x :: a :: xs) := List.Perm.swap _ _ _
      have s2 : List.Perm (x :: a :: xs) (x :: b :: xs.set k a) :=
        List.Perm.cons x (ih k h2)
      have s3 : List.Perm (x :: b :: xs.set k a) (b :: x :: xs.set k a) :=
        List.Perm.swap _ _ _
      show List.Perm (a :: x :: xs) (b :: x :: xs.set k a)
      exact (s1.trans s2).trans s3

/-- Swapping two positions of a list is a permutation. -/
theorem set_set_perm {α : Type} :
    ∀ (l : List α) (i j : Nat) (a b : α), l.get? i = some a → l.get? j = some b →
    List.Perm ((l.set i b).set j a) l := by
  intro l
  induction l with
  | nil => intro i j a b hi _; cases hi
  | cons x xs ih =>
    intro i j a b hi hj
    cases i with
    | zero =>
      cases hi
      cases j with
      | zero =>
        cases hj
        simp
      | succ k =>
        have hj2 : xs.get? k = some b := hj
        exact (cons_set_perm x b xs k hj2).symm
    | succ m =>
      have hi2 : xs.get? m = some a := hi
      cases j with
      | zero =>
        cases hj
        exact (cons_set_perm x a xs m hi2).symm
      | succ k =>
        have hj2 : xs.get? k = some b := hj
        simpa using List.Perm.cons x (ih m k a b hi2 hj2)


theorem map_erase_upd (ts : List Task) (tid : Nat) (f : Task → Task)
    (hf : ∀ u, erase_qpos (f u) = erase_qpos u) :
    (upd_task ts tid f).map erase_qpos = ts.map erase_qpos := by
  simp only [upd_task, List.map_map]
  apply List.map_congr_left
  intro u _
  by_cases h : u.tid = tid <;> simp [h, hf]

theorem erase_qpos_set_idx (t : Task) (i : Int) :
    erase_qpos { t with heap_index := i } = erase_qpos t := rfl

theorem map_erase_upd_idx (ts : List Task) (tid : Nat) (i : Int) :
    (upd_task ts tid (fun t => { t with heap_index := i })).map erase_qpos
      = ts.map erase_qpos :=
  map_erase_upd _ _ _ (fun _ => rfl)

theorem sk_heap_swap (s : Sched) (i j : Nat) : sk (heap_swap s i j) = sk s := by
  unfold heap_swap
  cases hi : s.heap.get? i <;> cases hj : s.heap.get? j <;> try rfl
  simp only [sk]
  rw [map_erase_upd_idx, map_erase_upd_idx]

theorem sk_bubble_up : ∀ (fuel : Nat) (s : Sched) (idx : Nat),
    sk (heap_bubble_up s fuel idx) = sk s := by
  intro fuel
  induction fuel with
  | zero => intro s idx; rfl
  | succ n ih =>
    intro s idx
    unfold heap_bubble_up
    dsimp only
    repeat' split
    all_goals first | rw [ih, sk_heap_swap] | rfl

theorem sk_bubble_down : ∀ (fuel : Nat) (s : Sched) (idx : Nat),
    sk (heap_bubble_down s fuel idx) = sk s := by
  intro fuel
  induction fuel with
  | zero => intro s idx; rfl
  | succ n ih =>
    intro s idx
    unfold heap_bubble_down
    dsimp only
    repeat' split
    all_goals first | rw [ih, sk_heap_swap] | rfl

theorem sk_heap_insert (s : Sched) (tid : Nat) : sk (heap_insert s tid) = sk s := by
  unfold heap_insert
  rw [sk_bubble_up]
  simp only [sk]
  rw [map_erase_upd_idx]

theorem sk_heap_extract (s : Sched) : sk (heap_extract_min s).2 = sk s := by
  unfold heap_extract_min
  cases hh : s.heap with
  | nil => rfl
  | cons m rest =>
    cases hlast : rest.getLast? with
    | none =>
      simp only [hlast]
      simp only [sk]
      rw [map_erase_upd_idx]
    | some last =>
      simp only [hlast]
      rw [sk_bubble_down]
      simp only [sk]
      rw [map_erase_upd_idx, map_erase_upd_idx]

theorem sk_heap_update (s : Sched) (tid : Nat) : sk (heap_update s tid) = sk s := by
  unfold heap_update
  dsimp only
  repeat' split
  all_goals try dsimp only
  all_goals first | rfl | rw [sk_bubble_up] | rw [sk_bubble_down]

theorem sk_heap_remove (s : Sched) (tid : Nat) : sk (heap_remove s tid).2 = sk s := by
  unfold heap_remove
  dsimp only
  repeat' split
  all_goals try dsimp only
  all_goals first
    | rfl
    | (rw [sk_bubble_up]; simp only [sk]; rw [map_erase_upd_idx, map_erase_upd_idx])
    | (rw [sk_bubble_down]; simp only [sk]; rw [map_erase_upd_idx, map_erase_upd_idx])
    | (simp only [sk]; rw [map_erase_upd_idx])

theorem sk_foldl_insert (l : List Nat) :
    ∀ s : Sched, sk (l.foldl heap_insert s) = sk s := by
  induction l with
  | nil => intro s; rfl
  | cons x xs ih =>
    intro s
    simp only [List.foldl_cons]
    rw [ih, sk_heap_insert]

theorem sk_rebuild (s : Sched) : sk (rebuild_runnable_heap s) = sk s := by
  unfold rebuild_runnable_heap
  have hfold : ∀ (ts : List Task) (acc : Sched),
      sk (ts.foldl (fun a t => if t.state = TaskState.runnable then heap_insert a t.tid else a) acc)
        = sk acc := by
    intro ts
    induction ts with
    | nil => intro acc; rfl
    | cons x xs ih =>
      intro acc
      simp only [List.foldl_cons]
      rw [ih]
      split
      · rw [sk_heap_insert]
      · rfl
  rw [hfold]
  simp only [sk, List.map_map]
  congr 1

theorem sk_pick_loop (cpu : Int) (pl : List (Nat × ℚ)) (tus : ℚ) :
    ∀ (fuel : Nat) (s : Sched) (deferred : List Nat),
    sk (pick_loop cpu pl tus s deferred fuel).2.1 = sk s := by
  intro fuel
  induction fuel with
  | zero => intro s d; rfl
  | succ n ih =>
    intro s d
    have hsk1 : sk (heap_extract_min s).2 = sk s := sk_heap_extract s
    rcases hext : heap_extract_min s with ⟨sel, s1⟩
    rw [hext] at hsk1
    unfold pick_loop
    simp only [hext]
    cases sel with
    | none => exact hsk1
    | some ctid =>
      dsimp only
      cases hfd : find_by_tid s1.tasks ctid with
      | none => simp only [hfd]; exact hsk1
      | some cand =>
        simp only [hfd]
        repeat' split
        all_goals first | (rw [ih]; exact hsk1) | exact hsk1

theorem sk_pick (s : Sched) (cpu : Int) (pl : List (Nat × ℚ)) (tus : ℚ) :
    sk (pick_task_for_cpu s cpu pl tus).2.1 = sk s := by
  unfold pick_task_for_cpu
  rcases hl : pick_loop cpu pl tus s [] (s.heap.length + 1) with ⟨sel, s1, defr⟩
  have h1 : sk (pick_loop cpu pl tus s [] (s.heap.length + 1)).2.1 = sk s :=
    sk_pick_loop cpu pl tus _ s []
  rw [hl] at h1
  simp only [hl]
  rw [sk_foldl_insert]
  exact h1


/-- C8 (amended): `scheduler_process_event` reports failure (a nonzero
return) exactly for an unrecognized action; events referencing a missing
task or cgroup are silently ignored.  Whatever the events of a frame did
or failed to do, the frame still yields a decision record echoing the
frame's virtual time, with one schedule entry per CPU. -/
theorem event_failure_exactly_invalid_action (s : Sched) (e : Event) :
    ((scheduler_process_event s e).2 ≠ 0 ↔ e.action = EventAction.invalid) ∧
    ∀ tf : TimeFrame, (process_frame s tf).1.vtime = tf.vtime := by
  constructor
  · have hc : (scheduler_process_event s e).2
        = if e.action = EventAction.invalid then -1 else 0 := by
      unfold scheduler_process_event
      cases e.action <;> dsimp only <;> (repeat' split) <;>
        first
          | rfl
          | simp_all
    rw [hc]
    rcases eq_or_ne e.action EventAction.invalid with h | h
    · rw [if_pos h]; simp [h]
    · rw [if_neg h]; simp [h]
  · intro tf
    rfl


/-- A `get?` hit is a member. -/
theorem mem_of_getq {α : Type} :
    ∀ (l : List α) (i : Nat) (a : α), l.get? i = some a → a ∈ l := by
  intro l
  induction l with
  | nil => intro i a h; cases h
  | cons x xs ih =>
    intro i a h
    cases i with
    | zero => cases h; exact List.mem_cons_self x xs
    | succ j => exact List.mem_cons_of_mem x (ih j a h)

/-- Writing back the element already present leaves the list unchanged. -/
theorem set_getq_self {α : Type} :
    ∀ (l : List α) (i : Nat) (a : α), l.get? i = some a → l.set i a = l := by
  intro l
  induction l with
  | nil => intro i a h; cases h
  | cons x xs ih =>
    intro i a h
    cases i with
    | zero => cases h; rfl
    | succ j =>
      show x :: xs.set j a = x :: xs
      rw [ih j a h]

/-- `get?` at the position just written. -/
theorem getq_set_self {α : Type} :
    ∀ (l : List α) (i : Nat) (a b : α), l.get? i = some b → (l.set i a).get? i = some a := by
  intro l
  induction l with
  | nil => intro i a b h; cases h
  | cons x xs ih =>
    intro i a b h
    cases i with
    | zero => rfl
    | succ j => exact ih j a b h

/-- The last element closes the `dropLast` decomposition. -/
theorem dropLast_append_getLast {α : Type} :
    ∀ (l : List α) (a : α), l.getLast? = some a → l.dropLast ++ [a] = l := by
  intro l
  induction l with
  | nil => intro a h; cases h
  | cons x xs ih =>
    intro a h
    cases xs with
    | nil =>
      simp only [List.getLast?_singleton, Option.some.injEq] at h
      subst h
      rfl
    | cons y ys =>
      rw [List.getLast?_cons_cons] at h
      have h2 := ih a h
      simp only [List.dropLast_cons₂, List.cons_append, h2]

/-- `heap_swap` permutes the queue. -/
theorem heap_swap_perm (s : Sched) (i j : Nat) : (heap_swap s i j).heap.Perm s.heap := by
  unfold heap_swap
  cases hi : s.heap.get? i with
  | none => cases hj : s.heap.get? j <;> exact List.Perm.refl _
  | some a =>
    cases hj : s.heap.get? j with
    | none => exact List.Perm.refl _
    | some b => exact set_set_perm s.heap i j a b hi hj

/-- Sifting up permutes the queue. -/
theorem heap_bubble_up_perm : ∀ (fuel : Nat) (s : Sched) (idx : Nat),
    (heap_bubble_up s fuel idx).heap.Perm s.heap := by
  intro fuel
  induction fuel with
  | zero => intro s idx; exact List.Perm.refl _
  | succ n ih =>
    intro s idx
    unfold heap_bubble_up
    dsimp only
    repeat' split
    all_goals first
      | exact List.Perm.refl _
      | exact (ih _ _).trans (heap_swap_perm _ _ _)

/-- Sifting down permutes the queue. -/
theorem heap_bubble_down_perm : ∀ (fuel : Nat) (s : Sched) (idx : Nat),
    (heap_bubble_down s fuel idx).heap.Perm s.heap := by
  intro fuel
  induction fuel with
  | zero => intro s idx; exact List.Perm.refl _
  | succ n ih =>
    intro s idx
    unfold heap_bubble_down
    dsimp only
    repeat' split
    all_goals first
      | exact List.Perm.refl _
      | exact (ih _ _).trans (heap_swap_perm _ _ _)

/-- `heap_insert` adds exactly the new handle to the queue. -/
theorem heap_insert_perm (s : Sched) (tid : Nat) :
    (heap_insert s tid).heap.Perm (tid :: s.heap) := by
  unfold heap_insert
  dsimp only
  exact (heap_bubble_up_perm _ _ _).trans (List.perm_append_singleton _ _)

/-- `heap_extract_min` either finds an empty queue or removes exactly the
returned handle. -/
theorem heap_extract_min_perm (s : Sched) :
    ((heap_extract_min s).1 = none ∧ (heap_extract_min s).2.heap = s.heap) ∨
    (∃ m, (heap_extract_min s).1 = some m ∧
      s.heap.Perm (m :: (heap_extract_min s).2.heap)) := by
  unfold heap_extract_min
  cases hh : s.heap with
  | nil => exact Or.inl ⟨rfl, hh⟩
  | cons m rest =>
    cases hlast : rest.getLast? with
    | none =>
      simp only [hlast]
      have hr : rest = [] := by
        cases rest with
        | nil => rfl
        | cons y ys =>
          exfalso
          have hs : (y :: ys).getLast?.isSome := by
            rw [List.getLast?_isSome]
            exact List.cons_ne_nil y ys
          rw [hlast] at hs
          exact Bool.noConfusion hs
      subst hr
      exact Or.inr ⟨m, rfl, List.Perm.refl _⟩
    | some last =>
      simp only [hlast]
      refine Or.inr ⟨m, rfl, List.Perm.cons m ?_⟩
      have h2 : rest.dropLast ++ [last] = rest := dropLast_append_getLast rest last hlast
      have h3 : rest.Perm (last :: rest.dropLast) := by
        conv_lhs => rw [← h2]
        exact List.perm_append_singleton _ _
      refine h3.trans (List.Perm.symm ?_)
      exact heap_bubble_down_perm _ _ _


/-- `get?` inside a `take` prefix. -/
theorem take_getq {α : Type} :
    ∀ (l : List α) (n i : Nat), i < n → (l.take n).get? i = l.get? i := by
  intro l
  induction l with
  | nil => intro n i _; simp
  | cons x xs ih =>
    intro n i hin
    cases n with
    | zero => cases hin
    | succ m =>
      cases i with
      | zero => rfl
      | succ j => exact ih m j (Nat.lt_of_succ_lt_succ hin)

/-- Splitting a list at a known position. -/
theorem take_append_getq {α : Type} :
    ∀ (l : List α) (n : Nat) (a : α), l.get? n = some a → l.take n ++ [a] = l.take (n + 1) := by
  intro l
  induction l with
  | nil => intro n a h; cases h
  | cons x xs ih =>
    intro n a h
    cases n with
    | zero =>
      cases h
      rfl
    | succ m =>
      show x :: (xs.take m ++ [a]) = x :: xs.take (m + 1)
      rw [ih m a h]

/-- `heap_update` permutes the queue. -/
theorem heap_update_perm (s : Sched) (tid : Nat) :
    (heap_update s tid).heap.Perm s.heap := by
  unfold heap_update
  repeat' first | split | dsimp only
  all_goals first
    | exact List.Perm.refl _
    | exact heap_bubble_up_perm _ _ _
    | exact heap_bubble_down_perm _ _ _

/-- A valid `heap_remove` removes exactly the given handle from the
queue. -/
theorem heap_remove_perm (s : Sched) (tid : Nat) (t : Task)
    (hf : find_by_tid s.tasks tid = some t)
    (hrange : ¬ (t.heap_index < 0 ∨ t.heap_index ≥ (s.heap.length : Int)))
    (hacc : s.heap.get? t.heap_index.toNat = some tid) :
    s.heap.Perm (tid :: (heap_remove s tid).2.heap) := by
  have hlen : t.heap_index.toNat < s.heap.length := by
    push_neg at hrange
    omega
  have hsplit : s.heap.take (s.heap.length - 1) ++ [(s.heap.get? (s.heap.length - 1)).getD 0]
      = s.heap := by
    have hn : s.heap.length - 1 < s.heap.length := by omega
    cases hg : s.heap.get? (s.heap.length - 1) with
    | none =>
      exfalso
      rw [List.get?_eq_none] at hg
      omega
    | some a =>
      have := take_append_getq s.heap (s.heap.length - 1) a hg
      simp only [Option.getD_some]
      rw [this]
      have : s.heap.length - 1 + 1 = s.heap.length := by omega
      rw [this, List.take_length]
  unfold heap_remove
  simp only [hf]
  rw [if_neg hrange]
  try dsimp only
  split
  · rename_i hidx
    have hgetq : (s.heap.take (s.heap.length - 1)).get? t.heap_index.toNat = some tid := by
      rw [take_getq s.heap (s.heap.length - 1) t.heap_index.toNat hidx]
      exact hacc
    have hcore : s.heap.Perm
        (tid :: (s.heap.take (s.heap.length - 1)).set t.heap_index.toNat
          ((s.heap.get? (s.heap.length - 1)).getD 0)) := by
      have h1 : List.Perm s.heap
          (((s.heap.get? (s.heap.length - 1)).getD 0) :: s.heap.take (s.heap.length - 1)) := by
        conv_lhs => rw [← hsplit]
        exact List.perm_append_singleton _ _
      exact h1.trans (cons_set_perm _ tid _ t.heap_index.toNat hgetq)
    split
    · refine hcore.trans (List.Perm.cons tid (List.Perm.symm ?_))
      exact heap_bubble_up_perm _ _ _
    · refine hcore.trans (List.Perm.cons tid (List.Perm.symm ?_))
      exact heap_bubble_down_perm _ _ _
  · rename_i hidx
    have hieq : t.heap_index.toNat = s.heap.length - 1 := by omega
    have hg2 : s.heap.get? (s.heap.length - 1) = some tid := by
      rw [← hieq]; exact hacc
    have : s.heap.take (s.heap.length - 1) ++ [tid] = s.heap := by
      have := hsplit
      rw [hg2] at this
      simpa using this
    conv_lhs => rw [← this]
    exact List.perm_append_singleton _ _

/-- The running fold of `get_min_vruntime`, fed an already-found minimum,
never goes up. -/
theorem min_fold_mono :
    ∀ (l : List Task) (w : ℚ),
    ∃ v, l.foldl
      (fun acc t =>
        if t.state = TaskState.runnable ∨ t.state = TaskState.running then
          match acc with
          | none => some t.vruntime
          | some v => if t.vruntime < v then some t.vruntime else some v
        else acc)
      (some w) = some v ∧ v ≤ w := by
  intro l
  induction l with
  | nil => intro w; exact ⟨w, rfl, le_refl w⟩
  | cons x xs ih =>
    intro w
    simp only [List.foldl_cons]
    by_cases hx : x.state = TaskState.runnable ∨ x.state = TaskState.running
    · rw [if_pos hx]
      by_cases hlt : x.vruntime < w
      · rw [if_pos hlt]
        obtain ⟨v, hv, hle⟩ := ih x.vruntime
        exact ⟨v, hv, le_trans hle (le_of_lt hlt)⟩
      · rw [if_neg hlt]
        exact ih w
    · rw [if_neg hx]
      exact ih w

/-- The fold of `get_min_vruntime` lands at or below every Runnable or
Running member. -/
theorem min_fold_le :
    ∀ (l : List Task) (acc : Option ℚ) (t : Task), t ∈ l →
    (t.state = TaskState.runnable ∨ t.state = TaskState.running) →
    ∃ v, l.foldl
      (fun acc t =>
        if t.state = TaskState.runnable ∨ t.state = TaskState.running then
          match acc with
          | none => some t.vruntime
          | some v => if t.vruntime < v then some t.vruntime else some v
        else acc)
      acc = some v ∧ v ≤ t.vruntime := by
  intro l
  induction l with
  | nil => intro acc t h; cases h
  | cons x xs ih =>
    intro acc t hmem hr
    simp only [List.foldl_cons]
    rcases List.mem_cons.mp hmem with heq | hx
    · subst heq
      rw [if_pos hr]
      cases acc with
      | none => exact min_fold_mono xs t.vruntime
      | some w =>
        dsimp only
        by_cases hlt : t.vruntime < w
        · rw [if_pos hlt]
          exact min_fold_mono xs t.vruntime
        · rw [if_neg hlt]
          obtain ⟨v, hv, hle⟩ := min_fold_mono xs w
          exact ⟨v, hv, le_trans hle (not_lt.mp hlt)⟩
    · exact ih _ t hx hr

/-- The queue-wide minimum is at or below every Runnable or Running
task's vruntime. -/
theorem get_min_vruntime_le (s : Sched) (t : Task) (ht : t ∈ s.tasks)
    (hr : t.state = TaskState.runnable ∨ t.state = TaskState.running) :
    get_min_vruntime s ≤ t.vruntime := by
  unfold get_min_vruntime
  obtain ⟨v, hv, hle⟩ := min_fold_le s.tasks none t ht hr
  rw [hv]
  exact hle

/-- `get_min_vruntime` reads only the skeleton of the task list. -/
theorem min_fold_congr :
    ∀ (l1 l2 : List Task), l1.map erase_qpos = l2.map erase_qpos →
    ∀ acc : Option ℚ,
    l1.foldl
      (fun acc t =>
        if t.state = TaskState.runnable ∨ t.state = TaskState.running then
          match acc with
          | none => some t.vruntime
          | some v => if t.vruntime < v then some t.vruntime else some v
        else acc)
      acc =
    l2.foldl
      (fun acc t =>
        if t.state = TaskState.runnable ∨ t.state = TaskState.running then
          match acc with
          | none => some t.vruntime
          | some v => if t.vruntime < v then some t.vruntime else some v
        else acc)
      acc := by
  intro l1
  induction l1 with
  | nil =>
    intro l2 h acc
    cases l2 with
    | nil => rfl
    | cons y ys => cases h
  | cons x xs ih =>
    intro l2 h acc
    cases l2 with
    | nil => cases h
    | cons y ys =>
      simp only [List.map_cons, List.cons.injEq] at h
      have hst : x.state = y.state := by
        have h3 := congrArg Task.state h.1
        exact h3
      have hvr : x.vruntime = y.vruntime := by
        have h4 := congrArg Task.vruntime h.1
        exact h4
      simp only [List.foldl_cons]
      rw [hst, hvr]
      exact ih ys h.2 _

/-- Skeleton-equal states have equal queue-wide minima. -/
theorem get_min_congr (s s2 : Sched)
    (h : s.tasks.map erase_qpos = s2.tasks.map erase_qpos) :
    get_min_vruntime s = get_min_vruntime s2 := by
  unfold get_min_vruntime
  rw [min_fold_congr s.tasks s2.tasks h none]


/-- C4: a `TASK_UNBLOCK` for a registered Blocked task makes the task
Runnable, enqueues it into the runnable queue, and its new vruntime is
`max current (min_runnable_vruntime − 1)`, the minimum read over the
resulting state (where the task itself already counts as Runnable). -/
theorem unblock_latency_bonus (s : Sched) (id : String) (i : Nat) (t : Task)
    (hi : find_task_idx s.tasks id = some i)
    (ht : s.tasks.get? i = some t)
    (hb : t.state = TaskState.blocked) :
    ∃ u, (scheduler_process_event s (ev_unblock id)).1.tasks.get? i = some u ∧
      u.tid = t.tid ∧ u.state = TaskState.runnable ∧
      t.tid ∈ (scheduler_process_event s (ev_unblock id)).1.heap ∧
      u.vruntime = max t.vruntime
        (get_min_vruntime (scheduler_process_event s (ev_unblock id)).1 - 1) := by
  have hred : (scheduler_process_event s (ev_unblock id)).1 = heap_insert { s with tasks := set_task_at (set_task_at s.tasks i (fun u => { u with state := TaskState.runnable })) i (fun u => if u.vruntime < get_min_vruntime { s with tasks := set_task_at s.tasks i (fun u => { u with state := TaskState.runnable }) } - 1 then { u with vruntime := get_min_vruntime { s with tasks := set_task_at s.tasks i (fun u => { u with state := TaskState.runnable }) } - 1 } else u) } t.tid := by
    simp only [scheduler_process_event, ev_unblock, mk_task_event, hi, ht]
    rw [if_pos hb]
  have hts1 : (set_task_at s.tasks i (fun u => { u with state := TaskState.runnable })).get? i = some { t with state := TaskState.runnable } := by
    unfold set_task_at
    simp only [ht]
    exact getq_set_self s.tasks i _ t ht
  have hmem : { t with state := TaskState.runnable } ∈ set_task_at s.tasks i (fun u => { u with state := TaskState.runnable }) :=
    mem_of_getq _ i _ hts1
  have hmin : get_min_vruntime { s with tasks := set_task_at s.tasks i (fun u => { u with state := TaskState.runnable }) } ≤ t.vruntime :=
    get_min_vruntime_le _ { t with state := TaskState.runnable } hmem (Or.inl rfl)
  have hguard : ¬ (t.vruntime < get_min_vruntime { s with tasks := set_task_at s.tasks i (fun u => { u with state := TaskState.runnable }) } - 1) := by
    intro hc
    linarith
  have htasks2 : set_task_at (set_task_at s.tasks i (fun u => { u with state := TaskState.runnable })) i (fun u => if u.vruntime < get_min_vruntime { s with tasks := set_task_at s.tasks i (fun u => { u with state := TaskState.runnable }) } - 1 then { u with vruntime := get_min_vruntime { s with tasks := set_task_at s.tasks i (fun u => { u with state := TaskState.runnable }) } - 1 } else u) = set_task_at s.tasks i (fun u => { u with state := TaskState.runnable }) := by
    conv_lhs => rw [set_task_at]
    rw [hts1]
    dsimp only
    rw [if_neg hguard]
    exact set_getq_self _ i _ hts1
  rw [htasks2] at hred
  rw [hred]
  have hsk : sk (heap_insert { s with tasks := set_task_at s.tasks i (fun u => { u with state := TaskState.runnable }) } t.tid) = sk { s with tasks := set_task_at s.tasks i (fun u => { u with state := TaskState.runnable }) } :=
    sk_heap_insert _ t.tid
  have htmap : (heap_insert { s with tasks := set_task_at s.tasks i (fun u => { u with state := TaskState.runnable }) } t.tid).tasks.map erase_qpos = (set_task_at s.tasks i (fun u => { u with state := TaskState.runnable })).map erase_qpos := by
    have h5 := congrArg Sched.tasks hsk
    exact h5
  have hgimage : ((heap_insert { s with tasks := set_task_at s.tasks i (fun u => { u with state := TaskState.runnable }) } t.tid).tasks.get? i).map erase_qpos
      = some (erase_qpos { t with state := TaskState.runnable }) := by
    rw [← List.get?_map, htmap, List.get?_map, hts1]
    rfl
  have hming : get_min_vruntime (heap_insert { s with tasks := set_task_at s.tasks i (fun u => { u with state := TaskState.runnable }) } t.tid) = get_min_vruntime { s with tasks := set_task_at s.tasks i (fun u => { u with state := TaskState.runnable }) } :=
    get_min_congr _ _ htmap
  cases hu : (heap_insert { s with tasks := set_task_at s.tasks i (fun u => { u with state := TaskState.runnable }) } t.tid).tasks.get? i with
  | none =>
    rw [hu] at hgimage
    cases hgimage
  | some u =>
    rw [hu] at hgimage
    simp only [Option.map_some', Option.some.injEq] at hgimage
    have hutid : u.tid = t.tid := by
      have h6 := congrArg Task.tid hgimage
      exact h6
    have hustate : u.state = TaskState.runnable := by
      have h7 := congrArg Task.state hgimage
      exact h7
    have huvr : u.vruntime = t.vruntime := by
      have h8 := congrArg Task.vruntime hgimage
      exact h8
    refine ⟨u, rfl, hutid, hustate, ?_, ?_⟩
    · exact (heap_insert_perm _ t.tid).mem_iff.mpr (List.mem_cons_self _ _)
    · rw [huvr, hming]
      have h9 : get_min_vruntime { s with tasks := set_task_at s.tasks i (fun u => { u with state := TaskState.runnable }) } - 1 ≤ t.vruntime := by
        linarith
      rw [max_eq_left h9]

/-- Witness for C4: unblocking the blocked "T1" of `s_blocked`. -/
theorem unblock_latency_bonus_witness :
    find_task_idx s_blocked.tasks "T1" = some 0 ∧
    s_blocked.tasks.get? 0 = some { tid := 0, task_id := "T1", nice := 0, vruntime := 0, weight := 1024, state := TaskState.blocked, cgroup_id := "0", cpu_affinity := [], current_cpu := -1, burst_remaining := 0, heap_index := -1, is_burst := false } ∧
    (∃ u, (scheduler_process_event s_blocked (ev_unblock "T1")).1.tasks.get? 0 = some u ∧
      u.tid = 0 ∧ u.state = TaskState.runnable ∧
      0 ∈ (scheduler_process_event s_blocked (ev_unblock "T1")).1.heap ∧
      u.vruntime = max 0
        (get_min_vruntime (scheduler_process_event s_blocked (ev_unblock "T1")).1 - 1)) := by
  refine ⟨by with_unfolding_all rfl, by with_unfolding_all rfl, ?_⟩
  exact unblock_latency_bonus s_blocked "T1" 0 { tid := 0, task_id := "T1", nice := 0, vruntime := 0, weight := 1024, state := TaskState.blocked, cgroup_id := "0", cpu_affinity := [], current_cpu := -1, burst_remaining := 0, heap_index := -1, is_burst := false }
    (by with_unfolding_all rfl) (by with_unfolding_all rfl) rfl


/-- `findIdx?` with a shifted start index. -/
theorem findIdxq_shift {α : Type} (p : α → Bool) :
    ∀ (l : List α) (i : Nat),
    List.findIdx? p l (i + 1) = (List.findIdx? p l i).map (fun k => k + 1) := by
  intro l
  induction l with
  | nil => intro i; rfl
  | cons x xs ih =>
    intro i
    simp only [List.findIdx?_cons]
    by_cases hp : p x = true
    · rw [if_pos hp, if_pos hp]
      rfl
    · rw [if_neg hp, if_neg hp]
      rw [ih (i + 1), ih i]

/-- `find_task_idx` reads only the skeleton of the task list. -/
theorem find_task_idx_congr (id : String) :
    ∀ l1 l2 : List Task, l1.map erase_qpos = l2.map erase_qpos →
    find_task_idx l1 id = find_task_idx l2 id := by
  intro l1
  induction l1 with
  | nil =>
    intro l2 h
    cases l2 with
    | nil => rfl
    | cons y ys => cases h
  | cons x xs ih =>
    intro l2 h
    cases l2 with
    | nil => cases h
    | cons y ys =>
      simp only [List.map_cons, List.cons.injEq] at h
      have hid : x.task_id = y.task_id := by
        have h3 := congrArg Task.task_id h.1
        exact h3
      unfold find_task_idx
      simp only [List.findIdx?_cons, hid]
      rw [findIdxq_shift _ xs 0, findIdxq_shift _ ys 0]
      have h4 := ih ys h.2
      unfold find_task_idx at h4
      rw [h4]

/-- A `findIdx?` hit in a prefix survives appending. -/
theorem find_task_idx_append (id : String) (l2 : List Task) :
    ∀ (l : List Task) (j : Nat), find_task_idx l id = some j →
    find_task_idx (l ++ l2) id = some j := by
  intro l
  induction l with
  | nil => intro j h; cases h
  | cons x xs ih =>
    intro j h
    unfold find_task_idx at h ⊢
    simp only [List.cons_append, List.findIdx?_cons] at h ⊢
    rw [findIdxq_shift] at h ⊢
    by_cases hp : (x.task_id == id) = true
    · rw [if_pos hp] at h ⊢
      exact h
    · rw [if_neg hp] at h ⊢
      cases hx : List.findIdx? (fun t => t.task_id == id) xs with
      | none =>
        rw [hx] at h
        cases h
      | some k =>
        rw [hx] at h
        have h5 : find_task_idx (xs ++ l2) id = some k := by
          apply ih
          unfold find_task_idx
          exact hx
        unfold find_task_idx at h5
        rw [h5]
        exact h

/-- With room in the registry, `scheduler_add_task` appends exactly the
given record (up to the queue back-pointer). -/
theorem add_task_skeleton (s : Sched) (t : Task) (hroom : s.tasks.length < MAX_TASKS) :
    (scheduler_add_task s t).1.tasks.map erase_qpos
      = s.tasks.map erase_qpos ++ [erase_qpos t] := by
  unfold scheduler_add_task
  rw [if_neg (by omega : ¬ s.tasks.length ≥ MAX_TASKS)]
  dsimp only
  split
  · have h : (heap_insert { s with tasks := s.tasks ++ [t] } t.tid).tasks.map erase_qpos
        = (s.tasks ++ [t]).map erase_qpos := by
      have h2 := congrArg Sched.tasks (sk_heap_insert { s with tasks := s.tasks ++ [t] } t.tid)
      exact h2
    rw [h, List.map_append]
    rfl
  · rw [List.map_append]
    rfl

/-- C5 (amended): `TASK_CREATE` performs no existence check — with room in
the registry it appends a fresh record even when the id already exists;
existing records keep their skeleton and the id lookup still returns the
first, pre-existing record. -/
theorem task_create_appends_despite_duplicate (s : Sched) (e : Event) (j : Nat)
    (ha : e.action = EventAction.task_create)
    (hroom : s.tasks.length < MAX_TASKS)
    (hj : find_task_idx s.tasks e.task_id = some j) :
    (scheduler_process_event s e).1.tasks.length = s.tasks.length + 1 ∧
    (∃ nt, (scheduler_process_event s e).1.tasks.map erase_qpos
        = s.tasks.map erase_qpos ++ [erase_qpos nt] ∧
      nt.task_id = e.task_id ∧ nt.tid = s.next_tid) ∧
    find_task_idx (scheduler_process_event s e).1.tasks e.task_id = some j := by
  have key : ∀ t2 : Task, t2.task_id = e.task_id → t2.tid = s.next_tid →
      (scheduler_add_task { s with next_tid := s.next_tid + 1 } t2).1.tasks.length
        = s.tasks.length + 1 ∧
      (∃ nt, (scheduler_add_task { s with next_tid := s.next_tid + 1 } t2).1.tasks.map erase_qpos
          = s.tasks.map erase_qpos ++ [erase_qpos nt] ∧
        nt.task_id = e.task_id ∧ nt.tid = s.next_tid) ∧
      find_task_idx (scheduler_add_task { s with next_tid := s.next_tid + 1 } t2).1.tasks
        e.task_id = some j := by
    intro t2 hid htid
    have hmap : (scheduler_add_task { s with next_tid := s.next_tid + 1 } t2).1.tasks.map erase_qpos
        = s.tasks.map erase_qpos ++ [erase_qpos t2] :=
      add_task_skeleton { s with next_tid := s.next_tid + 1 } t2 hroom
    refine ⟨?_, ⟨t2, hmap, hid, htid⟩, ?_⟩
    · have hlen := congrArg List.length hmap
      simp only [List.length_map, List.length_append, List.length_cons,
        List.length_nil] at hlen
      omega
    · have hcg : (scheduler_add_task { s with next_tid := s.next_tid + 1 } t2).1.tasks.map
          erase_qpos = (s.tasks ++ [t2]).map erase_qpos := by
        rw [hmap, List.map_append]
        rfl
      rw [find_task_idx_congr e.task_id _ _ hcg]
      exact find_task_idx_append e.task_id [t2] s.tasks j hj
  simp only [scheduler_process_event, ha]
  try dsimp only
  refine key _ ?_ ?_
  · cases e.has_cpu_mask <;> rfl
  · cases e.has_cpu_mask <;> rfl

/-- Witness for C5: a second `TASK_CREATE` for the already-registered
id "A" of `s_one`. -/
theorem task_create_appends_despite_duplicate_witness :
    (ev_create "A").action = EventAction.task_create ∧
    s_one.tasks.length < MAX_TASKS ∧
    find_task_idx s_one.tasks (ev_create "A").task_id = some 0 ∧
    ((scheduler_process_event s_one (ev_create "A")).1.tasks.length
        = s_one.tasks.length + 1 ∧
      (∃ nt, (scheduler_process_event s_one (ev_create "A")).1.tasks.map erase_qpos
          = s_one.tasks.map erase_qpos ++ [erase_qpos nt] ∧
        nt.task_id = (ev_create "A").task_id ∧ nt.tid = s_one.next_tid) ∧
      find_task_idx (scheduler_process_event s_one (ev_create "A")).1.tasks
        (ev_create "A").task_id = some 0) :=
  ⟨rfl, by with_unfolding_all decide, by with_unfolding_all rfl,
    task_create_appends_despite_duplicate s_one (ev_create "A") 0 rfl
      (by with_unfolding_all decide) (by with_unfolding_all rfl)⟩


/-- Mapping after an image-preserving per-element rewrite. -/
theorem map_map_id_pres {α β : Type} (f : α → β) (g : α → α)
    (h : ∀ x, f (g x) = f x) :
    ∀ l : List α, (l.map g).map f = l.map f := by
  intro l
  induction l with
  | nil => rfl
  | cons x xs ih =>
    simp only [List.map_cons, h x, ih]

/-- Mapping after an image-preserving single-position write. -/
theorem map_set_id_pres {α β : Type} (f : α → β) :
    ∀ (l : List α) (j : Nat) (a b : α), l.get? j = some a → f b = f a →
    (l.set j b).map f = l.map f := by
  intro l
  induction l with
  | nil => intro j a b h _; cases h
  | cons x xs ih =>
    intro j a b h hf
    cases j with
    | zero =>
      cases h
      show f b :: xs.map f = f x :: xs.map f
      rw [hf]
    | succ k =>
      show f x :: (xs.set k b).map f = f x :: xs.map f
      rw [ih k a b h hf]

/-- The last element is a member. -/
theorem mem_of_getLast {α : Type} (l : List α) (a : α) (h : l.getLast? = some a) :
    a ∈ l := by
  have h2 := dropLast_append_getLast l a h
  rw [← h2]
  exact List.mem_append_right _ (List.mem_cons_self a [])

/-- The swap-remove of array deletion only keeps ids that were present. -/
theorem mem_map_swap_remove {α β : Type} (f : α → β) (l : List α) (i : Nat) (a : α)
    (ha : l.getLast? = some a) :
    ∀ x ∈ ((l.set i a).dropLast).map f, x ∈ l.map f := by
  intro x hx
  obtain ⟨y, hy, hfy⟩ := List.mem_map.mp hx
  have hy2 : y ∈ l.set i a := (List.dropLast_sublist _).mem hy
  rcases List.mem_or_eq_of_mem_set hy2 with hmem | rfl
  · exact hfy ▸ List.mem_map_of_mem f hmem
  · exact hfy ▸ List.mem_map_of_mem f (mem_of_getLast l y ha)

/-- `cgroup_account_runtime` keeps the cgroup's id. -/
theorem cgroup_account_runtime_id (cg : Cgroup) (r : ℚ) :
    (cgroup_account_runtime cg r).cgroup_id = cg.cgroup_id := by
  unfold cgroup_account_runtime
  split <;> rfl

/-- `account_cpu` never renames or creates cgroups. -/
theorem cgid_account (s : Sched) (i : Nat) :
    (account_cpu s i).cgroups.map Cgroup.cgroup_id
      = s.cgroups.map Cgroup.cgroup_id := by
  unfold account_cpu
  repeat' first | split | dsimp only
  all_goals first
    | rfl
    | (rename_i hget
       exact map_set_id_pres _ _ _ _ _ hget (cgroup_account_runtime_id _ _))

/-- `refresh_cgroup_periods` never renames or creates cgroups. -/
theorem cgid_refresh (s : Sched) (v : Int) :
    (refresh_cgroup_periods s v).cgroups.map Cgroup.cgroup_id
      = s.cgroups.map Cgroup.cgroup_id := by
  unfold refresh_cgroup_periods
  dsimp only
  apply map_map_id_pres
  intro cg
  repeat' split
  all_goals rfl

/-- Folding `account_cpu` never renames or creates cgroups. -/
theorem cgid_fold_account (l : List Nat) :
    ∀ s : Sched, ((l.foldl account_cpu s).cgroups.map Cgroup.cgroup_id)
      = s.cgroups.map Cgroup.cgroup_id := by
  induction l with
  | nil => intro s; rfl
  | cons x xs ih =>
    intro s
    simp only [List.foldl_cons]
    rw [ih, cgid_account]

/-- Task selection leaves the cgroup registry untouched. -/
theorem cgid_pick (s : Sched) (cpu : Int) (pl : List (Nat × ℚ)) (tus : ℚ) :
    (pick_task_for_cpu s cpu pl tus).2.1.cgroups = s.cgroups := by
  have h := congrArg Sched.cgroups (sk_pick s cpu pl tus)
  exact h

/-- The per-CPU selection body leaves the cgroup registry untouched. -/
theorem cgid_select (tus : ℚ) (previous : List (Option Nat)) (ps : PickState)
    (cpu : Nat) :
    (select_cpu tus previous ps cpu).s.cgroups = ps.s.cgroups := by
  have h := cgid_pick ps.s (cpu : Int) ps.planned tus
  rcases hp : pick_task_for_cpu ps.s (cpu : Int) ps.planned tus with ⟨sel, s1, pl1⟩
  rw [hp] at h
  unfold select_cpu
  simp only [hp]
  cases sel with
  | none => exact h
  | some btid =>
    dsimp only
    repeat' first | split | dsimp only
    all_goals exact h

/-- Folding the selection body leaves the cgroup registry untouched. -/
theorem cgid_fold_select (tus : ℚ) (previous : List (Option Nat)) (l : List Nat) :
    ∀ ps : PickState,
    ((l.foldl (select_cpu tus previous) ps).s.cgroups) = ps.s.cgroups := by
  induction l with
  | nil => intro ps; rfl
  | cons x xs ih =>
    intro ps
    simp only [List.foldl_cons]
    rw [ih, cgid_select]

/-- The queue rebuild leaves the cgroup registry untouched. -/
theorem cgid_rebuild (s : Sched) : (rebuild_runnable_heap s).cgroups = s.cgroups := by
  have h := congrArg Sched.cgroups (sk_rebuild s)
  exact h

/-- A tick never renames or creates cgroups. -/
theorem cgid_tick (s : Sched) (v : Int) :
    (scheduler_tick s v).2.cgroups.map Cgroup.cgroup_id
      = s.cgroups.map Cgroup.cgroup_id := by
  unfold scheduler_tick
  dsimp only
  rw [cgid_fold_select, cgid_rebuild, cgid_fold_account, cgid_refresh]

/-- Heap removal leaves the cgroup registry untouched. -/
theorem heap_remove_cgroups (s : Sched) (tid : Nat) :
    (heap_remove s tid).2.cgroups = s.cgroups := by
  have h := congrArg Sched.cgroups (sk_heap_remove s tid)
  exact h

/-- Heap insertion leaves the cgroup registry untouched. -/
theorem heap_insert_cgroups (s : Sched) (tid : Nat) :
    (heap_insert s tid).cgroups = s.cgroups := by
  have h := congrArg Sched.cgroups (sk_heap_insert s tid)
  exact h

/-- Heap reposition leaves the cgroup registry untouched. -/
theorem heap_update_cgroups (s : Sched) (tid : Nat) :
    (heap_update s tid).cgroups = s.cgroups := by
  have h := congrArg Sched.cgroups (sk_heap_update s tid)
  exact h

/-- Registering a task leaves the cgroup registry untouched. -/
theorem add_task_cgroups (s : Sched) (t : Task) :
    (scheduler_add_task s t).1.cgroups = s.cgroups := by
  unfold scheduler_add_task
  repeat' first | split | dsimp only
  all_goals first | rfl | (rw [heap_insert_cgroups])

/-- Removing a task leaves the cgroup registry untouched. -/
theorem remove_task_cgroups (s : Sched) (id : String) :
    (scheduler_remove_task s id).1.cgroups = s.cgroups := by
  unfold scheduler_remove_task
  repeat' first | split | dsimp only
  all_goals first | rfl | (rw [heap_remove_cgroups])

/-- `cgroup_modify` keeps the cgroup's id. -/
theorem cgroup_modify_id (cg : Cgroup) (a b c : Int) (m : Option (List Int)) :
    (cgroup_modify cg a b c m).cgroup_id = cg.cgroup_id := by
  unfold cgroup_modify
  repeat' first | split | dsimp only
  all_goals rfl

/-- An event other than `CGROUP_CREATE` introduces no new cgroup id. -/
theorem cgid_event (s : Sched) (e : Event)
    (hne : e.action ≠ EventAction.cgroup_create) :
    ∀ x ∈ (scheduler_process_event s e).1.cgroups.map Cgroup.cgroup_id,
      x ∈ s.cgroups.map Cgroup.cgroup_id := by
  intro x
  unfold scheduler_process_event
  cases ha : e.action <;> dsimp only
  case invalid => exact fun hx => hx
  case task_create =>
    intro hx
    rw [add_task_cgroups] at hx
    exact hx
  case task_exit =>
    cases hfi : find_task_idx s.tasks e.task_id <;> dsimp only
    · exact fun hx => hx
    · intro hx
      rw [remove_task_cgroups] at hx
      exact hx
  case task_block =>
    repeat' first | split | dsimp only
    all_goals intro hx
    all_goals try rw [heap_remove_cgroups] at hx
    all_goals exact hx
  case task_unblock =>
    repeat' first | split | dsimp only
    all_goals intro hx
    all_goals try rw [heap_insert_cgroups] at hx
    all_goals exact hx
  case task_yield =>
    repeat' first | split | dsimp only
    all_goals intro hx
    all_goals try rw [heap_update_cgroups] at hx
    all_goals exact hx
  case task_setnice =>
    repeat' first | split | dsimp only
    all_goals exact fun hx => hx
  case task_set_affinity =>
    repeat' first | split | dsimp only
    all_goals exact fun hx => hx
  case cgroup_create => exact absurd ha hne
  case cgroup_modify =>
    cases hfi : s.cgroups.findIdx? (fun cg => cg.cgroup_id == e.cgroup_id) <;> dsimp only
    · exact fun hx => hx
    · rename_i i
      cases hg : s.cgroups.get? i <;> dsimp only
      · exact fun hx => hx
      · rename_i cg
        intro hx
        rw [map_set_id_pres Cgroup.cgroup_id s.cgroups i cg _ hg ?hid] at hx
        · exact hx
        case hid =>
          split
          · exact cgroup_modify_id cg _ _ _ _
          · exact cgroup_modify_id cg _ _ _ _
  case cgroup_delete =>
    unfold scheduler_remove_cgroup
    cases hfi : s.cgroups.findIdx? (fun cg => cg.cgroup_id == e.cgroup_id) <;> dsimp only
    · exact fun hx => hx
    · rename_i i
      cases hL : s.cgroups.getLast? <;> dsimp only
      · exact fun hx => hx
      · rename_i last
        intro hx
        exact mem_map_swap_remove Cgroup.cgroup_id s.cgroups i last hL x hx
  case task_move_cgroup =>
    repeat' first | split | dsimp only
    all_goals exact fun hx => hx
  case cpu_burst =>
    repeat' first | split | dsimp only
    all_goals exact fun hx => hx

/-- C10: a task whose cgroup id (including the never-materialized default
"0") names no registered cgroup is unconstrained: CPU placement is its own
affinity only, the selection loop applies no quota admission check to it,
its effective weight is its nice-derived weight unscaled, and no cgroup
record ever appears except through `CGROUP_CREATE` (neither the freshly
initialized scheduler, nor any other event, nor a tick introduces one). -/
theorem unregistered_cgroup_unconstrained (s : Sched) (t : Task) (cpu : Int)
    (hnone : scheduler_find_cgroup s t.cgroup_id = none) :
    can_task_run_on_cpu s t cpu = task_can_run_on_cpu t cpu ∧
    (1 ≤ t.weight → get_effective_task_weight s t = t.weight) ∧
    (∀ (s0 : Sched) (pl : List (Nat × ℚ)) (tus : ℚ) (d : List Nat) (fuel : Nat) (ctid : Nat),
      heap_extract_min s0 = (some ctid, s) →
      find_by_tid s.tasks ctid = some t →
      can_task_run_on_cpu s t cpu = true →
      pick_loop cpu pl tus s0 d (fuel + 1) = (some ctid, s, d)) ∧
    (∀ n q, (scheduler_init n q).cgroups = []) ∧
    (∀ e, e.action ≠ EventAction.cgroup_create →
      ∀ x ∈ (scheduler_process_event s e).1.cgroups.map Cgroup.cgroup_id,
        x ∈ s.cgroups.map Cgroup.cgroup_id) ∧
    (∀ v, (scheduler_tick s v).2.cgroups.map Cgroup.cgroup_id
        = s.cgroups.map Cgroup.cgroup_id) := by
  refine ⟨?_, ?_, ?_, ?_, ?_, ?_⟩
  · unfold can_task_run_on_cpu
    cases haff : task_can_run_on_cpu t cpu with
    | false => simp
    | true =>
      by_cases hid : t.cgroup_id ≠ ""
      · simp [hid, hnone]
      · simp [hid]
  · intro hw
    unfold get_effective_task_weight
    try dsimp only
    by_cases hid : t.cgroup_id ≠ ""
    · rw [if_pos hid, hnone]
      show (if t.weight < 1 then 1 else t.weight) = t.weight
      rw [if_neg (by omega : ¬ t.weight < 1)]
    · rw [if_neg hid]
      rw [if_neg (by omega : ¬ t.weight < 1)]
  · intro s0 pl tus d fuel ctid hext hfind hcan
    unfold pick_loop
    simp only [hext, hfind]
    rw [if_neg (not_not_intro hcan)]
    try dsimp only
    by_cases hid : t.cgroup_id ≠ ""
    · rw [if_pos hid, hnone]
      rfl
    · rw [if_neg hid]
      rfl
  · intro n q
    rfl
  · exact fun e he => cgid_event s e he
  · exact fun v => cgid_tick s v

/-- Witness for C10: the task "A" of `s_one` carries the default cgroup
id "0", which no registered cgroup matches. -/
theorem unregistered_cgroup_unconstrained_witness :
    scheduler_find_cgroup s_one ({ tid := 0, task_id := "A", nice := 0, vruntime := 0, weight := 1024, state := TaskState.runnable, cgroup_id := "0", cpu_affinity := [], current_cpu := -1, burst_remaining := 0, heap_index := 0, is_burst := false } : Task).cgroup_id = none ∧
    (can_task_run_on_cpu s_one { tid := 0, task_id := "A", nice := 0, vruntime := 0, weight := 1024, state := TaskState.runnable, cgroup_id := "0", cpu_affinity := [], current_cpu := -1, burst_remaining := 0, heap_index := 0, is_burst := false } 0 = task_can_run_on_cpu { tid := 0, task_id := "A", nice := 0, vruntime := 0, weight := 1024, state := TaskState.runnable, cgroup_id := "0", cpu_affinity := [], current_cpu := -1, burst_remaining := 0, heap_index := 0, is_burst := false } 0 ∧
    (1 ≤ ({ tid := 0, task_id := "A", nice := 0, vruntime := 0, weight := 1024, state := TaskState.runnable, cgroup_id := "0", cpu_affinity := [], current_cpu := -1, burst_remaining := 0, heap_index := 0, is_burst := false } : Task).weight → get_effective_task_weight s_one { tid := 0, task_id := "A", nice := 0, vruntime := 0, weight := 1024, state := TaskState.runnable, cgroup_id := "0", cpu_affinity := [], current_cpu := -1, burst_remaining := 0, heap_index := 0, is_burst := false } = ({ tid := 0, task_id := "A", nice := 0, vruntime := 0, weight := 1024, state := TaskState.runnable, cgroup_id := "0", cpu_affinity := [], current_cpu := -1, burst_remaining := 0, heap_index := 0, is_burst := false } : Task).weight) ∧
    (∀ (s0 : Sched) (pl : List (Nat × ℚ)) (tus : ℚ) (d : List Nat) (fuel : Nat) (ctid : Nat),
      heap_extract_min s0 = (some ctid, s_one) →
      find_by_tid s_one.tasks ctid = some { tid := 0, task_id := "A", nice := 0, vruntime := 0, weight := 1024, state := TaskState.runnable, cgroup_id := "0", cpu_affinity := [], current_cpu := -1, burst_remaining := 0, heap_index := 0, is_burst := false } →
      can_task_run_on_cpu s_one { tid := 0, task_id := "A", nice := 0, vruntime := 0, weight := 1024, state := TaskState.runnable, cgroup_id := "0", cpu_affinity := [], current_cpu := -1, burst_remaining := 0, heap_index := 0, is_burst := false } 0 = true →
      pick_loop 0 pl tus s0 d (fuel + 1) = (some ctid, s_one, d)) ∧
    (∀ n q, (scheduler_init n q).cgroups = []) ∧
    (∀ e, e.action ≠ EventAction.cgroup_create →
      ∀ x ∈ (scheduler_process_event s_one e).1.cgroups.map Cgroup.cgroup_id,
        x ∈ s_one.cgroups.map Cgroup.cgroup_id) ∧
    (∀ v, (scheduler_tick s_one v).2.cgroups.map Cgroup.cgroup_id
        = s_one.cgroups.map Cgroup.cgroup_id)) :=
  ⟨by with_unfolding_all rfl,
    unregistered_cgroup_unconstrained s_one { tid := 0, task_id := "A", nice := 0, vruntime := 0, weight := 1024, state := TaskState.runnable, cgroup_id := "0", cpu_affinity := [], current_cpu := -1, burst_remaining := 0, heap_index := 0, is_burst := false } 0 (by with_unfolding_all rfl)⟩


/-- `find?` skips a prefix with no hit. -/
theorem find_append_none {α : Type} (p : α → Bool) :
    ∀ l1 l2 : List α, l1.find? p = none → (l1 ++ l2).find? p = l2.find? p := by
  intro l1
  induction l1 with
  | nil => intro l2 _; rfl
  | cons x xs ih =>
    intro l2 h
    by_cases hx : p x = true
    · have hfeq : (x :: xs).find? p = some x := List.find?_cons_of_pos _ hx
      rw [hfeq] at h
      cases h
    · have hfeq : (x :: xs).find? p = xs.find? p :=
        List.find?_cons_of_neg _ (by simpa using hx)
      rw [hfeq] at h
      have hfeq2 : (x :: (xs ++ l2)).find? p = (xs ++ l2).find? p :=
        List.find?_cons_of_neg _ (by simpa using hx)
      rw [List.cons_append, hfeq2]
      exact ih l2 h

/-- Bumping the matching tally entry moves the `find?` hit along. -/
theorem planned_find_upd (g : Nat) (d : ℚ) :
    ∀ (pl : List (Nat × ℚ)) (gv : Nat × ℚ),
    List.find? (fun p => p.1 == g) pl = some gv →
    List.find? (fun p => p.1 == g)
      (pl.map (fun p => if p.1 == g then (p.1, p.2 + d) else p)) = some (gv.1, gv.2 + d) := by
  intro pl
  induction pl with
  | nil => intro gv h; cases h
  | cons x xs ih =>
    intro gv h
    by_cases hx : (x.1 == g) = true
    · have hfeq : List.find? (fun p => p.1 == g) (x :: xs) = some x :=
        List.find?_cons_of_pos _ hx
      rw [hfeq] at h
      cases h
      simp only [List.map_cons, if_pos hx]
      exact List.find?_cons_of_pos _ (by simpa using hx)
    · have hfeq : List.find? (fun p => p.1 == g) (x :: xs)
          = List.find? (fun p => p.1 == g) xs :=
        List.find?_cons_of_neg _ (by simpa using hx)
      rw [hfeq] at h
      simp only [List.map_cons, if_neg hx]
      have hfeq2 : List.find? (fun p => p.1 == g)
            (x :: xs.map (fun p => if p.1 == g then (p.1, p.2 + d) else p))
          = List.find? (fun p => p.1 == g)
            (xs.map (fun p => if p.1 == g then (p.1, p.2 + d) else p)) :=
        List.find?_cons_of_neg _ (by simpa using hx)
      rw [hfeq2]
      exact ih gv h

/-- Adding planned runtime for a cgroup raises exactly its tally, provided
the tally has an entry for it or room for one. -/
theorem get_add_planned (pl : List (Nat × ℚ)) (g : Nat) (d : ℚ)
    (h : (List.find? (fun p => p.1 == g) pl).isSome = true ∨ pl.length < MAX_CGROUPS) :
    get_planned_runtime_for_cgroup (add_planned_runtime_for_cgroup pl g d) g
      = get_planned_runtime_for_cgroup pl g + d := by
  unfold add_planned_runtime_for_cgroup get_planned_runtime_for_cgroup
  by_cases hs : (List.find? (fun p => p.1 == g) pl).isSome = true
  · rw [if_pos hs]
    obtain ⟨gv, hgv⟩ := Option.isSome_iff_exists.mp hs
    rw [planned_find_upd g d pl gv hgv, hgv]
  · rw [if_neg hs]
    have hlen : pl.length < MAX_CGROUPS := h.resolve_left hs
    rw [if_pos hlen]
    have hnone : List.find? (fun p => p.1 == g) pl = none := by
      cases hfx : List.find? (fun p => p.1 == g) pl with
      | none => rfl
      | some gv => rw [hfx] at hs; simp at hs
    rw [find_append_none _ pl [(g, d)] hnone, hnone]
    have hfeq : List.find? (fun p => p.1 == g) [(g, d)] = some (g, d) :=
      List.find?_cons_of_pos _ (by simp)
    rw [hfeq]
    exact (zero_add d).symm

/-- C1 (amended): within one tick's per-CPU selection, a candidate from a
finite-quota cgroup is admitted only if used + already-planned + one
tick's microseconds stays within the quota; and on admission the planned
tally of that cgroup grows by exactly one tick's microseconds (when the
tally has an entry or room, which any run with at most `MAX_CGROUPS` live
cgroups satisfies). -/
theorem quota_admission (cpu : Int) (pl : List (Nat × ℚ)) (tus : ℚ) :
    (∀ (fuel : Nat) (s : Sched) (d : List Nat) (ctid : Nat) (s1 : Sched) (d2 : List Nat)
        (cand : Task) (cg : Cgroup),
      pick_loop cpu pl tus s d fuel = (some ctid, s1, d2) →
      find_by_tid s1.tasks ctid = some cand →
      cand.cgroup_id ≠ "" →
      scheduler_find_cgroup s1 cand.cgroup_id = some cg →
      0 ≤ cg.cpu_quota_us →
      cg.quota_used + get_planned_runtime_for_cgroup pl cg.gid + tus
        ≤ (cg.cpu_quota_us : ℚ)) ∧
    (∀ (s : Sched) (ctid : Nat) (cand : Task) (cg : Cgroup),
      (pick_task_for_cpu s cpu pl tus).1 = some ctid →
      find_by_tid (pick_task_for_cpu s cpu pl tus).2.1.tasks ctid = some cand →
      cand.cgroup_id ≠ "" →
      scheduler_find_cgroup (pick_task_for_cpu s cpu pl tus).2.1 cand.cgroup_id = some cg →
      0 ≤ cg.cpu_quota_us →
      ((List.find? (fun p => p.1 == cg.gid) pl).isSome = true ∨ pl.length < MAX_CGROUPS) →
      get_planned_runtime_for_cgroup (pick_task_for_cpu s cpu pl tus).2.2 cg.gid
        = get_planned_runtime_for_cgroup pl cg.gid + tus) := by
  constructor
  · intro fuel
    induction fuel with
    | zero =>
      intro s d ctid s1 d2 cand cg h
      injection h with h1 h2
      cases h1
    | succ n ih =>
      intro s d ctid s1 d2 cand cg h hfind hid hcg hq
      unfold pick_loop at h
      rcases hext : heap_extract_min s with ⟨sel, sE⟩
      simp only [hext] at h
      cases sel with
      | none =>
        injection h with h1 h2
        cases h1
      | some m =>
        try dsimp only at h
        cases hfd : find_by_tid sE.tasks m with
        | none =>
          simp only [hfd] at h
          injection h with h1 h2
          cases h1
        | some c =>
          simp only [hfd] at h
          split at h
          · exact ih _ _ _ _ _ _ _ h hfind hid hcg hq
          · try dsimp only at h
            split at h
            · split at h
              · exact ih _ _ _ _ _ _ _ h hfind hid hcg hq
              · rename_i hcan hnid hqd
                injection h with h1 hrest
                injection hrest with h2 h3
                injection h1 with h1
                subst h1
                subst h2
                rw [hfd] at hfind
                injection hfind with hfind
                subst hfind
                rw [hcg] at hqd
                try dsimp only at hqd
                cases hhq : cgroup_has_quota cg with
                | false =>
                  exfalso
                  apply hqd
                  rw [if_pos (by rw [hhq]; exact Bool.false_ne_true)]
                | true =>
                  rw [if_neg (by rw [hhq]; exact not_not_intro rfl),
                    if_pos (by exact hq)] at hqd
                  have hnp : ¬ (cg.quota_used + get_planned_runtime_for_cgroup pl cg.gid + tus
                      > (cg.cpu_quota_us : ℚ)) :=
                    fun hp => hqd (decide_eq_true hp)
                  exact not_lt.mp hnp
            · rename_i hcan hnid
              rw [if_neg (by exact fun hc => Bool.false_ne_true hc)] at h
              injection h with h1 hrest
              injection hrest with h2 h3
              injection h1 with h1
              subst h1
              subst h2
              rw [hfd] at hfind
              injection hfind with hfind
              subst hfind
              exact absurd hid hnid
  · intro s ctid cand cg h1 hfind hid hcg hq hroom
    rcases hl : pick_loop cpu pl tus s [] (s.heap.length + 1) with ⟨sel, sL, dL⟩
    unfold pick_task_for_cpu at h1 hfind hcg ⊢
    simp only [hl] at h1 hfind hcg ⊢
    try dsimp only at h1 hfind hcg ⊢
    subst h1
    simp only [hfind, hcg]
    rw [if_pos hid, if_pos (by exact hq)]
    exact get_add_planned pl cg.gid tus hroom

/-- Witness for C1: CPU 0 picks "T" from the quota-5000 cgroup "W" of
`s_pickw`; 0 + 0 + 1000 stays within the quota and the planned tally for
"W" grows to 1000. -/
theorem quota_admission_witness :
    pick_loop 0 [] 1000 s_pickw [] (s_pickw.heap.length + 1)
      = (some 0, s_pickw_after, []) ∧
    find_by_tid s_pickw_after.tasks 0 = some { tid := 0, task_id := "T", nice := 0, vruntime := 0, weight := 1024, state := TaskState.runnable, cgroup_id := "W", cpu_affinity := [], current_cpu := -1, burst_remaining := 0, heap_index := -1, is_burst := false } ∧
    ({ tid := 0, task_id := "T", nice := 0, vruntime := 0, weight := 1024, state := TaskState.runnable, cgroup_id := "W", cpu_affinity := [], current_cpu := -1, burst_remaining := 0, heap_index := -1, is_burst := false } : Task).cgroup_id ≠ "" ∧
    scheduler_find_cgroup s_pickw_after ({ tid := 0, task_id := "T", nice := 0, vruntime := 0, weight := 1024, state := TaskState.runnable, cgroup_id := "W", cpu_affinity := [], current_cpu := -1, burst_remaining := 0, heap_index := -1, is_burst := false } : Task).cgroup_id = some { gid := 0, cgroup_id := "W", cpu_shares := 1024, cpu_quota_us := 5000, cpu_period_us := 100000, cpu_mask := [], quota_used := 0, period_start_vtime := 0 } ∧
    (0 : Int) ≤ ({ gid := 0, cgroup_id := "W", cpu_shares := 1024, cpu_quota_us := 5000, cpu_period_us := 100000, cpu_mask := [], quota_used := 0, period_start_vtime := 0 } : Cgroup).cpu_quota_us ∧
    (pick_task_for_cpu s_pickw 0 [] 1000).1 = some 0 ∧
    (({ gid := 0, cgroup_id := "W", cpu_shares := 1024, cpu_quota_us := 5000, cpu_period_us := 100000, cpu_mask := [], quota_used := 0, period_start_vtime := 0 } : Cgroup).quota_used
        + get_planned_runtime_for_cgroup [] ({ gid := 0, cgroup_id := "W", cpu_shares := 1024, cpu_quota_us := 5000, cpu_period_us := 100000, cpu_mask := [], quota_used := 0, period_start_vtime := 0 } : Cgroup).gid + 1000
      ≤ ((({ gid := 0, cgroup_id := "W", cpu_shares := 1024, cpu_quota_us := 5000, cpu_period_us := 100000, cpu_mask := [], quota_used := 0, period_start_vtime := 0 } : Cgroup).cpu_quota_us : Int) : ℚ)) ∧
    get_planned_runtime_for_cgroup (pick_task_for_cpu s_pickw 0 [] 1000).2.2
        ({ gid := 0, cgroup_id := "W", cpu_shares := 1024, cpu_quota_us := 5000, cpu_period_us := 100000, cpu_mask := [], quota_used := 0, period_start_vtime := 0 } : Cgroup).gid
      = get_planned_runtime_for_cgroup [] ({ gid := 0, cgroup_id := "W", cpu_shares := 1024, cpu_quota_us := 5000, cpu_period_us := 100000, cpu_mask := [], quota_used := 0, period_start_vtime := 0 } : Cgroup).gid + 1000 := by
  have h1 : pick_loop 0 [] 1000 s_pickw [] (s_pickw.heap.length + 1)
      = (some 0, s_pickw_after, []) := by with_unfolding_all rfl
  have h2 : find_by_tid s_pickw_after.tasks 0 = some { tid := 0, task_id := "T", nice := 0, vruntime := 0, weight := 1024, state := TaskState.runnable, cgroup_id := "W", cpu_affinity := [], current_cpu := -1, burst_remaining := 0, heap_index := -1, is_burst := false } := by
    with_unfolding_all rfl
  have h3 : ({ tid := 0, task_id := "T", nice := 0, vruntime := 0, weight := 1024, state := TaskState.runnable, cgroup_id := "W", cpu_affinity := [], current_cpu := -1, burst_remaining := 0, heap_index := -1, is_burst := false } : Task).cgroup_id ≠ "" := by decide
  have h4 : scheduler_find_cgroup s_pickw_after ({ tid := 0, task_id := "T", nice := 0, vruntime := 0, weight := 1024, state := TaskState.runnable, cgroup_id := "W", cpu_affinity := [], current_cpu := -1, burst_remaining := 0, heap_index := -1, is_burst := false } : Task).cgroup_id = some { gid := 0, cgroup_id := "W", cpu_shares := 1024, cpu_quota_us := 5000, cpu_period_us := 100000, cpu_mask := [], quota_used := 0, period_start_vtime := 0 } := by
    with_unfolding_all rfl
  have h5 : (0 : Int) ≤ ({ gid := 0, cgroup_id := "W", cpu_shares := 1024, cpu_quota_us := 5000, cpu_period_us := 100000, cpu_mask := [], quota_used := 0, period_start_vtime := 0 } : Cgroup).cpu_quota_us := by decide
  have hA : (pick_task_for_cpu s_pickw 0 [] 1000).1 = some 0 := by
    with_unfolding_all rfl
  have hB : find_by_tid (pick_task_for_cpu s_pickw 0 [] 1000).2.1.tasks 0 = some { tid := 0, task_id := "T", nice := 0, vruntime := 0, weight := 1024, state := TaskState.runnable, cgroup_id := "W", cpu_affinity := [], current_cpu := -1, burst_remaining := 0, heap_index := -1, is_burst := false } := by
    with_unfolding_all rfl
  have hC : scheduler_find_cgroup (pick_task_for_cpu s_pickw 0 [] 1000).2.1
      ({ tid := 0, task_id := "T", nice := 0, vruntime := 0, weight := 1024, state := TaskState.runnable, cgroup_id := "W", cpu_affinity := [], current_cpu := -1, burst_remaining := 0, heap_index := -1, is_burst := false } : Task).cgroup_id = some { gid := 0, cgroup_id := "W", cpu_shares := 1024, cpu_quota_us := 5000, cpu_period_us := 100000, cpu_mask := [], quota_used := 0, period_start_vtime := 0 } := by
    with_unfolding_all rfl
  refine ⟨h1, h2, h3, h4, h5, hA, ?_, ?_⟩
  · exact (quota_admission 0 [] 1000).1 (s_pickw.heap.length + 1) s_pickw [] 0
      s_pickw_after [] { tid := 0, task_id := "T", nice := 0, vruntime := 0, weight := 1024, state := TaskState.runnable, cgroup_id := "W", cpu_affinity := [], current_cpu := -1, burst_remaining := 0, heap_index := -1, is_burst := false } { gid := 0, cgroup_id := "W", cpu_shares := 1024, cpu_quota_us := 5000, cpu_period_us := 100000, cpu_mask := [], quota_used := 0, period_start_vtime := 0 } h1 h2 h3 h4 h5
  · exact (quota_admission 0 [] 1000).2 s_pickw 0 { tid := 0, task_id := "T", nice := 0, vruntime := 0, weight := 1024, state := TaskState.runnable, cgroup_id := "W", cpu_affinity := [], current_cpu := -1, burst_remaining := 0, heap_index := -1, is_burst := false } { gid := 0, cgroup_id := "W", cpu_shares := 1024, cpu_quota_us := 5000, cpu_period_us := 100000, cpu_mask := [], quota_used := 0, period_start_vtime := 0 } hA hB h3 hC h5
      (Or.inr (by decide))


/-- `get?` away from the written position. -/
theorem getq_set_ne {α : Type} :
    ∀ (l : List α) (i j : Nat) (a : α), i ≠ j → (l.set i a).get? j = l.get? j := by
  intro l
  induction l with
  | nil => intro i j a _; rfl
  | cons x xs ih =>
    intro i j a hne
    cases i with
    | zero =>
      cases j with
      | zero => exact absurd rfl hne
      | succ k => rfl
    | succ m =>
      cases j with
      | zero => rfl
      | succ k => exact ih m k a (fun hc => hne (by rw [hc]))

/-- A `get?` hit is inside the list. -/
theorem getq_lt_length {α : Type} :
    ∀ (l : List α) (i : Nat) (a : α), l.get? i = some a → i < l.length := by
  intro l
  induction l with
  | nil => intro i a h; cases h
  | cons x xs ih =>
    intro i a h
    cases i with
    | zero => exact Nat.succ_pos _
    | succ k => exact Nat.succ_lt_succ (ih k a h)

/-- `get?` into the left part of an append. -/
theorem getq_append_lt {α : Type} :
    ∀ (l1 l2 : List α) (i : Nat), i < l1.length → (l1 ++ l2).get? i = l1.get? i := by
  intro l1
  induction l1 with
  | nil => intro l2 i h; cases h
  | cons x xs ih =>
    intro l2 i h
    cases i with
    | zero => rfl
    | succ k => exact ih l2 k (Nat.lt_of_succ_lt_succ h)

/-- `get?` at the seam of an append with a singleton. -/
theorem getq_append_len {α : Type} :
    ∀ (l : List α) (a : α), (l ++ [a]).get? l.length = some a := by
  intro l
  induction l with
  | nil => intro a; rfl
  | cons x xs ih => intro a; exact ih a

/-- `upd_task` keeps every handle. -/
theorem upd_task_map_tid (ts : List Task) (tid : Nat) (f : Task → Task)
    (hf : ∀ t, (f t).tid = t.tid) :
    (upd_task ts tid f).map Task.tid = ts.map Task.tid := by
  unfold upd_task
  induction ts with
  | nil => rfl
  | cons x xs ih =>
    simp only [List.map_cons, List.map_map] at ih ⊢
    by_cases hx : x.tid = tid
    · rw [if_pos hx, hf x]
      rw [show (List.map (Task.tid ∘ fun t => if t.tid = tid then f t else t) xs)
          = List.map Task.tid xs from ih]
    · rw [if_neg hx]
      rw [show (List.map (Task.tid ∘ fun t => if t.tid = tid then f t else t) xs)
          = List.map Task.tid xs from ih]

/-- Membership in an `upd_task` image. -/
theorem mem_upd_task {ts : List Task} {tid : Nat} {f : Task → Task} {u : Task}
    (h : u ∈ upd_task ts tid f) :
    ∃ t ∈ ts, u = if t.tid = tid then f t else t := by
  unfold upd_task at h
  obtain ⟨t, ht, hu⟩ := List.mem_map.mp h
  exact ⟨t, ht, hu.symm⟩

/-- Records with other handles pass through `upd_task` unchanged, and the
targeted handle comes out mapped. -/
theorem upd_task_mem_of_mem {ts : List Task} {tid : Nat} {f : Task → Task} {t : Task}
    (h : t ∈ ts) :
    (if t.tid = tid then f t else t) ∈ upd_task ts tid f := by
  unfold upd_task
  exact List.mem_map.mpr ⟨t, h, rfl⟩

/-- `get?` through `upd_task`. -/
theorem upd_task_getq (ts : List Task) (tid : Nat) (f : Task → Task) (i : Nat) :
    (upd_task ts tid f).get? i
      = (ts.get? i).map (fun t => if t.tid = tid then f t else t) := by
  unfold upd_task
  induction ts generalizing i with
  | nil => cases i <;> rfl
  | cons x xs ih =>
    cases i with
    | zero => rfl
    | succ k => exact ih k


/-- In a duplicate-free list, positions of equal hits coincide. -/
theorem nodup_getq_inj {α : Type} :
    ∀ (l : List α), l.Nodup → ∀ (i j : Nat) (a : α),
    l.get? i = some a → l.get? j = some a → i = j := by
  intro l
  induction l with
  | nil => intro _ i j a h; cases h
  | cons x xs ih =>
    intro hnd i j a hi hj
    have hx : x ∉ xs := (List.nodup_cons.mp hnd).1
    have hxs : xs.Nodup := (List.nodup_cons.mp hnd).2
    cases i with
    | zero =>
      cases hi
      cases j with
      | zero => rfl
      | succ k => exact absurd (mem_of_getq xs k x hj) hx
    | succ m =>
      cases j with
      | zero =>
        cases hj
        exact absurd (mem_of_getq xs m x hi) hx
      | succ k => exact congrArg Nat.succ (ih hxs m k a hi hj)

/-- A handle listed among the registry handles belongs to some record. -/
theorem exists_of_mem_map_tid {ts : List Task} {tid : Nat}
    (h : tid ∈ ts.map Task.tid) : ∃ t ∈ ts, t.tid = tid := by
  obtain ⟨t, ht, htid⟩ := List.mem_map.mp h
  exact ⟨t, ht, htid⟩

/-- `get?` inside `dropLast`. -/
theorem getq_dropLast {α : Type} (l : List α) (k : Nat) (h : k < l.length - 1) :
    l.dropLast.get? k = l.get? k := by
  rw [List.dropLast_eq_take]
  exact take_getq l (l.length - 1) k h

/-- A back-pointer update keeps the handle. -/
theorem upd1_tid (t : Task) (b : Nat) (i : Int) :
    (if t.tid = b then { t with heap_index := i } else t).tid = t.tid := by
  split <;> rfl

/-- A back-pointer `upd_task` keeps the handle list. -/
theorem upd_task_idx_map_tid (ts : List Task) (tid : Nat) (i : Int) :
    (upd_task ts tid (fun t => { t with heap_index := i })).map Task.tid
      = ts.map Task.tid :=
  upd_task_map_tid ts tid _ (fun _ => rfl)

/-- `heap_swap` preserves the heap consistency bundle. -/
theorem heapinv_swap (s : Sched) (i j : Nat) (h : HeapInv s) :
    HeapInv (heap_swap s i j) := by
  unfold heap_swap
  cases hi : s.heap.get? i with
  | none => cases hj : s.heap.get? j <;> exact h
  | some a =>
    cases hj : s.heap.get? j with
    | none => exact h
    | some b =>
      have hperm : ((s.heap.set i b).set j a).Perm s.heap := set_set_perm s.heap i j a b hi hj
      have htidmap : (upd_task (upd_task s.tasks b (fun t => { t with heap_index := (i : Int) }))
          a (fun t => { t with heap_index := (j : Int) })).map Task.tid
          = s.tasks.map Task.tid := by
        rw [upd_task_idx_map_tid, upd_task_idx_map_tid]
      have hmem2 : ∀ u ∈ upd_task (upd_task s.tasks b (fun t => { t with heap_index := (i : Int) }))
          a (fun t => { t with heap_index := (j : Int) }),
          ∃ t ∈ s.tasks,
            (t.tid = a ∧ u = { t with heap_index := (j : Int) }) ∨
            (¬ t.tid = a ∧ t.tid = b ∧ u = { t with heap_index := (i : Int) }) ∨
            (¬ t.tid = a ∧ ¬ t.tid = b ∧ u = t) := by
        intro u hu
        obtain ⟨v, hv, huv⟩ := mem_upd_task hu
        obtain ⟨t, ht, hvt⟩ := mem_upd_task hv
        refine ⟨t, ht, ?_⟩
        by_cases hta : t.tid = a
        · refine Or.inl ⟨hta, ?_⟩
          subst hvt
          by_cases htb : t.tid = b
          · rw [if_pos htb] at huv
            rw [if_pos (show ({ t with heap_index := (i : Int) } : Task).tid = a from hta)] at huv
            exact huv
          · rw [if_neg htb] at huv
            rw [if_pos (show t.tid = a from hta)] at huv
            exact huv
        · by_cases htb : t.tid = b
          · refine Or.inr (Or.inl ⟨hta, htb, ?_⟩)
            subst hvt
            rw [if_pos htb] at huv
            rw [if_neg (show ¬ ({ t with heap_index := (i : Int) } : Task).tid = a from hta)] at huv
            exact huv
          · refine Or.inr (Or.inr ⟨hta, htb, ?_⟩)
            subst hvt
            rw [if_neg htb] at huv
            rw [if_neg (show ¬ t.tid = a from hta)] at huv
            exact huv
      have hja : ((s.heap.set i b).set j a).get? j = some a := by
        by_cases hij : i = j
        · subst hij
          exact getq_set_self _ i a b (getq_set_self _ i b a hi)
        · have h1 : (s.heap.set i b).get? j = some b := by
            rw [getq_set_ne _ i j b hij]
            exact hj
          exact getq_set_self _ j a b h1
      refine ⟨?_, ?_, ?_, ?_, ?_⟩
      · rw [htidmap]
        exact h.tid_nodup
      · exact hperm.nodup_iff.mpr h.heap_nodup
      · intro tid htid
        have htid2 : tid ∈ s.heap := hperm.mem_iff.mp htid
        obtain ⟨t, ht, htt⟩ := h.heap_sub tid htid2
        have hmm : tid ∈ s.tasks.map Task.tid := htt ▸ List.mem_map_of_mem Task.tid ht
        rw [← htidmap] at hmm
        exact exists_of_mem_map_tid hmm
      · intro u hu hidx
        rcases hmem2 u hu with ⟨t, ht, ⟨hta, rfl⟩ | ⟨hta, htb, rfl⟩ | ⟨hta, htb, rfl⟩⟩
        · show ((s.heap.set i b).set j a).get? ((j : Int)).toNat = some t.tid
          rw [Int.toNat_ofNat, hja, hta]
        · show ((s.heap.set i b).set j a).get? ((i : Int)).toNat = some t.tid
          rw [Int.toNat_ofNat]
          have hab : ¬ a = b := fun hab2 => hta (htb.trans hab2.symm)
          have hij : ¬ i = j := by
            intro hc
            rw [hc, hj] at hi
            exact hab (Option.some.inj hi).symm
          have h1 : ((s.heap.set i b).set j a).get? i = some b := by
            rw [getq_set_ne _ j i a (fun hc => hij hc.symm)]
            exact getq_set_self _ i b a hi
          rw [h1, htb]
        · have hold := h.acc u ht hidx
          have hti : ¬ u.heap_index.toNat = i := by
            intro hc
            rw [hc, hi] at hold
            exact hta (Option.some.inj hold).symm
          have htj : ¬ u.heap_index.toNat = j := by
            intro hc
            rw [hc, hj] at hold
            exact htb (Option.some.inj hold).symm
          rw [getq_set_ne _ j u.heap_index.toNat a (fun hc => htj hc.symm),
            getq_set_ne _ i u.heap_index.toNat b (fun hc => hti hc.symm)]
          exact hold
      · intro u hu humem
        rcases hmem2 u hu with ⟨t, ht, ⟨hta, rfl⟩ | ⟨hta, htb, rfl⟩ | ⟨hta, htb, rfl⟩⟩
        · show (0 : Int) ≤ (j : Int)
          exact Int.ofNat_nonneg j
        · show (0 : Int) ≤ (i : Int)
          exact Int.ofNat_nonneg i
        · exact h.memidx u ht (hperm.mem_iff.mp humem)

/-- Sifting up preserves the heap consistency bundle. -/
theorem heapinv_bubble_up : ∀ (fuel : Nat) (s : Sched) (idx : Nat),
    HeapInv s → HeapInv (heap_bubble_up s fuel idx) := by
  intro fuel
  induction fuel with
  | zero => intro s idx h; exact h
  | succ n ih =>
    intro s idx h
    unfold heap_bubble_up
    dsimp only
    repeat' split
    all_goals first
      | exact h
      | exact ih _ _ (heapinv_swap _ _ _ h)

/-- Sifting down preserves the heap consistency bundle. -/
theorem heapinv_bubble_down : ∀ (fuel : Nat) (s : Sched) (idx : Nat),
    HeapInv s → HeapInv (heap_bubble_down s fuel idx) := by
  intro fuel
  induction fuel with
  | zero => intro s idx h; exact h
  | succ n ih =>
    intro s idx h
    unfold heap_bubble_down
    dsimp only
    repeat' split
    all_goals first
      | exact h
      | exact ih _ _ (heapinv_swap _ _ _ h)


/-- Every member sits at some position. -/
theorem getq_of_mem {α : Type} :
    ∀ (l : List α) (a : α), a ∈ l → ∃ i, l.get? i = some a := by
  intro l
  induction l with
  | nil => intro a h; cases h
  | cons x xs ih =>
    intro a h
    rcases List.mem_cons.mp h with rfl | hx
    · exact ⟨0, rfl⟩
    · obtain ⟨i, hi⟩ := ih a hx
      exact ⟨i + 1, hi⟩

/-- `heap_insert` of a registered, not-yet-enqueued handle preserves the
heap consistency bundle. -/
theorem heapinv_insert (s : Sched) (tid : Nat) (h : HeapInv s)
    (hreg : tid ∈ s.tasks.map Task.tid) (hnot : tid ∉ s.heap) :
    HeapInv (heap_insert s tid) := by
  unfold heap_insert
  dsimp only
  apply heapinv_bubble_up
  have htidmap : (upd_task s.tasks tid
      (fun t => { t with heap_index := (s.heap.length : Int) })).map Task.tid
      = s.tasks.map Task.tid := upd_task_idx_map_tid _ _ _
  refine ⟨?_, ?_, ?_, ?_, ?_⟩
  · rw [htidmap]
    exact h.tid_nodup
  · rw [List.nodup_append]
    refine ⟨h.heap_nodup, List.nodup_singleton tid, ?_⟩
    intro x hx hx2
    rw [List.mem_singleton] at hx2
    exact hnot (hx2 ▸ hx)
  · intro x hx
    rcases List.mem_append.mp hx with hx1 | hx1
    · obtain ⟨t, ht, htt⟩ := h.heap_sub x hx1
      have hmm : x ∈ s.tasks.map Task.tid := htt ▸ List.mem_map_of_mem Task.tid ht
      rw [← htidmap] at hmm
      exact exists_of_mem_map_tid hmm
    · rw [List.mem_singleton] at hx1
      subst hx1
      rw [← htidmap] at hreg
      exact exists_of_mem_map_tid hreg
  · intro u hu hidx
    obtain ⟨t, ht, hut⟩ := mem_upd_task hu
    by_cases hta : t.tid = tid
    · rw [if_pos hta] at hut
      subst hut
      show (s.heap ++ [tid]).get? ((s.heap.length : Int)).toNat = some t.tid
      rw [Int.toNat_ofNat, getq_append_len, hta]
    · rw [if_neg hta] at hut
      subst hut
      have hold := h.acc u ht hidx
      have hlt := getq_lt_length _ _ _ hold
      rw [getq_append_lt _ _ _ hlt]
      exact hold
  · intro u hu humem
    obtain ⟨t, ht, hut⟩ := mem_upd_task hu
    by_cases hta : t.tid = tid
    · rw [if_pos hta] at hut
      subst hut
      show (0 : Int) ≤ (s.heap.length : Int)
      exact Int.ofNat_nonneg _
    · rw [if_neg hta] at hut
      subst hut
      rcases List.mem_append.mp humem with hm | hm
      · exact h.memidx u ht hm
      · rw [List.mem_singleton] at hm
        exact absurd hm hta

/-- `heap_update` preserves the heap consistency bundle. -/
theorem heapinv_update (s : Sched) (tid : Nat) (h : HeapInv s) :
    HeapInv (heap_update s tid) := by
  unfold heap_update
  repeat' first | split | dsimp only
  all_goals first
    | exact h
    | exact heapinv_bubble_up _ _ _ h
    | exact heapinv_bubble_down _ _ _ h

/-- `heap_extract_min` preserves the heap consistency bundle, and the
extracted handle has left the queue. -/
theorem heapinv_extract (s : Sched) (h : HeapInv s) :
    HeapInv (heap_extract_min s).2 ∧
    (∀ m, (heap_extract_min s).1 = some m → m ∉ (heap_extract_min s).2.heap) := by
  unfold heap_extract_min
  cases hh : s.heap with
  | nil =>
    simp only [hh]
    exact ⟨h, fun m hm => by cases hm⟩
  | cons m rest =>
    have hmrest : m ∉ rest := by
      have := h.heap_nodup
      rw [hh] at this
      exact (List.nodup_cons.mp this).1
    have hrest : rest.Nodup := by
      have := h.heap_nodup
      rw [hh] at this
      exact (List.nodup_cons.mp this).2
    cases hlast : rest.getLast? with
    | none =>
      have hre : rest = [] := by
        cases rest with
        | nil => rfl
        | cons y ys =>
          exfalso
          have hs2 : (y :: ys).getLast?.isSome := by
            rw [List.getLast?_isSome]
            exact List.cons_ne_nil y ys
          rw [hlast] at hs2
          exact Bool.noConfusion hs2
      subst hre
      simp only [hlast]
      refine ⟨⟨?_, ?_, ?_, ?_, ?_⟩, ?_⟩
      · rw [upd_task_idx_map_tid]
        exact h.tid_nodup
      · exact List.nodup_nil
      · intro x hx
        cases hx
      · intro u hu hidx
        obtain ⟨t, ht, hut⟩ := mem_upd_task hu
        by_cases hta : t.tid = m
        · rw [if_pos hta] at hut
          subst hut
          exact absurd hidx (show ¬ (0 : Int) ≤ (-1 : Int) by decide)
        · rw [if_neg hta] at hut
          subst hut
          have hold := h.acc u ht hidx
          rw [hh] at hold
          have := mem_of_getq _ _ _ hold
          rw [List.mem_singleton] at this
          exact absurd this hta
      · intro u _ humem
        cases humem
      · intro m2 hm2
        intro hc
        cases hc
    | some last =>
      simp only [hlast]
      have hsplit : rest.dropLast ++ [last] = rest := dropLast_append_getLast rest last hlast
      have hlastmem : last ∈ rest := by
        rw [← hsplit]
        exact List.mem_append_right _ (List.mem_cons_self last [])
      have hmlast : ¬ m = last := fun hc => hmrest (hc ▸ hlastmem)
      have hperm : (last :: rest.dropLast).Perm rest := by
        conv_rhs => rw [← hsplit]
        exact (List.perm_append_singleton _ _).symm
      have hlend : rest.dropLast.length = rest.length - 1 := List.length_dropLast rest
      have hlastpos : rest.get? (rest.length - 1) = some last := by
        have h1 : (rest.dropLast ++ [last]).get? rest.dropLast.length = some last :=
          getq_append_len _ _
        rw [hsplit, hlend] at h1
        exact h1
      have htidmap : (upd_task (upd_task s.tasks m (fun t => { t with heap_index := -1 }))
          last (fun t => { t with heap_index := 0 })).map Task.tid
          = s.tasks.map Task.tid := by
        rw [upd_task_idx_map_tid, upd_task_idx_map_tid]
      have hmem2 : ∀ u ∈ upd_task (upd_task s.tasks m (fun t => { t with heap_index := -1 }))
          last (fun t => { t with heap_index := 0 }),
          ∃ t ∈ s.tasks,
            (t.tid = last ∧ u = { t with heap_index := 0 }) ∨
            (¬ t.tid = last ∧ t.tid = m ∧ u = { t with heap_index := -1 }) ∨
            (¬ t.tid = last ∧ ¬ t.tid = m ∧ u = t) := by
        intro u hu
        obtain ⟨v, hv, huv⟩ := mem_upd_task hu
        obtain ⟨t, ht, hvt⟩ := mem_upd_task hv
        refine ⟨t, ht, ?_⟩
        by_cases hta : t.tid = last
        · refine Or.inl ⟨hta, ?_⟩
          subst hvt
          by_cases htb : t.tid = m
          · rw [if_pos htb] at huv
            rw [if_pos (show ({ t with heap_index := (-1 : Int) } : Task).tid = last from hta)] at huv
            exact huv
          · rw [if_neg htb] at huv
            rw [if_pos (show t.tid = last from hta)] at huv
            exact huv
        · by_cases htb : t.tid = m
          · refine Or.inr (Or.inl ⟨hta, htb, ?_⟩)
            subst hvt
            rw [if_pos htb] at huv
            rw [if_neg (show ¬ ({ t with heap_index := (-1 : Int) } : Task).tid = last from hta)] at huv
            exact huv
          · refine Or.inr (Or.inr ⟨hta, htb, ?_⟩)
            subst hvt
            rw [if_neg htb] at huv
            rw [if_neg (show ¬ t.tid = last from hta)] at huv
            exact huv
      have hinv2 : HeapInv { s with
          heap := last :: rest.dropLast,
          tasks := upd_task (upd_task s.tasks m (fun t => { t with heap_index := -1 }))
            last (fun t => { t with heap_index := 0 }) } := by
        refine ⟨?_, ?_, ?_, ?_, ?_⟩
        · show (upd_task (upd_task s.tasks m _) last _).map Task.tid |>.Nodup
          rw [htidmap]
          exact h.tid_nodup
        · exact hperm.nodup_iff.mpr hrest
        · intro x hx
          have hx2 : x ∈ rest := hperm.mem_iff.mp hx
          have hx3 : x ∈ s.heap := by
            rw [hh]
            exact List.mem_cons_of_mem m hx2
          obtain ⟨t, ht, htt⟩ := h.heap_sub x hx3
          have hmm : x ∈ s.tasks.map Task.tid := htt ▸ List.mem_map_of_mem Task.tid ht
          rw [← htidmap] at hmm
          exact exists_of_mem_map_tid hmm
        · intro u hu hidx
          rcases hmem2 u hu with ⟨t, ht, ⟨hta, rfl⟩ | ⟨hta, htb, rfl⟩ | ⟨hta, htb, rfl⟩⟩
          · show (last :: rest.dropLast).get? ((0 : Int)).toNat = some t.tid
            rw [hta]
            rfl
          · exact absurd hidx (show ¬ (0 : Int) ≤ (-1 : Int) by decide)
          · have hold := h.acc u ht hidx
            rw [hh] at hold
            cases hk : u.heap_index.toNat with
            | zero =>
              rw [hk] at hold
              exact absurd (Option.some.inj hold).symm htb
            | succ k =>
              rw [hk] at hold
              have hrk : rest.get? k = some u.tid := hold
              have hklen : k < rest.length := getq_lt_length _ _ _ hrk
              have hkne : ¬ k = rest.length - 1 := by
                intro hc
                rw [hc, hlastpos] at hrk
                exact hta (Option.some.inj hrk).symm
              have hklt : k < rest.length - 1 := by omega
              show (last :: rest.dropLast).get? (k + 1) = some u.tid
              show rest.dropLast.get? k = some u.tid
              rw [getq_dropLast rest k hklt]
              exact hrk
        · intro u hu humem
          rcases hmem2 u hu with ⟨t, ht, ⟨hta, rfl⟩ | ⟨hta, htb, rfl⟩ | ⟨hta, htb, rfl⟩⟩
          · exact le_refl _
          · exfalso
            have : t.tid ∈ rest := hperm.mem_iff.mp humem
            rw [htb] at this
            exact hmrest this
          · have : u.tid ∈ rest := hperm.mem_iff.mp humem
            have hmem3 : u.tid ∈ s.heap := by
              rw [hh]
              exact List.mem_cons_of_mem m this
            exact h.memidx u ht hmem3
      refine ⟨heapinv_bubble_down _ _ _ hinv2, ?_⟩
      intro m2 hm2
      have hm2m : m2 = m := Option.some.inj hm2.symm
      subst hm2m
      intro hc
      exact hmrest (hperm.mem_iff.mp ((heap_bubble_down_perm _ _ 0).mem_iff.mp hc))


/-- A missing handle lookup means no record carries the handle. -/
theorem find_by_tid_none {ts : List Task} {tid : Nat}
    (h : find_by_tid ts tid = none) : ∀ t ∈ ts, ¬ t.tid = tid := by
  intro t ht hc
  have h2 := List.find?_eq_none.mp h t ht
  simp [hc] at h2

/-- Under the heap bundle, an unenqueued-or-invalid `heap_remove` target is
not in the queue, and a valid removal is governed by `heap_remove_perm`;
in every case the queue afterwards holds exactly the other handles. -/
theorem heap_remove_mem (s : Sched) (tid : Nat) (h : HeapInv s) :
    ∀ x, x ∈ (heap_remove s tid).2.heap ↔ (x ∈ s.heap ∧ ¬ x = tid) := by
  cases hf : find_by_tid s.tasks tid with
  | none =>
    have hnot : tid ∉ s.heap := by
      intro hc
      obtain ⟨t, ht, htt⟩ := h.heap_sub tid hc
      exact find_by_tid_none hf t ht htt
    have hres : (heap_remove s tid).2 = s := by
      unfold heap_remove
      rw [hf]
    rw [hres]
    intro x
    constructor
    · intro hx
      exact ⟨hx, fun hc => hnot (hc ▸ hx)⟩
    · intro hx
      exact hx.1
  | some t =>
    by_cases hrange : (t.heap_index < 0 ∨ t.heap_index ≥ (s.heap.length : Int))
    · have hnot : tid ∉ s.heap := by
        intro hc
        obtain ⟨u, hu, huu⟩ := h.heap_sub tid hc
        rcases hrange with hr | hr
        · have h0 : 0 ≤ t.heap_index :=
            h.memidx t (find_by_tid_mem hf) ((find_by_tid_tid hf).symm ▸ hc)
          omega
        · have hacc := h.acc t (find_by_tid_mem hf) (by omega)
          have hlt := getq_lt_length _ _ _ hacc
          omega
      have hres : (heap_remove s tid).2 = s := by
        unfold heap_remove
        rw [hf]
        dsimp only
        rw [if_pos hrange]
      rw [hres]
      intro x
      constructor
      · intro hx
        exact ⟨hx, fun hc => hnot (hc ▸ hx)⟩
      · intro hx
        exact hx.1
    · have hacc : s.heap.get? t.heap_index.toNat = some tid := by
        have h2 := h.acc t (find_by_tid_mem hf) (by push_neg at hrange; exact hrange.1)
        rw [find_by_tid_tid hf] at h2
        exact h2
      have hperm := heap_remove_perm s tid t hf hrange hacc
      have hnodup : (tid :: (heap_remove s tid).2.heap).Nodup :=
        hperm.nodup_iff.mp h.heap_nodup
      intro x
      constructor
      · intro hx
        refine ⟨hperm.mem_iff.mpr (List.mem_cons_of_mem tid hx), ?_⟩
        intro hc
        exact (List.nodup_cons.mp hnodup).1 (hc ▸ hx)
      · rintro ⟨hx1, hx2⟩
        have h3 : x ∈ tid :: (heap_remove s tid).2.heap := hperm.mem_iff.mp hx1
        rcases List.mem_cons.mp h3 with rfl | h4
        · exact absurd rfl hx2
        · exact h4

/-- `heap_remove` preserves the heap consistency bundle. -/
theorem heapinv_remove (s : Sched) (tid : Nat) (h : HeapInv s) :
    HeapInv (heap_remove s tid).2 := by
  unfold heap_remove
  cases hf : find_by_tid s.tasks tid with
  | none => exact h
  | some t =>
    dsimp only
    split
    · exact h
    · rename_i hrange
      have h0 : 0 ≤ t.heap_index := by push_neg at hrange; exact hrange.1
      have hacc : s.heap.get? t.heap_index.toNat = some tid := by
        have h2 := h.acc t (find_by_tid_mem hf) h0
        rw [find_by_tid_tid hf] at h2
        exact h2
      have hlen : t.heap_index.toNat < s.heap.length := getq_lt_length _ _ _ hacc
      try dsimp only
      split
      · rename_i hin
        have hn : s.heap.length - 1 < s.heap.length := by omega
        cases hgl : s.heap.get? (s.heap.length - 1) with
        | none =>
          exfalso
          rw [List.get?_eq_none] at hgl
          omega
        | some lastv =>
          have hld : (s.heap.get? (s.heap.length - 1)).getD 0 = lastv := by
            rw [hgl]
            rfl
          have hlv_ne : ¬ lastv = tid := by
            intro hc
            have := nodup_getq_inj s.heap h.heap_nodup _ _ tid hacc (hc ▸ hgl)
            omega
          have hlvmem : lastv ∈ s.heap := mem_of_getq _ _ _ hgl
          have htakeget : (s.heap.take (s.heap.length - 1)).get? t.heap_index.toNat
              = some tid := by
            rw [take_getq _ _ _ hin]
            exact hacc
          have hsplit2 : s.heap.take (s.heap.length - 1) ++ [lastv] = s.heap := by
            have h1 := take_append_getq s.heap (s.heap.length - 1) lastv hgl
            rw [h1, show s.heap.length - 1 + 1 = s.heap.length by omega, List.take_length]
          have hcore : s.heap.Perm (tid :: ((s.heap.take (s.heap.length - 1)).set t.heap_index.toNat lastv)) := by
            have h1 : s.heap.Perm (lastv :: s.heap.take (s.heap.length - 1)) := by
              conv_lhs => rw [← hsplit2]
              exact List.perm_append_singleton _ _
            exact h1.trans (cons_set_perm lastv tid _ t.heap_index.toNat htakeget)
          have hnodup2 : (tid :: ((s.heap.take (s.heap.length - 1)).set t.heap_index.toNat lastv)).Nodup := hcore.nodup_iff.mp h.heap_nodup
          have htidnotin : tid ∉ ((s.heap.take (s.heap.length - 1)).set t.heap_index.toNat lastv) := (List.nodup_cons.mp hnodup2).1
          have hH2sub : ∀ x ∈ ((s.heap.take (s.heap.length - 1)).set t.heap_index.toNat lastv), x ∈ s.heap := by
            intro x hx
            exact hcore.mem_iff.mpr (List.mem_cons_of_mem tid hx)
          have htidmap : (upd_task (upd_task s.tasks tid (fun u => { u with heap_index := -1 })) lastv (fun u => { u with heap_index := (t.heap_index.toNat : Int) })).map Task.tid = s.tasks.map Task.tid := by
            rw [upd_task_idx_map_tid, upd_task_idx_map_tid]
          have hmem2 : ∀ u ∈ (upd_task (upd_task s.tasks tid (fun u => { u with heap_index := -1 })) lastv (fun u => { u with heap_index := (t.heap_index.toNat : Int) })),
              ∃ t2 ∈ s.tasks,
                (t2.tid = lastv ∧ u = { t2 with heap_index := (t.heap_index.toNat : Int) }) ∨
                (¬ t2.tid = lastv ∧ t2.tid = tid ∧ u = { t2 with heap_index := -1 }) ∨
                (¬ t2.tid = lastv ∧ ¬ t2.tid = tid ∧ u = t2) := by
            intro u hu
            obtain ⟨v, hv, huv⟩ := mem_upd_task hu
            obtain ⟨t2, ht2, hvt⟩ := mem_upd_task hv
            refine ⟨t2, ht2, ?_⟩
            by_cases hta : t2.tid = lastv
            · refine Or.inl ⟨hta, ?_⟩
              subst hvt
              by_cases htb : t2.tid = tid
              · rw [if_pos htb] at huv
                rw [if_pos (show ({ t2 with heap_index := (-1 : Int) } : Task).tid = lastv from hta)] at huv
                exact huv
              · rw [if_neg htb] at huv
                rw [if_pos (show t2.tid = lastv from hta)] at huv
                exact huv
            · by_cases htb : t2.tid = tid
              · refine Or.inr (Or.inl ⟨hta, htb, ?_⟩)
                subst hvt
                rw [if_pos htb] at huv
                rw [if_neg (show ¬ ({ t2 with heap_index := (-1 : Int) } : Task).tid = lastv from hta)] at huv
                exact huv
              · refine Or.inr (Or.inr ⟨hta, htb, ?_⟩)
                subst hvt
                rw [if_neg htb] at huv
                rw [if_neg (show ¬ t2.tid = lastv from hta)] at huv
                exact huv
          have hinv2 : HeapInv ({ s with heap := (s.heap.take (s.heap.length - 1)).set t.heap_index.toNat lastv, tasks := upd_task (upd_task s.tasks tid (fun u => { u with heap_index := -1 })) lastv (fun u => { u with heap_index := (t.heap_index.toNat : Int) }) }) := by
            refine ⟨?_, ?_, ?_, ?_, ?_⟩
            · show ((upd_task (upd_task s.tasks tid (fun u => { u with heap_index := -1 })) lastv (fun u => { u with heap_index := (t.heap_index.toNat : Int) })).map Task.tid).Nodup
              rw [htidmap]
              exact h.tid_nodup
            · exact (List.nodup_cons.mp hnodup2).2
            · intro x hx
              obtain ⟨t2, ht2, htt⟩ := h.heap_sub x (hH2sub x hx)
              have hmm : x ∈ s.tasks.map Task.tid := htt ▸ List.mem_map_of_mem Task.tid ht2
              rw [← htidmap] at hmm
              exact exists_of_mem_map_tid hmm
            · intro u hu hidx
              rcases hmem2 u hu with ⟨t2, ht2, ⟨hta, rfl⟩ | ⟨hta, htb, rfl⟩ | ⟨hta, htb, rfl⟩⟩
              · show ((s.heap.take (s.heap.length - 1)).set t.heap_index.toNat lastv).get? ((t.heap_index.toNat : Int)).toNat = some t2.tid
                rw [Int.toNat_ofNat, hta]
                exact getq_set_self _ _ lastv tid htakeget
              · exact absurd hidx (show ¬ (0 : Int) ≤ (-1 : Int) by decide)
              · have hold := h.acc u ht2 hidx
                have hkne1 : ¬ u.heap_index.toNat = t.heap_index.toNat := by
                  intro hc
                  rw [hc, hacc] at hold
                  exact htb (Option.some.inj hold).symm
                have hkne2 : ¬ u.heap_index.toNat = s.heap.length - 1 := by
                  intro hc
                  rw [hc, hgl] at hold
                  exact hta (Option.some.inj hold).symm
                have hklt : u.heap_index.toNat < s.heap.length - 1 := by
                  have := getq_lt_length _ _ _ hold
                  omega
                show ((s.heap.take (s.heap.length - 1)).set t.heap_index.toNat lastv).get? u.heap_index.toNat = some u.tid
                rw [getq_set_ne _ t.heap_index.toNat u.heap_index.toNat lastv
                  (fun hc => hkne1 hc.symm)]
                rw [take_getq _ _ _ hklt]
                exact hold
            · intro u hu humem
              rcases hmem2 u hu with ⟨t2, ht2, ⟨hta, rfl⟩ | ⟨hta, htb, rfl⟩ | ⟨hta, htb, rfl⟩⟩
              · show (0 : Int) ≤ (t.heap_index.toNat : Int)
                exact Int.ofNat_nonneg _
              · exfalso
                have : t2.tid ∈ ((s.heap.take (s.heap.length - 1)).set t.heap_index.toNat lastv) := humem
                rw [htb] at this
                exact htidnotin this
              · exact h.memidx u ht2 (hH2sub _ humem)
          split
          · exact heapinv_bubble_up _ _ _ hinv2
          · exact heapinv_bubble_down _ _ _ hinv2
      · rename_i hin
        have hidxn : t.heap_index.toNat = s.heap.length - 1 := by omega
        have htidnotin : tid ∉ s.heap.take (s.heap.length - 1) := by
          intro hc
          obtain ⟨k, hk⟩ := getq_of_mem _ _ hc
          have hklen : k < s.heap.length - 1 := by
            have h1 := getq_lt_length _ _ _ hk
            rw [List.length_take] at h1
            omega
          rw [take_getq _ _ _ hklen] at hk
          have := nodup_getq_inj s.heap h.heap_nodup _ _ tid hk hacc
          omega
        refine ⟨?_, ?_, ?_, ?_, ?_⟩
        · show ((upd_task s.tasks tid (fun u => { u with heap_index := -1 })).map Task.tid).Nodup
          rw [upd_task_idx_map_tid]
          exact h.tid_nodup
        · exact (List.take_sublist _ _).nodup h.heap_nodup
        · intro x hx
          have hx2 : x ∈ s.heap := (List.take_sublist _ _).mem hx
          obtain ⟨t2, ht2, htt⟩ := h.heap_sub x hx2
          have hmm : x ∈ s.tasks.map Task.tid := htt ▸ List.mem_map_of_mem Task.tid ht2
          rw [← upd_task_idx_map_tid s.tasks tid (-1)] at hmm
          exact exists_of_mem_map_tid hmm
        · intro u hu hidx
          obtain ⟨t2, ht2, hut⟩ := mem_upd_task hu
          by_cases htb : t2.tid = tid
          · rw [if_pos htb] at hut
            subst hut
            exact absurd hidx (show ¬ (0 : Int) ≤ (-1 : Int) by decide)
          · rw [if_neg htb] at hut
            subst hut
            have hold := h.acc u ht2 hidx
            have hkne : ¬ u.heap_index.toNat = s.heap.length - 1 := by
              intro hc
              rw [hc, ← hidxn, hacc] at hold
              exact htb (Option.some.inj hold).symm
            have hklt : u.heap_index.toNat < s.heap.length - 1 := by
              have := getq_lt_length _ _ _ hold
              omega
            show (s.heap.take (s.heap.length - 1)).get? u.heap_index.toNat = some u.tid
            rw [take_getq _ _ _ hklt]
            exact hold
        · intro u hu humem
          obtain ⟨t2, ht2, hut⟩ := mem_upd_task hu
          by_cases htb : t2.tid = tid
          · rw [if_pos htb] at hut
            subst hut
            exfalso
            have : t2.tid ∈ s.heap.take (s.heap.length - 1) := humem
            rw [htb] at this
            exact htidnotin this
          · rw [if_neg htb] at hut
            subst hut
            exact h.memidx u ht2 ((List.take_sublist _ _).mem humem)


/-- Skeleton-equal states carry the same handle list. -/
theorem map_tid_of_sk {s1 s2 : Sched} (h : sk s1 = sk s2) :
    s1.tasks.map Task.tid = s2.tasks.map Task.tid := by
  have h1 : s1.tasks.map erase_qpos = s2.tasks.map erase_qpos := by
    have h2 := congrArg Sched.tasks h
    exact h2
  have h3 := map_map_id_pres Task.tid erase_qpos (fun _ => rfl) s1.tasks
  have h4 := map_map_id_pres Task.tid erase_qpos (fun _ => rfl) s2.tasks
  rw [← h3, ← h4, h1]

/-- A registered handle is found. -/
theorem find_by_tid_isSome {ts : List Task} {tid : Nat}
    (h : tid ∈ ts.map Task.tid) :
    ∃ u, find_by_tid ts tid = some u ∧ u.tid = tid := by
  obtain ⟨t, ht, htt⟩ := exists_of_mem_map_tid h
  unfold find_by_tid
  cases hf : ts.find? (fun u => u.tid == tid) with
  | none =>
    exfalso
    have h2 := List.find?_eq_none.mp hf t ht
    simp [htt] at h2
  | some u =>
    refine ⟨u, rfl, ?_⟩
    have h2 := List.find?_some hf
    simpa using h2

/-- Folding queue insertions of registered, unenqueued, duplicate-free
handles preserves the bundle and enqueues exactly those handles. -/
theorem heapinv_fold_insert :
    ∀ (l : List Nat) (s : Sched), HeapInv s →
    (∀ x ∈ l, x ∈ s.tasks.map Task.tid) → (l ++ s.heap).Nodup →
    HeapInv (l.foldl heap_insert s) ∧
    (l.foldl heap_insert s).heap.Perm (l ++ s.heap) := by
  intro l
  induction l with
  | nil => intro s hs _ _; exact ⟨hs, List.Perm.refl _⟩
  | cons x xs ih =>
    intro s hs hreg hnd
    simp only [List.foldl_cons]
    have hnd' : (x :: (xs ++ s.heap)).Nodup := hnd
    have hxnot : x ∉ s.heap := by
      have h1 := (List.nodup_cons.mp hnd').1
      intro hc
      exact h1 (List.mem_append_right xs hc)
    have hs1 : HeapInv (heap_insert s x) :=
      heapinv_insert s x hs (hreg x (List.mem_cons_self x xs)) hxnot
    have hskx : sk (heap_insert s x) = sk s := sk_heap_insert s x
    have hmapx := map_tid_of_sk hskx
    have hpx : (heap_insert s x).heap.Perm (x :: s.heap) := heap_insert_perm s x
    have hreg2 : ∀ y ∈ xs, y ∈ (heap_insert s x).tasks.map Task.tid := by
      intro y hy
      rw [hmapx]
      exact hreg y (List.mem_cons_of_mem x hy)
    have hnd2 : (xs ++ (heap_insert s x).heap).Nodup := by
      have hp2 : (xs ++ (heap_insert s x).heap).Perm (xs ++ (x :: s.heap)) :=
        List.Perm.append_left xs hpx
      have hp3 : (xs ++ (x :: s.heap)).Perm ((x :: xs) ++ s.heap) :=
        List.perm_middle
      exact (hp2.trans hp3).nodup_iff.mpr hnd
    obtain ⟨hinv3, hperm3⟩ := ih (heap_insert s x) hs1 hreg2 hnd2
    refine ⟨hinv3, ?_⟩
    have h5 : (xs ++ (heap_insert s x).heap).Perm ((x :: xs) ++ s.heap) :=
      (List.Perm.append_left xs hpx).trans List.perm_middle
    exact hperm3.trans h5

/-- The candidate loop with enough fuel: the bundle is preserved and the
initial deferred pile plus queue is exactly the final deferred pile, the
selection, and the remaining queue. -/
theorem pick_loop_char (cpu : Int) (pl : List (Nat × ℚ)) (tus : ℚ) :
    ∀ (fuel : Nat) (s : Sched) (d : List Nat), HeapInv s →
    (d ++ s.heap).Nodup → s.heap.length < fuel →
    HeapInv (pick_loop cpu pl tus s d fuel).2.1 ∧
    (d ++ s.heap).Perm
      ((pick_loop cpu pl tus s d fuel).2.2 ++
        ((pick_loop cpu pl tus s d fuel).1.toList ++
          (pick_loop cpu pl tus s d fuel).2.1.heap)) := by
  intro fuel
  induction fuel with
  | zero => intro s d _ _ hf; omega
  | succ n ih =>
    intro s d hs hnd hfuel
    have hE := heapinv_extract s hs
    have hEp := heap_extract_min_perm s
    unfold pick_loop
    rcases hext : heap_extract_min s with ⟨sel, sE⟩
    rw [hext] at hE hEp
    simp only [hext]
    cases sel with
    | none =>
      have hEheap : sE.heap = s.heap := by
        rcases hEp with ⟨_, h2⟩ | ⟨m, hm, _⟩
        · exact h2
        · cases hm
      refine ⟨hE.1, ?_⟩
      rw [hEheap]
      simp only [Option.toList]
      exact List.Perm.refl _
    | some m =>
      have hperm : s.heap.Perm (m :: sE.heap) := by
        rcases hEp with ⟨h1, _⟩ | ⟨m2, hm2, h2⟩
        · cases h1
        · cases hm2
          exact h2
      have hskE : sk sE = sk s := by
        have h2 := sk_heap_extract s
        rw [hext] at h2
        exact h2
      have hmreg : m ∈ sE.tasks.map Task.tid := by
        rw [map_tid_of_sk hskE]
        obtain ⟨t, ht, htt⟩ := hs.heap_sub m (hperm.mem_iff.mpr (List.mem_cons_self m _))
        exact htt ▸ List.mem_map_of_mem Task.tid ht
      obtain ⟨u, hfd, _⟩ := find_by_tid_isSome hmreg
      dsimp only
      simp only [hfd]
      have hdperm : (d ++ s.heap).Perm ((d ++ [m]) ++ sE.heap) := by
        have h1 : (d ++ s.heap).Perm (d ++ (m :: sE.heap)) :=
          List.Perm.append_left d hperm
        rw [← List.append_cons]
        exact h1
      have hnd2 : ((d ++ [m]) ++ sE.heap).Nodup := hdperm.nodup_iff.mp hnd
      have hfuel2 : sE.heap.length < n := by
        have h1 := hperm.length_eq
        simp only [List.length_cons] at h1
        omega
      repeat' split
      all_goals first
        | (obtain ⟨hA, hB⟩ := ih sE (d ++ [m]) hE.1 hnd2 hfuel2
           exact ⟨hA, hdperm.trans hB⟩)
        | (refine ⟨hE.1, ?_⟩
           have hd2 := hdperm
           rw [List.append_assoc] at hd2
           exact hd2)

/-- `pick_task_for_cpu`: the bundle is preserved, the skeleton is
untouched, and the queue loses exactly the selected handle. -/
theorem pick_char (s : Sched) (cpu : Int) (pl : List (Nat × ℚ)) (tus : ℚ)
    (hs : HeapInv s) :
    HeapInv (pick_task_for_cpu s cpu pl tus).2.1 ∧
    s.heap.Perm ((pick_task_for_cpu s cpu pl tus).1.toList ++
      (pick_task_for_cpu s cpu pl tus).2.1.heap) := by
  obtain ⟨hA, hB⟩ := pick_loop_char cpu pl tus (s.heap.length + 1) s [] hs
    (by simpa using hs.heap_nodup) (by omega)
  have hsk := sk_pick_loop cpu pl tus (s.heap.length + 1) s []
  unfold pick_task_for_cpu
  rcases hl : pick_loop cpu pl tus s [] (s.heap.length + 1) with ⟨sel, sL, dL⟩
  rw [hl] at hA hB hsk
  simp only at hA hB hsk
  have hregL : ∀ x ∈ dL, x ∈ sL.tasks.map Task.tid := by
    intro x hx
    rw [map_tid_of_sk hsk]
    have hx2 : x ∈ [] ++ s.heap := hB.mem_iff.mpr
      (List.mem_append_left _ hx)
    obtain ⟨t, ht, htt⟩ := hs.heap_sub x (by simpa using hx2)
    exact htt ▸ List.mem_map_of_mem Task.tid ht
  have h2 : (dL ++ (sel.toList ++ sL.heap)).Perm (sel.toList ++ (dL ++ sL.heap)) := by
    have ha : dL ++ (sel.toList ++ sL.heap) = (dL ++ sel.toList) ++ sL.heap := by
      rw [List.append_assoc]
    have hb : ((dL ++ sel.toList) ++ sL.heap).Perm ((sel.toList ++ dL) ++ sL.heap) :=
      List.Perm.append_right _ List.perm_append_comm
    have hc : (sel.toList ++ dL) ++ sL.heap = sel.toList ++ (dL ++ sL.heap) := by
      rw [List.append_assoc]
    rw [ha, ← hc]
    exact hb
  have h1 : (dL ++ (sel.toList ++ sL.heap)).Nodup := hB.nodup_iff.mp
    (by simpa using hs.heap_nodup)
  have hndL : (dL ++ sL.heap).Nodup := List.Nodup.of_append_right (h2.nodup_iff.mp h1)
  obtain ⟨hI2, hP2⟩ := heapinv_fold_insert dL sL hA hregL hndL
  refine ⟨hI2, ?_⟩
  have h3 : s.heap.Perm (sel.toList ++ (dL ++ sL.heap)) := by
    have h4 : s.heap.Perm (dL ++ (sel.toList ++ sL.heap)) := by
      have h5 := hB
      simpa using h5
    exact h4.trans h2
  have h6 : (sel.toList ++ (dL.foldl heap_insert sL).heap).Perm
      (sel.toList ++ (dL ++ sL.heap)) := List.Perm.append_left _ hP2
  exact h3.trans h6.symm


/-- Transport a record across an `erase_qpos`-equal task list. -/
theorem mem_erase_transport {l1 l2 : List Task}
    (h : l1.map erase_qpos = l2.map erase_qpos) {t : Task} (ht : t ∈ l1) :
    ∃ t2 ∈ l2, erase_qpos t2 = erase_qpos t := by
  obtain ⟨i, hi⟩ := getq_of_mem l1 t ht
  have h1 : (l1.map erase_qpos).get? i = some (erase_qpos t) := by
    rw [List.get?_map, hi]
    rfl
  rw [h, List.get?_map] at h1
  cases hg : l2.get? i with
  | none => rw [hg] at h1; cases h1
  | some t2 =>
    rw [hg] at h1
    refine ⟨t2, mem_of_getq l2 i t2 hg, ?_⟩
    simpa using h1

/-- Fields read through `erase_qpos`. -/
theorem erase_eq_fields {t1 t2 : Task} (h : erase_qpos t1 = erase_qpos t2) :
    t1.tid = t2.tid ∧ t1.task_id = t2.task_id ∧ t1.state = t2.state ∧
    t1.current_cpu = t2.current_cpu ∧ t1.vruntime = t2.vruntime ∧
    t1.cgroup_id = t2.cgroup_id := by
  refine ⟨?_, ?_, ?_, ?_, ?_, ?_⟩
  · have h2 := congrArg Task.tid h
    exact h2
  · have h2 := congrArg Task.task_id h
    exact h2
  · have h2 := congrArg Task.state h
    exact h2
  · have h2 := congrArg Task.current_cpu h
    exact h2
  · have h2 := congrArg Task.vruntime h
    exact h2
  · have h2 := congrArg Task.cgroup_id h
    exact h2

/-- Skeleton-equal states share slots, CPU count and counters. -/
theorem sk_fields {s1 s2 : Sched} (h : sk s1 = sk s2) :
    s1.slots = s2.slots ∧ s1.cpu_count = s2.cpu_count ∧
    s1.next_tid = s2.next_tid ∧
    s1.tasks.map erase_qpos = s2.tasks.map erase_qpos := by
  refine ⟨?_, ?_, ?_, ?_⟩
  · have h2 := congrArg Sched.slots h
    exact h2
  · have h2 := congrArg Sched.cpu_count h
    exact h2
  · have h2 := congrArg Sched.next_tid h
    exact h2
  · have h2 := congrArg Sched.tasks h
    exact h2

/-- `WF` follows from the heap bundle when the skeleton is untouched. -/
theorem WF_transport {s s' : Sched} (hw : WF s) (hh : HeapInv s')
    (hsk : sk s' = sk s) : WF s' := by
  obtain ⟨hslots, hcpu, hnext, hmap⟩ := sk_fields hsk
  refine ⟨hh.tid_nodup, ?_, hh.heap_nodup, hh.heap_sub, hh.acc, hh.memidx, ?_, ?_, ?_, ?_⟩
  · intro t ht
    obtain ⟨t2, ht2, he⟩ := mem_erase_transport hmap ht
    obtain ⟨htid, _, _, _, _, _⟩ := erase_eq_fields he
    rw [hnext, ← htid]
    exact hw.tid_lt t2 ht2
  · rw [hslots, hcpu]
    exact hw.slots_len
  · intro c tid hc
    rw [hslots] at hc
    obtain ⟨t, ht, htid, hcp, hst⟩ := hw.slot_task c tid hc
    obtain ⟨t2, ht2, he⟩ := mem_erase_transport hmap.symm ht
    obtain ⟨htid2, _, hst2, hcp2, _, _⟩ := erase_eq_fields he
    exact ⟨t2, ht2, htid2 ▸ htid, hcp2 ▸ hcp, by rw [hst2]; exact hst⟩
  · intro t ht hcp
    obtain ⟨t2, ht2, he⟩ := mem_erase_transport hmap ht
    obtain ⟨htid, _, _, hcpe, _, _⟩ := erase_eq_fields he
    rw [hslots, ← hcpe, ← htid]
    exact hw.cpu_slot t2 ht2 (by rw [hcpe]; exact hcp)
  · intro t ht hst
    obtain ⟨t2, ht2, he⟩ := mem_erase_transport hmap ht
    obtain ⟨_, _, hste, hcpe, _, _⟩ := erase_eq_fields he
    rw [← hcpe]
    exact hw.run_cpu t2 ht2 (by rw [hste]; exact hst)

/-- The amended queue-membership invariant follows across a
skeleton-preserving step whose queue keeps the same members. -/
theorem Q_transport {s s' : Sched} (hq : queue_iff_runnable_unassigned s)
    (hsk : sk s' = sk s) (hheap : ∀ x, x ∈ s'.heap ↔ x ∈ s.heap) :
    queue_iff_runnable_unassigned s' := by
  obtain ⟨hslots, _, _, hmap⟩ := sk_fields hsk
  intro t ht
  obtain ⟨t2, ht2, he⟩ := mem_erase_transport hmap ht
  obtain ⟨htid, _, hst, _, _, _⟩ := erase_eq_fields he
  rw [← htid, ← hst, hslots]
  constructor
  · intro hmem
    exact (hq t2 ht2).mp ((hheap t2.tid).mp hmem)
  · intro hr
    exact (hheap t2.tid).mpr ((hq t2 ht2).mpr hr)


/-- Steps that keep tasks, queue and slots (and do not lower the handle
counter) preserve `WF` and the amended queue invariant. -/
theorem WF_Q_frame {s s' : Sched} (hw : WF s) (hq : queue_iff_runnable_unassigned s)
    (ht : s'.tasks = s.tasks) (hh : s'.heap = s.heap) (hsl : s'.slots = s.slots)
    (hc : s'.cpu_count = s.cpu_count) (hn : s.next_tid ≤ s'.next_tid) :
    WF s' ∧ queue_iff_runnable_unassigned s' := by
  constructor
  · refine ⟨?_, ?_, ?_, ?_, ?_, ?_, ?_, ?_, ?_, ?_⟩
    · rw [ht]; exact hw.tid_nodup
    · rw [ht]
      intro t htm
      have := hw.tid_lt t htm
      omega
    · rw [hh]; exact hw.heap_nodup
    · rw [hh, ht]; exact hw.heap_sub
    · rw [ht, hh]; exact hw.acc
    · rw [ht, hh]; exact hw.memidx
    · rw [hsl, hc]; exact hw.slots_len
    · rw [hsl, ht]; exact hw.slot_task
    · rw [ht, hsl]; exact hw.cpu_slot
    · rw [ht]; exact hw.run_cpu
  · intro t htm
    rw [ht] at htm
    rw [hh, hsl]
    exact hq t htm

/-- Transport membership into a single-position rewrite: every record of
the original list reappears, as itself or as the rewritten record. -/
theorem mem_into_set {ts : List Task} {i : Nat} {t : Task} (hget : ts.get? i = some t)
    (a : Task) {u : Task} (hu : u ∈ ts) :
    (u = t ∧ a ∈ ts.set i a) ∨ u ∈ ts.set i a := by
  obtain ⟨k, hk⟩ := getq_of_mem ts u hu
  by_cases hik : k = i
  · subst hik
    rw [hget] at hk
    left
    refine ⟨(Option.some.inj hk).symm, ?_⟩
    exact mem_of_getq _ k a (getq_set_self ts k a t hget)
  · right
    have h2 : (ts.set i a).get? k = some u := by
      rw [getq_set_ne ts i k a (fun hc => hik hc.symm)]
      exact hk
    exact mem_of_getq _ k u h2

/-- Single-record updates that keep the handle, state, CPU and queue
back-pointer preserve `WF` and the amended queue invariant. -/
theorem WF_Q_set (s : Sched) (hw : WF s) (hq : queue_iff_runnable_unassigned s)
    (i : Nat) (f : Task → Task)
    (hf : ∀ t, (f t).tid = t.tid ∧ (f t).state = t.state ∧
      (f t).current_cpu = t.current_cpu ∧ (f t).heap_index = t.heap_index) :
    WF { s with tasks := set_task_at s.tasks i f } ∧
    queue_iff_runnable_unassigned { s with tasks := set_task_at s.tasks i f } := by
  cases hget : s.tasks.get? i with
  | none =>
    have hsame : set_task_at s.tasks i f = s.tasks := by
      unfold set_task_at
      rw [hget]
    exact WF_Q_frame hw hq (by rw [hsame]) rfl rfl rfl (le_refl _)
  | some t =>
    have hsame : set_task_at s.tasks i f = s.tasks.set i (f t) := by
      unfold set_task_at
      rw [hget]
    have hmapt : (s.tasks.set i (f t)).map Task.tid = s.tasks.map Task.tid :=
      map_set_id_pres Task.tid s.tasks i t (f t) hget (hf t).1
    have htm : t ∈ s.tasks := mem_of_getq _ _ _ hget
    have hmem : ∀ u ∈ s.tasks.set i (f t), u = f t ∨ u ∈ s.tasks := by
      intro u hu
      rcases List.mem_or_eq_of_mem_set hu with h1 | h1
      · exact Or.inr h1
      · exact Or.inl h1
    have hout : ∀ u ∈ s.tasks, (u = t ∧ f t ∈ s.tasks.set i (f t)) ∨ u ∈ s.tasks.set i (f t) :=
      fun u hu => mem_into_set hget (f t) hu
    rw [hsame]
    constructor
    · refine ⟨?_, ?_, ?_, ?_, ?_, ?_, ?_, ?_, ?_, ?_⟩
      · rw [hmapt]; exact hw.tid_nodup
      · intro u hu
        rcases hmem u hu with rfl | h1
        · rw [(hf t).1]
          exact hw.tid_lt t htm
        · exact hw.tid_lt u h1
      · exact hw.heap_nodup
      · intro x hx
        obtain ⟨u, hu, huu⟩ := hw.heap_sub x hx
        rcases hout u hu with ⟨rfl, h2⟩ | h2
        · exact ⟨f u, h2, (hf u).1.trans huu⟩
        · exact ⟨u, h2, huu⟩
      · intro u hu hidx
        rcases hmem u hu with rfl | h1
        · rw [(hf t).2.2.2] at hidx ⊢
          rw [(hf t).1]
          exact hw.acc t htm hidx
        · exact hw.acc u h1 hidx
      · intro u hu humem
        rcases hmem u hu with rfl | h1
        · rw [(hf t).2.2.2]
          rw [(hf t).1] at humem
          exact hw.memidx t htm humem
        · exact hw.memidx u h1 humem
      · exact hw.slots_len
      · intro c tid hc
        obtain ⟨u, hu, h1, h2, h3⟩ := hw.slot_task c tid hc
        rcases hout u hu with ⟨rfl, h4⟩ | h4
        · exact ⟨f u, h4, (hf u).1.trans h1, (hf u).2.2.1.trans h2,
            by rw [(hf u).2.1]; exact h3⟩
        · exact ⟨u, h4, h1, h2, h3⟩
      · intro u hu hcp
        rcases hmem u hu with rfl | h1
        · rw [(hf t).2.2.1] at hcp ⊢
          rw [(hf t).1]
          exact hw.cpu_slot t htm hcp
        · exact hw.cpu_slot u h1 hcp
      · intro u hu hst
        rcases hmem u hu with rfl | h1
        · rw [(hf t).2.1] at hst
          rw [(hf t).2.2.1]
          exact hw.run_cpu t htm hst
        · exact hw.run_cpu u h1 hst
    · intro u hu
      rcases hmem u hu with rfl | h1
      · rw [(hf t).1, (hf t).2.1]
        exact hq t htm
      · exact hq u h1

/-- Whole-registry rewrites that keep the handle, state, CPU and queue
back-pointer of every record preserve `WF` and the queue invariant. -/
theorem WF_Q_map (s : Sched) (hw : WF s) (hq : queue_iff_runnable_unassigned s)
    (f : Task → Task)
    (hf : ∀ t, (f t).tid = t.tid ∧ (f t).state = t.state ∧
      (f t).current_cpu = t.current_cpu ∧ (f t).heap_index = t.heap_index) :
    WF { s with tasks := s.tasks.map f } ∧
    queue_iff_runnable_unassigned { s with tasks := s.tasks.map f } := by
  have hmapt : (s.tasks.map f).map Task.tid = s.tasks.map Task.tid :=
    map_map_id_pres Task.tid f (fun t => (hf t).1) s.tasks
  have hmem : ∀ u ∈ s.tasks.map f, ∃ v ∈ s.tasks, u = f v := by
    intro u hu
    obtain ⟨v, hv, hvu⟩ := List.mem_map.mp hu
    exact ⟨v, hv, hvu.symm⟩
  constructor
  · refine ⟨?_, ?_, ?_, ?_, ?_, ?_, ?_, ?_, ?_, ?_⟩
    · rw [hmapt]; exact hw.tid_nodup
    · intro u hu
      obtain ⟨v, hv, rfl⟩ := hmem u hu
      rw [(hf v).1]
      exact hw.tid_lt v hv
    · exact hw.heap_nodup
    · intro x hx
      obtain ⟨u, hu, huu⟩ := hw.heap_sub x hx
      exact ⟨f u, List.mem_map_of_mem f hu, (hf u).1.trans huu⟩
    · intro u hu hidx
      obtain ⟨v, hv, rfl⟩ := hmem u hu
      rw [(hf v).2.2.2] at hidx ⊢
      rw [(hf v).1]
      exact hw.acc v hv hidx
    · intro u hu humem
      obtain ⟨v, hv, rfl⟩ := hmem u hu
      rw [(hf v).2.2.2]
      rw [(hf v).1] at humem
      exact hw.memidx v hv humem
    · exact hw.slots_len
    · intro c tid hc
      obtain ⟨u, hu, h1, h2, h3⟩ := hw.slot_task c tid hc
      exact ⟨f u, List.mem_map_of_mem f hu, (hf u).1.trans h1, (hf u).2.2.1.trans h2,
        by rw [(hf u).2.1]; exact h3⟩
    · intro u hu hcp
      obtain ⟨v, hv, rfl⟩ := hmem u hu
      rw [(hf v).2.2.1] at hcp ⊢
      rw [(hf v).1]
      exact hw.cpu_slot v hv hcp
    · intro u hu hst
      obtain ⟨v, hv, rfl⟩ := hmem u hu
      rw [(hf v).2.1] at hst
      rw [(hf v).2.2.1]
      exact hw.run_cpu v hv hst
  · intro u hu
    obtain ⟨v, hv, rfl⟩ := hmem u hu
    rw [(hf v).1, (hf v).2.1]
    exact hq v hv

/-- `heap_update` preserves `WF` and the queue invariant. -/
theorem WF_Q_heap_update (s : Sched) (hw : WF s)
    (hq : queue_iff_runnable_unassigned s) (tid : Nat) :
    WF (heap_update s tid) ∧ queue_iff_runnable_unassigned (heap_update s tid) := by
  have hhi : HeapInv s := ⟨hw.tid_nodup, hw.heap_nodup, hw.heap_sub, hw.acc, hw.memidx⟩
  have hsk := sk_heap_update s tid
  refine ⟨WF_transport hw (heapinv_update s tid hhi) hsk, ?_⟩
  exact Q_transport hq hsk (fun x => (heap_update_perm s tid).mem_iff)


/-- Writing at or past the truncation point leaves a prefix unchanged. -/
theorem take_set_ge {α : Type} :
    ∀ (l : List α) (n i : Nat) (b : α), n ≤ i → (l.set i b).take n = l.take n := by
  intro l
  induction l with
  | nil => intro n i b _; cases i <;> cases n <;> rfl
  | cons x xs ih =>
    intro n i b h
    cases i with
    | zero =>
      cases n with
      | zero => rfl
      | succ m => omega
    | succ j =>
      cases n with
      | zero => rfl
      | succ m =>
        show x :: (xs.set j b).take m = x :: xs.take m
        rw [ih m j b (by omega)]

/-- Writing strictly inside a prefix commutes with truncation. -/
theorem take_set_comm {α : Type} :
    ∀ (l : List α) (n i : Nat) (b : α), i < n →
    (l.set i b).take n = (l.take n).set i b := by
  intro l
  induction l with
  | nil => intro n i b _; cases i <;> cases n <;> rfl
  | cons x xs ih =>
    intro n i b h
    cases n with
    | zero => omega
    | succ m =>
      cases i with
      | zero => rfl
      | succ j =>
        show x :: (xs.set j b).take m = x :: (xs.take m).set j b
        rw [ih m j b (by omega)]

/-- Writing before the last position commutes with dropping it. -/
theorem dropLast_set {α : Type} (l : List α) (i : Nat) (b : α)
    (h : i < l.length - 1) :
    (l.set i b).dropLast = l.dropLast.set i b := by
  rw [List.dropLast_eq_take, List.dropLast_eq_take, List.length_set,
    take_set_comm l (l.length - 1) i b h]

/-- Writing the last position and dropping it is just dropping it. -/
theorem dropLast_set_last {α : Type} (l : List α) (b : α) :
    (l.set (l.length - 1) b).dropLast = l.dropLast := by
  rw [List.dropLast_eq_take, List.dropLast_eq_take, List.length_set,
    take_set_ge l (l.length - 1) (l.length - 1) b (le_refl _)]

/-- The `getLast?` element sits at the last index. -/
theorem getLastq_eq_getq {α : Type} (l : List α) (a : α)
    (h : l.getLast? = some a) : l.get? (l.length - 1) = some a := by
  have hsplit := dropLast_append_getLast l a h
  have h1 : (l.dropLast ++ [a]).get? l.dropLast.length = some a := getq_append_len _ _
  rw [hsplit, List.length_dropLast] at h1
  exact h1

/-- The C swap-remove idiom: overwrite position `i` with the last element
and drop the last position; as a multiset this removes the element that
was at `i`. -/
theorem swap_remove_perm {α : Type} (l : List α) (i : Nat) (a lastv : α)
    (hi : l.get? i = some a) (hl : l.getLast? = some lastv) :
    l.Perm (a :: (l.set i lastv).dropLast) := by
  have hilen : i < l.length := getq_lt_length l i a hi
  by_cases hlast : i = l.length - 1
  · subst hlast
    have ha : a = lastv := by
      rw [getLastq_eq_getq l lastv hl] at hi
      exact (Option.some.inj hi).symm
    subst ha
    rw [dropLast_set_last]
    have hsplit := dropLast_append_getLast l a hl
    have h1 : l.Perm (l.dropLast ++ [a]) := by rw [hsplit]
    exact h1.trans (List.perm_append_singleton a l.dropLast)
  · have hilt : i < l.length - 1 := by omega
    rw [dropLast_set l i lastv hilt]
    have hdi : l.dropLast.get? i = some a := by
      rw [getq_dropLast l i hilt]
      exact hi
    have h1 : (lastv :: l.dropLast).Perm (a :: l.dropLast.set i lastv) :=
      cons_set_perm lastv a l.dropLast i hdi
    have hsplit := dropLast_append_getLast l lastv hl
    have h2 : l.Perm (l.dropLast ++ [lastv]) := by rw [hsplit]
    exact (h2.trans (List.perm_append_singleton lastv l.dropLast)).trans h1

/-- Registry scans by id agree whenever the id columns agree. -/
theorem find_task_idx_map_id (id : String) :
    ∀ l1 l2 : List Task, l1.map Task.task_id = l2.map Task.task_id →
    find_task_idx l1 id = find_task_idx l2 id := by
  intro l1
  induction l1 with
  | nil =>
    intro l2 h
    cases l2 with
    | nil => rfl
    | cons y ys => cases h
  | cons x xs ih =>
    intro l2 h
    cases l2 with
    | nil => cases h
    | cons y ys =>
      simp only [List.map_cons, List.cons.injEq] at h
      unfold find_task_idx
      simp only [List.findIdx?_cons, h.1]
      rw [findIdxq_shift _ xs 0, findIdxq_shift _ ys 0]
      have h4 := ih ys h.2
      unfold find_task_idx at h4
      rw [h4]

/-- A successful id scan points at a record carrying that id. -/
theorem find_task_idx_getq :
    ∀ (ts : List Task) (id : String) (i : Nat), find_task_idx ts id = some i →
    ∃ t, ts.get? i = some t ∧ t.task_id = id := by
  intro ts
  induction ts with
  | nil => intro id i h; cases h
  | cons x xs ih =>
    intro id i h
    unfold find_task_idx at h
    rw [List.findIdx?_cons] at h
    by_cases hx : x.task_id = id
    · rw [if_pos (by simpa using hx)] at h
      cases h
      exact ⟨x, rfl, hx⟩
    · rw [if_neg (by simpa using hx), findIdxq_shift _ xs 0] at h
      cases hf : xs.findIdx? (fun t => t.task_id == id) 0 with
      | none => rw [hf] at h; cases h
      | some j =>
        rw [hf] at h
        have hij : i = j + 1 := (Option.some.inj h).symm
        subst hij
        obtain ⟨t, ht, htt⟩ := ih id j hf
        exact ⟨t, ht, htt⟩

/-- Two registry records with the same handle are the same record. -/
theorem tid_unique {ts : List Task} (hnd : (ts.map Task.tid).Nodup)
    {u v : Task} (hu : u ∈ ts) (hv : v ∈ ts) (ht : u.tid = v.tid) : u = v := by
  obtain ⟨k1, hk1⟩ := getq_of_mem ts u hu
  obtain ⟨k2, hk2⟩ := getq_of_mem ts v hv
  have hm1 : (ts.map Task.tid).get? k1 = some u.tid := by
    rw [List.get?_map, hk1]; rfl
  have hm2 : (ts.map Task.tid).get? k2 = some u.tid := by
    rw [List.get?_map, hk2, ht]; rfl
  have hk : k1 = k2 := nodup_getq_inj _ hnd k1 k2 u.tid hm1 hm2
  subst hk
  rw [hk1] at hk2
  exact Option.some.inj hk2

/-- Positional transport across an `erase_qpos`-equal registry. -/
theorem getq_erase_transport {l1 l2 : List Task}
    (h : l1.map erase_qpos = l2.map erase_qpos) {i : Nat} {t : Task}
    (ht : l2.get? i = some t) :
    ∃ u, l1.get? i = some u ∧ erase_qpos u = erase_qpos t := by
  have h1 : (l1.map erase_qpos).get? i = some (erase_qpos t) := by
    rw [h, List.get?_map, ht]
    rfl
  rw [List.get?_map] at h1
  cases hg : l1.get? i with
  | none => rw [hg] at h1; cases h1
  | some u =>
    rw [hg] at h1
    exact ⟨u, rfl, by simpa using h1⟩

/-- In-place record edits that keep the handle and the queue back-pointer
preserve the heap consistency bundle. -/
theorem heapinv_set (s : Sched) (i : Nat) (f : Task → Task) (h : HeapInv s)
    (hf : ∀ t, (f t).tid = t.tid ∧ (f t).heap_index = t.heap_index) :
    HeapInv { s with tasks := set_task_at s.tasks i f } := by
  cases hget : s.tasks.get? i with
  | none =>
    have hsame : set_task_at s.tasks i f = s.tasks := by
      unfold set_task_at
      rw [hget]
    show HeapInv { s with tasks := set_task_at s.tasks i f }
    rw [hsame]
    exact h
  | some t =>
    have hsame : set_task_at s.tasks i f = s.tasks.set i (f t) := by
      unfold set_task_at
      rw [hget]
    have hmapt : (s.tasks.set i (f t)).map Task.tid = s.tasks.map Task.tid :=
      map_set_id_pres Task.tid s.tasks i t (f t) hget (hf t).1
    have htm : t ∈ s.tasks := mem_of_getq _ _ _ hget
    rw [hsame]
    refine ⟨?_, h.heap_nodup, ?_, ?_, ?_⟩
    · rw [hmapt]
      exact h.tid_nodup
    · intro x hx
      obtain ⟨u, hu, huu⟩ := h.heap_sub x hx
      rcases mem_into_set hget (f t) hu with ⟨rfl, h2⟩ | h2
      · exact ⟨f u, h2, (hf u).1.trans huu⟩
      · exact ⟨u, h2, huu⟩
    · intro u hu hidx
      rcases List.mem_or_eq_of_mem_set hu with h1 | h1
      · exact h.acc u h1 hidx
      · subst h1
        rw [(hf t).2] at hidx ⊢
        rw [(hf t).1]
        exact h.acc t htm hidx
    · intro u hu humem
      rcases List.mem_or_eq_of_mem_set hu with h1 | h1
      · exact h.memidx u h1 humem
      · subst h1
        rw [(hf t).2]
        rw [(hf t).1] at humem
        exact h.memidx t htm humem


/-- Core of the `TASK_EXIT` preservation argument: after marking the found
record Exited, `scheduler_remove_task`'s three steps — dequeue, slot sweep,
swap-remove — restore `WF` and the queue invariant.  `s2` stands for the
state after the (conditional) dequeue, given by its semantic properties. -/
theorem remove_core (s s2 : Sched) (t : Task) (i : Nat) (lastv : Task)
    (hw : WF s) (hq : queue_iff_runnable_unassigned s)
    (hget : s.tasks.get? i = some t)
    (hA : HeapInv s2)
    (hmap2 : s2.tasks.map erase_qpos
      = (s.tasks.set i { t with state := TaskState.exited }).map erase_qpos)
    (hslots2 : s2.slots = s.slots) (hcpu2 : s2.cpu_count = s.cpu_count)
    (hnext2 : s2.next_tid = s.next_tid)
    (hC : ∀ x, x ∈ s2.heap ↔ (x ∈ s.heap ∧ ¬ x = t.tid))
    (hgl : s2.tasks.getLast? = some lastv) :
    WF { s2 with
      slots := s2.slots.map (fun o => if o == some t.tid then none else o),
      tasks := (s2.tasks.set i lastv).dropLast } ∧
    queue_iff_runnable_unassigned { s2 with
      slots := s2.slots.map (fun o => if o == some t.tid then none else o),
      tasks := (s2.tasks.set i lastv).dropLast } := by
  have hset1 : (s.tasks.set i { t with state := TaskState.exited }).get? i
      = some { t with state := TaskState.exited } :=
    getq_set_self s.tasks i _ t hget
  obtain ⟨ui, hui, huie⟩ := getq_erase_transport hmap2 hset1
  obtain ⟨huit, -, huis, -, -, -⟩ := erase_eq_fields huie
  have hmapt1 : (s.tasks.set i { t with state := TaskState.exited }).map Task.tid
      = s.tasks.map Task.tid := map_set_id_pres Task.tid s.tasks i t _ hget rfl
  have hmapt2 : s2.tasks.map Task.tid = s.tasks.map Task.tid := by
    have h1 := map_map_id_pres Task.tid erase_qpos (fun _ => rfl) s2.tasks
    have h2 := map_map_id_pres Task.tid erase_qpos (fun _ => rfl)
      (s.tasks.set i { t with state := TaskState.exited })
    rw [← h1, hmap2, h2, hmapt1]
  have hperm : s2.tasks.Perm (ui :: (s2.tasks.set i lastv).dropLast) :=
    swap_remove_perm s2.tasks i ui lastv hui hgl
  have hpermt : (s2.tasks.map Task.tid).Perm
      (ui.tid :: ((s2.tasks.set i lastv).dropLast).map Task.tid) := by
    have h1 := hperm.map Task.tid
    simpa using h1
  have hnd2 : (s2.tasks.map Task.tid).Nodup := by
    rw [hmapt2]; exact hw.tid_nodup
  have hndc : (ui.tid :: ((s2.tasks.set i lastv).dropLast).map Task.tid).Nodup :=
    hpermt.nodup_iff.mp hnd2
  have hnd4 : (((s2.tasks.set i lastv).dropLast).map Task.tid).Nodup :=
    (List.nodup_cons.mp hndc).2
  have htid4 : t.tid ∉ ((s2.tasks.set i lastv).dropLast).map Task.tid := by
    have h1 := (List.nodup_cons.mp hndc).1
    rw [huit] at h1
    exact h1
  have hmem4 : ∀ u ∈ (s2.tasks.set i lastv).dropLast,
      u ∈ s2.tasks ∧ ¬ u.tid = t.tid := by
    intro u hu
    refine ⟨hperm.mem_iff.mpr (List.mem_cons_of_mem ui hu), ?_⟩
    intro hc
    exact htid4 (hc ▸ List.mem_map_of_mem Task.tid hu)
  have hS : ∀ u ∈ (s2.tasks.set i lastv).dropLast,
      ∃ w ∈ s.tasks, erase_qpos w = erase_qpos u ∧ ¬ w.tid = t.tid := by
    intro u hu
    obtain ⟨hu2, hunt⟩ := hmem4 u hu
    obtain ⟨w1, hw1, hwe⟩ := mem_erase_transport hmap2 hu2
    obtain ⟨hwt, -, -, -, -, -⟩ := erase_eq_fields hwe
    have hwnt : ¬ w1.tid = t.tid := by rw [hwt]; exact hunt
    rcases List.mem_or_eq_of_mem_set hw1 with h1 | h1
    · exact ⟨w1, h1, hwe, hwnt⟩
    · exfalso
      apply hwnt
      rw [h1]
  have hR : ∀ w ∈ s.tasks, ¬ w.tid = t.tid →
      ∃ u ∈ (s2.tasks.set i lastv).dropLast, erase_qpos u = erase_qpos w := by
    intro w hwm hwnt
    rcases mem_into_set hget { t with state := TaskState.exited } hwm with ⟨rfl, -⟩ | h1
    · exact absurd rfl hwnt
    · obtain ⟨u2, hu2, hue⟩ := mem_erase_transport hmap2.symm h1
      obtain ⟨hut, -, -, -, -, -⟩ := erase_eq_fields hue
      have : u2 ∈ ui :: (s2.tasks.set i lastv).dropLast := hperm.mem_iff.mp hu2
      rcases List.mem_cons.mp this with rfl | h3
      · exfalso
        apply hwnt
        rw [← hut, huit]
      · exact ⟨u2, h3, hue⟩
  have hclr : ∀ (c : Nat) (x : Nat),
      (s.slots.map (fun o => if o == some t.tid then none else o)).get? c
        = some (some x) ↔
      (s.slots.get? c = some (some x) ∧ ¬ x = t.tid) := by
    intro c x
    rw [List.get?_map]
    cases ho : s.slots.get? c with
    | none =>
      constructor
      · intro h
        have h2 : (none : Option (Option Nat)) = some (some x) := h
        cases h2
      · intro h
        have h2 : (none : Option (Option Nat)) = some (some x) := h.1
        cases h2
    | some o =>
      show some (if o == some t.tid then none else o) = some (some x) ↔ _
      by_cases hov : o = some t.tid
      · rw [if_pos (by simpa using hov)]
        constructor
        · intro h
          have h2 : (none : Option Nat) = some x := Option.some.inj h
          cases h2
        · intro h
          have h3 : o = some x := Option.some.inj h.1
          exfalso
          apply h.2
          have h4 : some x = some t.tid := by rw [← h3, hov]
          exact Option.some.inj h4
      · rw [if_neg (by simpa using hov)]
        constructor
        · intro h
          have h3 : o = some x := Option.some.inj h
          refine ⟨by rw [h3], ?_⟩
          intro hc
          apply hov
          rw [h3, hc]
        · intro h
          have h3 : o = some x := Option.some.inj h.1
          rw [h3]
  have hclrmem : ∀ x : Nat,
      some x ∈ s.slots.map (fun o => if o == some t.tid then none else o) ↔
      (some x ∈ s.slots ∧ ¬ x = t.tid) := by
    intro x
    constructor
    · intro hx
      obtain ⟨c, hc⟩ := getq_of_mem _ _ hx
      obtain ⟨h1, h2⟩ := (hclr c x).mp hc
      exact ⟨mem_of_getq _ _ _ h1, h2⟩
    · intro ⟨hx, hnt⟩
      obtain ⟨c, hc⟩ := getq_of_mem _ _ hx
      exact mem_of_getq _ c _ ((hclr c x).mpr ⟨hc, hnt⟩)
  rw [hslots2]
  constructor
  · refine ⟨hnd4, ?_, hA.heap_nodup, ?_, ?_, ?_, ?_, ?_, ?_, ?_⟩
    · intro u hu
      obtain ⟨w, hwm, hwe, -⟩ := hS u hu
      obtain ⟨hwt, -, -, -, -, -⟩ := erase_eq_fields hwe
      show u.tid < s2.next_tid
      rw [hnext2, ← hwt]
      exact hw.tid_lt w hwm
    · intro x hx
      obtain ⟨hx1, hx2⟩ := (hC x).mp hx
      obtain ⟨w, hwm, hwt⟩ := hw.heap_sub x hx1
      have hwnt : ¬ w.tid = t.tid := by rw [hwt]; exact hx2
      obtain ⟨u, hu, hue⟩ := hR w hwm hwnt
      obtain ⟨hut, -, -, -, -, -⟩ := erase_eq_fields hue
      exact ⟨u, hu, hut.trans hwt⟩
    · intro u hu hidx
      exact hA.acc u (hmem4 u hu).1 hidx
    · intro u hu humem
      exact hA.memidx u (hmem4 u hu).1 humem
    · show (s.slots.map _).length = s2.cpu_count
      rw [List.length_map, hcpu2, ← hw.slots_len]
    · intro c tid hc
      obtain ⟨h1, h2⟩ := (hclr c tid).mp hc
      obtain ⟨w, hwm, hwt, hwc, hws⟩ := hw.slot_task c tid h1
      have hwnt : ¬ w.tid = t.tid := by rw [hwt]; exact h2
      obtain ⟨u, hu, hue⟩ := hR w hwm hwnt
      obtain ⟨hut, -, hus2, huc, -, -⟩ := erase_eq_fields hue
      exact ⟨u, hu, hut.trans hwt, huc.trans hwc, by rw [hus2]; exact hws⟩
    · intro u hu hcp
      obtain ⟨w, hwm, hwe, hwnt⟩ := hS u hu
      obtain ⟨hwt, -, -, hwc, -, -⟩ := erase_eq_fields hwe
      have h1 := hw.cpu_slot w hwm (by rw [hwc]; exact hcp)
      rw [hwt, hwc] at h1
      show (s.slots.map _).get? u.current_cpu.toNat = some (some u.tid)
      apply (hclr u.current_cpu.toNat u.tid).mpr
      refine ⟨h1, ?_⟩
      rw [hwt] at hwnt
      exact hwnt
    · intro u hu hst
      obtain ⟨w, hwm, hwe, -⟩ := hS u hu
      obtain ⟨-, -, hws, hwc, -, -⟩ := erase_eq_fields hwe
      rw [← hwc]
      exact hw.run_cpu w hwm (by rw [hws]; exact hst)
  · intro u hu
    obtain ⟨w, hwm, hwe, hwnt⟩ := hS u hu
    obtain ⟨hwt, -, hws, -, -, -⟩ := erase_eq_fields hwe
    have hqw := hq w hwm
    show u.tid ∈ s2.heap ↔ u.state = TaskState.runnable ∧
      some u.tid ∉ s.slots.map (fun o => if o == some t.tid then none else o)
    rw [hC u.tid, ← hwt, ← hws]
    constructor
    · rintro ⟨h1, -⟩
      obtain ⟨h3, h4⟩ := hqw.mp h1
      refine ⟨h3, ?_⟩
      intro hc
      exact h4 ((hclrmem w.tid).mp hc).1
    · rintro ⟨h1, h2⟩
      have h3 : some w.tid ∉ s.slots := by
        intro hc
        exact h2 ((hclrmem w.tid).mpr ⟨hc, hwnt⟩)
      exact ⟨hqw.mpr ⟨h1, h3⟩, hwnt⟩



/-- The `TASK_EXIT` handler body (mark Exited, then
`scheduler_remove_task`) preserves `WF` and the queue invariant. -/
theorem WF_Q_exit_branch (s : Sched) (id : String) (i : Nat)
    (hfind : find_task_idx s.tasks id = some i)
    (hw : WF s) (hq : queue_iff_runnable_unassigned s) :
    WF (scheduler_remove_task { s with tasks := set_task_at s.tasks i (fun u => { u with state := TaskState.exited }) } id).1 ∧
    queue_iff_runnable_unassigned (scheduler_remove_task { s with tasks := set_task_at s.tasks i (fun u => { u with state := TaskState.exited }) } id).1 := by
  obtain ⟨t, hget, -⟩ := find_task_idx_getq s.tasks id i hfind
  have hsame : set_task_at s.tasks i (fun u => { u with state := TaskState.exited })
      = s.tasks.set i { t with state := TaskState.exited } := by
    unfold set_task_at
    rw [hget]
  have hmapid : (set_task_at s.tasks i
      (fun u => { u with state := TaskState.exited })).map Task.task_id
      = s.tasks.map Task.task_id := by
    rw [hsame]
    exact map_set_id_pres Task.task_id s.tasks i t _ hget rfl
  have hfind1 : find_task_idx (set_task_at s.tasks i
      (fun u => { u with state := TaskState.exited })) id = some i := by
    rw [find_task_idx_map_id id _ s.tasks hmapid]
    exact hfind
  have hget1 : (set_task_at s.tasks i
      (fun u => { u with state := TaskState.exited })).get? i
      = some { t with state := TaskState.exited } := by
    rw [hsame]
    exact getq_set_self s.tasks i _ t hget
  have htm : t ∈ s.tasks := mem_of_getq _ _ _ hget
  have hinv1 : HeapInv { s with tasks := set_task_at s.tasks i (fun u => { u with state := TaskState.exited }) } :=
    heapinv_set s i _ ⟨hw.tid_nodup, hw.heap_nodup, hw.heap_sub, hw.acc, hw.memidx⟩
      (fun _ => ⟨rfl, rfl⟩)
  unfold scheduler_remove_task
  simp only [hfind1, hget1]
  by_cases hpos : ({ t with state := TaskState.exited } : Task).heap_index ≥ 0
  · rw [if_pos hpos]
    have hsk2 := sk_heap_remove { s with tasks := set_task_at s.tasks i (fun u => { u with state := TaskState.exited }) } ({ t with state := TaskState.exited } : Task).tid
    have hmapE : (heap_remove { s with tasks := set_task_at s.tasks i (fun u => { u with state := TaskState.exited }) } ({ t with state := TaskState.exited } : Task).tid).2.tasks.map erase_qpos
        = (set_task_at s.tasks i
          (fun u => { u with state := TaskState.exited })).map erase_qpos :=
      (sk_fields hsk2).2.2.2
    have hmap2 : (heap_remove { s with tasks := set_task_at s.tasks i (fun u => { u with state := TaskState.exited }) } ({ t with state := TaskState.exited } : Task).tid).2.tasks.map erase_qpos
        = (s.tasks.set i { t with state := TaskState.exited }).map erase_qpos := by
      rw [hmapE, hsame]
    have hlen2 : (heap_remove { s with tasks := set_task_at s.tasks i (fun u => { u with state := TaskState.exited }) } ({ t with state := TaskState.exited } : Task).tid).2.tasks.length = s.tasks.length := by
      have h1 := congrArg List.length hmap2
      rw [List.length_map, List.length_map, List.length_set] at h1
      exact h1
    have hne : (heap_remove { s with tasks := set_task_at s.tasks i (fun u => { u with state := TaskState.exited }) } ({ t with state := TaskState.exited } : Task).tid).2.tasks ≠ [] := by
      intro hc
      have hilen : i < s.tasks.length := getq_lt_length _ _ _ hget
      rw [hc] at hlen2
      simp at hlen2
      omega
    obtain ⟨lastv, hgl⟩ := Option.isSome_iff_exists.mp
      (List.getLast?_isSome.mpr hne)
    simp only [hgl]
    exact remove_core s _ t i lastv hw hq hget
      (heapinv_remove _ _ hinv1)
      hmap2
      ((sk_fields hsk2).1)
      ((sk_fields hsk2).2.1)
      ((sk_fields hsk2).2.2.1)
      (heap_remove_mem _ _ hinv1)
      hgl
  · rw [if_neg hpos]
    have hnotin : t.tid ∉ s.heap := by
      intro hc
      apply hpos
      exact hw.memidx t htm hc
    have hmap2 : (set_task_at s.tasks i
        (fun u => { u with state := TaskState.exited })).map erase_qpos
        = (s.tasks.set i { t with state := TaskState.exited }).map erase_qpos := by
      rw [hsame]
    have hlen2 : (set_task_at s.tasks i
        (fun u => { u with state := TaskState.exited })).length
        = s.tasks.length := by
      rw [hsame, List.length_set]
    have hne : (set_task_at s.tasks i
        (fun u => { u with state := TaskState.exited })) ≠ [] := by
      intro hc
      have hilen : i < s.tasks.length := getq_lt_length _ _ _ hget
      rw [hc] at hlen2
      simp at hlen2
      omega
    obtain ⟨lastv, hgl⟩ := Option.isSome_iff_exists.mp
      (List.getLast?_isSome.mpr hne)
    simp only [hgl]
    exact remove_core s _ t i lastv hw hq hget
      hinv1
      hmap2
      rfl rfl rfl
      (fun x => ⟨fun hx => ⟨hx, fun hc => hnotin (hc ▸ hx)⟩, fun hx => hx.1⟩)
      hgl


/-- `upd_task` edits that keep the handle and the queue back-pointer
preserve the heap consistency bundle. -/
theorem heapinv_upd (s : Sched) (tid : Nat) (f : Task → Task) (h : HeapInv s)
    (hf : ∀ t, (f t).tid = t.tid ∧ (f t).heap_index = t.heap_index) :
    HeapInv { s with tasks := upd_task s.tasks tid f } := by
  have hmapt : (upd_task s.tasks tid f).map Task.tid = s.tasks.map Task.tid :=
    upd_task_map_tid s.tasks tid f (fun t => (hf t).1)
  refine ⟨?_, h.heap_nodup, ?_, ?_, ?_⟩
  · rw [hmapt]
    exact h.tid_nodup
  · intro x hx
    obtain ⟨u, hu, huu⟩ := h.heap_sub x hx
    refine ⟨if u.tid = tid then f u else u, upd_task_mem_of_mem hu, ?_⟩
    split
    · rw [(hf u).1]
      exact huu
    · exact huu
  · intro u hu hidx
    obtain ⟨v, hv, huv⟩ := mem_upd_task hu
    by_cases hvt : v.tid = tid
    · rw [if_pos hvt] at huv
      subst huv
      rw [(hf v).2] at hidx ⊢
      rw [(hf v).1]
      exact h.acc v hv hidx
    · rw [if_neg hvt] at huv
      subst huv
      exact h.acc _ hv hidx
  · intro u hu humem
    obtain ⟨v, hv, huv⟩ := mem_upd_task hu
    by_cases hvt : v.tid = tid
    · rw [if_pos hvt] at huv
      subst huv
      rw [(hf v).2]
      rw [(hf v).1] at humem
      exact h.memidx v hv humem
    · rw [if_neg hvt] at huv
      subst huv
      exact h.memidx _ hv humem

/-- Membership in a single-position registry rewrite: the rewritten
record, or an untouched record with a different handle. -/
theorem mem_set_char {ts : List Task} (hnd : (ts.map Task.tid).Nodup)
    {i : Nat} {t : Task} (hget : ts.get? i = some t) (r : Task) :
    ∀ u ∈ ts.set i r, u = r ∨ (u ∈ ts ∧ ¬ u.tid = t.tid) := by
  intro u hu
  obtain ⟨k, hk⟩ := getq_of_mem _ u hu
  by_cases hki : k = i
  · subst hki
    rw [getq_set_self ts k r t hget] at hk
    exact Or.inl (Option.some.inj hk).symm
  · rw [getq_set_ne ts i k r (fun hc => hki hc.symm)] at hk
    refine Or.inr ⟨mem_of_getq _ _ _ hk, ?_⟩
    intro hc
    have hm1 : (ts.map Task.tid).get? k = some t.tid := by
      rw [List.get?_map, hk]
      show some u.tid = some t.tid
      rw [hc]
    have hm2 : (ts.map Task.tid).get? i = some t.tid := by
      rw [List.get?_map, hget]
      rfl
    exact hki (nodup_getq_inj _ hnd k i t.tid hm1 hm2)

/-- Core of the `TASK_BLOCK` preservation argument: after marking the
record Blocked and (conditionally) dequeueing it, clearing its CPU slot
and its `current_cpu` restores `WF` and the queue invariant.  `s2` is the
post-dequeue state, given semantically. -/
theorem block_core (s s2 : Sched) (t0 : Task) (i : Nat)
    (hw : WF s) (hq : queue_iff_runnable_unassigned s)
    (hget : s.tasks.get? i = some t0)
    (hA : HeapInv s2)
    (hmap2 : s2.tasks.map erase_qpos
      = (s.tasks.set i { t0 with state := TaskState.blocked }).map erase_qpos)
    (hslots2 : s2.slots = s.slots) (hcpu2 : s2.cpu_count = s.cpu_count)
    (hnext2 : s2.next_tid = s.next_tid)
    (hC : ∀ x, x ∈ s2.heap ↔ (x ∈ s.heap ∧ ¬ x = t0.tid)) :
    WF (if ({ t0 with state := TaskState.blocked } : Task).current_cpu ≥ 0 then { s2 with slots := s2.slots.set ({ t0 with state := TaskState.blocked } : Task).current_cpu.toNat none, tasks := upd_task s2.tasks ({ t0 with state := TaskState.blocked } : Task).tid (fun u => { u with current_cpu := -1 }) } else s2) ∧
    queue_iff_runnable_unassigned (if ({ t0 with state := TaskState.blocked } : Task).current_cpu ≥ 0 then { s2 with slots := s2.slots.set ({ t0 with state := TaskState.blocked } : Task).current_cpu.toNat none, tasks := upd_task s2.tasks ({ t0 with state := TaskState.blocked } : Task).tid (fun u => { u with current_cpu := -1 }) } else s2) := by
  have htm : t0 ∈ s.tasks := mem_of_getq _ _ _ hget
  have hmapt1 : (s.tasks.set i { t0 with state := TaskState.blocked }).map Task.tid
      = s.tasks.map Task.tid := map_set_id_pres Task.tid s.tasks i t0 _ hget rfl
  have hmapt2 : s2.tasks.map Task.tid = s.tasks.map Task.tid := by
    have h1 := map_map_id_pres Task.tid erase_qpos (fun _ => rfl) s2.tasks
    have h2 := map_map_id_pres Task.tid erase_qpos (fun _ => rfl)
      (s.tasks.set i { t0 with state := TaskState.blocked })
    rw [← h1, hmap2, h2, hmapt1]
  have hS : ∀ u ∈ s2.tasks,
      (u.tid = t0.tid ∧ u.state = TaskState.blocked ∧ u.current_cpu = t0.current_cpu
        ∧ u.vruntime = t0.vruntime) ∨
      (∃ w ∈ s.tasks, erase_qpos w = erase_qpos u ∧ ¬ w.tid = t0.tid) := by
    intro u hu
    obtain ⟨w1, hw1, hwe⟩ := mem_erase_transport hmap2 hu
    obtain ⟨hwt, -, hws, hwc, hwv, -⟩ := erase_eq_fields hwe
    rcases mem_set_char hw.tid_nodup hget { t0 with state := TaskState.blocked } w1 hw1
      with h1 | ⟨h1, h2⟩
    · subst h1
      exact Or.inl ⟨hwt.symm, hws.symm, hwc.symm, hwv.symm⟩
    · exact Or.inr ⟨w1, h1, hwe, h2⟩
  have hR : ∀ w ∈ s.tasks, ¬ w.tid = t0.tid →
      ∃ u ∈ s2.tasks, erase_qpos u = erase_qpos w := by
    intro w hwm hwnt
    rcases mem_into_set hget { t0 with state := TaskState.blocked } hwm with ⟨rfl, -⟩ | h1
    · exact absurd rfl hwnt
    · exact mem_erase_transport hmap2.symm h1
  have hstate_ne : (TaskState.blocked = TaskState.runnable) → False := by
    intro hc
    cases hc
  have hnoslot : ∀ c, ¬ t0.current_cpu ≥ 0 → ¬ s.slots.get? c = some (some t0.tid) := by
    intro c hneg hc
    obtain ⟨w, hwm, hwt, hwc, -⟩ := hw.slot_task c t0.tid hc
    have hw0 : w = t0 := tid_unique hw.tid_nodup hwm htm hwt
    subst hw0
    rw [hwc] at hneg
    exact hneg (Int.ofNat_nonneg c)
  by_cases hcp : ({ t0 with state := TaskState.blocked } : Task).current_cpu ≥ 0
  · rw [if_pos hcp, hslots2]
    have hcp0 : (0 : Int) ≤ t0.current_cpu := hcp
    have hslot0 : s.slots.get? t0.current_cpu.toNat = some (some t0.tid) :=
      hw.cpu_slot t0 htm hcp0
    have hplen : t0.current_cpu.toNat < s.slots.length :=
      getq_lt_length _ _ _ hslot0
    have hsets : ∀ c x, (s.slots.set t0.current_cpu.toNat none).get? c
        = some (some x) ↔
        (s.slots.get? c = some (some x) ∧ ¬ c = t0.current_cpu.toNat) := by
      intro c x
      by_cases hcq : c = t0.current_cpu.toNat
      · rw [hcq, getq_set_self s.slots t0.current_cpu.toNat none _ hslot0]
        constructor
        · intro h; cases h
        · rintro ⟨-, h2⟩; exact absurd rfl h2
      · rw [getq_set_ne s.slots _ c none (fun hc => hcq hc.symm)]
        exact ⟨fun h => ⟨h, hcq⟩, fun h => h.1⟩
    have hmemup : ∀ u ∈ upd_task s2.tasks ({ t0 with state := TaskState.blocked } : Task).tid (fun u => { u with current_cpu := -1 }),
        (u.tid = t0.tid ∧ u.state = TaskState.blocked ∧ u.current_cpu = -1) ∨
        (∃ w ∈ s.tasks, erase_qpos w = erase_qpos u ∧ ¬ w.tid = t0.tid) := by
      intro u hu
      obtain ⟨v, hv, huv⟩ := mem_upd_task hu
      rcases hS v hv with ⟨h1, h2, h3, -⟩ | ⟨w, hwm, hwe, hwnt⟩
      · left
        rw [if_pos h1] at huv
        subst huv
        exact ⟨h1, h2, rfl⟩
      · right
        have hvnt : ¬ v.tid = ({ t0 with state := TaskState.blocked } : Task).tid := by
          obtain ⟨hwt, -, -, -, -, -⟩ := erase_eq_fields hwe
          rw [← hwt]
          exact hwnt
        rw [if_neg hvnt] at huv
        subst huv
        exact ⟨w, hwm, hwe, hwnt⟩
    have hRup : ∀ w ∈ s.tasks, ¬ w.tid = t0.tid →
        ∃ u ∈ upd_task s2.tasks ({ t0 with state := TaskState.blocked } : Task).tid (fun u => { u with current_cpu := -1 }),
          erase_qpos u = erase_qpos w := by
      intro w hwm hwnt
      obtain ⟨v, hv, hve⟩ := hR w hwm hwnt
      have hvnt : ¬ v.tid = ({ t0 with state := TaskState.blocked } : Task).tid := by
        obtain ⟨hvt, -, -, -, -, -⟩ := erase_eq_fields hve
        rw [hvt]
        exact hwnt
      refine ⟨v, ?_, hve⟩
      have h5 := @upd_task_mem_of_mem _ ({ t0 with state := TaskState.blocked } : Task).tid
        (fun u => { u with current_cpu := -1 }) _ hv
      rw [if_neg hvnt] at h5
      exact h5
    have hB : HeapInv { s2 with tasks := upd_task s2.tasks ({ t0 with state := TaskState.blocked } : Task).tid (fun u => { u with current_cpu := -1 }) } :=
      heapinv_upd s2 _ _ hA (fun _ => ⟨rfl, rfl⟩)
    constructor
    · refine ⟨hB.tid_nodup, ?_, hB.heap_nodup, ?_, hB.acc, hB.memidx, ?_, ?_, ?_, ?_⟩
      · intro u hu
        show u.tid < s2.next_tid
        rw [hnext2]
        rcases hmemup u hu with ⟨h1, -, -⟩ | ⟨w, hwm, hwe, -⟩
        · rw [h1]
          exact hw.tid_lt t0 htm
        · obtain ⟨hwt, -, -, -, -, -⟩ := erase_eq_fields hwe
          rw [← hwt]
          exact hw.tid_lt w hwm
      · intro x hx
        obtain ⟨hx1, hx2⟩ := (hC x).mp hx
        obtain ⟨w, hwm, hwt⟩ := hw.heap_sub x hx1
        have hwnt : ¬ w.tid = t0.tid := by rw [hwt]; exact hx2
        obtain ⟨u, hu, hue⟩ := hRup w hwm hwnt
        obtain ⟨hut, -, -, -, -, -⟩ := erase_eq_fields hue
        exact ⟨u, hu, hut.trans hwt⟩
      · show (s.slots.set t0.current_cpu.toNat none).length = s2.cpu_count
        rw [List.length_set, hcpu2]
        exact hw.slots_len
      · intro c tid hc
        obtain ⟨h1, h2⟩ := (hsets c tid).mp hc
        obtain ⟨w, hwm, hwt, hwc, hws⟩ := hw.slot_task c tid h1
        have hwnt : ¬ w.tid = t0.tid := by
          intro hcw
          apply h2
          have hw0 : w = t0 := tid_unique hw.tid_nodup hwm htm hcw
          subst hw0
          rw [hwc]
          rfl
        obtain ⟨u, hu, hue⟩ := hRup w hwm hwnt
        obtain ⟨hut, -, hus, huc, -, -⟩ := erase_eq_fields hue
        exact ⟨u, hu, hut.trans hwt, huc.trans hwc, by rw [hus]; exact hws⟩
      · intro u hu hcpu
        rcases hmemup u hu with ⟨-, -, h3⟩ | ⟨w, hwm, hwe, hwnt⟩
        · rw [h3] at hcpu
          exact absurd hcpu (by decide)
        · obtain ⟨hwt, -, -, hwc, -, -⟩ := erase_eq_fields hwe
          have h1 := hw.cpu_slot w hwm (by rw [hwc]; exact hcpu)
          rw [hwt, hwc] at h1
          show (s.slots.set t0.current_cpu.toNat none).get? u.current_cpu.toNat
            = some (some u.tid)
          apply (hsets _ _).mpr
          refine ⟨h1, ?_⟩
          intro hcq
          rw [hcq] at h1
          rw [hslot0] at h1
          have h6 : t0.tid = u.tid := Option.some.inj (Option.some.inj h1)
          apply hwnt
          rw [hwt, ← h6]
      · intro u hu hst
        rcases hmemup u hu with ⟨-, h2, -⟩ | ⟨w, hwm, hwe, -⟩
        · rw [h2] at hst
          cases hst
        · obtain ⟨-, -, hws, hwc, -, -⟩ := erase_eq_fields hwe
          rw [← hwc]
          exact hw.run_cpu w hwm (by rw [hws]; exact hst)
    · intro u hu
      show u.tid ∈ s2.heap ↔ u.state = TaskState.runnable ∧
        some u.tid ∉ s.slots.set t0.current_cpu.toNat none
      rcases hmemup u hu with ⟨h1, h2, -⟩ | ⟨w, hwm, hwe, hwnt⟩
      · rw [h1, h2, hC t0.tid]
        constructor
        · rintro ⟨-, h4⟩
          exact absurd rfl h4
        · rintro ⟨h3, -⟩
          exact absurd h3.symm (by intro hc; cases hc)
      · obtain ⟨hwt, -, hws, -, -, -⟩ := erase_eq_fields hwe
        rw [hC u.tid, ← hwt, ← hws]
        have hqw := hq w hwm
        have hmem_iff : some w.tid ∈ s.slots.set t0.current_cpu.toNat none ↔
            some w.tid ∈ s.slots := by
          constructor
          · intro hm
            obtain ⟨c, hc⟩ := getq_of_mem _ _ hm
            exact mem_of_getq _ c _ ((hsets c w.tid).mp hc).1
          · intro hm
            obtain ⟨c, hc⟩ := getq_of_mem _ _ hm
            have hcne : ¬ c = t0.current_cpu.toNat := by
              intro hcq
              rw [hcq, hslot0] at hc
              apply hwnt
              exact (Option.some.inj (Option.some.inj hc)).symm
            exact mem_of_getq _ c _ ((hsets c w.tid).mpr ⟨hc, hcne⟩)
        constructor
        · rintro ⟨h1, -⟩
          obtain ⟨h3, h4⟩ := hqw.mp h1
          exact ⟨h3, fun hc => h4 (hmem_iff.mp hc)⟩
        · rintro ⟨h1, h2⟩
          exact ⟨hqw.mpr ⟨h1, fun hc => h2 (hmem_iff.mpr hc)⟩, hwnt⟩
  · rw [if_neg hcp]
    have hcp0 : ¬ t0.current_cpu ≥ 0 := hcp
    constructor
    · refine ⟨hA.tid_nodup, ?_, hA.heap_nodup, ?_, hA.acc, hA.memidx, ?_, ?_, ?_, ?_⟩
      · intro u hu
        rw [hnext2]
        rcases hS u hu with ⟨h1, -, -, -⟩ | ⟨w, hwm, hwe, -⟩
        · rw [h1]
          exact hw.tid_lt t0 htm
        · obtain ⟨hwt, -, -, -, -, -⟩ := erase_eq_fields hwe
          rw [← hwt]
          exact hw.tid_lt w hwm
      · intro x hx
        obtain ⟨hx1, hx2⟩ := (hC x).mp hx
        obtain ⟨w, hwm, hwt⟩ := hw.heap_sub x hx1
        have hwnt : ¬ w.tid = t0.tid := by rw [hwt]; exact hx2
        obtain ⟨u, hu, hue⟩ := hR w hwm hwnt
        obtain ⟨hut, -, -, -, -, -⟩ := erase_eq_fields hue
        exact ⟨u, hu, hut.trans hwt⟩
      · rw [hslots2, hcpu2]
        exact hw.slots_len
      · intro c tid hc
        rw [hslots2] at hc
        obtain ⟨w, hwm, hwt, hwc, hws⟩ := hw.slot_task c tid hc
        have hwnt : ¬ w.tid = t0.tid := by
          intro hcw
          apply hnoslot c hcp0
          rw [← hcw, hwt]
          exact hc
        obtain ⟨u, hu, hue⟩ := hR w hwm hwnt
        obtain ⟨hut, -, hus, huc, -, -⟩ := erase_eq_fields hue
        exact ⟨u, hu, hut.trans hwt, huc.trans hwc, by rw [hus]; exact hws⟩
      · intro u hu hcpu
        rw [hslots2]
        rcases hS u hu with ⟨-, -, h3, -⟩ | ⟨w, hwm, hwe, -⟩
        · rw [h3] at hcpu
          exact absurd hcpu hcp0
        · obtain ⟨hwt, -, -, hwc, -, -⟩ := erase_eq_fields hwe
          have h1 := hw.cpu_slot w hwm (by rw [hwc]; exact hcpu)
          rw [hwt, hwc] at h1
          exact h1
      · intro u hu hst
        rcases hS u hu with ⟨-, h2, -, -⟩ | ⟨w, hwm, hwe, -⟩
        · rw [h2] at hst
          cases hst
        · obtain ⟨-, -, hws, hwc, -, -⟩ := erase_eq_fields hwe
          rw [← hwc]
          exact hw.run_cpu w hwm (by rw [hws]; exact hst)
    · intro u hu
      show u.tid ∈ s2.heap ↔ u.state = TaskState.runnable ∧ some u.tid ∉ s2.slots
      rw [hslots2]
      rcases hS u hu with ⟨h1, h2, -, -⟩ | ⟨w, hwm, hwe, hwnt⟩
      · rw [h1, h2, hC t0.tid]
        constructor
        · rintro ⟨-, h4⟩
          exact absurd rfl h4
        · rintro ⟨h3, -⟩
          exact absurd h3.symm (by intro hc; cases hc)
      · obtain ⟨hwt, -, hws, -, -, -⟩ := erase_eq_fields hwe
        rw [hC u.tid, ← hwt, ← hws]
        have hqw := hq w hwm
        constructor
        · rintro ⟨h1, -⟩
          exact hqw.mp h1
        · intro h1
          exact ⟨hqw.mpr h1, hwnt⟩


/-- `TASK_BLOCK` preserves `WF` and the queue invariant. -/
theorem WF_Q_block_evt (s : Sched) (e : Event) (ha : e.action = EventAction.task_block)
    (hw : WF s) (hq : queue_iff_runnable_unassigned s) :
    WF (scheduler_process_event s e).1 ∧
    queue_iff_runnable_unassigned (scheduler_process_event s e).1 := by
  unfold scheduler_process_event
  rw [ha]
  dsimp only
  cases hf : find_task_idx s.tasks e.task_id with
  | none =>
    simp only [hf]
    exact ⟨hw, hq⟩
  | some i =>
    simp only [hf]
    obtain ⟨t0, hget, -⟩ := find_task_idx_getq s.tasks e.task_id i hf
    have hsame : set_task_at s.tasks i (fun u => { u with state := TaskState.blocked })
        = s.tasks.set i { t0 with state := TaskState.blocked } := by
      unfold set_task_at
      rw [hget]
    have hget1 : (set_task_at s.tasks i
        (fun u => { u with state := TaskState.blocked })).get? i
        = some { t0 with state := TaskState.blocked } := by
      rw [hsame]
      exact getq_set_self s.tasks i _ t0 hget
    have hinv1 : HeapInv { s with tasks := set_task_at s.tasks i (fun u => { u with state := TaskState.blocked }) } :=
      heapinv_set s i _ ⟨hw.tid_nodup, hw.heap_nodup, hw.heap_sub, hw.acc, hw.memidx⟩
        (fun _ => ⟨rfl, rfl⟩)
    have hmap1 : (set_task_at s.tasks i
        (fun u => { u with state := TaskState.blocked })).map erase_qpos
        = (s.tasks.set i { t0 with state := TaskState.blocked }).map erase_qpos := by
      rw [hsame]
    simp only [hget1]
    by_cases hpos : ({ t0 with state := TaskState.blocked } : Task).heap_index ≥ 0
    · rw [if_pos hpos]
      have hsk2 := sk_heap_remove { s with tasks := set_task_at s.tasks i (fun u => { u with state := TaskState.blocked }) } ({ t0 with state := TaskState.blocked } : Task).tid
      have hmapE : (heap_remove { s with tasks := set_task_at s.tasks i (fun u => { u with state := TaskState.blocked }) } ({ t0 with state := TaskState.blocked } : Task).tid).2.tasks.map erase_qpos
          = (set_task_at s.tasks i
            (fun u => { u with state := TaskState.blocked })).map erase_qpos :=
        (sk_fields hsk2).2.2.2
      have hmap2 : (heap_remove { s with tasks := set_task_at s.tasks i (fun u => { u with state := TaskState.blocked }) } ({ t0 with state := TaskState.blocked } : Task).tid).2.tasks.map erase_qpos
          = (s.tasks.set i { t0 with state := TaskState.blocked }).map erase_qpos := by
        rw [hmapE, hsame]
      exact block_core s _ t0 i hw hq hget
        (heapinv_remove _ _ hinv1)
        hmap2
        ((sk_fields hsk2).1)
        ((sk_fields hsk2).2.1)
        ((sk_fields hsk2).2.2.1)
        (heap_remove_mem _ _ hinv1)
    · rw [if_neg hpos]
      have hnotin : t0.tid ∉ s.heap := by
        intro hc
        apply hpos
        exact hw.memidx t0 (mem_of_getq _ _ _ hget) hc
      exact block_core s _ t0 i hw hq hget
        hinv1
        hmap1
        rfl rfl rfl
        (fun x => ⟨fun hx => ⟨hx, fun hc => hnotin (hc ▸ hx)⟩, fun hx => hx.1⟩)

/-- `TASK_YIELD` preserves `WF` and the queue invariant. -/
theorem WF_Q_yield_evt (s : Sched) (e : Event) (ha : e.action = EventAction.task_yield)
    (hw : WF s) (hq : queue_iff_runnable_unassigned s) :
    WF (scheduler_process_event s e).1 ∧
    queue_iff_runnable_unassigned (scheduler_process_event s e).1 := by
  unfold scheduler_process_event
  rw [ha]
  dsimp only
  cases hf : find_task_idx s.tasks e.task_id with
  | none =>
    simp only [hf]
    exact ⟨hw, hq⟩
  | some i =>
    simp only [hf]
    obtain ⟨hw1, hq1⟩ := WF_Q_set s hw hq i
      (fun u => { u with vruntime := get_max_vruntime s })
      (fun _ => ⟨rfl, rfl, rfl, rfl⟩)
    cases hget1 : (set_task_at s.tasks i
        (fun u => { u with vruntime := get_max_vruntime s })).get? i with
    | none =>
      simp only [hget1]
      exact ⟨hw1, hq1⟩
    | some t =>
      simp only [hget1]
      by_cases hpos : t.heap_index ≥ 0
      · rw [if_pos hpos]
        exact WF_Q_heap_update _ hw1 hq1 t.tid
      · rw [if_neg hpos]
        exact ⟨hw1, hq1⟩

/-- `TASK_SETNICE` preserves `WF` and the queue invariant. -/
theorem WF_Q_setnice_evt (s : Sched) (e : Event)
    (ha : e.action = EventAction.task_setnice)
    (hw : WF s) (hq : queue_iff_runnable_unassigned s) :
    WF (scheduler_process_event s e).1 ∧
    queue_iff_runnable_unassigned (scheduler_process_event s e).1 := by
  unfold scheduler_process_event
  rw [ha]
  dsimp only
  cases hf : find_task_idx s.tasks e.task_id with
  | none =>
    simp only [hf]
    exact ⟨hw, hq⟩
  | some i =>
    simp only [hf]
    exact WF_Q_set s hw hq i (fun u => task_set_nice u e.nice)
      (fun _ => ⟨rfl, rfl, rfl, rfl⟩)

/-- `TASK_SET_AFFINITY` preserves `WF` and the queue invariant. -/
theorem WF_Q_affinity_evt (s : Sched) (e : Event)
    (ha : e.action = EventAction.task_set_affinity)
    (hw : WF s) (hq : queue_iff_runnable_unassigned s) :
    WF (scheduler_process_event s e).1 ∧
    queue_iff_runnable_unassigned (scheduler_process_event s e).1 := by
  unfold scheduler_process_event
  rw [ha]
  dsimp only
  cases hf : find_task_idx s.tasks e.task_id with
  | none =>
    simp only [hf]
    exact ⟨hw, hq⟩
  | some i =>
    simp only [hf]
    exact WF_Q_set s hw hq i (fun u => task_set_affinity u e.cpu_mask)
      (fun _ => ⟨rfl, rfl, rfl, rfl⟩)

/-- `TASK_MOVE_CGROUP` preserves `WF` and the queue invariant. -/
theorem WF_Q_move_evt (s : Sched) (e : Event)
    (ha : e.action = EventAction.task_move_cgroup)
    (hw : WF s) (hq : queue_iff_runnable_unassigned s) :
    WF (scheduler_process_event s e).1 ∧
    queue_iff_runnable_unassigned (scheduler_process_event s e).1 := by
  unfold scheduler_process_event
  rw [ha]
  dsimp only
  cases hf : find_task_idx s.tasks e.task_id with
  | none =>
    simp only [hf]
    exact ⟨hw, hq⟩
  | some i =>
    simp only [hf]
    exact WF_Q_set s hw hq i (fun u => { u with cgroup_id := e.new_cgroup_id })
      (fun _ => ⟨rfl, rfl, rfl, rfl⟩)

/-- `CPU_BURST` preserves `WF` and the queue invariant. -/
theorem WF_Q_burst_evt (s : Sched) (e : Event)
    (ha : e.action = EventAction.cpu_burst)
    (hw : WF s) (hq : queue_iff_runnable_unassigned s) :
    WF (scheduler_process_event s e).1 ∧
    queue_iff_runnable_unassigned (scheduler_process_event s e).1 := by
  unfold scheduler_process_event
  rw [ha]
  dsimp only
  cases hf : find_task_idx s.tasks e.task_id with
  | none =>
    simp only [hf]
    exact ⟨hw, hq⟩
  | some i =>
    simp only [hf]
    exact WF_Q_set s hw hq i
      (fun u => { u with is_burst := true, burst_remaining := e.burst_duration })
      (fun _ => ⟨rfl, rfl, rfl, rfl⟩)

/-- `CGROUP_CREATE` preserves `WF` and the queue invariant. -/
theorem WF_Q_cgcreate_evt (s : Sched) (e : Event)
    (ha : e.action = EventAction.cgroup_create)
    (hw : WF s) (hq : queue_iff_runnable_unassigned s) :
    WF (scheduler_process_event s e).1 ∧
    queue_iff_runnable_unassigned (scheduler_process_event s e).1 := by
  unfold scheduler_process_event
  rw [ha]
  dsimp only
  unfold scheduler_add_cgroup
  split
  · exact WF_Q_frame hw hq rfl rfl rfl rfl (le_refl _)
  · exact WF_Q_frame hw hq rfl rfl rfl rfl (le_refl _)

/-- `CGROUP_MODIFY` preserves `WF` and the queue invariant. -/
theorem WF_Q_cgmodify_evt (s : Sched) (e : Event)
    (ha : e.action = EventAction.cgroup_modify)
    (hw : WF s) (hq : queue_iff_runnable_unassigned s) :
    WF (scheduler_process_event s e).1 ∧
    queue_iff_runnable_unassigned (scheduler_process_event s e).1 := by
  unfold scheduler_process_event
  rw [ha]
  dsimp only
  cases hf : s.cgroups.findIdx? (fun cg => cg.cgroup_id == e.cgroup_id) with
  | none =>
    simp only [hf]
    exact ⟨hw, hq⟩
  | some i =>
    simp only [hf]
    cases hg : s.cgroups.get? i with
    | none =>
      simp only [hg]
      exact ⟨hw, hq⟩
    | some cg =>
      simp only [hg]
      exact WF_Q_frame hw hq rfl rfl rfl rfl (le_refl _)

/-- `CGROUP_DELETE` preserves `WF` and the queue invariant. -/
theorem WF_Q_cgdelete_evt (s : Sched) (e : Event)
    (ha : e.action = EventAction.cgroup_delete)
    (hw : WF s) (hq : queue_iff_runnable_unassigned s) :
    WF (scheduler_process_event s e).1 ∧
    queue_iff_runnable_unassigned (scheduler_process_event s e).1 := by
  unfold scheduler_process_event
  rw [ha]
  dsimp only
  unfold scheduler_remove_cgroup
  cases hf : s.cgroups.findIdx? (fun cg => cg.cgroup_id == e.cgroup_id) with
  | none =>
    simp only [hf]
    exact ⟨hw, hq⟩
  | some i =>
    simp only [hf]
    obtain ⟨hw1, hq1⟩ := WF_Q_map s hw hq
      (fun t => if t.cgroup_id == e.cgroup_id then { t with cgroup_id := "0" } else t)
      (fun t => ⟨by dsimp only; split <;> rfl, by dsimp only; split <;> rfl, by dsimp only; split <;> rfl, by dsimp only; split <;> rfl⟩)
    exact WF_Q_frame hw1 hq1 rfl rfl rfl rfl (le_refl _)

/-- `INVALID` events leave the state unchanged. -/
theorem WF_Q_invalid_evt (s : Sched) (e : Event)
    (ha : e.action = EventAction.invalid)
    (hw : WF s) (hq : queue_iff_runnable_unassigned s) :
    WF (scheduler_process_event s e).1 ∧
    queue_iff_runnable_unassigned (scheduler_process_event s e).1 := by
  unfold scheduler_process_event
  rw [ha]
  exact ⟨hw, hq⟩


/-- Core of `TASK_CREATE`/`TASK_UNBLOCK` preservation: enqueueing a
registered, Runnable, slotless, off-CPU handle that satisfies the
remaining invariants restores `WF` and the queue invariant. -/
theorem insert_runnable_core (s s2 : Sched) (b : Nat)
    (hw : WF s) (hq : queue_iff_runnable_unassigned s)
    (hA : HeapInv s2)
    (hslots2 : s2.slots = s.slots) (hcpu2 : s2.cpu_count = s.cpu_count)
    (hnext2 : s.next_tid ≤ s2.next_tid) (hheap2 : s2.heap = s.heap)
    (hbreg : b ∈ s2.tasks.map Task.tid)
    (hbnotheap : b ∉ s.heap) (hbnotslot : some b ∉ s.slots)
    (hblt : b < s2.next_tid)
    (hS : ∀ u ∈ s2.tasks,
      (u.tid = b ∧ u.state = TaskState.runnable ∧ u.current_cpu < 0) ∨
      (∃ w ∈ s.tasks, erase_qpos w = erase_qpos u ∧ ¬ w.tid = b))
    (hRev : ∀ w ∈ s.tasks, ¬ w.tid = b →
      ∃ u ∈ s2.tasks, erase_qpos u = erase_qpos w) :
    WF (heap_insert s2 b) ∧
    queue_iff_runnable_unassigned (heap_insert s2 b) := by
  have hbnot2 : b ∉ s2.heap := by rw [hheap2]; exact hbnotheap
  have hB : HeapInv (heap_insert s2 b) := heapinv_insert s2 b hA hbreg hbnot2
  have hsk := sk_heap_insert s2 b
  obtain ⟨hslF, hcpF, hntF, hmapF⟩ := sk_fields hsk
  have hpermF : (heap_insert s2 b).heap.Perm (b :: s2.heap) := heap_insert_perm s2 b
  have hSF : ∀ u ∈ (heap_insert s2 b).tasks,
      (u.tid = b ∧ u.state = TaskState.runnable ∧ u.current_cpu < 0) ∨
      (∃ w ∈ s.tasks, erase_qpos w = erase_qpos u ∧ ¬ w.tid = b) := by
    intro u hu
    obtain ⟨v, hv, hve⟩ := mem_erase_transport hmapF hu
    obtain ⟨hvt, -, hvs, hvc, -, -⟩ := erase_eq_fields hve
    rcases hS v hv with ⟨h1, h2, h3⟩ | ⟨w, hwm, hwe, hwnt⟩
    · exact Or.inl ⟨hvt.symm.trans h1, hvs.symm.trans h2, by rw [← hvc]; exact h3⟩
    · exact Or.inr ⟨w, hwm, hwe.trans hve, hwnt⟩
  have hRevF : ∀ w ∈ s.tasks, ¬ w.tid = b →
      ∃ u ∈ (heap_insert s2 b).tasks, erase_qpos u = erase_qpos w := by
    intro w hwm hwnt
    obtain ⟨v, hv, hve⟩ := hRev w hwm hwnt
    obtain ⟨u, hu, hue⟩ := mem_erase_transport hmapF.symm hv
    exact ⟨u, hu, hue.trans hve⟩
  constructor
  · refine ⟨hB.tid_nodup, ?_, hB.heap_nodup, hB.heap_sub, hB.acc, hB.memidx,
      ?_, ?_, ?_, ?_⟩
    · intro u hu
      rw [hntF]
      rcases hSF u hu with ⟨h1, -, -⟩ | ⟨w, hwm, hwe, -⟩
      · rw [h1]
        exact hblt
      · obtain ⟨hwt, -, -, -, -, -⟩ := erase_eq_fields hwe
        rw [← hwt]
        have := hw.tid_lt w hwm
        omega
    · rw [hslF, hslots2, hcpF, hcpu2]
      exact hw.slots_len
    · intro c tid hc
      rw [hslF, hslots2] at hc
      obtain ⟨w, hwm, hwt, hwc, hws⟩ := hw.slot_task c tid hc
      have hwnt : ¬ w.tid = b := by
        intro hcw
        apply hbnotslot
        rw [← hcw, hwt]
        exact mem_of_getq _ _ _ hc
      obtain ⟨u, hu, hue⟩ := hRevF w hwm hwnt
      obtain ⟨hut, -, hus, huc, -, -⟩ := erase_eq_fields hue
      exact ⟨u, hu, hut.trans hwt, huc.trans hwc, by rw [hus]; exact hws⟩
    · intro u hu hcp
      rw [hslF, hslots2]
      rcases hSF u hu with ⟨-, -, h3⟩ | ⟨w, hwm, hwe, -⟩
      · omega
      · obtain ⟨hwt, -, -, hwc, -, -⟩ := erase_eq_fields hwe
        have h1 := hw.cpu_slot w hwm (by rw [hwc]; exact hcp)
        rw [hwt, hwc] at h1
        exact h1
    · intro u hu hst
      rcases hSF u hu with ⟨-, h2, -⟩ | ⟨w, hwm, hwe, -⟩
      · rw [h2] at hst
        cases hst
      · obtain ⟨-, -, hws, hwc, -, -⟩ := erase_eq_fields hwe
        rw [← hwc]
        exact hw.run_cpu w hwm (by rw [hws]; exact hst)
  · intro u hu
    have hmemF : ∀ x : Nat, x ∈ (heap_insert s2 b).heap ↔ (x = b ∨ x ∈ s.heap) := by
      intro x
      rw [hpermF.mem_iff, hheap2]
      exact List.mem_cons
    rw [hmemF u.tid, hslF, hslots2]
    rcases hSF u hu with ⟨h1, h2, -⟩ | ⟨w, hwm, hwe, hwnt⟩
    · rw [h1, h2]
      constructor
      · intro _
        exact ⟨rfl, hbnotslot⟩
      · intro _
        exact Or.inl rfl
    · obtain ⟨hwt, -, hws, -, -, -⟩ := erase_eq_fields hwe
      rw [← hwt, ← hws]
      have hqw := hq w hwm
      constructor
      · intro h1
        rcases h1 with h1 | h1
        · exact absurd h1 hwnt
        · exact hqw.mp h1
      · intro h1
        exact Or.inr (hqw.mpr h1)


/-- `TASK_EXIT` preserves `WF` and the queue invariant. -/
theorem WF_Q_exit_evt (s : Sched) (e : Event) (ha : e.action = EventAction.task_exit)
    (hw : WF s) (hq : queue_iff_runnable_unassigned s) :
    WF (scheduler_process_event s e).1 ∧
    queue_iff_runnable_unassigned (scheduler_process_event s e).1 := by
  unfold scheduler_process_event
  rw [ha]
  dsimp only
  cases hf : find_task_idx s.tasks e.task_id with
  | none =>
    simp only [hf]
    exact ⟨hw, hq⟩
  | some i =>
    simp only [hf]
    exact WF_Q_exit_branch s e.task_id i hf hw hq

/-- Core of `TASK_CREATE` preservation: appending a fresh record and
enqueueing it (when Runnable) preserves `WF` and the queue invariant. -/
theorem create_core (s : Sched) (t : Task)
    (htid : t.tid = s.next_tid) (hst : t.state = TaskState.runnable)
    (hidx : t.heap_index = -1) (hcpu : t.current_cpu = -1)
    (hw : WF s) (hq : queue_iff_runnable_unassigned s) :
    WF (scheduler_add_task { s with next_tid := s.next_tid + 1 } t).1 ∧
    queue_iff_runnable_unassigned
      (scheduler_add_task { s with next_tid := s.next_tid + 1 } t).1 := by
  have hfresh : t.tid ∉ s.tasks.map Task.tid := by
    intro hc
    obtain ⟨w, hwm, hwt⟩ := exists_of_mem_map_tid hc
    have := hw.tid_lt w hwm
    rw [hwt, htid] at this
    omega
  have hnotheap : t.tid ∉ s.heap := by
    intro hc
    obtain ⟨w, hwm, hwt⟩ := hw.heap_sub t.tid hc
    exact hfresh (hwt ▸ List.mem_map_of_mem Task.tid hwm)
  have hnotslot : some t.tid ∉ s.slots := by
    intro hc
    obtain ⟨c, hcq⟩ := getq_of_mem _ _ hc
    obtain ⟨w, hwm, hwt, -, -⟩ := hw.slot_task c t.tid hcq
    exact hfresh (hwt ▸ List.mem_map_of_mem Task.tid hwm)
  unfold scheduler_add_task
  dsimp only
  by_cases hfull : s.tasks.length ≥ MAX_TASKS
  · rw [if_pos hfull]
    exact WF_Q_frame hw hq rfl rfl rfl rfl (Nat.le_succ s.next_tid)
  · rw [if_neg hfull, if_pos hst]
    have hmapS2 : (s.tasks ++ [t]).map Task.tid = s.tasks.map Task.tid ++ [t.tid] := by
      rw [List.map_append]
      rfl
    have hA : HeapInv { { s with next_tid := s.next_tid + 1 } with tasks := { s with next_tid := s.next_tid + 1 }.tasks ++ [t] } := by
      refine ⟨?_, hw.heap_nodup, ?_, ?_, ?_⟩
      · show ((s.tasks ++ [t]).map Task.tid).Nodup
        rw [hmapS2, List.nodup_append]
        refine ⟨hw.tid_nodup, List.nodup_singleton _, ?_⟩
        intro x hx hx2
        rw [List.mem_singleton] at hx2
        subst hx2
        exact hfresh hx
      · intro x hx
        obtain ⟨w, hwm, hwt⟩ := hw.heap_sub x hx
        exact ⟨w, List.mem_append_left _ hwm, hwt⟩
      · intro u hu hi
        rcases List.mem_append.mp hu with h1 | h1
        · exact hw.acc u h1 hi
        · rw [List.mem_singleton] at h1
          subst h1
          rw [hidx] at hi
          exact absurd hi (by decide)
      · intro u hu hm
        rcases List.mem_append.mp hu with h1 | h1
        · exact hw.memidx u h1 hm
        · rw [List.mem_singleton] at h1
          subst h1
          exact absurd hm hnotheap
    refine insert_runnable_core s _ t.tid hw hq hA rfl rfl
      (Nat.le_succ s.next_tid) rfl ?_ hnotheap hnotslot ?_ ?_ ?_
    · show t.tid ∈ (s.tasks ++ [t]).map Task.tid
      rw [hmapS2]
      exact List.mem_append_right _ (List.mem_singleton_self _)
    · show t.tid < s.next_tid + 1
      rw [htid]
      exact Nat.lt_succ_self _
    · intro u hu
      rcases List.mem_append.mp hu with h1 | h1
      · refine Or.inr ⟨u, h1, rfl, ?_⟩
        intro hc
        have := hw.tid_lt u h1
        rw [hc, htid] at this
        omega
      · rw [List.mem_singleton] at h1
        subst h1
        refine Or.inl ⟨rfl, hst, ?_⟩
        rw [hcpu]
        decide
    · intro w hwm hwnt
      exact ⟨w, List.mem_append_left _ hwm, rfl⟩

/-- `TASK_CREATE` preserves `WF` and the queue invariant. -/
theorem WF_Q_create_evt (s : Sched) (e : Event)
    (ha : e.action = EventAction.task_create)
    (hw : WF s) (hq : queue_iff_runnable_unassigned s) :
    WF (scheduler_process_event s e).1 ∧
    queue_iff_runnable_unassigned (scheduler_process_event s e).1 := by
  unfold scheduler_process_event
  rw [ha]
  dsimp only
  exact create_core s _ (by split <;> rfl) (by split <;> rfl)
    (by split <;> rfl) (by split <;> rfl) hw hq

/-- Core of `TASK_UNBLOCK` preservation: waking the found Blocked record,
applying the latency bonus and enqueueing it preserves `WF` and the queue
invariant (for any bonus threshold `mv`). -/
theorem unblock_core (s : Sched) (t : Task) (i : Nat) (mv : ℚ)
    (hw : WF s) (hq : queue_iff_runnable_unassigned s)
    (hget : s.tasks.get? i = some t) (hb : t.state = TaskState.blocked) :
    WF (heap_insert { s with tasks := set_task_at (set_task_at s.tasks i (fun u => { u with state := TaskState.runnable })) i (fun u => if u.vruntime < mv - 1 then { u with vruntime := mv - 1 } else u) } t.tid) ∧
    queue_iff_runnable_unassigned (heap_insert { s with tasks := set_task_at (set_task_at s.tasks i (fun u => { u with state := TaskState.runnable })) i (fun u => if u.vruntime < mv - 1 then { u with vruntime := mv - 1 } else u) } t.tid) := by
  have htm : t ∈ s.tasks := mem_of_getq _ _ _ hget
  have hnotheap : t.tid ∉ s.heap := by
    intro hc
    have h1 := (hq t htm).mp hc
    rw [hb] at h1
    exact absurd h1.1 (by intro h2; cases h2)
  have hnoslot : some t.tid ∉ s.slots := by
    intro hc
    obtain ⟨c, hcq⟩ := getq_of_mem _ _ hc
    obtain ⟨w, hwm, hwt, -, hws⟩ := hw.slot_task c t.tid hcq
    have hw0 : w = t := tid_unique hw.tid_nodup hwm htm hwt
    subst hw0
    rw [hb] at hws
    rcases hws with h1 | h1 <;> cases h1
  have hcpuneg : t.current_cpu < 0 := by
    by_contra hcon
    push_neg at hcon
    have h1 := hw.cpu_slot t htm hcon
    exact hnoslot (mem_of_getq _ _ _ h1)
  have hsame1 : set_task_at s.tasks i (fun u => { u with state := TaskState.runnable })
      = s.tasks.set i { t with state := TaskState.runnable } := by
    unfold set_task_at
    rw [hget]
  have hgetf : (s.tasks.set i { t with state := TaskState.runnable }).get? i
      = some { t with state := TaskState.runnable } :=
    getq_set_self s.tasks i _ t hget
  have hsame2 : set_task_at (set_task_at s.tasks i (fun u => { u with state := TaskState.runnable })) i (fun u => if u.vruntime < mv - 1 then { u with vruntime := mv - 1 } else u)
      = s.tasks.set i (if ({ t with state := TaskState.runnable } : Task).vruntime < mv - 1 then { { t with state := TaskState.runnable } with vruntime := mv - 1 } else { t with state := TaskState.runnable }) := by
    rw [hsame1]
    unfold set_task_at
    simp only [hgetf]
    rw [List.set_set]
  have hr2tid : (if ({ t with state := TaskState.runnable } : Task).vruntime < mv - 1 then { { t with state := TaskState.runnable } with vruntime := mv - 1 } else { t with state := TaskState.runnable }).tid = t.tid := by
    split <;> rfl
  have hr2st : (if ({ t with state := TaskState.runnable } : Task).vruntime < mv - 1 then { { t with state := TaskState.runnable } with vruntime := mv - 1 } else { t with state := TaskState.runnable }).state = TaskState.runnable := by
    split <;> rfl
  have hr2cpu : (if ({ t with state := TaskState.runnable } : Task).vruntime < mv - 1 then { { t with state := TaskState.runnable } with vruntime := mv - 1 } else { t with state := TaskState.runnable }).current_cpu = t.current_cpu := by
    split <;> rfl
  have hA1 : HeapInv { s with tasks := set_task_at s.tasks i (fun u => { u with state := TaskState.runnable }) } :=
    heapinv_set s i _
      ⟨hw.tid_nodup, hw.heap_nodup, hw.heap_sub, hw.acc, hw.memidx⟩
      (fun _ => ⟨rfl, rfl⟩)
  have hA : HeapInv { s with tasks := set_task_at (set_task_at s.tasks i (fun u => { u with state := TaskState.runnable })) i (fun u => if u.vruntime < mv - 1 then { u with vruntime := mv - 1 } else u) } :=
    heapinv_set { s with tasks := set_task_at s.tasks i (fun u => { u with state := TaskState.runnable }) } i
      (fun u => if u.vruntime < mv - 1 then { u with vruntime := mv - 1 } else u) hA1
      (fun u => ⟨by dsimp only; split <;> rfl, by dsimp only; split <;> rfl⟩)
  have hmapt : (set_task_at (set_task_at s.tasks i (fun u => { u with state := TaskState.runnable })) i (fun u => if u.vruntime < mv - 1 then { u with vruntime := mv - 1 } else u)).map Task.tid
      = s.tasks.map Task.tid := by
    rw [hsame2]
    exact map_set_id_pres Task.tid s.tasks i t _ hget hr2tid
  refine insert_runnable_core s _ t.tid hw hq hA rfl rfl (le_refl _) rfl ?_
    hnotheap hnoslot ?_ ?_ ?_
  · show t.tid ∈ (set_task_at (set_task_at s.tasks i (fun u => { u with state := TaskState.runnable })) i (fun u => if u.vruntime < mv - 1 then { u with vruntime := mv - 1 } else u)).map Task.tid
    rw [hmapt]
    exact List.mem_map_of_mem Task.tid htm
  · show t.tid < s.next_tid
    exact hw.tid_lt t htm
  · intro u hu
    have hu2 : u ∈ s.tasks.set i (if ({ t with state := TaskState.runnable } : Task).vruntime < mv - 1 then { { t with state := TaskState.runnable } with vruntime := mv - 1 } else { t with state := TaskState.runnable }) := by
      rw [← hsame2]
      exact hu
    rcases mem_set_char hw.tid_nodup hget _ u hu2 with h1 | ⟨h1, h2⟩
    · subst h1
      refine Or.inl ⟨hr2tid, hr2st, ?_⟩
      rw [hr2cpu]
      exact hcpuneg
    · exact Or.inr ⟨u, h1, rfl, h2⟩
  · intro w hwm hwnt
    rcases mem_into_set hget (if ({ t with state := TaskState.runnable } : Task).vruntime < mv - 1 then { { t with state := TaskState.runnable } with vruntime := mv - 1 } else { t with state := TaskState.runnable }) hwm with ⟨h1, -⟩ | h1
    · exfalso
      apply hwnt
      rw [h1]
    · refine ⟨w, ?_, rfl⟩
      show w ∈ set_task_at (set_task_at s.tasks i (fun u => { u with state := TaskState.runnable })) i (fun u => if u.vruntime < mv - 1 then { u with vruntime := mv - 1 } else u)
      rw [hsame2]
      exact h1

/-- `TASK_UNBLOCK` preserves `WF` and the queue invariant. -/
theorem WF_Q_unblock_evt (s : Sched) (e : Event)
    (ha : e.action = EventAction.task_unblock)
    (hw : WF s) (hq : queue_iff_runnable_unassigned s) :
    WF (scheduler_process_event s e).1 ∧
    queue_iff_runnable_unassigned (scheduler_process_event s e).1 := by
  unfold scheduler_process_event
  rw [ha]
  dsimp only
  cases hf : find_task_idx s.tasks e.task_id with
  | none =>
    simp only [hf]
    exact ⟨hw, hq⟩
  | some i =>
    simp only [hf]
    cases hg : s.tasks.get? i with
    | none =>
      simp only [hg]
      exact ⟨hw, hq⟩
    | some t =>
      simp only [hg]
      by_cases hb : t.state = TaskState.blocked
      · rw [if_pos hb]
        exact unblock_core s t i
          (get_min_vruntime { s with tasks := set_task_at s.tasks i (fun u => { u with state := TaskState.runnable }) }) hw hq hg hb
      · rw [if_neg hb]
        exact ⟨hw, hq⟩

/-- Every processed event preserves `WF` and the queue invariant. -/
theorem WF_Q_event (s : Sched) (e : Event)
    (hw : WF s) (hq : queue_iff_runnable_unassigned s) :
    WF (scheduler_process_event s e).1 ∧
    queue_iff_runnable_unassigned (scheduler_process_event s e).1 := by
  cases ha : e.action
  · exact WF_Q_invalid_evt s e ha hw hq
  · exact WF_Q_create_evt s e ha hw hq
  · exact WF_Q_exit_evt s e ha hw hq
  · exact WF_Q_block_evt s e ha hw hq
  · exact WF_Q_unblock_evt s e ha hw hq
  · exact WF_Q_yield_evt s e ha hw hq
  · exact WF_Q_setnice_evt s e ha hw hq
  · exact WF_Q_affinity_evt s e ha hw hq
  · exact WF_Q_cgcreate_evt s e ha hw hq
  · exact WF_Q_cgmodify_evt s e ha hw hq
  · exact WF_Q_cgdelete_evt s e ha hw hq
  · exact WF_Q_move_evt s e ha hw hq
  · exact WF_Q_burst_evt s e ha hw hq


/-- Mapping a field through `upd_task` when the edit preserves it on every
record that carries the handle. -/
theorem upd_task_map_g {α : Type} (g : Task → α) :
    ∀ (ts : List Task) (tid : Nat) (f : Task → Task),
    (∀ u ∈ ts, u.tid = tid → g (f u) = g u) →
    (upd_task ts tid f).map g = ts.map g := by
  intro ts
  induction ts with
  | nil => intro tid f _; rfl
  | cons x xs ih =>
    intro tid f h
    show g (if x.tid = tid then f x else x) :: (upd_task xs tid f).map g
      = g x :: xs.map g
    rw [ih tid f (fun u hu => h u (List.mem_cons_of_mem x hu))]
    by_cases hx : x.tid = tid
    · rw [if_pos hx, h x (List.mem_cons_self x xs) hx]
    · rw [if_neg hx]

/-- `upd_task` edits preserving handle and back-pointer on carriers of the
handle preserve the heap bundle. -/
theorem heapinv_upd_mem (s : Sched) (tid : Nat) (f : Task → Task) (h : HeapInv s)
    (hf : ∀ u ∈ s.tasks, u.tid = tid →
      (f u).tid = u.tid ∧ (f u).heap_index = u.heap_index) :
    HeapInv { s with tasks := upd_task s.tasks tid f } := by
  have hmapt : (upd_task s.tasks tid f).map Task.tid = s.tasks.map Task.tid :=
    upd_task_map_g Task.tid s.tasks tid f (fun u hu ht => (hf u hu ht).1)
  refine ⟨?_, h.heap_nodup, ?_, ?_, ?_⟩
  · rw [hmapt]
    exact h.tid_nodup
  · intro x hx
    obtain ⟨u, hu, huu⟩ := h.heap_sub x hx
    refine ⟨if u.tid = tid then f u else u, upd_task_mem_of_mem hu, ?_⟩
    by_cases hut : u.tid = tid
    · rw [if_pos hut, (hf u hu hut).1]
      exact huu
    · rw [if_neg hut]
      exact huu
  · intro u hu hidx
    obtain ⟨v, hv, huv⟩ := mem_upd_task hu
    by_cases hvt : v.tid = tid
    · rw [if_pos hvt] at huv
      subst huv
      rw [(hf v hv hvt).2] at hidx ⊢
      rw [(hf v hv hvt).1]
      exact h.acc v hv hidx
    · rw [if_neg hvt] at huv
      subst huv
      exact h.acc _ hv hidx
  · intro u hu humem
    obtain ⟨v, hv, huv⟩ := mem_upd_task hu
    by_cases hvt : v.tid = tid
    · rw [if_pos hvt] at huv
      subst huv
      rw [(hf v hv hvt).2]
      rw [(hf v hv hvt).1] at humem
      exact h.memidx v hv humem
    · rw [if_neg hvt] at huv
      subst huv
      exact h.memidx _ hv humem

/-- With unique handles, dereferencing a member record's handle yields
that record. -/
theorem find_by_tid_eq {ts : List Task} (hnd : (ts.map Task.tid).Nodup)
    {u : Task} (hu : u ∈ ts) : find_by_tid ts u.tid = some u := by
  obtain ⟨w, hf, hwt⟩ := find_by_tid_isSome (List.mem_map_of_mem Task.tid hu)
  rw [hf]
  have hwm : w ∈ ts := find_by_tid_mem hf
  rw [tid_unique hnd hwm hu hwt]


/-- State-agnostic version of `heapinv_upd_mem`. -/
theorem heapinv_upd_mem2 (s s2 : Sched) (tid : Nat) (f : Task → Task) (h : HeapInv s)
    (htasks : s2.tasks = upd_task s.tasks tid f) (hheap : s2.heap = s.heap)
    (hf : ∀ u ∈ s.tasks, u.tid = tid →
      (f u).tid = u.tid ∧ (f u).heap_index = u.heap_index) :
    HeapInv s2 := by
  have hh := heapinv_upd_mem s tid f h hf
  refine ⟨?_, ?_, ?_, ?_, ?_⟩
  · rw [htasks]
    exact hh.tid_nodup
  · rw [hheap]
    exact hh.heap_nodup
  · intro x hx
    rw [hheap] at hx
    rw [htasks]
    exact hh.heap_sub x hx
  · intro u hu hidx
    rw [htasks] at hu
    rw [hheap]
    exact hh.acc u hu hidx
  · intro u hu hm
    rw [htasks] at hu
    rw [hheap] at hm
    exact hh.memidx u hu hm

/-- The slot-clearing outcome of one `account_cpu` step. -/
theorem account_clear_part (st : Sched) (k : Nat)
    (hrun : ∀ u ∈ st.tasks, u.state = TaskState.running →
      0 ≤ u.current_cpu ∧ st.slots.get? u.current_cpu.toNat = some (some u.tid))
    (hk : ∀ u ∈ st.tasks, u.state = TaskState.running → ¬ u.current_cpu.toNat = k) :
    ({ st with slots := st.slots.set k none } : Sched).tasks.map Task.tid
      = st.tasks.map Task.tid ∧
    ({ st with slots := st.slots.set k none } : Sched).tasks.map Task.task_id
      = st.tasks.map Task.task_id ∧
    (HeapInv st → HeapInv { st with slots := st.slots.set k none }) ∧
    ({ st with slots := st.slots.set k none } : Sched).heap = st.heap ∧
    ({ st with slots := st.slots.set k none } : Sched).slots = st.slots.set k none ∧
    ({ st with slots := st.slots.set k none } : Sched).next_tid = st.next_tid ∧
    ({ st with slots := st.slots.set k none } : Sched).cpu_count = st.cpu_count ∧
    (∀ u ∈ ({ st with slots := st.slots.set k none } : Sched).tasks,
      ∃ w ∈ st.tasks, w.tid = u.tid ∧ w.task_id = u.task_id ∧
        w.current_cpu = u.current_cpu ∧
        (w.state = u.state ∨
          (w.state = TaskState.running ∧ u.state = TaskState.runnable))) ∧
    (∀ u ∈ ({ st with slots := st.slots.set k none } : Sched).tasks,
      u.state = TaskState.running → 0 ≤ u.current_cpu ∧
        ¬ u.current_cpu.toNat = k ∧
        ({ st with slots := st.slots.set k none } : Sched).slots.get?
          u.current_cpu.toNat = some (some u.tid)) := by
  refine ⟨rfl, rfl, ?_, rfl, rfl, rfl, rfl, ?_, ?_⟩
  · intro h
    exact ⟨h.tid_nodup, h.heap_nodup, h.heap_sub, h.acc, h.memidx⟩
  · intro u hu
    exact ⟨u, hu, rfl, rfl, rfl, Or.inl rfl⟩
  · intro u hu hr
    obtain ⟨h1, h2⟩ := hrun u hu hr
    have h3 := hk u hu hr
    refine ⟨h1, h3, ?_⟩
    show (st.slots.set k none).get? u.current_cpu.toNat = some (some u.tid)
    rw [getq_set_ne st.slots k u.current_cpu.toNat none (fun hc => h3 hc.symm)]
    exact h2

/-- One `account_cpu` step: the registry keeps its handle and id columns,
the heap bundle and queue are untouched, the slot is cleared, every record
maps to an original record equal up to the Running-to-Runnable flip, and
surviving Running tasks still occupy their (other) slot. -/
theorem account_step (st : Sched) (k : Nat)
    (hnd : (st.tasks.map Task.tid).Nodup)
    (hrun : ∀ u ∈ st.tasks, u.state = TaskState.running →
      0 ≤ u.current_cpu ∧ st.slots.get? u.current_cpu.toNat = some (some u.tid)) :
    (account_cpu st k).tasks.map Task.tid = st.tasks.map Task.tid ∧
    (account_cpu st k).tasks.map Task.task_id = st.tasks.map Task.task_id ∧
    (HeapInv st → HeapInv (account_cpu st k)) ∧
    (account_cpu st k).heap = st.heap ∧
    (account_cpu st k).slots = st.slots.set k none ∧
    (account_cpu st k).next_tid = st.next_tid ∧
    (account_cpu st k).cpu_count = st.cpu_count ∧
    (∀ u ∈ (account_cpu st k).tasks, ∃ w ∈ st.tasks,
      w.tid = u.tid ∧ w.task_id = u.task_id ∧ w.current_cpu = u.current_cpu ∧
      (w.state = u.state ∨
        (w.state = TaskState.running ∧ u.state = TaskState.runnable))) ∧
    (∀ u ∈ (account_cpu st k).tasks, u.state = TaskState.running →
      0 ≤ u.current_cpu ∧ ¬ u.current_cpu.toNat = k ∧
      (account_cpu st k).slots.get? u.current_cpu.toNat = some (some u.tid)) := by
  unfold account_cpu
  cases hsl : st.slots.get? k with
  | none =>
    have hk : ∀ u ∈ st.tasks, u.state = TaskState.running → ¬ u.current_cpu.toNat = k := by
      intro u hu hr hc
      obtain ⟨-, h2⟩ := hrun u hu hr
      rw [hc, hsl] at h2
      cases h2
    exact account_clear_part st k hrun hk
  | some o =>
    cases o with
    | none =>
      have hk : ∀ u ∈ st.tasks, u.state = TaskState.running → ¬ u.current_cpu.toNat = k := by
        intro u hu hr hc
        obtain ⟨-, h2⟩ := hrun u hu hr
        rw [hc, hsl] at h2
        cases Option.some.inj h2
      exact account_clear_part st k hrun hk
    | some tid0 =>
      dsimp only
      cases hfd : find_by_tid st.tasks tid0 with
      | none =>
        have hk : ∀ u ∈ st.tasks, u.state = TaskState.running → ¬ u.current_cpu.toNat = k := by
          intro u hu hr hc
          obtain ⟨-, h2⟩ := hrun u hu hr
          rw [hc, hsl] at h2
          have h3 : u.tid = tid0 := Option.some.inj (Option.some.inj h2).symm
          have h4 := find_by_tid_eq hnd hu
          rw [h3, hfd] at h4
          cases h4
        exact account_clear_part st k hrun hk
      | some t =>
        dsimp only
        have ht := find_by_tid_tid hfd
        have htm := find_by_tid_mem hfd
        by_cases hr : t.state = TaskState.running
        · rw [if_pos hr]
          have huniq : ∀ u ∈ st.tasks, u.tid = tid0 → u = t := by
            intro u hu hut
            exact tid_unique hnd hu htm (hut.trans ht.symm)
          refine ⟨?_, ?_, ?_, rfl, rfl, rfl, rfl, ?_, ?_⟩
          · apply upd_task_map_g
            intro u hu hut
            rw [huniq u hu hut]
            show _ = t.tid
            repeat' split
            all_goals rfl
          · apply upd_task_map_g
            intro u hu hut
            rw [huniq u hu hut]
            show _ = t.task_id
            repeat' split
            all_goals rfl
          · intro h
            refine heapinv_upd_mem2 st _ tid0 _ h rfl rfl ?_
            intro u hu hut
            rw [huniq u hu hut]
            constructor
            · show _ = t.tid
              repeat' split
              all_goals rfl
            · show _ = t.heap_index
              repeat' split
              all_goals rfl
          · intro u hu
            obtain ⟨v, hv, huv⟩ := mem_upd_task hu
            by_cases hvt : v.tid = tid0
            · rw [if_pos hvt] at huv
              have hveq : v = t := huniq v hv hvt
              subst huv
              refine ⟨v, hv, ?_, ?_, ?_, Or.inr ⟨?_, ?_⟩⟩
              · rw [hveq]
                show t.tid = _
                symm
                repeat' split
                all_goals rfl
              · rw [hveq]
                show t.task_id = _
                symm
                repeat' split
                all_goals rfl
              · rw [hveq]
                show t.current_cpu = _
                symm
                repeat' split
                all_goals rfl
              · rw [hveq]
                exact hr
              · rfl
            · rw [if_neg hvt] at huv
              subst huv
              exact ⟨u, hv, rfl, rfl, rfl, Or.inl rfl⟩
          · intro u hu hru
            obtain ⟨v, hv, huv⟩ := mem_upd_task hu
            by_cases hvt : v.tid = tid0
            · rw [if_pos hvt] at huv
              subst huv
              exfalso
              have h5 : TaskState.runnable = TaskState.running := hru
              cases h5
            · rw [if_neg hvt] at huv
              subst huv
              obtain ⟨h1, h2⟩ := hrun u hv hru
              have h3 : ¬ u.current_cpu.toNat = k := by
                intro hc
                rw [hc, hsl] at h2
                exact hvt (Option.some.inj (Option.some.inj h2).symm)
              refine ⟨h1, h3, ?_⟩
              show (st.slots.set k none).get? u.current_cpu.toNat = some (some u.tid)
              rw [getq_set_ne st.slots k u.current_cpu.toNat none (fun hc => h3 hc.symm)]
              exact h2
        · rw [if_neg hr]
          have hk : ∀ u ∈ st.tasks, u.state = TaskState.running → ¬ u.current_cpu.toNat = k := by
            intro u hu hru hc
            obtain ⟨-, h2⟩ := hrun u hu hru
            rw [hc, hsl] at h2
            have h3 : u.tid = tid0 := Option.some.inj (Option.some.inj h2).symm
            have h4 := find_by_tid_eq hnd hu
            rw [h3, hfd] at h4
            have h5 : t = u := Option.some.inj h4
            apply hr
            rw [h5]
            exact hru
          exact account_clear_part st k hrun hk


/-- The whole accounting pass of `scheduler_tick`: handle and id columns
preserved, heap bundle and queue untouched, the first `k` slots cleared
and the rest untouched, records preserved up to Running-to-Runnable flips,
and remaining Running tasks sit in a not-yet-visited slot. -/
theorem account_fold_char (s2 : Sched) (hw : WF s2) :
    ∀ k : Nat, k ≤ s2.cpu_count →
    ((List.range k).foldl account_cpu s2).tasks.map Task.tid
      = s2.tasks.map Task.tid ∧
    ((List.range k).foldl account_cpu s2).tasks.map Task.task_id
      = s2.tasks.map Task.task_id ∧
    HeapInv ((List.range k).foldl account_cpu s2) ∧
    ((List.range k).foldl account_cpu s2).heap = s2.heap ∧
    ((List.range k).foldl account_cpu s2).slots.length = s2.cpu_count ∧
    (∀ c, c < k → ((List.range k).foldl account_cpu s2).slots.get? c = some none) ∧
    (∀ c, k ≤ c → ((List.range k).foldl account_cpu s2).slots.get? c
      = s2.slots.get? c) ∧
    ((List.range k).foldl account_cpu s2).next_tid = s2.next_tid ∧
    ((List.range k).foldl account_cpu s2).cpu_count = s2.cpu_count ∧
    (∀ u ∈ ((List.range k).foldl account_cpu s2).tasks, ∃ w ∈ s2.tasks,
      w.tid = u.tid ∧ w.task_id = u.task_id ∧ w.current_cpu = u.current_cpu ∧
      (w.state = u.state ∨
        (w.state = TaskState.running ∧ u.state = TaskState.runnable))) ∧
    (∀ u ∈ ((List.range k).foldl account_cpu s2).tasks,
      u.state = TaskState.running → 0 ≤ u.current_cpu ∧
      k ≤ u.current_cpu.toNat ∧
      ((List.range k).foldl account_cpu s2).slots.get? u.current_cpu.toNat
        = some (some u.tid)) := by
  intro k
  induction k with
  | zero =>
    intro _
    refine ⟨rfl, rfl, ⟨hw.tid_nodup, hw.heap_nodup, hw.heap_sub, hw.acc, hw.memidx⟩,
      rfl, hw.slots_len, ?_, ?_, rfl, rfl, ?_, ?_⟩
    · intro c hc
      omega
    · intro c _
      rfl
    · intro u hu
      exact ⟨u, hu, rfl, rfl, rfl, Or.inl rfl⟩
    · intro u hu hr
      exact ⟨hw.run_cpu u hu hr, Nat.zero_le _, hw.cpu_slot u hu (hw.run_cpu u hu hr)⟩
  | succ k ih =>
    intro hk1
    obtain ⟨ih1, ih2, ih3, ih4, ih5, ih6, ih7, ih8, ih9, ih10, ih11⟩ :=
      ih (by omega)
    have hfoldeq : (List.range (k + 1)).foldl account_cpu s2
        = account_cpu ((List.range k).foldl account_cpu s2) k := by
      rw [List.range_succ, List.foldl_append]
      rfl
    have hnd : (((List.range k).foldl account_cpu s2).tasks.map Task.tid).Nodup := by
      rw [ih1]
      exact hw.tid_nodup
    have hrun : ∀ u ∈ ((List.range k).foldl account_cpu s2).tasks,
        u.state = TaskState.running → 0 ≤ u.current_cpu ∧
        ((List.range k).foldl account_cpu s2).slots.get? u.current_cpu.toNat
          = some (some u.tid) := by
      intro u hu hr
      obtain ⟨h1, -, h3⟩ := ih11 u hu hr
      exact ⟨h1, h3⟩
    obtain ⟨a1, a2, a3, a4, a5, a6, a7, a8, a9⟩ :=
      account_step ((List.range k).foldl account_cpu s2) k hnd hrun
    rw [hfoldeq]
    have hklen : k < ((List.range k).foldl account_cpu s2).slots.length := by
      rw [ih5]
      omega
    refine ⟨a1.trans ih1, a2.trans ih2, a3 ih3, a4.trans ih4, ?_, ?_, ?_,
      a6.trans ih8, a7.trans ih9, ?_, ?_⟩
    · rw [a5, List.length_set]
      exact ih5
    · intro c hc
      rw [a5]
      by_cases hck : c = k
      · cases hgk : ((List.range k).foldl account_cpu s2).slots.get? k with
        | none =>
          exfalso
          rw [List.get?_eq_none] at hgk
          omega
        | some o =>
          rw [hck]
          exact getq_set_self _ k none o hgk
      · rw [getq_set_ne _ k c none (fun h2 => hck h2.symm)]
        exact ih6 c (by omega)
    · intro c hc
      rw [a5, getq_set_ne _ k c none (by omega)]
      exact ih7 c (by omega)
    · intro u hu
      obtain ⟨w, hwm, b1, b2, b3, b4⟩ := a8 u hu
      obtain ⟨w2, hw2m, c1, c2, c3, c4⟩ := ih10 w hwm
      refine ⟨w2, hw2m, c1.trans b1, c2.trans b2, c3.trans b3, ?_⟩
      rcases c4 with c4 | ⟨c4a, c4b⟩
      · rcases b4 with b4 | ⟨b4a, b4b⟩
        · exact Or.inl (c4.trans b4)
        · exact Or.inr ⟨c4.trans b4a, b4b⟩
      · rcases b4 with b4 | ⟨b4a, b4b⟩
        · exact Or.inr ⟨c4a, b4 ▸ c4b⟩
        · exfalso
          rw [c4b] at b4a
          cases b4a
    · intro u hu hr
      obtain ⟨d1, d2, d3⟩ := a9 u hu hr
      refine ⟨d1, ?_, d3⟩
      obtain ⟨w, hwm, b1, b2, b3, b4⟩ := a8 u hu
      have hwr : w.state = TaskState.running := by
        rcases b4 with b4 | ⟨-, b4b⟩
        · rw [b4, hr]
        · exfalso
          rw [b4b] at hr
          cases hr
      obtain ⟨-, e2, -⟩ := ih11 w hwm hwr
      rw [b3] at e2
      omega


/-- The queue rebuild fold: starting from a consistent state it keeps the
skeleton, preserves the bundle, and the queue gains exactly the Runnable
records of the scanned list. -/
theorem rebuild_fold :
    ∀ (l : List Task) (acc : Sched), HeapInv acc →
    (∀ u ∈ l, u.tid ∈ acc.tasks.map Task.tid) →
    ((l.map Task.tid) ++ acc.heap).Nodup →
    HeapInv (l.foldl
      (fun a t => if t.state = TaskState.runnable then heap_insert a t.tid else a)
      acc) ∧
    sk (l.foldl
      (fun a t => if t.state = TaskState.runnable then heap_insert a t.tid else a)
      acc) = sk acc ∧
    (∀ x, x ∈ (l.foldl
        (fun a t => if t.state = TaskState.runnable then heap_insert a t.tid else a)
        acc).heap ↔
      ((∃ u ∈ l, u.tid = x ∧ u.state = TaskState.runnable) ∨ x ∈ acc.heap)) := by
  intro l
  induction l with
  | nil =>
    intro acc h _ _
    refine ⟨h, rfl, ?_⟩
    intro x
    constructor
    · intro hx
      exact Or.inr hx
    · intro hx
      rcases hx with ⟨u, hu, -⟩ | hx
      · cases hu
      · exact hx
  | cons t ls ih =>
    intro acc h hreg hnd
    simp only [List.foldl_cons]
    have hnd2 : (t.tid :: (ls.map Task.tid ++ acc.heap)).Nodup := hnd
    by_cases ht : t.state = TaskState.runnable
    · rw [if_pos ht]
      have hnot : t.tid ∉ acc.heap := by
        intro hc
        exact (List.nodup_cons.mp hnd2).1 (List.mem_append_right _ hc)
      have hA : HeapInv (heap_insert acc t.tid) :=
        heapinv_insert acc t.tid h (hreg t (List.mem_cons_self t ls)) hnot
      have hsk : sk (heap_insert acc t.tid) = sk acc := sk_heap_insert acc t.tid
      have hperm : (heap_insert acc t.tid).heap.Perm (t.tid :: acc.heap) :=
        heap_insert_perm acc t.tid
      have hreg2 : ∀ u ∈ ls, u.tid ∈ (heap_insert acc t.tid).tasks.map Task.tid := by
        intro u hu
        rw [map_tid_of_sk hsk]
        exact hreg u (List.mem_cons_of_mem t hu)
      have hnd3 : (ls.map Task.tid ++ (heap_insert acc t.tid).heap).Nodup := by
        have hp2 : (ls.map Task.tid ++ (heap_insert acc t.tid).heap).Perm
            (ls.map Task.tid ++ (t.tid :: acc.heap)) :=
          List.Perm.append_left _ hperm
        have hp3 : (ls.map Task.tid ++ (t.tid :: acc.heap)).Perm
            ((t.tid :: ls.map Task.tid) ++ acc.heap) := List.perm_middle
        exact (hp2.trans hp3).nodup_iff.mpr hnd
      obtain ⟨c1, c2, c3⟩ := ih (heap_insert acc t.tid) hA hreg2 hnd3
      refine ⟨c1, c2.trans hsk, ?_⟩
      intro x
      rw [c3 x]
      constructor
      · intro hx
        rcases hx with ⟨u, hu, h1, h2⟩ | hx
        · exact Or.inl ⟨u, List.mem_cons_of_mem t hu, h1, h2⟩
        · rcases List.mem_cons.mp (hperm.mem_iff.mp hx) with h1 | h1
          · exact Or.inl ⟨t, List.mem_cons_self t ls, h1.symm, ht⟩
          · exact Or.inr h1
      · intro hx
        rcases hx with ⟨u, hu, h1, h2⟩ | hx
        · rcases List.mem_cons.mp hu with rfl | hu2
          · refine Or.inr (hperm.mem_iff.mpr ?_)
            rw [← h1]
            exact List.mem_cons_self _ _
          · exact Or.inl ⟨u, hu2, h1, h2⟩
        · exact Or.inr (hperm.mem_iff.mpr (List.mem_cons_of_mem _ hx))
    · rw [if_neg ht]
      have hnd3 : (ls.map Task.tid ++ acc.heap).Nodup := (List.nodup_cons.mp hnd2).2
      obtain ⟨c1, c2, c3⟩ := ih acc h
        (fun u hu => hreg u (List.mem_cons_of_mem t hu)) hnd3
      refine ⟨c1, c2, ?_⟩
      intro x
      rw [c3 x]
      constructor
      · intro hx
        rcases hx with ⟨u, hu, h1, h2⟩ | hx
        · exact Or.inl ⟨u, List.mem_cons_of_mem t hu, h1, h2⟩
        · exact Or.inr hx
      · intro hx
        rcases hx with ⟨u, hu, h1, h2⟩ | hx
        · rcases List.mem_cons.mp hu with rfl | hu2
          · exact absurd h2 ht
          · exact Or.inl ⟨u, hu2, h1, h2⟩
        · exact Or.inr hx


/-- `rebuild_runnable_heap`: the bundle holds afterwards, the skeleton is
kept up to cleared back-pointers, and the queue holds exactly the Runnable
records. -/
theorem rebuild_char (s3 : Sched) (hnd : (s3.tasks.map Task.tid).Nodup) :
    HeapInv (rebuild_runnable_heap s3) ∧
    (rebuild_runnable_heap s3).slots = s3.slots ∧
    (rebuild_runnable_heap s3).cpu_count = s3.cpu_count ∧
    (rebuild_runnable_heap s3).next_tid = s3.next_tid ∧
    (rebuild_runnable_heap s3).tasks.map Task.tid = s3.tasks.map Task.tid ∧
    (rebuild_runnable_heap s3).tasks.map Task.task_id = s3.tasks.map Task.task_id ∧
    (∀ u ∈ (rebuild_runnable_heap s3).tasks, ∃ w ∈ s3.tasks,
      w.tid = u.tid ∧ w.task_id = u.task_id ∧ w.current_cpu = u.current_cpu ∧
      w.state = u.state ∧ w.vruntime = u.vruntime) ∧
    (∀ u ∈ (rebuild_runnable_heap s3).tasks,
      (u.tid ∈ (rebuild_runnable_heap s3).heap ↔ u.state = TaskState.runnable)) := by
  have hmap0 : ({ s3 with heap := [], tasks := s3.tasks.map (fun t => { t with heap_index := -1 }) } : Sched).tasks.map Task.tid = s3.tasks.map Task.tid :=
    map_map_id_pres Task.tid (fun t => { t with heap_index := -1 }) (fun _ => rfl) s3.tasks
  have hmapid0 : ({ s3 with heap := [], tasks := s3.tasks.map (fun t => { t with heap_index := -1 }) } : Sched).tasks.map Task.task_id = s3.tasks.map Task.task_id :=
    map_map_id_pres Task.task_id (fun t => { t with heap_index := -1 }) (fun _ => rfl) s3.tasks
  have h0 : HeapInv ({ s3 with heap := [], tasks := s3.tasks.map (fun t => { t with heap_index := -1 }) } : Sched) := by
    refine ⟨?_, List.nodup_nil, ?_, ?_, ?_⟩
    · rw [hmap0]
      exact hnd
    · intro x hx
      cases hx
    · intro u hu hidx
      obtain ⟨w, hwm, hwu⟩ := List.mem_map.mp hu
      rw [← hwu] at hidx
      have hidx2 : (0 : Int) ≤ -1 := hidx
      exact absurd hidx2 (by decide)
    · intro u hu hm
      cases hm
  have hreg0 : ∀ u ∈ ({ s3 with heap := [], tasks := s3.tasks.map (fun t => { t with heap_index := -1 }) } : Sched).tasks, u.tid ∈ ({ s3 with heap := [], tasks := s3.tasks.map (fun t => { t with heap_index := -1 }) } : Sched).tasks.map Task.tid :=
    fun u hu => List.mem_map_of_mem Task.tid hu
  have hnd0 : ((({ s3 with heap := [], tasks := s3.tasks.map (fun t => { t with heap_index := -1 }) } : Sched).tasks.map Task.tid) ++ ({ s3 with heap := [], tasks := s3.tasks.map (fun t => { t with heap_index := -1 }) } : Sched).heap).Nodup := by
    rw [List.append_nil, hmap0]
    exact hnd
  obtain ⟨c1, c2, c3⟩ := rebuild_fold ({ s3 with heap := [], tasks := s3.tasks.map (fun t => { t with heap_index := -1 }) } : Sched).tasks ({ s3 with heap := [], tasks := s3.tasks.map (fun t => { t with heap_index := -1 }) } : Sched) h0 hreg0 hnd0
  have heq : rebuild_runnable_heap s3 = ({ s3 with heap := [], tasks := s3.tasks.map (fun t => { t with heap_index := -1 }) } : Sched).tasks.foldl
      (fun a t => if t.state = TaskState.runnable then heap_insert a t.tid else a)
      ({ s3 with heap := [], tasks := s3.tasks.map (fun t => { t with heap_index := -1 }) } : Sched) := rfl
  obtain ⟨hsl, hcp, hnt, hmapE⟩ := sk_fields c2
  rw [heq]
  have hcorr : ∀ u ∈ (({ s3 with heap := [], tasks := s3.tasks.map (fun t => { t with heap_index := -1 }) } : Sched).tasks.foldl
      (fun a t => if t.state = TaskState.runnable then heap_insert a t.tid else a)
      ({ s3 with heap := [], tasks := s3.tasks.map (fun t => { t with heap_index := -1 }) } : Sched)).tasks, ∃ w ∈ s3.tasks,
      w.tid = u.tid ∧ w.task_id = u.task_id ∧ w.current_cpu = u.current_cpu ∧
      w.state = u.state ∧ w.vruntime = u.vruntime := by
    intro u hu
    obtain ⟨v, hv, hve⟩ := mem_erase_transport hmapE hu
    obtain ⟨w, hwm, hwv⟩ := List.mem_map.mp hv
    obtain ⟨e1, e2, e3, e4, e5, -⟩ := erase_eq_fields hve
    refine ⟨w, hwm, ?_, ?_, ?_, ?_, ?_⟩
    · rw [show w.tid = v.tid from by rw [← hwv]]
      exact e1
    · rw [show w.task_id = v.task_id from by rw [← hwv]]
      exact e2
    · rw [show w.current_cpu = v.current_cpu from by rw [← hwv]]
      exact e4
    · rw [show w.state = v.state from by rw [← hwv]]
      exact e3
    · rw [show w.vruntime = v.vruntime from by rw [← hwv]]
      exact e5
  refine ⟨c1, hsl, hcp, hnt, ?_, ?_, hcorr, ?_⟩
  · have h2 := map_tid_of_sk c2
    rw [h2, hmap0]
  · have h2 := map_map_id_pres Task.task_id erase_qpos (fun _ => rfl)
      ((({ s3 with heap := [], tasks := s3.tasks.map (fun t => { t with heap_index := -1 }) } : Sched).tasks.foldl
        (fun a t => if t.state = TaskState.runnable then heap_insert a t.tid else a)
        ({ s3 with heap := [], tasks := s3.tasks.map (fun t => { t with heap_index := -1 }) } : Sched)).tasks)
    have h3 := map_map_id_pres Task.task_id erase_qpos (fun _ => rfl)
      (({ s3 with heap := [], tasks := s3.tasks.map (fun t => { t with heap_index := -1 }) } : Sched).tasks)
    rw [← h2, hmapE, h3, hmapid0]
  · intro u hu
    rw [c3 u.tid]
    have hndF : ((({ s3 with heap := [], tasks := s3.tasks.map (fun t => { t with heap_index := -1 }) } : Sched).tasks.foldl
        (fun a t => if t.state = TaskState.runnable then heap_insert a t.tid else a)
        ({ s3 with heap := [], tasks := s3.tasks.map (fun t => { t with heap_index := -1 }) } : Sched)).tasks.map Task.tid).Nodup := by
      rw [map_tid_of_sk c2, hmap0]
      exact hnd
    constructor
    · intro hx
      rcases hx with ⟨v, hv, h1, h2⟩ | hx
      · obtain ⟨v2, hv2, hve⟩ := mem_erase_transport hmapE.symm hv
        obtain ⟨e1, -, e3, -, -, -⟩ := erase_eq_fields hve
        have hvu : v2 = u := by
          apply tid_unique hndF hv2 hu
          rw [e1, h1]
        rw [← hvu, e3]
        exact h2
      · cases hx
    · intro hr
      obtain ⟨v, hv, hve⟩ := mem_erase_transport hmapE hu
      obtain ⟨e1, -, e3, -, -, -⟩ := erase_eq_fields hve
      refine Or.inl ⟨v, hv, e1, ?_⟩
      rw [e3]
      exact hr


/-- The assignment tail of `select_cpu` (a candidate was picked and its
record found): the selection invariant advances by one CPU. -/
theorem select_assign_core (s4 : Sched) (k : Nat) (ps : PickState)
    (btid : Nat) (s2 : Sched) (bt : Task) (mig : Int) (pl1 : List (Nat × ℚ))
    (hk : k < s4.cpu_count)
    (p1 : HeapInv ps.s)
    (p2 : ps.s.tasks.map Task.tid = s4.tasks.map Task.tid)
    (p3 : ps.s.tasks.map Task.task_id = s4.tasks.map Task.task_id)
    (p4 : ps.s.next_tid = s4.next_tid)
    (p5 : ps.s.cpu_count = s4.cpu_count)
    (p6 : ps.s.slots.length = s4.cpu_count)
    (p7 : (∀ c x, ps.s.slots.get? c = some (some x) → x ∈ ps.assigned))
    (p8 : (∀ x ∈ ps.assigned, ∃ u ∈ ps.s.tasks, u.tid = x ∧ 0 ≤ u.current_cpu ∧ ps.s.slots.get? u.current_cpu.toNat = some (some x)))
    (p9 : (∀ c, k ≤ c → c < s4.cpu_count → ps.s.slots.get? c = some none))
    (p10 : (∀ u ∈ ps.s.tasks, (u.tid ∈ ps.s.heap ↔ (u.state = TaskState.runnable ∧ u.tid ∉ ps.assigned))))
    (p11 : (∀ u ∈ ps.s.tasks, u.state = TaskState.running → u.tid ∈ ps.assigned))
    (p12 : (∀ u ∈ ps.s.tasks, 0 ≤ u.current_cpu → (u.tid ∈ ps.assigned ∨ u.state = TaskState.runnable)))
    (p13 : ps.schedule.length = k)
    (p14 : (∀ j, j < k → (ps.schedule.get? j = some "idle" ∨ ∃ x, ps.s.slots.get? j = some (some x) ∧ ∃ u ∈ ps.s.tasks, u.tid = x ∧ ps.schedule.get? j = some u.task_id)))
    (p15 : ps.assigned.Nodup)
    (p16 : (∀ c x, ps.s.slots.get? c = some (some x) → ∃ u ∈ ps.s.tasks, u.tid = x ∧ u.current_cpu = (c : Int) ∧ (u.state = TaskState.running ∨ u.state = TaskState.runnable)))
    (q1 : HeapInv s2)
    (q2 : s2.tasks.map Task.tid = ps.s.tasks.map Task.tid)
    (q3 : s2.tasks.map Task.task_id = ps.s.tasks.map Task.task_id)
    (q4 : s2.next_tid = s4.next_tid)
    (q5 : s2.cpu_count = s4.cpu_count)
    (qsl : s2.slots = ps.s.slots)
    (qheap : ∀ x, x ∈ s2.heap ↔ (x ∈ ps.s.heap ∧ ¬ x = btid))
    (qii : ∀ u ∈ s2.tasks, ∃ w ∈ ps.s.tasks, w.tid = u.tid ∧ w.task_id = u.task_id ∧
      w.current_cpu = u.current_cpu ∧ (w.state = u.state ∨
        (w.state = TaskState.running ∧ u.state = TaskState.runnable ∧
          u.tid ∈ ps.assigned)))
    (qiii : ∀ w ∈ ps.s.tasks, ∃ u ∈ s2.tasks, u.tid = w.tid ∧ u.task_id = w.task_id ∧
      u.current_cpu = w.current_cpu ∧ (u.state = w.state ∨
        (w.state = TaskState.running ∧ u.state = TaskState.runnable)))
    (hbna : btid ∉ ps.assigned)
    (hbt : bt ∈ s2.tasks) (hbttid : bt.tid = btid) :
    HeapInv ({ s := { s2 with migrations := mig, tasks := upd_task s2.tasks btid (fun u => { u with current_cpu := (k : Int), state := TaskState.running }), slots := s2.slots.set k (some btid) }, planned := pl1, schedule := ps.schedule ++ [bt.task_id], assigned := ps.assigned ++ [btid] } : PickState).s ∧
    ({ s := { s2 with migrations := mig, tasks := upd_task s2.tasks btid (fun u => { u with current_cpu := (k : Int), state := TaskState.running }), slots := s2.slots.set k (some btid) }, planned := pl1, schedule := ps.schedule ++ [bt.task_id], assigned := ps.assigned ++ [btid] } : PickState).s.tasks.map Task.tid = s4.tasks.map Task.tid ∧
    ({ s := { s2 with migrations := mig, tasks := upd_task s2.tasks btid (fun u => { u with current_cpu := (k : Int), state := TaskState.running }), slots := s2.slots.set k (some btid) }, planned := pl1, schedule := ps.schedule ++ [bt.task_id], assigned := ps.assigned ++ [btid] } : PickState).s.tasks.map Task.task_id = s4.tasks.map Task.task_id ∧
    ({ s := { s2 with migrations := mig, tasks := upd_task s2.tasks btid (fun u => { u with current_cpu := (k : Int), state := TaskState.running }), slots := s2.slots.set k (some btid) }, planned := pl1, schedule := ps.schedule ++ [bt.task_id], assigned := ps.assigned ++ [btid] } : PickState).s.next_tid = s4.next_tid ∧
    ({ s := { s2 with migrations := mig, tasks := upd_task s2.tasks btid (fun u => { u with current_cpu := (k : Int), state := TaskState.running }), slots := s2.slots.set k (some btid) }, planned := pl1, schedule := ps.schedule ++ [bt.task_id], assigned := ps.assigned ++ [btid] } : PickState).s.cpu_count = s4.cpu_count ∧
    ({ s := { s2 with migrations := mig, tasks := upd_task s2.tasks btid (fun u => { u with current_cpu := (k : Int), state := TaskState.running }), slots := s2.slots.set k (some btid) }, planned := pl1, schedule := ps.schedule ++ [bt.task_id], assigned := ps.assigned ++ [btid] } : PickState).s.slots.length = s4.cpu_count ∧
    (∀ c x, ({ s := { s2 with migrations := mig, tasks := upd_task s2.tasks btid (fun u => { u with current_cpu := (k : Int), state := TaskState.running }), slots := s2.slots.set k (some btid) }, planned := pl1, schedule := ps.schedule ++ [bt.task_id], assigned := ps.assigned ++ [btid] } : PickState).s.slots.get? c = some (some x) → x ∈ ({ s := { s2 with migrations := mig, tasks := upd_task s2.tasks btid (fun u => { u with current_cpu := (k : Int), state := TaskState.running }), slots := s2.slots.set k (some btid) }, planned := pl1, schedule := ps.schedule ++ [bt.task_id], assigned := ps.assigned ++ [btid] } : PickState).assigned) ∧
    (∀ x ∈ ({ s := { s2 with migrations := mig, tasks := upd_task s2.tasks btid (fun u => { u with current_cpu := (k : Int), state := TaskState.running }), slots := s2.slots.set k (some btid) }, planned := pl1, schedule := ps.schedule ++ [bt.task_id], assigned := ps.assigned ++ [btid] } : PickState).assigned, ∃ u ∈ ({ s := { s2 with migrations := mig, tasks := upd_task s2.tasks btid (fun u => { u with current_cpu := (k : Int), state := TaskState.running }), slots := s2.slots.set k (some btid) }, planned := pl1, schedule := ps.schedule ++ [bt.task_id], assigned := ps.assigned ++ [btid] } : PickState).s.tasks, u.tid = x ∧ 0 ≤ u.current_cpu ∧ ({ s := { s2 with migrations := mig, tasks := upd_task s2.tasks btid (fun u => { u with current_cpu := (k : Int), state := TaskState.running }), slots := s2.slots.set k (some btid) }, planned := pl1, schedule := ps.schedule ++ [bt.task_id], assigned := ps.assigned ++ [btid] } : PickState).s.slots.get? u.current_cpu.toNat = some (some x)) ∧
    (∀ c, k + 1 ≤ c → c < s4.cpu_count → ({ s := { s2 with migrations := mig, tasks := upd_task s2.tasks btid (fun u => { u with current_cpu := (k : Int), state := TaskState.running }), slots := s2.slots.set k (some btid) }, planned := pl1, schedule := ps.schedule ++ [bt.task_id], assigned := ps.assigned ++ [btid] } : PickState).s.slots.get? c = some none) ∧
    (∀ u ∈ ({ s := { s2 with migrations := mig, tasks := upd_task s2.tasks btid (fun u => { u with current_cpu := (k : Int), state := TaskState.running }), slots := s2.slots.set k (some btid) }, planned := pl1, schedule := ps.schedule ++ [bt.task_id], assigned := ps.assigned ++ [btid] } : PickState).s.tasks, (u.tid ∈ ({ s := { s2 with migrations := mig, tasks := upd_task s2.tasks btid (fun u => { u with current_cpu := (k : Int), state := TaskState.running }), slots := s2.slots.set k (some btid) }, planned := pl1, schedule := ps.schedule ++ [bt.task_id], assigned := ps.assigned ++ [btid] } : PickState).s.heap ↔ (u.state = TaskState.runnable ∧ u.tid ∉ ({ s := { s2 with migrations := mig, tasks := upd_task s2.tasks btid (fun u => { u with current_cpu := (k : Int), state := TaskState.running }), slots := s2.slots.set k (some btid) }, planned := pl1, schedule := ps.schedule ++ [bt.task_id], assigned := ps.assigned ++ [btid] } : PickState).assigned))) ∧
    (∀ u ∈ ({ s := { s2 with migrations := mig, tasks := upd_task s2.tasks btid (fun u => { u with current_cpu := (k : Int), state := TaskState.running }), slots := s2.slots.set k (some btid) }, planned := pl1, schedule := ps.schedule ++ [bt.task_id], assigned := ps.assigned ++ [btid] } : PickState).s.tasks, u.state = TaskState.running → u.tid ∈ ({ s := { s2 with migrations := mig, tasks := upd_task s2.tasks btid (fun u => { u with current_cpu := (k : Int), state := TaskState.running }), slots := s2.slots.set k (some btid) }, planned := pl1, schedule := ps.schedule ++ [bt.task_id], assigned := ps.assigned ++ [btid] } : PickState).assigned) ∧
    (∀ u ∈ ({ s := { s2 with migrations := mig, tasks := upd_task s2.tasks btid (fun u => { u with current_cpu := (k : Int), state := TaskState.running }), slots := s2.slots.set k (some btid) }, planned := pl1, schedule := ps.schedule ++ [bt.task_id], assigned := ps.assigned ++ [btid] } : PickState).s.tasks, 0 ≤ u.current_cpu → (u.tid ∈ ({ s := { s2 with migrations := mig, tasks := upd_task s2.tasks btid (fun u => { u with current_cpu := (k : Int), state := TaskState.running }), slots := s2.slots.set k (some btid) }, planned := pl1, schedule := ps.schedule ++ [bt.task_id], assigned := ps.assigned ++ [btid] } : PickState).assigned ∨ u.state = TaskState.runnable)) ∧
    ({ s := { s2 with migrations := mig, tasks := upd_task s2.tasks btid (fun u => { u with current_cpu := (k : Int), state := TaskState.running }), slots := s2.slots.set k (some btid) }, planned := pl1, schedule := ps.schedule ++ [bt.task_id], assigned := ps.assigned ++ [btid] } : PickState).schedule.length = k + 1 ∧
    (∀ j, j < k + 1 → (({ s := { s2 with migrations := mig, tasks := upd_task s2.tasks btid (fun u => { u with current_cpu := (k : Int), state := TaskState.running }), slots := s2.slots.set k (some btid) }, planned := pl1, schedule := ps.schedule ++ [bt.task_id], assigned := ps.assigned ++ [btid] } : PickState).schedule.get? j = some "idle" ∨ ∃ x, ({ s := { s2 with migrations := mig, tasks := upd_task s2.tasks btid (fun u => { u with current_cpu := (k : Int), state := TaskState.running }), slots := s2.slots.set k (some btid) }, planned := pl1, schedule := ps.schedule ++ [bt.task_id], assigned := ps.assigned ++ [btid] } : PickState).s.slots.get? j = some (some x) ∧ ∃ u ∈ ({ s := { s2 with migrations := mig, tasks := upd_task s2.tasks btid (fun u => { u with current_cpu := (k : Int), state := TaskState.running }), slots := s2.slots.set k (some btid) }, planned := pl1, schedule := ps.schedule ++ [bt.task_id], assigned := ps.assigned ++ [btid] } : PickState).s.tasks, u.tid = x ∧ ({ s := { s2 with migrations := mig, tasks := upd_task s2.tasks btid (fun u => { u with current_cpu := (k : Int), state := TaskState.running }), slots := s2.slots.set k (some btid) }, planned := pl1, schedule := ps.schedule ++ [bt.task_id], assigned := ps.assigned ++ [btid] } : PickState).schedule.get? j = some u.task_id)) ∧
    ({ s := { s2 with migrations := mig, tasks := upd_task s2.tasks btid (fun u => { u with current_cpu := (k : Int), state := TaskState.running }), slots := s2.slots.set k (some btid) }, planned := pl1, schedule := ps.schedule ++ [bt.task_id], assigned := ps.assigned ++ [btid] } : PickState).assigned.Nodup ∧
    (∀ c x, ({ s := { s2 with migrations := mig, tasks := upd_task s2.tasks btid (fun u => { u with current_cpu := (k : Int), state := TaskState.running }), slots := s2.slots.set k (some btid) }, planned := pl1, schedule := ps.schedule ++ [bt.task_id], assigned := ps.assigned ++ [btid] } : PickState).s.slots.get? c = some (some x) → ∃ u ∈ ({ s := { s2 with migrations := mig, tasks := upd_task s2.tasks btid (fun u => { u with current_cpu := (k : Int), state := TaskState.running }), slots := s2.slots.set k (some btid) }, planned := pl1, schedule := ps.schedule ++ [bt.task_id], assigned := ps.assigned ++ [btid] } : PickState).s.tasks, u.tid = x ∧ u.current_cpu = (c : Int) ∧ (u.state = TaskState.running ∨ u.state = TaskState.runnable)) := by
  have klen : k < s2.slots.length := by
    rw [qsl, p6]
    exact hk
  have hslotk : s2.slots.get? k = some none := by
    rw [qsl]
    exact p9 k (le_refl k) hk
  have hset : ∀ c x, (s2.slots.set k (some btid)).get? c = some (some x) ↔
      ((c = k ∧ x = btid) ∨ (¬ c = k ∧ s2.slots.get? c = some (some x))) := by
    intro c x
    by_cases hck : c = k
    · subst hck
      rw [getq_set_self s2.slots c (some btid) none hslotk]
      constructor
      · intro h
        exact Or.inl ⟨rfl, (Option.some.inj (Option.some.inj h)).symm⟩
      · intro h
        rcases h with ⟨-, rfl⟩ | ⟨h1, -⟩
        · rfl
        · exact absurd rfl h1
    · rw [getq_set_ne s2.slots k c (some btid) (fun h => hck h.symm)]
      constructor
      · intro h
        exact Or.inr ⟨hck, h⟩
      · intro h
        rcases h with ⟨h1, -⟩ | ⟨-, h2⟩
        · exact absurd h1 hck
        · exact h2
  have ha : ∀ x : Nat, x ∈ ps.assigned ++ [btid] ↔ (x ∈ ps.assigned ∨ x = btid) := by
    intro x
    rw [List.mem_append, List.mem_singleton]
  have hmemI : ∀ u ∈ upd_task s2.tasks btid
      (fun u => { u with current_cpu := (k : Int), state := TaskState.running }),
      ∃ v ∈ s2.tasks, u = if v.tid = btid
        then { v with current_cpu := (k : Int), state := TaskState.running } else v :=
    fun u hu => mem_upd_task hu
  have hbtin : ({ bt with current_cpu := (k : Int), state := TaskState.running } : Task)
      ∈ upd_task s2.tasks btid
        (fun u => { u with current_cpu := (k : Int), state := TaskState.running }) := by
    have h1 := @upd_task_mem_of_mem _ btid
      (fun u => { u with current_cpu := (k : Int), state := TaskState.running }) _ hbt
    rw [if_pos hbttid] at h1
    exact h1
  have htrans : ∀ x, ¬ x = btid → ∀ u2 ∈ s2.tasks, u2.tid = x →
      u2 ∈ upd_task s2.tasks btid
        (fun u => { u with current_cpu := (k : Int), state := TaskState.running }) := by
    intro x hx u2 hu2 hu2t
    have h1 := @upd_task_mem_of_mem _ btid
      (fun u => { u with current_cpu := (k : Int), state := TaskState.running }) _ hu2
    rw [if_neg (by rw [hu2t]; exact hx)] at h1
    exact h1
  refine ⟨?_, ?_, ?_, q4, q5, ?_, ?_, ?_, ?_, ?_, ?_, ?_, ?_, ?_, ?_, ?_⟩
  · exact heapinv_upd_mem2 s2 _ btid _ q1 rfl rfl (fun u _ _ => ⟨rfl, rfl⟩)
  · show (upd_task s2.tasks btid (fun u => { u with current_cpu := (k : Int), state := TaskState.running })).map Task.tid = s4.tasks.map Task.tid
    rw [upd_task_map_g Task.tid s2.tasks btid (fun u => { u with current_cpu := (k : Int), state := TaskState.running }) (fun u _ _ => rfl)]
    exact q2.trans p2
  · show (upd_task s2.tasks btid (fun u => { u with current_cpu := (k : Int), state := TaskState.running })).map Task.task_id = s4.tasks.map Task.task_id
    rw [upd_task_map_g Task.task_id s2.tasks btid (fun u => { u with current_cpu := (k : Int), state := TaskState.running }) (fun u _ _ => rfl)]
    exact q3.trans p3
  · show (s2.slots.set k (some btid)).length = s4.cpu_count
    rw [List.length_set, qsl, p6]
  · intro c x hc
    rcases (hset c x).mp hc with ⟨-, rfl⟩ | ⟨-, h2⟩
    · exact (ha x).mpr (Or.inr rfl)
    · rw [qsl] at h2
      exact (ha x).mpr (Or.inl (p7 c x h2))
  · intro x hx
    rcases (ha x).mp hx with hold | hxeq
    · have hxb : ¬ x = btid := fun hc => hbna (hc ▸ hold)
      obtain ⟨u0, hu0m, hu0t, hu0c, hu0s⟩ := p8 x hold
      obtain ⟨u2, hu2m, e1, -, e3, -⟩ := qiii u0 hu0m
      refine ⟨u2, htrans x hxb u2 hu2m (e1.trans hu0t), e1.trans hu0t, ?_, ?_⟩
      · rw [e3]
        exact hu0c
      · rw [e3]
        have hne : ¬ u0.current_cpu.toNat = k := by
          intro hc
          rw [hc] at hu0s
          rw [p9 k (le_refl k) hk] at hu0s
          cases Option.some.inj hu0s
        show (s2.slots.set k (some btid)).get? u0.current_cpu.toNat = some (some x)
        rw [getq_set_ne s2.slots k u0.current_cpu.toNat (some btid)
          (fun h => hne h.symm), qsl]
        exact hu0s
    · refine ⟨{ bt with current_cpu := (k : Int), state := TaskState.running },
        hbtin, ?_, ?_, ?_⟩
      · show bt.tid = x
        rw [hxeq]
        exact hbttid
      · show (0 : Int) ≤ (k : Int)
        exact Int.ofNat_nonneg k
      · show (s2.slots.set k (some btid)).get? ((k : Int)).toNat = some (some x)
        rw [Int.toNat_ofNat, hxeq]
        rw [getq_set_self s2.slots k (some btid) none hslotk]
  · intro c hc1 hc2
    have hck : ¬ c = k := by omega
    show (s2.slots.set k (some btid)).get? c = some none
    rw [getq_set_ne s2.slots k c (some btid) (fun h => hck h.symm), qsl]
    exact p9 c (by omega) hc2
  · intro u hu
    obtain ⟨v, hv, huv⟩ := hmemI u hu
    by_cases hvt : v.tid = btid
    · rw [if_pos hvt] at huv
      subst huv
      show v.tid ∈ s2.heap ↔
        (TaskState.running = TaskState.runnable ∧ v.tid ∉ ps.assigned ++ [btid])
      constructor
      · intro h1
        rw [hvt] at h1
        exact absurd ((qheap btid).mp h1).2 (fun h => h rfl)
      · rintro ⟨h1, -⟩
        cases h1
    · rw [if_neg hvt] at huv
      subst huv
      obtain ⟨w, hwm, e1, -, -, e4⟩ := qii u hv
      show u.tid ∈ s2.heap ↔ (u.state = TaskState.runnable ∧ u.tid ∉ ps.assigned ++ [btid])
      rw [qheap u.tid]
      rcases e4 with e4 | ⟨e4a, e4b, e4c⟩
      · have hp := p10 w hwm
        rw [e1] at hp
        constructor
        · rintro ⟨h1, h2⟩
          obtain ⟨h3, h4⟩ := hp.mp h1
          refine ⟨by rw [← e4]; exact h3, ?_⟩
          intro hc
          rcases (ha u.tid).mp hc with hc1 | hc1
          · exact h4 hc1
          · exact h2 hc1
        · rintro ⟨h1, h2⟩
          have h4 : u.tid ∉ ps.assigned := fun hc => h2 ((ha u.tid).mpr (Or.inl hc))
          refine ⟨hp.mpr ⟨by rw [e4]; exact h1, h4⟩, hvt⟩
      · constructor
        · rintro ⟨h1, -⟩
          exfalso
          have hp := p10 w hwm
          rw [e1] at hp
          obtain ⟨h3, -⟩ := hp.mp h1
          rw [e4a] at h3
          cases h3
        · rintro ⟨-, h2⟩
          exact absurd ((ha u.tid).mpr (Or.inl e4c)) h2
  · intro u hu hr
    obtain ⟨v, hv, huv⟩ := hmemI u hu
    by_cases hvt : v.tid = btid
    · rw [if_pos hvt] at huv
      subst huv
      exact (ha _).mpr (Or.inr hvt)
    · rw [if_neg hvt] at huv
      subst huv
      obtain ⟨w, hwm, e1, -, -, e4⟩ := qii u hv
      rcases e4 with e4 | ⟨-, e4b, -⟩
      · have h1 := p11 w hwm (by rw [e4]; exact hr)
        rw [e1] at h1
        exact (ha _).mpr (Or.inl h1)
      · rw [e4b] at hr
        cases hr
  · intro u hu hc
    obtain ⟨v, hv, huv⟩ := hmemI u hu
    by_cases hvt : v.tid = btid
    · rw [if_pos hvt] at huv
      subst huv
      exact Or.inl ((ha _).mpr (Or.inr hvt))
    · rw [if_neg hvt] at huv
      subst huv
      obtain ⟨w, hwm, e1, -, e3, e4⟩ := qii u hv
      rcases e4 with e4 | ⟨-, e4b, -⟩
      · rcases p12 w hwm (by rw [e3]; exact hc) with h1 | h1
        · rw [e1] at h1
          exact Or.inl ((ha _).mpr (Or.inl h1))
        · rw [e4] at h1
          exact Or.inr h1
      · exact Or.inr e4b
  · show (ps.schedule ++ [bt.task_id]).length = k + 1
    rw [List.length_append, p13]
    rfl
  · intro j hj
    by_cases hjk : j = k
    · right
      refine ⟨btid, ?_, { bt with current_cpu := (k : Int), state := TaskState.running },
        hbtin, hbttid, ?_⟩
      · show (s2.slots.set k (some btid)).get? j = some (some btid)
        rw [hjk, getq_set_self s2.slots k (some btid) none hslotk]
      · show (ps.schedule ++ [bt.task_id]).get? j = some bt.task_id
        rw [hjk, ← p13]
        exact getq_append_len ps.schedule bt.task_id
    · have hjlt : j < k := by omega
      rcases p14 j hjlt with h1 | ⟨x, hx1, u0, hu0m, hu0t, hu0e⟩
      · left
        show (ps.schedule ++ [bt.task_id]).get? j = some "idle"
        rw [getq_append_lt ps.schedule [bt.task_id] j (by rw [p13]; exact hjlt)]
        exact h1
      · right
        have hxa : x ∈ ps.assigned := p7 j x hx1
        have hxb : ¬ x = btid := fun hcx => hbna (hcx ▸ hxa)
        obtain ⟨u2, hu2m, e1, e2, -, -⟩ := qiii u0 hu0m
        refine ⟨x, ?_, u2, htrans x hxb u2 hu2m (e1.trans hu0t), e1.trans hu0t, ?_⟩
        · show (s2.slots.set k (some btid)).get? j = some (some x)
          rw [getq_set_ne s2.slots k j (some btid) (fun h => hjk h.symm), qsl]
          exact hx1
        · show (ps.schedule ++ [bt.task_id]).get? j = some u2.task_id
          rw [getq_append_lt ps.schedule [bt.task_id] j (by rw [p13]; exact hjlt), hu0e, e2]
  · show (ps.assigned ++ [btid]).Nodup
    rw [List.nodup_append]
    refine ⟨p15, List.nodup_singleton btid, ?_⟩
    intro x hx hx2
    rw [List.mem_singleton] at hx2
    exact hbna (hx2 ▸ hx)
  · intro c x hc
    rcases (hset c x).mp hc with ⟨hceq, hxeq⟩ | ⟨hck, h2⟩
    · refine ⟨{ bt with current_cpu := (k : Int), state := TaskState.running },
        hbtin, ?_, ?_, Or.inl rfl⟩
      · show bt.tid = x
        rw [hxeq]
        exact hbttid
      · show (k : Int) = (c : Int)
        rw [hceq]
    · rw [qsl] at h2
      have hxa : x ∈ ps.assigned := p7 c x h2
      have hxb : ¬ x = btid := fun hcx => hbna (hcx ▸ hxa)
      obtain ⟨u0, hu0m, hu0t, hu0c, hu0s⟩ := p16 c x h2
      obtain ⟨u2, hu2m, e1, -, e3, e4⟩ := qiii u0 hu0m
      refine ⟨u2, htrans x hxb u2 hu2m (e1.trans hu0t), e1.trans hu0t, ?_, ?_⟩
      · rw [e3]
        exact hu0c
      · rcases e4 with e4 | ⟨-, e4b⟩
        · rw [e4]
          exact hu0s
        · exact Or.inr e4b


/-- One `select_cpu` step preserves the selection invariant. -/
theorem select_step (s4 : Sched) (tus : ℚ) (prev : List (Option Nat))
    (k : Nat) (ps : PickState) (hk : k < s4.cpu_count)
    (p1 : HeapInv ps.s)
    (p2 : ps.s.tasks.map Task.tid = s4.tasks.map Task.tid)
    (p3 : ps.s.tasks.map Task.task_id = s4.tasks.map Task.task_id)
    (p4 : ps.s.next_tid = s4.next_tid)
    (p5 : ps.s.cpu_count = s4.cpu_count)
    (p6 : ps.s.slots.length = s4.cpu_count)
    (p7 : ∀ c x, ps.s.slots.get? c = some (some x) → x ∈ ps.assigned)
    (p8 : ∀ x ∈ ps.assigned, ∃ u ∈ ps.s.tasks, u.tid = x ∧ 0 ≤ u.current_cpu ∧ ps.s.slots.get? u.current_cpu.toNat = some (some x))
    (p9 : ∀ c, k ≤ c → c < s4.cpu_count → ps.s.slots.get? c = some none)
    (p10 : ∀ u ∈ ps.s.tasks, (u.tid ∈ ps.s.heap ↔ (u.state = TaskState.runnable ∧ u.tid ∉ ps.assigned)))
    (p11 : ∀ u ∈ ps.s.tasks, u.state = TaskState.running → u.tid ∈ ps.assigned)
    (p12 : ∀ u ∈ ps.s.tasks, 0 ≤ u.current_cpu → (u.tid ∈ ps.assigned ∨ u.state = TaskState.runnable))
    (p13 : ps.schedule.length = k)
    (p14 : ∀ j, j < k → (ps.schedule.get? j = some "idle" ∨ ∃ x, ps.s.slots.get? j = some (some x) ∧ ∃ u ∈ ps.s.tasks, u.tid = x ∧ ps.schedule.get? j = some u.task_id))
    (p15 : ps.assigned.Nodup)
    (p16 : ∀ c x, ps.s.slots.get? c = some (some x) → ∃ u ∈ ps.s.tasks, u.tid = x ∧ u.current_cpu = (c : Int) ∧ (u.state = TaskState.running ∨ u.state = TaskState.runnable)) :
    HeapInv (select_cpu tus prev ps k).s ∧
    (select_cpu tus prev ps k).s.tasks.map Task.tid = s4.tasks.map Task.tid ∧
    (select_cpu tus prev ps k).s.tasks.map Task.task_id = s4.tasks.map Task.task_id ∧
    (select_cpu tus prev ps k).s.next_tid = s4.next_tid ∧
    (select_cpu tus prev ps k).s.cpu_count = s4.cpu_count ∧
    (select_cpu tus prev ps k).s.slots.length = s4.cpu_count ∧
    (∀ c x, (select_cpu tus prev ps k).s.slots.get? c = some (some x) → x ∈ (select_cpu tus prev ps k).assigned) ∧
    (∀ x ∈ (select_cpu tus prev ps k).assigned, ∃ u ∈ (select_cpu tus prev ps k).s.tasks, u.tid = x ∧ 0 ≤ u.current_cpu ∧ (select_cpu tus prev ps k).s.slots.get? u.current_cpu.toNat = some (some x)) ∧
    (∀ c, k + 1 ≤ c → c < s4.cpu_count → (select_cpu tus prev ps k).s.slots.get? c = some none) ∧
    (∀ u ∈ (select_cpu tus prev ps k).s.tasks, (u.tid ∈ (select_cpu tus prev ps k).s.heap ↔ (u.state = TaskState.runnable ∧ u.tid ∉ (select_cpu tus prev ps k).assigned))) ∧
    (∀ u ∈ (select_cpu tus prev ps k).s.tasks, u.state = TaskState.running → u.tid ∈ (select_cpu tus prev ps k).assigned) ∧
    (∀ u ∈ (select_cpu tus prev ps k).s.tasks, 0 ≤ u.current_cpu → (u.tid ∈ (select_cpu tus prev ps k).assigned ∨ u.state = TaskState.runnable)) ∧
    (select_cpu tus prev ps k).schedule.length = k + 1 ∧
    (∀ j, j < k + 1 → ((select_cpu tus prev ps k).schedule.get? j = some "idle" ∨ ∃ x, (select_cpu tus prev ps k).s.slots.get? j = some (some x) ∧ ∃ u ∈ (select_cpu tus prev ps k).s.tasks, u.tid = x ∧ (select_cpu tus prev ps k).schedule.get? j = some u.task_id)) ∧
    (select_cpu tus prev ps k).assigned.Nodup ∧
    (∀ c x, (select_cpu tus prev ps k).s.slots.get? c = some (some x) → ∃ u ∈ (select_cpu tus prev ps k).s.tasks, u.tid = x ∧ u.current_cpu = (c : Int) ∧ (u.state = TaskState.running ∨ u.state = TaskState.runnable)) := by
  unfold select_cpu
  rcases hpick : pick_task_for_cpu ps.s (k : Int) ps.planned tus with ⟨sel, s1, pl1⟩
  have hpc := pick_char ps.s (k : Int) ps.planned tus p1
  rw [hpick] at hpc
  have hsk1 := sk_pick ps.s (k : Int) ps.planned tus
  rw [hpick] at hsk1
  obtain ⟨hsl1, hcp1, hnt1, hmapE1⟩ := sk_fields hsk1
  have htid1 : s1.tasks.map Task.tid = ps.s.tasks.map Task.tid := map_tid_of_sk hsk1
  have hid1 : s1.tasks.map Task.task_id = ps.s.tasks.map Task.task_id := by
    have h1 := map_map_id_pres Task.task_id erase_qpos (fun _ => rfl) s1.tasks
    have h2 := map_map_id_pres Task.task_id erase_qpos (fun _ => rfl) ps.s.tasks
    rw [← h1, hmapE1, h2]
  have hnt1q : s1.next_tid = s4.next_tid := hnt1.trans p4
  have hcp1q : s1.cpu_count = s4.cpu_count := hcp1.trans p5
  have hii1 : ∀ u ∈ s1.tasks, ∃ w ∈ ps.s.tasks, w.tid = u.tid ∧
      w.task_id = u.task_id ∧ w.current_cpu = u.current_cpu ∧ w.state = u.state := by
    intro u hu
    obtain ⟨w, hw, hwe⟩ := mem_erase_transport hmapE1 hu
    obtain ⟨e1, e2, e3, e4, -, -⟩ := erase_eq_fields hwe
    exact ⟨w, hw, e1, e2, e4, e3⟩
  have hiii1 : ∀ w ∈ ps.s.tasks, ∃ u ∈ s1.tasks, u.tid = w.tid ∧
      u.task_id = w.task_id ∧ u.current_cpu = w.current_cpu ∧ u.state = w.state := by
    intro w hw
    obtain ⟨u, hu, hue⟩ := mem_erase_transport hmapE1.symm hw
    obtain ⟨e1, e2, e3, e4, -, -⟩ := erase_eq_fields hue
    exact ⟨u, hu, e1, e2, e4, e3⟩
  simp only [hpick]
  cases sel with
  | none =>
    dsimp only
    have hheapN : ∀ x, x ∈ s1.heap ↔ x ∈ ps.s.heap := by
      intro x
      have h1 : ps.s.heap.Perm s1.heap := hpc.2
      exact (h1.mem_iff).symm
    refine ⟨hpc.1, htid1.trans p2, hid1.trans p3, hnt1q, hcp1q, ?_, ?_, ?_, ?_, ?_, ?_, ?_, ?_, ?_, p15, ?_⟩
    · show s1.slots.length = s4.cpu_count
      rw [hsl1]
      exact p6
    · intro c x hc
      rw [show s1.slots = ps.s.slots from hsl1] at hc
      exact p7 c x hc
    · intro x hx
      obtain ⟨u0, hu0m, hu0t, hu0c, hu0s⟩ := p8 x hx
      obtain ⟨u2, hu2m, e1, -, e3, -⟩ := hiii1 u0 hu0m
      refine ⟨u2, hu2m, e1.trans hu0t, ?_, ?_⟩
      · rw [e3]
        exact hu0c
      · rw [e3]
        show s1.slots.get? u0.current_cpu.toNat = some (some x)
        rw [hsl1]
        exact hu0s
    · intro c hc1 hc2
      show s1.slots.get? c = some none
      rw [hsl1]
      exact p9 c (by omega) hc2
    · intro u hu
      obtain ⟨w, hwm, e1, -, -, e4⟩ := hii1 u hu
      show u.tid ∈ s1.heap ↔ (u.state = TaskState.runnable ∧ u.tid ∉ ps.assigned)
      rw [hheapN u.tid, ← e1, ← e4]
      exact p10 w hwm
    · intro u hu hr
      obtain ⟨w, hwm, e1, -, -, e4⟩ := hii1 u hu
      have h1 := p11 w hwm (by rw [e4]; exact hr)
      rw [e1] at h1
      exact h1
    · intro u hu hc
      obtain ⟨w, hwm, e1, -, e3, e4⟩ := hii1 u hu
      rcases p12 w hwm (by rw [e3]; exact hc) with h1 | h1
      · rw [e1] at h1
        exact Or.inl h1
      · rw [e4] at h1
        exact Or.inr h1
    · show (ps.schedule ++ ["idle"]).length = k + 1
      rw [List.length_append, p13]
      rfl
    · intro j hj
      by_cases hjk : j = k
      · left
        show (ps.schedule ++ ["idle"]).get? j = some "idle"
        rw [hjk, ← p13]
        exact getq_append_len ps.schedule "idle"
      · have hjlt : j < k := by omega
        rcases p14 j hjlt with h1 | ⟨x, hx1, u0, hu0m, hu0t, hu0e⟩
        · left
          show (ps.schedule ++ ["idle"]).get? j = some "idle"
          rw [getq_append_lt ps.schedule ["idle"] j (by rw [p13]; exact hjlt)]
          exact h1
        · right
          obtain ⟨u2, hu2m, e1, e2, -, -⟩ := hiii1 u0 hu0m
          refine ⟨x, ?_, u2, hu2m, e1.trans hu0t, ?_⟩
          · show s1.slots.get? j = some (some x)
            rw [hsl1]
            exact hx1
          · show (ps.schedule ++ ["idle"]).get? j = some u2.task_id
            rw [getq_append_lt ps.schedule ["idle"] j (by rw [p13]; exact hjlt), hu0e, e2]
    · intro c x hc
      rw [show s1.slots = ps.s.slots from hsl1] at hc
      obtain ⟨u0, hu0m, hu0t, hu0c, hu0s⟩ := p16 c x hc
      obtain ⟨u2, hu2m, e1, -, e3, e4⟩ := hiii1 u0 hu0m
      refine ⟨u2, hu2m, e1.trans hu0t, ?_, ?_⟩
      · rw [e3]
        exact hu0c
      · rw [e4]
        exact hu0s
  | some btid =>
    dsimp only
    have hperm : ps.s.heap.Perm (btid :: s1.heap) := hpc.2
    have hbin : btid ∈ ps.s.heap := hperm.mem_iff.mpr (List.mem_cons_self _ _)
    obtain ⟨ub, hubm, hubt⟩ := p1.heap_sub btid hbin
    obtain ⟨hbr, hbna⟩ := (p10 ub hubm).mp (by rw [hubt]; exact hbin)
    rw [hubt] at hbna
    have hndc : (btid :: s1.heap).Nodup := hperm.nodup_iff.mp p1.heap_nodup
    have hbns1 : btid ∉ s1.heap := (List.nodup_cons.mp hndc).1
    have hheap1 : ∀ x, x ∈ s1.heap ↔ (x ∈ ps.s.heap ∧ ¬ x = btid) := by
      intro x
      constructor
      · intro hx
        refine ⟨hperm.mem_iff.mpr (List.mem_cons_of_mem _ hx), ?_⟩
        intro hc
        exact hbns1 (hc ▸ hx)
      · rintro ⟨hx, hnb⟩
        rcases List.mem_cons.mp (hperm.mem_iff.mp hx) with h1 | h1
        · exact absurd h1 hnb
        · exact h1
    have hbreg1 : btid ∈ s1.tasks.map Task.tid := by
      rw [htid1, ← hubt]
      exact List.mem_map_of_mem Task.tid hubm
    cases hpv : (prev.get? k).getD none with
    | none =>
      dsimp only
      have hfb := find_by_tid_isSome (show btid ∈ (s1 : Sched).tasks.map Task.tid from hbreg1)
      obtain ⟨bt, hfb1, hfb2⟩ := hfb
      simp only [hfb1]
      by_cases hmig : bt.current_cpu ≥ 0 ∧ bt.current_cpu ≠ (k : Int)
      · rw [if_pos hmig]
        exact select_assign_core s4 k ps btid (s1 : Sched) bt _ pl1 hk
          p1 p2 p3 p4 p5 p6 p7 p8 p9 p10 p11 p12 p13 p14 p15 p16
          ⟨hpc.1.tid_nodup, hpc.1.heap_nodup, hpc.1.heap_sub, hpc.1.acc, hpc.1.memidx⟩
          htid1 hid1 hnt1q hcp1q hsl1 hheap1
          (fun u hu => (hii1 u hu).elim (fun w hw => ⟨w, hw.1, hw.2.1, hw.2.2.1, hw.2.2.2.1, Or.inl hw.2.2.2.2⟩))
          (fun w hw => (hiii1 w hw).elim (fun u hu => ⟨u, hu.1, hu.2.1, hu.2.2.1, hu.2.2.2.1, Or.inl hu.2.2.2.2⟩))
          hbna (find_by_tid_mem hfb1) hfb2
      · rw [if_neg hmig]
        exact select_assign_core s4 k ps btid (s1 : Sched) bt _ pl1 hk
          p1 p2 p3 p4 p5 p6 p7 p8 p9 p10 p11 p12 p13 p14 p15 p16
          ⟨hpc.1.tid_nodup, hpc.1.heap_nodup, hpc.1.heap_sub, hpc.1.acc, hpc.1.memidx⟩
          htid1 hid1 hnt1q hcp1q hsl1 hheap1
          (fun u hu => (hii1 u hu).elim (fun w hw => ⟨w, hw.1, hw.2.1, hw.2.2.1, hw.2.2.2.1, Or.inl hw.2.2.2.2⟩))
          (fun w hw => (hiii1 w hw).elim (fun u hu => ⟨u, hu.1, hu.2.1, hu.2.2.1, hu.2.2.2.1, Or.inl hu.2.2.2.2⟩))
          hbna (find_by_tid_mem hfb1) hfb2
    | some ptid =>
      dsimp only
      by_cases hpb : ptid ≠ btid
      · rw [if_pos hpb]
        cases hfp : find_by_tid s1.tasks ptid with
        | none =>
          dsimp only
          have hfb := find_by_tid_isSome (show btid ∈ ({ s1 with preemptions := s1.preemptions + 1 } : Sched).tasks.map Task.tid from hbreg1)
          obtain ⟨bt, hfb1, hfb2⟩ := hfb
          simp only [hfb1]
          by_cases hmig : bt.current_cpu ≥ 0 ∧ bt.current_cpu ≠ (k : Int)
          · rw [if_pos hmig]
            exact select_assign_core s4 k ps btid ({ s1 with preemptions := s1.preemptions + 1 } : Sched) bt _ pl1 hk
              p1 p2 p3 p4 p5 p6 p7 p8 p9 p10 p11 p12 p13 p14 p15 p16
              ⟨hpc.1.tid_nodup, hpc.1.heap_nodup, hpc.1.heap_sub, hpc.1.acc, hpc.1.memidx⟩
              htid1 hid1 hnt1q hcp1q hsl1 hheap1
              (fun u hu => (hii1 u hu).elim (fun w hw => ⟨w, hw.1, hw.2.1, hw.2.2.1, hw.2.2.2.1, Or.inl hw.2.2.2.2⟩))
              (fun w hw => (hiii1 w hw).elim (fun u hu => ⟨u, hu.1, hu.2.1, hu.2.2.1, hu.2.2.2.1, Or.inl hu.2.2.2.2⟩))
              hbna (find_by_tid_mem hfb1) hfb2
          · rw [if_neg hmig]
            exact select_assign_core s4 k ps btid ({ s1 with preemptions := s1.preemptions + 1 } : Sched) bt _ pl1 hk
              p1 p2 p3 p4 p5 p6 p7 p8 p9 p10 p11 p12 p13 p14 p15 p16
              ⟨hpc.1.tid_nodup, hpc.1.heap_nodup, hpc.1.heap_sub, hpc.1.acc, hpc.1.memidx⟩
              htid1 hid1 hnt1q hcp1q hsl1 hheap1
              (fun u hu => (hii1 u hu).elim (fun w hw => ⟨w, hw.1, hw.2.1, hw.2.2.1, hw.2.2.2.1, Or.inl hw.2.2.2.2⟩))
              (fun w hw => (hiii1 w hw).elim (fun u hu => ⟨u, hu.1, hu.2.1, hu.2.2.1, hu.2.2.2.1, Or.inl hu.2.2.2.2⟩))
              hbna (find_by_tid_mem hfb1) hfb2
        | some pt =>
          dsimp only
          by_cases hpr : pt.state = TaskState.running
          · rw [if_pos hpr]
            have hptid := find_by_tid_tid hfp
            have hptm := find_by_tid_mem hfp
            have hnd1 : (s1.tasks.map Task.tid).Nodup := by
              rw [htid1]
              exact p1.tid_nodup
            have hmap2f : (upd_task s1.tasks ptid (fun u => { u with state := TaskState.runnable })).map Task.tid
                = s1.tasks.map Task.tid :=
              upd_task_map_g Task.tid s1.tasks ptid (fun u => { u with state := TaskState.runnable }) (fun u _ _ => rfl)
            have hmap2fid : (upd_task s1.tasks ptid (fun u => { u with state := TaskState.runnable })).map Task.task_id
                = s1.tasks.map Task.task_id :=
              upd_task_map_g Task.task_id s1.tasks ptid (fun u => { u with state := TaskState.runnable }) (fun u _ _ => rfl)
            have q1f : HeapInv ({ s1 with preemptions := s1.preemptions + 1, tasks := upd_task s1.tasks ptid (fun u => { u with state := TaskState.runnable }) } : Sched) :=
              heapinv_upd_mem2 s1 _ ptid (fun u => { u with state := TaskState.runnable }) hpc.1 rfl rfl (fun u _ _ => ⟨rfl, rfl⟩)
            have q2f : ({ s1 with preemptions := s1.preemptions + 1, tasks := upd_task s1.tasks ptid (fun u => { u with state := TaskState.runnable }) } : Sched).tasks.map Task.tid = ps.s.tasks.map Task.tid := by
              show (upd_task s1.tasks ptid (fun u => { u with state := TaskState.runnable })).map Task.tid = _
              rw [hmap2f]
              exact htid1
            have q3f : ({ s1 with preemptions := s1.preemptions + 1, tasks := upd_task s1.tasks ptid (fun u => { u with state := TaskState.runnable }) } : Sched).tasks.map Task.task_id = ps.s.tasks.map Task.task_id := by
              show (upd_task s1.tasks ptid (fun u => { u with state := TaskState.runnable })).map Task.task_id = _
              rw [hmap2fid]
              exact hid1
            have qiif : ∀ u ∈ ({ s1 with preemptions := s1.preemptions + 1, tasks := upd_task s1.tasks ptid (fun u => { u with state := TaskState.runnable }) } : Sched).tasks, ∃ w ∈ ps.s.tasks,
                w.tid = u.tid ∧ w.task_id = u.task_id ∧ w.current_cpu = u.current_cpu ∧
                (w.state = u.state ∨ (w.state = TaskState.running ∧
                  u.state = TaskState.runnable ∧ u.tid ∈ ps.assigned)) := by
              intro u hu
              obtain ⟨v, hv, huv⟩ := mem_upd_task hu
              obtain ⟨w, hwm, e1, e2, e3, e4⟩ := hii1 v hv
              by_cases hvt : v.tid = ptid
              · rw [if_pos hvt] at huv
                subst huv
                have hveq : v = pt := tid_unique hnd1 hv hptm (hvt.trans hptid.symm)
                have hwr : w.state = TaskState.running := by
                  rw [e4, hveq]
                  exact hpr
                have hass := p11 w hwm hwr
                refine ⟨w, hwm, e1, e2, e3, Or.inr ⟨hwr, rfl, ?_⟩⟩
                show v.tid ∈ ps.assigned
                rw [← e1]
                exact hass
              · rw [if_neg hvt] at huv
                subst huv
                exact ⟨w, hwm, e1, e2, e3, Or.inl e4⟩
            have qiiif : ∀ w ∈ ps.s.tasks, ∃ u ∈ ({ s1 with preemptions := s1.preemptions + 1, tasks := upd_task s1.tasks ptid (fun u => { u with state := TaskState.runnable }) } : Sched).tasks,
                u.tid = w.tid ∧ u.task_id = w.task_id ∧ u.current_cpu = w.current_cpu ∧
                (u.state = w.state ∨ (w.state = TaskState.running ∧
                  u.state = TaskState.runnable)) := by
              intro w hwm
              obtain ⟨v, hv, e1, e2, e3, e4⟩ := hiii1 w hwm
              have himg := @upd_task_mem_of_mem _ ptid (fun u => { u with state := TaskState.runnable }) _ hv
              by_cases hvt : v.tid = ptid
              · rw [if_pos hvt] at himg
                have hveq : v = pt := tid_unique hnd1 hv hptm (hvt.trans hptid.symm)
                have hwr : w.state = TaskState.running := by
                  rw [← e4, hveq]
                  exact hpr
                exact ⟨{ v with state := TaskState.runnable }, himg, e1, e2, e3,
                  Or.inr ⟨hwr, rfl⟩⟩
              · rw [if_neg hvt] at himg
                exact ⟨v, himg, e1, e2, e3, Or.inl e4⟩
            have hbreg2 : btid ∈ ({ s1 with preemptions := s1.preemptions + 1, tasks := upd_task s1.tasks ptid (fun u => { u with state := TaskState.runnable }) } : Sched).tasks.map Task.tid := by
              show btid ∈ (upd_task s1.tasks ptid (fun u => { u with state := TaskState.runnable })).map Task.tid
              rw [hmap2f]
              exact hbreg1
            have hfb := find_by_tid_isSome hbreg2
            obtain ⟨bt, hfb1, hfb2⟩ := hfb
            simp only [hfb1]
            by_cases hmig : bt.current_cpu ≥ 0 ∧ bt.current_cpu ≠ (k : Int)
            · rw [if_pos hmig]
              exact select_assign_core s4 k ps btid ({ s1 with preemptions := s1.preemptions + 1, tasks := upd_task s1.tasks ptid (fun u => { u with state := TaskState.runnable }) } : Sched) bt _ pl1 hk
                p1 p2 p3 p4 p5 p6 p7 p8 p9 p10 p11 p12 p13 p14 p15 p16
                q1f q2f q3f hnt1q hcp1q hsl1 hheap1 qiif qiiif
                hbna (find_by_tid_mem hfb1) hfb2
            · rw [if_neg hmig]
              exact select_assign_core s4 k ps btid ({ s1 with preemptions := s1.preemptions + 1, tasks := upd_task s1.tasks ptid (fun u => { u with state := TaskState.runnable }) } : Sched) bt _ pl1 hk
                p1 p2 p3 p4 p5 p6 p7 p8 p9 p10 p11 p12 p13 p14 p15 p16
                q1f q2f q3f hnt1q hcp1q hsl1 hheap1 qiif qiiif
                hbna (find_by_tid_mem hfb1) hfb2
          · rw [if_neg hpr]
            have hfb := find_by_tid_isSome (show btid ∈ ({ s1 with preemptions := s1.preemptions + 1 } : Sched).tasks.map Task.tid from hbreg1)
            obtain ⟨bt, hfb1, hfb2⟩ := hfb
            simp only [hfb1]
            by_cases hmig : bt.current_cpu ≥ 0 ∧ bt.current_cpu ≠ (k : Int)
            · rw [if_pos hmig]
              exact select_assign_core s4 k ps btid ({ s1 with preemptions := s1.preemptions + 1 } : Sched) bt _ pl1 hk
                p1 p2 p3 p4 p5 p6 p7 p8 p9 p10 p11 p12 p13 p14 p15 p16
                ⟨hpc.1.tid_nodup, hpc.1.heap_nodup, hpc.1.heap_sub, hpc.1.acc, hpc.1.memidx⟩
                htid1 hid1 hnt1q hcp1q hsl1 hheap1
                (fun u hu => (hii1 u hu).elim (fun w hw => ⟨w, hw.1, hw.2.1, hw.2.2.1, hw.2.2.2.1, Or.inl hw.2.2.2.2⟩))
                (fun w hw => (hiii1 w hw).elim (fun u hu => ⟨u, hu.1, hu.2.1, hu.2.2.1, hu.2.2.2.1, Or.inl hu.2.2.2.2⟩))
                hbna (find_by_tid_mem hfb1) hfb2
            · rw [if_neg hmig]
              exact select_assign_core s4 k ps btid ({ s1 with preemptions := s1.preemptions + 1 } : Sched) bt _ pl1 hk
                p1 p2 p3 p4 p5 p6 p7 p8 p9 p10 p11 p12 p13 p14 p15 p16
                ⟨hpc.1.tid_nodup, hpc.1.heap_nodup, hpc.1.heap_sub, hpc.1.acc, hpc.1.memidx⟩
                htid1 hid1 hnt1q hcp1q hsl1 hheap1
                (fun u hu => (hii1 u hu).elim (fun w hw => ⟨w, hw.1, hw.2.1, hw.2.2.1, hw.2.2.2.1, Or.inl hw.2.2.2.2⟩))
                (fun w hw => (hiii1 w hw).elim (fun u hu => ⟨u, hu.1, hu.2.1, hu.2.2.1, hu.2.2.2.1, Or.inl hu.2.2.2.2⟩))
                hbna (find_by_tid_mem hfb1) hfb2
      · rw [if_neg hpb]
        have hfb := find_by_tid_isSome (show btid ∈ (s1 : Sched).tasks.map Task.tid from hbreg1)
        obtain ⟨bt, hfb1, hfb2⟩ := hfb
        simp only [hfb1]
        by_cases hmig : bt.current_cpu ≥ 0 ∧ bt.current_cpu ≠ (k : Int)
        · rw [if_pos hmig]
          exact select_assign_core s4 k ps btid (s1 : Sched) bt _ pl1 hk
            p1 p2 p3 p4 p5 p6 p7 p8 p9 p10 p11 p12 p13 p14 p15 p16
            ⟨hpc.1.tid_nodup, hpc.1.heap_nodup, hpc.1.heap_sub, hpc.1.acc, hpc.1.memidx⟩
            htid1 hid1 hnt1q hcp1q hsl1 hheap1
            (fun u hu => (hii1 u hu).elim (fun w hw => ⟨w, hw.1, hw.2.1, hw.2.2.1, hw.2.2.2.1, Or.inl hw.2.2.2.2⟩))
            (fun w hw => (hiii1 w hw).elim (fun u hu => ⟨u, hu.1, hu.2.1, hu.2.2.1, hu.2.2.2.1, Or.inl hu.2.2.2.2⟩))
            hbna (find_by_tid_mem hfb1) hfb2
        · rw [if_neg hmig]
          exact select_assign_core s4 k ps btid (s1 : Sched) bt _ pl1 hk
            p1 p2 p3 p4 p5 p6 p7 p8 p9 p10 p11 p12 p13 p14 p15 p16
            ⟨hpc.1.tid_nodup, hpc.1.heap_nodup, hpc.1.heap_sub, hpc.1.acc, hpc.1.memidx⟩
            htid1 hid1 hnt1q hcp1q hsl1 hheap1
            (fun u hu => (hii1 u hu).elim (fun w hw => ⟨w, hw.1, hw.2.1, hw.2.2.1, hw.2.2.2.1, Or.inl hw.2.2.2.2⟩))
            (fun w hw => (hiii1 w hw).elim (fun u hu => ⟨u, hu.1, hu.2.1, hu.2.2.1, hu.2.2.2.1, Or.inl hu.2.2.2.2⟩))
            hbna (find_by_tid_mem hfb1) hfb2


/-- The per-tick selection fold over the CPUs in ascending order keeps the
full selection invariant: heap consistency, registry and counter framing,
slot/assignment correspondence, the processed prefix of slots filled
exactly from the assignment list, the remaining slots still idle, the
queue holding exactly the runnable unassigned tids, and a well-formed
decision record of the processed length. -/
theorem select_fold_char (s4 : Sched) (tus : ℚ) (prev : List (Option Nat))
    (h1 : HeapInv s4)
    (h6 : s4.slots.length = s4.cpu_count)
    (h9 : ∀ c, c < s4.cpu_count → s4.slots.get? c = some none)
    (h10 : ∀ u ∈ s4.tasks, (u.tid ∈ s4.heap ↔ u.state = TaskState.runnable))
    (h11 : ∀ u ∈ s4.tasks, ¬ u.state = TaskState.running)
    (h12 : ∀ u ∈ s4.tasks, 0 ≤ u.current_cpu → u.state = TaskState.runnable) :
    ∀ k : Nat, k ≤ s4.cpu_count →
    HeapInv ((List.range k).foldl (select_cpu tus prev) ({ s := s4, planned := [], schedule := [], assigned := [] } : PickState)).s ∧
    ((List.range k).foldl (select_cpu tus prev) ({ s := s4, planned := [], schedule := [], assigned := [] } : PickState)).s.tasks.map Task.tid = s4.tasks.map Task.tid ∧
    ((List.range k).foldl (select_cpu tus prev) ({ s := s4, planned := [], schedule := [], assigned := [] } : PickState)).s.tasks.map Task.task_id = s4.tasks.map Task.task_id ∧
    ((List.range k).foldl (select_cpu tus prev) ({ s := s4, planned := [], schedule := [], assigned := [] } : PickState)).s.next_tid = s4.next_tid ∧
    ((List.range k).foldl (select_cpu tus prev) ({ s := s4, planned := [], schedule := [], assigned := [] } : PickState)).s.cpu_count = s4.cpu_count ∧
    ((List.range k).foldl (select_cpu tus prev) ({ s := s4, planned := [], schedule := [], assigned := [] } : PickState)).s.slots.length = s4.cpu_count ∧
    (∀ c x, ((List.range k).foldl (select_cpu tus prev) ({ s := s4, planned := [], schedule := [], assigned := [] } : PickState)).s.slots.get? c = some (some x) → x ∈ ((List.range k).foldl (select_cpu tus prev) ({ s := s4, planned := [], schedule := [], assigned := [] } : PickState)).assigned) ∧
    (∀ x ∈ ((List.range k).foldl (select_cpu tus prev) ({ s := s4, planned := [], schedule := [], assigned := [] } : PickState)).assigned, ∃ u ∈ ((List.range k).foldl (select_cpu tus prev) ({ s := s4, planned := [], schedule := [], assigned := [] } : PickState)).s.tasks, u.tid = x ∧ 0 ≤ u.current_cpu ∧ ((List.range k).foldl (select_cpu tus prev) ({ s := s4, planned := [], schedule := [], assigned := [] } : PickState)).s.slots.get? u.current_cpu.toNat = some (some x)) ∧
    (∀ c, k ≤ c → c < s4.cpu_count → ((List.range k).foldl (select_cpu tus prev) ({ s := s4, planned := [], schedule := [], assigned := [] } : PickState)).s.slots.get? c = some none) ∧
    (∀ u ∈ ((List.range k).foldl (select_cpu tus prev) ({ s := s4, planned := [], schedule := [], assigned := [] } : PickState)).s.tasks, (u.tid ∈ ((List.range k).foldl (select_cpu tus prev) ({ s := s4, planned := [], schedule := [], assigned := [] } : PickState)).s.heap ↔ (u.state = TaskState.runnable ∧ u.tid ∉ ((List.range k).foldl (select_cpu tus prev) ({ s := s4, planned := [], schedule := [], assigned := [] } : PickState)).assigned))) ∧
    (∀ u ∈ ((List.range k).foldl (select_cpu tus prev) ({ s := s4, planned := [], schedule := [], assigned := [] } : PickState)).s.tasks, u.state = TaskState.running → u.tid ∈ ((List.range k).foldl (select_cpu tus prev) ({ s := s4, planned := [], schedule := [], assigned := [] } : PickState)).assigned) ∧
    (∀ u ∈ ((List.range k).foldl (select_cpu tus prev) ({ s := s4, planned := [], schedule := [], assigned := [] } : PickState)).s.tasks, 0 ≤ u.current_cpu → (u.tid ∈ ((List.range k).foldl (select_cpu tus prev) ({ s := s4, planned := [], schedule := [], assigned := [] } : PickState)).assigned ∨ u.state = TaskState.runnable)) ∧
    ((List.range k).foldl (select_cpu tus prev) ({ s := s4, planned := [], schedule := [], assigned := [] } : PickState)).schedule.length = k ∧
    (∀ j, j < k → (((List.range k).foldl (select_cpu tus prev) ({ s := s4, planned := [], schedule := [], assigned := [] } : PickState)).schedule.get? j = some "idle" ∨ ∃ x, ((List.range k).foldl (select_cpu tus prev) ({ s := s4, planned := [], schedule := [], assigned := [] } : PickState)).s.slots.get? j = some (some x) ∧ ∃ u ∈ ((List.range k).foldl (select_cpu tus prev) ({ s := s4, planned := [], schedule := [], assigned := [] } : PickState)).s.tasks, u.tid = x ∧ ((List.range k).foldl (select_cpu tus prev) ({ s := s4, planned := [], schedule := [], assigned := [] } : PickState)).schedule.get? j = some u.task_id)) ∧
    ((List.range k).foldl (select_cpu tus prev) ({ s := s4, planned := [], schedule := [], assigned := [] } : PickState)).assigned.Nodup ∧
    (∀ c x, ((List.range k).foldl (select_cpu tus prev) ({ s := s4, planned := [], schedule := [], assigned := [] } : PickState)).s.slots.get? c = some (some x) → ∃ u ∈ ((List.range k).foldl (select_cpu tus prev) ({ s := s4, planned := [], schedule := [], assigned := [] } : PickState)).s.tasks, u.tid = x ∧ u.current_cpu = (c : Int) ∧ (u.state = TaskState.running ∨ u.state = TaskState.runnable)) := by
  intro k
  induction k with
  | zero =>
    intro _
    refine ⟨?_, ?_, ?_, ?_, ?_, ?_, ?_, ?_, ?_, ?_, ?_, ?_, ?_, ?_, ?_, ?_⟩
    · exact h1
    · rfl
    · rfl
    · rfl
    · rfl
    · exact h6
    · intro c x hc
      have hc2 : s4.slots.get? c = some (some x) := hc
      by_cases hlt : c < s4.cpu_count
      · rw [h9 c hlt] at hc2
        exact Option.noConfusion (Option.some.inj hc2)
      · rw [List.get?_eq_none.mpr (by omega)] at hc2
        exact Option.noConfusion hc2
    · intro x hx
      exact absurd (show x ∈ ([] : List Nat) from hx) (List.not_mem_nil x)
    · intro c hc1 hc2
      exact h9 c hc2
    · intro u hu
      have hu2 : u ∈ s4.tasks := hu
      constructor
      · intro hm
        have hm2 : u.tid ∈ s4.heap := hm
        exact ⟨(h10 u hu2).mp hm2,
          fun hx => List.not_mem_nil u.tid (show u.tid ∈ ([] : List Nat) from hx)⟩
      · intro hr
        exact (h10 u hu2).mpr hr.1
    · intro u hu hr
      exact absurd hr (h11 u hu)
    · intro u hu hc
      exact Or.inr (h12 u hu hc)
    · rfl
    · intro j hj
      exact absurd hj (Nat.not_lt_zero j)
    · exact List.nodup_nil
    · intro c x hc
      have hc2 : s4.slots.get? c = some (some x) := hc
      by_cases hlt : c < s4.cpu_count
      · rw [h9 c hlt] at hc2
        exact Option.noConfusion (Option.some.inj hc2)
      · rw [List.get?_eq_none.mpr (by omega)] at hc2
        exact Option.noConfusion hc2
  | succ k ih =>
    intro hk1
    obtain ⟨i1, i2, i3, i4, i5, i6, i7, i8, i9, i10, i11, i12, i13, i14, i15, i16⟩ :=
      ih (by omega)
    have hfoldeq : (List.range (k + 1)).foldl (select_cpu tus prev)
        ({ s := s4, planned := [], schedule := [], assigned := [] } : PickState)
        = select_cpu tus prev
          ((List.range k).foldl (select_cpu tus prev)
            ({ s := s4, planned := [], schedule := [], assigned := [] } : PickState)) k := by
      rw [List.range_succ, List.foldl_append]
      rfl
    rw [hfoldeq]
    exact select_step s4 tus prev k _ (by omega)
      i1 i2 i3 i4 i5 i6 i7 i8 i9 i10 i11 i12 i13 i14 i15 i16


/-- After the selection fold the tick clears the CPU of every runnable
task the fold did not assign; the result satisfies the structural
invariant `WF` and the amended queue invariant. -/
theorem select_final_wq (s4 : Sched) (tus : ℚ) (prev : List (Option Nat))
    (h1 : HeapInv s4)
    (h6 : s4.slots.length = s4.cpu_count)
    (h9 : ∀ c, c < s4.cpu_count → s4.slots.get? c = some none)
    (h10 : ∀ u ∈ s4.tasks, (u.tid ∈ s4.heap ↔ u.state = TaskState.runnable))
    (h11 : ∀ u ∈ s4.tasks, ¬ u.state = TaskState.running)
    (h12 : ∀ u ∈ s4.tasks, 0 ≤ u.current_cpu → u.state = TaskState.runnable)
    (hlt : ∀ t ∈ s4.tasks, t.tid < s4.next_tid) :
    WF { ((List.range s4.cpu_count).foldl (select_cpu tus prev) ({ s := s4, planned := [], schedule := [], assigned := [] } : PickState)).s with tasks := ((List.range s4.cpu_count).foldl (select_cpu tus prev) ({ s := s4, planned := [], schedule := [], assigned := [] } : PickState)).s.tasks.map (fun t => if ¬ ((List.range s4.cpu_count).foldl (select_cpu tus prev) ({ s := s4, planned := [], schedule := [], assigned := [] } : PickState)).assigned.contains t.tid ∧ t.state = TaskState.runnable then { t with current_cpu := -1 } else t) } ∧ queue_iff_runnable_unassigned { ((List.range s4.cpu_count).foldl (select_cpu tus prev) ({ s := s4, planned := [], schedule := [], assigned := [] } : PickState)).s with tasks := ((List.range s4.cpu_count).foldl (select_cpu tus prev) ({ s := s4, planned := [], schedule := [], assigned := [] } : PickState)).s.tasks.map (fun t => if ¬ ((List.range s4.cpu_count).foldl (select_cpu tus prev) ({ s := s4, planned := [], schedule := [], assigned := [] } : PickState)).assigned.contains t.tid ∧ t.state = TaskState.runnable then { t with current_cpu := -1 } else t) } := by
  obtain ⟨P1, P2, P3, P4, P5, P6, P7, P8, P9, P10, P11, P12, P13, P14, P15, P16⟩ :=
    select_fold_char s4 tus prev h1 h6 h9 h10 h11 h12 s4.cpu_count (le_refl _)
  have hcm : ∀ a : Nat, ((List.range s4.cpu_count).foldl (select_cpu tus prev) ({ s := s4, planned := [], schedule := [], assigned := [] } : PickState)).assigned.contains a = true ↔ a ∈ ((List.range s4.cpu_count).foldl (select_cpu tus prev) ({ s := s4, planned := [], schedule := [], assigned := [] } : PickState)).assigned := by
    intro a
    simp
  have hFtid : ∀ t : Task, (if ¬ ((List.range s4.cpu_count).foldl (select_cpu tus prev) ({ s := s4, planned := [], schedule := [], assigned := [] } : PickState)).assigned.contains t.tid ∧ t.state = TaskState.runnable then { t with current_cpu := -1 } else t).tid = t.tid := by
    intro t
    split <;> rfl
  have hFid : ∀ t : Task, (if ¬ ((List.range s4.cpu_count).foldl (select_cpu tus prev) ({ s := s4, planned := [], schedule := [], assigned := [] } : PickState)).assigned.contains t.tid ∧ t.state = TaskState.runnable then { t with current_cpu := -1 } else t).task_id = t.task_id := by
    intro t
    split <;> rfl
  have hFstate : ∀ t : Task, (if ¬ ((List.range s4.cpu_count).foldl (select_cpu tus prev) ({ s := s4, planned := [], schedule := [], assigned := [] } : PickState)).assigned.contains t.tid ∧ t.state = TaskState.runnable then { t with current_cpu := -1 } else t).state = t.state := by
    intro t
    split <;> rfl
  have hFidx : ∀ t : Task, (if ¬ ((List.range s4.cpu_count).foldl (select_cpu tus prev) ({ s := s4, planned := [], schedule := [], assigned := [] } : PickState)).assigned.contains t.tid ∧ t.state = TaskState.runnable then { t with current_cpu := -1 } else t).heap_index = t.heap_index := by
    intro t
    split <;> rfl
  have hFoth : ∀ t : Task, (t.tid ∈ ((List.range s4.cpu_count).foldl (select_cpu tus prev) ({ s := s4, planned := [], schedule := [], assigned := [] } : PickState)).assigned ∨ ¬ t.state = TaskState.runnable) →
      (if ¬ ((List.range s4.cpu_count).foldl (select_cpu tus prev) ({ s := s4, planned := [], schedule := [], assigned := [] } : PickState)).assigned.contains t.tid ∧ t.state = TaskState.runnable then { t with current_cpu := -1 } else t) = t := by
    intro t h
    exact if_neg (fun hcnd => h.elim (fun hm => hcnd.1 ((hcm t.tid).mpr hm)) (fun hr => hr hcnd.2))
  have hmapFtid : (((List.range s4.cpu_count).foldl (select_cpu tus prev) ({ s := s4, planned := [], schedule := [], assigned := [] } : PickState)).s.tasks.map (fun t => if ¬ ((List.range s4.cpu_count).foldl (select_cpu tus prev) ({ s := s4, planned := [], schedule := [], assigned := [] } : PickState)).assigned.contains t.tid ∧ t.state = TaskState.runnable then { t with current_cpu := -1 } else t)).map Task.tid = ((List.range s4.cpu_count).foldl (select_cpu tus prev) ({ s := s4, planned := [], schedule := [], assigned := [] } : PickState)).s.tasks.map Task.tid :=
    map_map_id_pres Task.tid (fun t => if ¬ ((List.range s4.cpu_count).foldl (select_cpu tus prev) ({ s := s4, planned := [], schedule := [], assigned := [] } : PickState)).assigned.contains t.tid ∧ t.state = TaskState.runnable then { t with current_cpu := -1 } else t) hFtid ((List.range s4.cpu_count).foldl (select_cpu tus prev) ({ s := s4, planned := [], schedule := [], assigned := [] } : PickState)).s.tasks
  refine ⟨⟨?_, ?_, ?_, ?_, ?_, ?_, ?_, ?_, ?_, ?_⟩, ?_⟩
  · dsimp only
    rw [hmapFtid, P2]
    exact h1.tid_nodup
  · dsimp only
    intro t ht
    obtain ⟨v, hv, rfl⟩ := List.mem_map.mp ht
    try dsimp only
    rw [hFtid v]
    have hvm : v.tid ∈ s4.tasks.map Task.tid := by
      rw [← P2]
      exact List.mem_map_of_mem Task.tid hv
    obtain ⟨w, hw, hwt⟩ := exists_of_mem_map_tid hvm
    rw [P4, ← hwt]
    exact hlt w hw
  · exact P1.heap_nodup
  · dsimp only
    intro x hx
    obtain ⟨t, ht, htt⟩ := P1.heap_sub x hx
    have h2 := List.mem_map_of_mem (fun t => if ¬ ((List.range s4.cpu_count).foldl (select_cpu tus prev) ({ s := s4, planned := [], schedule := [], assigned := [] } : PickState)).assigned.contains t.tid ∧ t.state = TaskState.runnable then { t with current_cpu := -1 } else t) ht
    exact ⟨(fun t => if ¬ ((List.range s4.cpu_count).foldl (select_cpu tus prev) ({ s := s4, planned := [], schedule := [], assigned := [] } : PickState)).assigned.contains t.tid ∧ t.state = TaskState.runnable then { t with current_cpu := -1 } else t) t, h2, (hFtid t).trans htt⟩
  · dsimp only
    intro t ht hidx
    obtain ⟨v, hv, rfl⟩ := List.mem_map.mp ht
    try dsimp only at hidx ⊢
    rw [hFidx v] at hidx
    rw [hFtid v, hFidx v]
    exact P1.acc v hv hidx
  · dsimp only
    intro t ht hm
    obtain ⟨v, hv, rfl⟩ := List.mem_map.mp ht
    try dsimp only at hm ⊢
    rw [hFtid v] at hm
    rw [hFidx v]
    exact P1.memidx v hv hm
  · exact P6.trans P5.symm
  · dsimp only
    intro c x hc
    obtain ⟨u, hu, hut, hucpu, hust⟩ := P16 c x hc
    have hx : x ∈ ((List.range s4.cpu_count).foldl (select_cpu tus prev) ({ s := s4, planned := [], schedule := [], assigned := [] } : PickState)).assigned := P7 c x hc
    have hFu : (if ¬ ((List.range s4.cpu_count).foldl (select_cpu tus prev) ({ s := s4, planned := [], schedule := [], assigned := [] } : PickState)).assigned.contains u.tid ∧ u.state = TaskState.runnable then { u with current_cpu := -1 } else u) = u := hFoth u (Or.inl (by rw [hut]; exact hx))
    have h2 := List.mem_map_of_mem (fun t => if ¬ ((List.range s4.cpu_count).foldl (select_cpu tus prev) ({ s := s4, planned := [], schedule := [], assigned := [] } : PickState)).assigned.contains t.tid ∧ t.state = TaskState.runnable then { t with current_cpu := -1 } else t) hu
    try dsimp only at h2
    rw [hFu] at h2
    exact ⟨u, h2, hut, hucpu, hust⟩
  · dsimp only
    intro t ht hcp
    obtain ⟨v, hv, rfl⟩ := List.mem_map.mp ht
    try dsimp only at hcp ⊢
    by_cases hcond : ¬ ((List.range s4.cpu_count).foldl (select_cpu tus prev) ({ s := s4, planned := [], schedule := [], assigned := [] } : PickState)).assigned.contains v.tid ∧ v.state = TaskState.runnable
    · rw [if_pos hcond] at hcp
      have h2 : (0 : Int) ≤ -1 := hcp
      exact absurd h2 (by decide)
    · rw [if_neg hcond] at hcp ⊢
      have hmem : v.tid ∈ ((List.range s4.cpu_count).foldl (select_cpu tus prev) ({ s := s4, planned := [], schedule := [], assigned := [] } : PickState)).assigned := by
        rcases P12 v hv hcp with hm | hrun
        · exact hm
        · by_contra hnm
          exact hcond ⟨fun hc2 => hnm ((hcm v.tid).mp hc2), hrun⟩
      obtain ⟨u, hu, hut, hucp, husl⟩ := P8 v.tid hmem
      have huv : u = v := tid_unique P1.tid_nodup hu hv hut
      rw [huv] at husl
      exact husl
  · dsimp only
    intro t ht hr
    obtain ⟨v, hv, rfl⟩ := List.mem_map.mp ht
    try dsimp only at hr ⊢
    by_cases hcond : ¬ ((List.range s4.cpu_count).foldl (select_cpu tus prev) ({ s := s4, planned := [], schedule := [], assigned := [] } : PickState)).assigned.contains v.tid ∧ v.state = TaskState.runnable
    · rw [if_pos hcond] at hr
      have hr2 : v.state = TaskState.running := hr
      rw [hcond.2] at hr2
      exact TaskState.noConfusion hr2
    · rw [if_neg hcond] at hr ⊢
      have hmem := P11 v hv hr
      obtain ⟨u, hu, hut, hucp, husl⟩ := P8 v.tid hmem
      have huv : u = v := tid_unique P1.tid_nodup hu hv hut
      rw [huv] at hucp
      exact hucp
  · intro t ht
    try dsimp only at ht
    obtain ⟨v, hv, rfl⟩ := List.mem_map.mp ht
    try dsimp only
    rw [hFtid v, hFstate v]
    constructor
    · intro hm
      have h3 := (P10 v hv).mp hm
      refine ⟨h3.1, ?_⟩
      intro hsl
      obtain ⟨c, hc⟩ := getq_of_mem _ _ hsl
      exact h3.2 (P7 c v.tid hc)
    · intro hrr
      refine (P10 v hv).mpr ⟨hrr.1, ?_⟩
      intro hmem
      obtain ⟨u, hu, hut, hucp, husl⟩ := P8 v.tid hmem
      exact hrr.2 (mem_of_getq _ _ _ husl)


/-- One scheduler tick preserves the structural invariant and the amended
queue invariant: after accounting, rebuilding the queue, selecting per
CPU and clearing unassigned runnable tasks, the resulting state is again
well formed and its queue holds exactly the runnable unassigned tasks. -/
theorem WF_Q_tick (s : Sched) (v : Int) (hw : WF s)
    (hq : queue_iff_runnable_unassigned s) :
    WF (scheduler_tick s v).2 ∧
    queue_iff_runnable_unassigned (scheduler_tick s v).2 := by
  have hwq2 : WF (refresh_cgroup_periods { s with current_vtime := v, preemptions := 0, migrations := 0 } v) ∧ queue_iff_runnable_unassigned (refresh_cgroup_periods { s with current_vtime := v, preemptions := 0, migrations := 0 } v) :=
    WF_Q_frame hw hq rfl rfl rfl rfl (le_refl _)
  obtain ⟨hw2, hq2⟩ := hwq2
  obtain ⟨f1, f2, f3, f4, f5, f6, f7, f8, f9, f10, f11⟩ :=
    account_fold_char (refresh_cgroup_periods { s with current_vtime := v, preemptions := 0, migrations := 0 } v) hw2 (refresh_cgroup_periods { s with current_vtime := v, preemptions := 0, migrations := 0 } v).cpu_count (le_refl _)
  have hnr3 : ∀ u ∈ ((List.range (refresh_cgroup_periods { s with current_vtime := v, preemptions := 0, migrations := 0 } v).cpu_count).foldl account_cpu (refresh_cgroup_periods { s with current_vtime := v, preemptions := 0, migrations := 0 } v)).tasks, ¬ u.state = TaskState.running := by
    intro u hu hr
    obtain ⟨hc0, hc1, hc2⟩ := f11 u hu hr
    have hlen : ((List.range (refresh_cgroup_periods { s with current_vtime := v, preemptions := 0, migrations := 0 } v).cpu_count).foldl account_cpu (refresh_cgroup_periods { s with current_vtime := v, preemptions := 0, migrations := 0 } v)).slots.get? u.current_cpu.toNat = none :=
      List.get?_eq_none.mpr (by rw [f5]; exact hc1)
    rw [hlen] at hc2
    exact Option.noConfusion hc2
  have hnd3 : (((List.range (refresh_cgroup_periods { s with current_vtime := v, preemptions := 0, migrations := 0 } v).cpu_count).foldl account_cpu (refresh_cgroup_periods { s with current_vtime := v, preemptions := 0, migrations := 0 } v)).tasks.map Task.tid).Nodup := by
    rw [f1]
    exact hw2.tid_nodup
  obtain ⟨r1, r2, r3, r4, r5, r6, r7, r8⟩ := rebuild_char ((List.range (refresh_cgroup_periods { s with current_vtime := v, preemptions := 0, migrations := 0 } v).cpu_count).foldl account_cpu (refresh_cgroup_periods { s with current_vtime := v, preemptions := 0, migrations := 0 } v)) hnd3
  have H6 : (rebuild_runnable_heap ((List.range (refresh_cgroup_periods { s with current_vtime := v, preemptions := 0, migrations := 0 } v).cpu_count).foldl account_cpu (refresh_cgroup_periods { s with current_vtime := v, preemptions := 0, migrations := 0 } v))).slots.length = (rebuild_runnable_heap ((List.range (refresh_cgroup_periods { s with current_vtime := v, preemptions := 0, migrations := 0 } v).cpu_count).foldl account_cpu (refresh_cgroup_periods { s with current_vtime := v, preemptions := 0, migrations := 0 } v))).cpu_count := by
    rw [r2, f5, r3, f9]
  have H9 : ∀ c, c < (rebuild_runnable_heap ((List.range (refresh_cgroup_periods { s with current_vtime := v, preemptions := 0, migrations := 0 } v).cpu_count).foldl account_cpu (refresh_cgroup_periods { s with current_vtime := v, preemptions := 0, migrations := 0 } v))).cpu_count → (rebuild_runnable_heap ((List.range (refresh_cgroup_periods { s with current_vtime := v, preemptions := 0, migrations := 0 } v).cpu_count).foldl account_cpu (refresh_cgroup_periods { s with current_vtime := v, preemptions := 0, migrations := 0 } v))).slots.get? c = some none := by
    intro c hc
    rw [r3, f9] at hc
    rw [r2]
    exact f6 c hc
  have H11 : ∀ u ∈ (rebuild_runnable_heap ((List.range (refresh_cgroup_periods { s with current_vtime := v, preemptions := 0, migrations := 0 } v).cpu_count).foldl account_cpu (refresh_cgroup_periods { s with current_vtime := v, preemptions := 0, migrations := 0 } v))).tasks, ¬ u.state = TaskState.running := by
    intro u hu hr
    obtain ⟨w, hwm, e1, e2, e3, e4, e5⟩ := r7 u hu
    exact hnr3 w hwm (e4.trans hr)
  have H12 : ∀ u ∈ (rebuild_runnable_heap ((List.range (refresh_cgroup_periods { s with current_vtime := v, preemptions := 0, migrations := 0 } v).cpu_count).foldl account_cpu (refresh_cgroup_periods { s with current_vtime := v, preemptions := 0, migrations := 0 } v))).tasks, 0 ≤ u.current_cpu → u.state = TaskState.runnable := by
    intro u hu hcp
    obtain ⟨w, hwm, e1, e2, e3, e4, e5⟩ := r7 u hu
    obtain ⟨w2, hw2m, g1, g2, g3, g4⟩ := f10 w hwm
    have hcp2 : 0 ≤ w2.current_cpu := by
      rw [g3, e3]
      exact hcp
    have hslot := hw2.cpu_slot w2 hw2m hcp2
    obtain ⟨t2, ht2m, ht2tid, ht2cpu, ht2st⟩ :=
      hw2.slot_task w2.current_cpu.toNat w2.tid hslot
    have ht2eq : t2 = w2 := tid_unique hw2.tid_nodup ht2m hw2m ht2tid
    rw [ht2eq] at ht2st
    rcases g4 with hst | hst
    · rcases ht2st with hrun | hrunn
      · exact absurd (hst.symm.trans hrun) (hnr3 w hwm)
      · rw [← e4, ← hst]
        exact hrunn
    · rw [← e4]
      exact hst.2
  have HLT : ∀ t ∈ (rebuild_runnable_heap ((List.range (refresh_cgroup_periods { s with current_vtime := v, preemptions := 0, migrations := 0 } v).cpu_count).foldl account_cpu (refresh_cgroup_periods { s with current_vtime := v, preemptions := 0, migrations := 0 } v))).tasks, t.tid < (rebuild_runnable_heap ((List.range (refresh_cgroup_periods { s with current_vtime := v, preemptions := 0, migrations := 0 } v).cpu_count).foldl account_cpu (refresh_cgroup_periods { s with current_vtime := v, preemptions := 0, migrations := 0 } v))).next_tid := by
    intro t ht
    have h2 : t.tid ∈ (refresh_cgroup_periods { s with current_vtime := v, preemptions := 0, migrations := 0 } v).tasks.map Task.tid := by
      rw [← f1, ← r5]
      exact List.mem_map_of_mem Task.tid ht
    obtain ⟨w, hwm, hwt⟩ := exists_of_mem_map_tid h2
    rw [r4, f8, ← hwt]
    exact hw2.tid_lt w hwm
  exact select_final_wq (rebuild_runnable_heap ((List.range (refresh_cgroup_periods { s with current_vtime := v, preemptions := 0, migrations := 0 } v).cpu_count).foldl account_cpu (refresh_cgroup_periods { s with current_vtime := v, preemptions := 0, migrations := 0 } v)))
    (if (((rebuild_runnable_heap ((List.range (refresh_cgroup_periods { s with current_vtime := v, preemptions := 0, migrations := 0 } v).cpu_count).foldl account_cpu (refresh_cgroup_periods { s with current_vtime := v, preemptions := 0, migrations := 0 } v))).quanta : ℚ) * 1000) < 0 then 0 else (((rebuild_runnable_heap ((List.range (refresh_cgroup_periods { s with current_vtime := v, preemptions := 0, migrations := 0 } v).cpu_count).foldl account_cpu (refresh_cgroup_periods { s with current_vtime := v, preemptions := 0, migrations := 0 } v))).quanta : ℚ) * 1000))
    (refresh_cgroup_periods { s with current_vtime := v, preemptions := 0, migrations := 0 } v).slots r1 H6 H9 r8 H11 H12 HLT


/-- Two registry records with the same id string are the same record when
the id column is duplicate-free. -/
theorem taskid_unique {ts : List Task} (hnd : (ts.map Task.task_id).Nodup)
    {u v : Task} (hu : u ∈ ts) (hv : v ∈ ts) (ht : u.task_id = v.task_id) : u = v := by
  obtain ⟨k1, hk1⟩ := getq_of_mem ts u hu
  obtain ⟨k2, hk2⟩ := getq_of_mem ts v hv
  have hm1 : (ts.map Task.task_id).get? k1 = some u.task_id := by
    rw [List.get?_map, hk1]
    rfl
  have hm2 : (ts.map Task.task_id).get? k2 = some u.task_id := by
    rw [List.get?_map, hk2, ht]
    rfl
  have hk : k1 = k2 := nodup_getq_inj _ hnd k1 k2 u.task_id hm1 hm2
  subst hk
  rw [hk1] at hk2
  exact Option.some.inj hk2

/-- Every reachable scheduler state is structurally well formed and
satisfies the amended queue invariant: the fresh state trivially, event
processing by `WF_Q_event`, and the tick by `WF_Q_tick`. -/
theorem reachable_WF_Q (s : Sched) (h : Reachable s) :
    WF s ∧ queue_iff_runnable_unassigned s := by
  induction h with
  | init n q =>
    refine ⟨⟨?_, ?_, ?_, ?_, ?_, ?_, ?_, ?_, ?_, ?_⟩, ?_⟩
    · exact List.nodup_nil
    · intro t ht
      exact absurd ht (List.not_mem_nil t)
    · exact List.nodup_nil
    · intro x hx
      exact absurd hx (List.not_mem_nil x)
    · intro t ht hle
      exact absurd ht (List.not_mem_nil t)
    · intro t ht hm
      exact absurd ht (List.not_mem_nil t)
    · exact List.length_replicate n none
    · intro c tid hc
      have h2 : some tid ∈ List.replicate n (none : Option Nat) :=
        mem_of_getq _ c (some tid) hc
      exact Option.noConfusion (List.eq_of_mem_replicate h2)
    · intro t ht hcp
      exact absurd ht (List.not_mem_nil t)
    · intro t ht hst
      exact absurd ht (List.not_mem_nil t)
    · intro t ht
      exact absurd ht (List.not_mem_nil t)
  | evt a e hr ih =>
    exact WF_Q_event a e ih.1 ih.2
  | tick a w hr ih =>
    exact WF_Q_tick a w ih.1 ih.2

/-- C2: in every reachable scheduler state, a task is contained in the
runnable priority queue exactly when its state is Runnable and it is not
the current task of any CPU slot. -/
theorem queue_runnable_unassigned_invariant (s : Sched) (h : Reachable s) :
    ∀ t ∈ s.tasks,
      (t.tid ∈ s.heap ↔ (t.state = TaskState.runnable ∧ some t.tid ∉ s.slots)) :=
  (reachable_WF_Q s h).2

/-- The C2 invariant evaluated on the concrete reachable state obtained
by creating one task in a one-CPU scheduler, at that task's record. -/
theorem queue_runnable_unassigned_invariant_witness :
    ({ tid := 0, task_id := "a", nice := 0, vruntime := 0, weight := 1024, state := TaskState.runnable, cgroup_id := "0", cpu_affinity := [], current_cpu := -1, burst_remaining := 0, heap_index := 0, is_burst := false } : Task) ∈ (scheduler_process_event (scheduler_init 1 5) (ev_create "a")).1.tasks ∧
    (({ tid := 0, task_id := "a", nice := 0, vruntime := 0, weight := 1024, state := TaskState.runnable, cgroup_id := "0", cpu_affinity := [], current_cpu := -1, burst_remaining := 0, heap_index := 0, is_burst := false } : Task).tid ∈ (scheduler_process_event (scheduler_init 1 5) (ev_create "a")).1.heap ↔
      (({ tid := 0, task_id := "a", nice := 0, vruntime := 0, weight := 1024, state := TaskState.runnable, cgroup_id := "0", cpu_affinity := [], current_cpu := -1, burst_remaining := 0, heap_index := 0, is_burst := false } : Task).state = TaskState.runnable ∧
        some ({ tid := 0, task_id := "a", nice := 0, vruntime := 0, weight := 1024, state := TaskState.runnable, cgroup_id := "0", cpu_affinity := [], current_cpu := -1, burst_remaining := 0, heap_index := 0, is_burst := false } : Task).tid ∉ (scheduler_process_event (scheduler_init 1 5) (ev_create "a")).1.slots)) :=
  ⟨by decide,
    queue_runnable_unassigned_invariant
      (scheduler_process_event (scheduler_init 1 5) (ev_create "a")).1
      (Reachable.evt (scheduler_init 1 5) (ev_create "a") (Reachable.init 1 5))
      ({ tid := 0, task_id := "a", nice := 0, vruntime := 0, weight := 1024, state := TaskState.runnable, cgroup_id := "0", cpu_affinity := [], current_cpu := -1, burst_remaining := 0, heap_index := 0, is_burst := false } : Task)
      (by decide)⟩

/-- C3: when the registry's id column is duplicate-free, the decision
record emitted by a tick from a reachable state never repeats a task id
on two CPUs: entries at two distinct positions agree only on "idle". -/
theorem tick_emitted_ids_exclusive (s : Sched) (v : Int) (h : Reachable s)
    (hnd : (s.tasks.map Task.task_id).Nodup) :
    ∀ i j a, i < j →
      (scheduler_tick s v).1.schedule.get? i = some a →
      (scheduler_tick s v).1.schedule.get? j = some a →
      a = "idle" := by
  obtain ⟨hw, hq⟩ := reachable_WF_Q s h
  have hwq2 : WF (refresh_cgroup_periods { s with current_vtime := v, preemptions := 0, migrations := 0 } v) ∧ queue_iff_runnable_unassigned (refresh_cgroup_periods { s with current_vtime := v, preemptions := 0, migrations := 0 } v) :=
    WF_Q_frame hw hq rfl rfl rfl rfl (le_refl _)
  obtain ⟨hw2, hq2⟩ := hwq2
  obtain ⟨f1, f2, f3, f4, f5, f6, f7, f8, f9, f10, f11⟩ :=
    account_fold_char (refresh_cgroup_periods { s with current_vtime := v, preemptions := 0, migrations := 0 } v) hw2 (refresh_cgroup_periods { s with current_vtime := v, preemptions := 0, migrations := 0 } v).cpu_count (le_refl _)
  have hnr3 : ∀ u ∈ ((List.range (refresh_cgroup_periods { s with current_vtime := v, preemptions := 0, migrations := 0 } v).cpu_count).foldl account_cpu (refresh_cgroup_periods { s with current_vtime := v, preemptions := 0, migrations := 0 } v)).tasks, ¬ u.state = TaskState.running := by
    intro u hu hr
    obtain ⟨hc0, hc1, hc2⟩ := f11 u hu hr
    have hlen : ((List.range (refresh_cgroup_periods { s with current_vtime := v, preemptions := 0, migrations := 0 } v).cpu_count).foldl account_cpu (refresh_cgroup_periods { s with current_vtime := v, preemptions := 0, migrations := 0 } v)).slots.get? u.current_cpu.toNat = none :=
      List.get?_eq_none.mpr (by rw [f5]; exact hc1)
    rw [hlen] at hc2
    exact Option.noConfusion hc2
  have hnd3 : (((List.range (refresh_cgroup_periods { s with current_vtime := v, preemptions := 0, migrations := 0 } v).cpu_count).foldl account_cpu (refresh_cgroup_periods { s with current_vtime := v, preemptions := 0, migrations := 0 } v)).tasks.map Task.tid).Nodup := by
    rw [f1]
    exact hw2.tid_nodup
  obtain ⟨r1, r2, r3, r4, r5, r6, r7, r8⟩ := rebuild_char ((List.range (refresh_cgroup_periods { s with current_vtime := v, preemptions := 0, migrations := 0 } v).cpu_count).foldl account_cpu (refresh_cgroup_periods { s with current_vtime := v, preemptions := 0, migrations := 0 } v)) hnd3
  have H6 : (rebuild_runnable_heap ((List.range (refresh_cgroup_periods { s with current_vtime := v, preemptions := 0, migrations := 0 } v).cpu_count).foldl account_cpu (refresh_cgroup_periods { s with current_vtime := v, preemptions := 0, migrations := 0 } v))).slots.length = (rebuild_runnable_heap ((List.range (refresh_cgroup_periods { s with current_vtime := v, preemptions := 0, migrations := 0 } v).cpu_count).foldl account_cpu (refresh_cgroup_periods { s with current_vtime := v, preemptions := 0, migrations := 0 } v))).cpu_count := by
    rw [r2, f5, r3, f9]
  have H9 : ∀ c, c < (rebuild_runnable_heap ((List.range (refresh_cgroup_periods { s with current_vtime := v, preemptions := 0, migrations := 0 } v).cpu_count).foldl account_cpu (refresh_cgroup_periods { s with current_vtime := v, preemptions := 0, migrations := 0 } v))).cpu_count → (rebuild_runnable_heap ((List.range (refresh_cgroup_periods { s with current_vtime := v, preemptions := 0, migrations := 0 } v).cpu_count).foldl account_cpu (refresh_cgroup_periods { s with current_vtime := v, preemptions := 0, migrations := 0 } v))).slots.get? c = some none := by
    intro c hc
    rw [r3, f9] at hc
    rw [r2]
    exact f6 c hc
  have H11 : ∀ u ∈ (rebuild_runnable_heap ((List.range (refresh_cgroup_periods { s with current_vtime := v, preemptions := 0, migrations := 0 } v).cpu_count).foldl account_cpu (refresh_cgroup_periods { s with current_vtime := v, preemptions := 0, migrations := 0 } v))).tasks, ¬ u.state = TaskState.running := by
    intro u hu hr
    obtain ⟨w, hwm, e1, e2, e3, e4, e5⟩ := r7 u hu
    exact hnr3 w hwm (e4.trans hr)
  have H12 : ∀ u ∈ (rebuild_runnable_heap ((List.range (refresh_cgroup_periods { s with current_vtime := v, preemptions := 0, migrations := 0 } v).cpu_count).foldl account_cpu (refresh_cgroup_periods { s with current_vtime := v, preemptions := 0, migrations := 0 } v))).tasks, 0 ≤ u.current_cpu → u.state = TaskState.runnable := by
    intro u hu hcp
    obtain ⟨w, hwm, e1, e2, e3, e4, e5⟩ := r7 u hu
    obtain ⟨w2, hw2m, g1, g2, g3, g4⟩ := f10 w hwm
    have hcp2 : 0 ≤ w2.current_cpu := by
      rw [g3, e3]
      exact hcp
    have hslot := hw2.cpu_slot w2 hw2m hcp2
    obtain ⟨t2, ht2m, ht2tid, ht2cpu, ht2st⟩ :=
      hw2.slot_task w2.current_cpu.toNat w2.tid hslot
    have ht2eq : t2 = w2 := tid_unique hw2.tid_nodup ht2m hw2m ht2tid
    rw [ht2eq] at ht2st
    rcases g4 with hst | hst
    · rcases ht2st with hrun | hrunn
      · exact absurd (hst.symm.trans hrun) (hnr3 w hwm)
      · rw [← e4, ← hst]
        exact hrunn
    · rw [← e4]
      exact hst.2
  obtain ⟨P1, P2, P3, P4, P5, P6, P7, P8, P9, P10, P11, P12, P13, P14, P15, P16⟩ :=
    select_fold_char (rebuild_runnable_heap ((List.range (refresh_cgroup_periods { s with current_vtime := v, preemptions := 0, migrations := 0 } v).cpu_count).foldl account_cpu (refresh_cgroup_periods { s with current_vtime := v, preemptions := 0, migrations := 0 } v))) (if (((rebuild_runnable_heap ((List.range (refresh_cgroup_periods { s with current_vtime := v, preemptions := 0, migrations := 0 } v).cpu_count).foldl account_cpu (refresh_cgroup_periods { s with current_vtime := v, preemptions := 0, migrations := 0 } v))).quanta : ℚ) * 1000) < 0 then 0 else (((rebuild_runnable_heap ((List.range (refresh_cgroup_periods { s with current_vtime := v, preemptions := 0, migrations := 0 } v).cpu_count).foldl account_cpu (refresh_cgroup_periods { s with current_vtime := v, preemptions := 0, migrations := 0 } v))).quanta : ℚ) * 1000)) (refresh_cgroup_periods { s with current_vtime := v, preemptions := 0, migrations := 0 } v).slots r1 H6 H9 r8 H11 H12 (rebuild_runnable_heap ((List.range (refresh_cgroup_periods { s with current_vtime := v, preemptions := 0, migrations := 0 } v).cpu_count).foldl account_cpu (refresh_cgroup_periods { s with current_vtime := v, preemptions := 0, migrations := 0 } v))).cpu_count (le_refl _)
  have hndPS : (((List.range (rebuild_runnable_heap ((List.range (refresh_cgroup_periods { s with current_vtime := v, preemptions := 0, migrations := 0 } v).cpu_count).foldl account_cpu (refresh_cgroup_periods { s with current_vtime := v, preemptions := 0, migrations := 0 } v))).cpu_count).foldl (select_cpu (if (((rebuild_runnable_heap ((List.range (refresh_cgroup_periods { s with current_vtime := v, preemptions := 0, migrations := 0 } v).cpu_count).foldl account_cpu (refresh_cgroup_periods { s with current_vtime := v, preemptions := 0, migrations := 0 } v))).quanta : ℚ) * 1000) < 0 then 0 else (((rebuild_runnable_heap ((List.range (refresh_cgroup_periods { s with current_vtime := v, preemptions := 0, migrations := 0 } v).cpu_count).foldl account_cpu (refresh_cgroup_periods { s with current_vtime := v, preemptions := 0, migrations := 0 } v))).quanta : ℚ) * 1000)) (refresh_cgroup_periods { s with current_vtime := v, preemptions := 0, migrations := 0 } v).slots) ({ s := (rebuild_runnable_heap ((List.range (refresh_cgroup_periods { s with current_vtime := v, preemptions := 0, migrations := 0 } v).cpu_count).foldl account_cpu (refresh_cgroup_periods { s with current_vtime := v, preemptions := 0, migrations := 0 } v))), planned := [], schedule := [], assigned := [] } : PickState)).s.tasks.map Task.task_id).Nodup := by
    rw [P3, r6, f2]
    exact hnd
  intro i j a hij hga hgb
  have hga2 : ((List.range (rebuild_runnable_heap ((List.range (refresh_cgroup_periods { s with current_vtime := v, preemptions := 0, migrations := 0 } v).cpu_count).foldl account_cpu (refresh_cgroup_periods { s with current_vtime := v, preemptions := 0, migrations := 0 } v))).cpu_count).foldl (select_cpu (if (((rebuild_runnable_heap ((List.range (refresh_cgroup_periods { s with current_vtime := v, preemptions := 0, migrations := 0 } v).cpu_count).foldl account_cpu (refresh_cgroup_periods { s with current_vtime := v, preemptions := 0, migrations := 0 } v))).quanta : ℚ) * 1000) < 0 then 0 else (((rebuild_runnable_heap ((List.range (refresh_cgroup_periods { s with current_vtime := v, preemptions := 0, migrations := 0 } v).cpu_count).foldl account_cpu (refresh_cgroup_periods { s with current_vtime := v, preemptions := 0, migrations := 0 } v))).quanta : ℚ) * 1000)) (refresh_cgroup_periods { s with current_vtime := v, preemptions := 0, migrations := 0 } v).slots) ({ s := (rebuild_runnable_heap ((List.range (refresh_cgroup_periods { s with current_vtime := v, preemptions := 0, migrations := 0 } v).cpu_count).foldl account_cpu (refresh_cgroup_periods { s with current_vtime := v, preemptions := 0, migrations := 0 } v))), planned := [], schedule := [], assigned := [] } : PickState)).schedule.get? i = some a := hga
  have hgb2 : ((List.range (rebuild_runnable_heap ((List.range (refresh_cgroup_periods { s with current_vtime := v, preemptions := 0, migrations := 0 } v).cpu_count).foldl account_cpu (refresh_cgroup_periods { s with current_vtime := v, preemptions := 0, migrations := 0 } v))).cpu_count).foldl (select_cpu (if (((rebuild_runnable_heap ((List.range (refresh_cgroup_periods { s with current_vtime := v, preemptions := 0, migrations := 0 } v).cpu_count).foldl account_cpu (refresh_cgroup_periods { s with current_vtime := v, preemptions := 0, migrations := 0 } v))).quanta : ℚ) * 1000) < 0 then 0 else (((rebuild_runnable_heap ((List.range (refresh_cgroup_periods { s with current_vtime := v, preemptions := 0, migrations := 0 } v).cpu_count).foldl account_cpu (refresh_cgroup_periods { s with current_vtime := v, preemptions := 0, migrations := 0 } v))).quanta : ℚ) * 1000)) (refresh_cgroup_periods { s with current_vtime := v, preemptions := 0, migrations := 0 } v).slots) ({ s := (rebuild_runnable_heap ((List.range (refresh_cgroup_periods { s with current_vtime := v, preemptions := 0, migrations := 0 } v).cpu_count).foldl account_cpu (refresh_cgroup_periods { s with current_vtime := v, preemptions := 0, migrations := 0 } v))), planned := [], schedule := [], assigned := [] } : PickState)).schedule.get? j = some a := hgb
  have hjcpu : j < (rebuild_runnable_heap ((List.range (refresh_cgroup_periods { s with current_vtime := v, preemptions := 0, migrations := 0 } v).cpu_count).foldl account_cpu (refresh_cgroup_periods { s with current_vtime := v, preemptions := 0, migrations := 0 } v))).cpu_count := by
    rw [← P13]
    exact getq_lt_length _ j a hgb2
  have hicpu : i < (rebuild_runnable_heap ((List.range (refresh_cgroup_periods { s with current_vtime := v, preemptions := 0, migrations := 0 } v).cpu_count).foldl account_cpu (refresh_cgroup_periods { s with current_vtime := v, preemptions := 0, migrations := 0 } v))).cpu_count := by omega
  rcases P14 i hicpu with hidle | ⟨x1, hsl1, u1, hu1, hu1t, hsch1⟩
  · rw [hga2] at hidle
    exact Option.some.inj hidle
  · rcases P14 j hjcpu with hidle2 | ⟨x2, hsl2, u2, hu2, hu2t, hsch2⟩
    · rw [hgb2] at hidle2
      exact Option.some.inj hidle2
    · exfalso
      have ha1 : a = u1.task_id := by
        rw [hga2] at hsch1
        exact Option.some.inj hsch1
      have ha2 : a = u2.task_id := by
        rw [hgb2] at hsch2
        exact Option.some.inj hsch2
      have hu12 : u1 = u2 := taskid_unique hndPS hu1 hu2 (ha1.symm.trans ha2)
      have hx12 : x1 = x2 := by
        rw [← hu1t, ← hu2t, hu12]
      obtain ⟨w1, hw1m, hw1t, hw1c, -⟩ := P16 i x1 hsl1
      obtain ⟨w2, hw2m, hw2t, hw2c, -⟩ := P16 j x2 hsl2
      have hw12 : w1 = w2 := tid_unique P1.tid_nodup hw1m hw2m (by rw [hw1t, hw2t, hx12])
      have hcc : (i : Int) = (j : Int) := by
        rw [← hw1c, hw12, hw2c]
      omega

/-- The C3 exclusivity statement evaluated on a concrete reachable
two-CPU scheduler with an empty (hence duplicate-free) registry, whose
tick emits "idle" on both CPUs. -/
theorem tick_emitted_ids_exclusive_witness :
    ((scheduler_init 2 7).tasks.map Task.task_id).Nodup ∧
    (0 : Nat) < 1 ∧
    (scheduler_tick (scheduler_init 2 7) 3).1.schedule.get? 0 = some "idle" ∧
    (scheduler_tick (scheduler_init 2 7) 3).1.schedule.get? 1 = some "idle" ∧
    ("idle" : String) = "idle" :=
  ⟨List.nodup_nil, by decide, by decide, by decide,
    tick_emitted_ids_exclusive (scheduler_init 2 7) 3 (Reachable.init 2 7)
      List.nodup_nil 0 1 "idle" (by decide) (by decide) (by decide)⟩

end Alfs
